import Mathlib

/-!
# tbd: a verification development

A shallow embedding of the back end of `wbourne0/tbd` (the IR builder of
`factorio/factorio.go` and the plot and placer of `factorio/blueprint.go`)
together with theorems about it.

Conventions of the embedding

* Go pointers (`*Network`, `*Connector`, `*Arithmetic`, `*Decider`, `*Emitter`)
  are handles: indices into the lists `networks`, `conns` and `comps` of the
  builder state.  Every object is appended to its list when it is allocated
  and is never moved, so a handle stays valid.  Looking up a handle that was
  never allocated gives the zero value.
* A Go `panic` is `Except.error`.
* `b.tickers` is a slice of `Ticker` values, and `getTicker` returns a pointer
  to one of its elements.  `append` moves the elements to a new backing array
  when the capacity is exceeded, after which an older pointer refers to the
  abandoned array.  The state therefore records the capacity of the backing
  array and a generation number that changes with every reallocation; a
  pointer remembers the generation it was taken in.  The capacity chosen by a
  reallocation is decided by the Go runtime and is a parameter `growslice`
  (old capacity, needed length) of the functions below.
* `Constant` is `int32`; it is an `Int` kept in range by `wrap32`.
-/

namespace Tbd

/-! ## Signals and control behaviour (signals.go, control.go) -/

inductive SignalType where
  | virtual
  | item
  | fluid
deriving DecidableEq, Repr

structure Signal where
  typ : SignalType
  name : String
deriving DecidableEq, Repr

def signalEverything : Signal := ⟨.virtual, "signal-everything"⟩
def SignalCheck : Signal := ⟨.virtual, "signal-check"⟩
def SignalG : Signal := ⟨.virtual, "signal-G"⟩
def SignalV : Signal := ⟨.virtual, "signal-V"⟩
def SignalS : Signal := ⟨.virtual, "signal-S"⟩
def SignalA : Signal := ⟨.virtual, "signal-A"⟩
def SignalC : Signal := ⟨.virtual, "signal-C"⟩
def SignalI : Signal := ⟨.virtual, "signal-I"⟩
def SignalL : Signal := ⟨.virtual, "signal-L"⟩
def SignalR : Signal := ⟨.virtual, "signal-R"⟩
def SignalT : Signal := ⟨.virtual, "signal-T"⟩

inductive Comparator where
  | eq
  | ne
  | lt
  | lte
  | gt
  | gte
deriving DecidableEq, Repr

inductive ArithmeticOperation where
  | add
  | subtract
  | multiply
  | divide
  | modulus
  | pow
  | leftShift
  | rightShift
  | and
  | or
  | xor
deriving DecidableEq, Repr

/-- Conversion to `int32` (wrap-around). -/
def wrap32 (n : Int) : Int := (n + 2147483648) % 4294967296 - 2147483648

/-- The secondary input of a combinator: a signal or a `Constant`. -/
inductive Input where
  | signal (s : Signal)
  | constant (c : Int)
deriving DecidableEq, Repr

/-! ## Logic graph (factorio.go) -/

structure Network where
  members : List Nat := []
  isGreen : Bool := false
  cellID : Int := 0
deriving DecidableEq, Repr

instance : Inhabited Network := ⟨{}⟩

/-- `Connector{*Network, Component, isSecondary}`. -/
structure Connector where
  network : Nat := 0
  component : Nat := 0
  isSecondary : Bool := false
deriving DecidableEq, Repr

instance : Inhabited Connector := ⟨{}⟩

structure InputComponent where
  primaryInput : Option Signal := none
  secondaryInput : Option Input := none
  inputGreen : Option Nat := none
  inputRed : Option Nat := none
deriving DecidableEq, Repr

structure OutputComponent where
  outputGreen : Option Nat := none
  outputRed : Option Nat := none
deriving DecidableEq, Repr

structure ConstantCombinatorItem where
  signal : Signal
  count : Int
deriving DecidableEq, Repr

structure Emitter where
  out : OutputComponent := {}
  items : List ConstantCombinatorItem := []
deriving DecidableEq, Repr

structure Arithmetic where
  inp : InputComponent := {}
  out : OutputComponent := {}
  Operator : ArithmeticOperation := .add
  output : Option Signal := none
deriving DecidableEq, Repr

structure Decider where
  inp : InputComponent := {}
  out : OutputComponent := {}
  Operator : Comparator := .eq
  outputFixed : Bool := false
  output : Option Signal := none
deriving DecidableEq, Repr

/-- What a `Component` interface value may point to. -/
inductive Component where
  | arithmetic (a : Arithmetic)
  | decider (d : Decider)
  | emitter (e : Emitter)
deriving DecidableEq, Repr

instance : Inhabited Component := ⟨.arithmetic {}⟩

def Component.out : Component → OutputComponent
  | .arithmetic a => a.out
  | .decider d => d.out
  | .emitter e => e.out

def Component.inp : Component → InputComponent
  | .arithmetic a => a.inp
  | .decider d => d.inp
  | .emitter _ => {}

def Component.withOut : Component → OutputComponent → Component
  | .arithmetic a, o => .arithmetic { a with out := o }
  | .decider d, o => .decider { d with out := o }
  | .emitter e, o => .emitter { e with out := o }

def Component.withInp : Component → InputComponent → Component
  | .arithmetic a, i => .arithmetic { a with inp := i }
  | .decider d, i => .decider { d with inp := i }
  | .emitter e, _ => .emitter e

/-- `InputComponent.setInput`. -/
def InputComponent.setInput (i : InputComponent) (isGreen : Bool) (conn : Nat) :
    Except String InputComponent :=
  if isGreen then
    if i.inputGreen ≠ none then .error "green already set"
    else .ok { i with inputGreen := some conn }
  else
    if i.inputRed ≠ none then .error "red already set"
    else .ok { i with inputRed := some conn }

/-- `OutputComponent.setOutput`. -/
def OutputComponent.setOutput (o : OutputComponent) (isGreen : Bool) (conn : Nat) :
    Except String OutputComponent :=
  if isGreen then
    if o.outputGreen ≠ none then .error "green output already set"
    else .ok { o with outputGreen := some conn }
  else
    if o.outputRed ≠ none then .error "red output already set"
    else .ok { o with outputRed := some conn }

structure Ticker where
  arith : Option Nat := none
  isMemOp : Bool := false
deriving DecidableEq, Repr

instance : Inhabited Ticker := ⟨{}⟩

/-- The address `&b.tickers[idx]`, taken while the backing array was `gen`. -/
structure TickerPtr where
  gen : Nat
  idx : Nat
deriving DecidableEq, Repr

structure Cell where
  id : Int
  get : Nat
  set : Nat
  sto : Nat
  tmp : Nat
  net : Nat
deriving DecidableEq, Repr

structure Builder where
  networks : List Network := []
  conns : List Connector := []
  comps : List Component := []
  cells : List (Nat × Cell) := []
  tickers : List Ticker := []
  tickersCap : Nat := 0
  tickersGen : Nat := 0
deriving DecidableEq, Repr

/-- Replace the element at a handle by its image under `f`. -/
def updAt {α : Type} (l : List α) (i : Nat) (f : α → α) : List α :=
  match l[i]? with
  | some a => l.set i (f a)
  | none => l

def Builder.net (b : Builder) (n : Nat) : Network := b.networks.getD n default

def Builder.conn (b : Builder) (c : Nat) : Connector := b.conns.getD c default

def Builder.comp (b : Builder) (e : Nat) : Component := b.comps.getD e default

/-- Allocation of a component (`&Arithmetic{...}`, `&Decider{...}`, `&Emitter{}`). -/
def Builder.alloc (b : Builder) (c : Component) : Nat × Builder :=
  (b.comps.length, { b with comps := b.comps ++ [c] })

/-- `Network.merge`. -/
def Builder.merge (b : Builder) (n o : Nat) : Builder :=
  let om := (b.net o).members
  let f : Network → Network := fun net => { net with members := net.members ++ om }
  let b1 := { b with networks := updAt b.networks n f }
  { b1 with conns := om.foldl (fun cs m => updAt cs m (fun c => { c with network := n })) b1.conns }

/-- `Network.nextCellID`. -/
def Builder.nextCellID (b : Builder) (n : Nat) : Int × Builder :=
  let id := wrap32 ((b.net n).cellID + 1)
  (id, { b with networks := updAt b.networks n (fun net => { net with cellID := id }) })

/-- `Network.createConnector`. -/
def Builder.createConnector (b : Builder) (n e : Nat) (isInput : Bool) : Nat × Builder :=
  let c := b.conns.length
  (c, { b with
    conns := b.conns ++ [{ network := n, component := e, isSecondary := !isInput }]
    networks := updAt b.networks n (fun net => { net with members := net.members ++ [c] }) })

/-- `Network.connectOutput`. -/
def Builder.connectOutput (b : Builder) (n e : Nat) : Except String Builder :=
  let isGreen := (b.net n).isGreen
  let (c, b1) := b.createConnector n e false
  match (b1.comp e).out.setOutput isGreen c with
  | .ok o => .ok { b1 with comps := updAt b1.comps e (fun x => x.withOut o) }
  | .error msg => .error msg

/-- `Network.connectInput`. -/
def Builder.connectInput (b : Builder) (n e : Nat) : Except String Builder :=
  let isGreen := (b.net n).isGreen
  let (c, b1) := b.createConnector n e true
  match (b1.comp e).inp.setInput isGreen c with
  | .ok i => .ok { b1 with comps := updAt b1.comps e (fun x => x.withInp i) }
  | .error msg => .error msg

/-- `Builder.createNet`. -/
def Builder.createNet (b : Builder) (isGreen : Bool) : Nat × Builder :=
  (b.networks.length, { b with networks := b.networks ++ [{ isGreen := isGreen }] })

/-- `Builder.createSubnet`. -/
def Builder.createSubnet (b : Builder) (parent : Nat) : Nat × Builder :=
  b.createNet (!(b.net parent).isGreen)

/-- `Decider.addInputs`. -/
def Builder.addInputs (b : Builder) (d : Nat) : List Nat → Except String Builder
  | [] => .ok b
  | n :: ns =>
    match b.connectInput n d with
    | .ok b1 => b1.addInputs d ns
    | .error msg => .error msg

/-- `Decider.addOutputs`. -/
def Builder.addOutputs (b : Builder) (d : Nat) : List Nat → Except String Builder
  | [] => .ok b
  | n :: ns =>
    match b.connectOutput n d with
    | .ok b1 => b1.addOutputs d ns
    | .error msg => .error msg

/-- `createInputs`. -/
def createInputs (primary : Signal) (secondary : Input) : InputComponent :=
  { primaryInput := some primary, secondaryInput := some secondary }

/-- `Builder.createCell`.  The variable is not used by the source. -/
def Builder.createCell (b : Builder) (net : Nat) : Except String (Cell × Builder) := do
  let (setNet, b) := b.createSubnet net
  let (stoNet, b) := b.createNet false
  let (getNet, b) := b.createSubnet net
  let (id, b) := b.nextCellID net
  let (get, b) := b.alloc (.decider
    { inp := { primaryInput := some SignalG, secondaryInput := some (.constant id) }
      output := some SignalV, Operator := .eq })
  let b ← b.addInputs get [net, getNet]
  let b ← b.addOutputs get [net]
  let (set, b) := b.alloc (.decider
    { inp := { primaryInput := some SignalS, secondaryInput := some (.constant id) }
      output := some signalEverything, Operator := .eq })
  let b ← b.addInputs set [net]
  let b ← b.addOutputs set [setNet]
  let (sto, b) := b.alloc (.decider
    { inp := { primaryInput := some SignalS, secondaryInput := some (.constant 0) }
      output := some SignalV, Operator := .eq })
  let b ← b.addInputs sto [stoNet, setNet]
  let b ← b.addOutputs sto [stoNet, getNet]
  let (tmp, b) := b.alloc (.decider
    { inp := { primaryInput := some SignalS, secondaryInput := some (.constant 0) }
      output := some SignalV, Operator := .ne })
  let b ← b.addInputs tmp [setNet]
  let b ← b.addOutputs tmp [setNet]
  return ({ id := id, get := get, set := set, sto := sto, tmp := tmp, net := net }, b)

/-! ### Tickers -/

/-- The arithmetic combinator every ticker is made of. -/
def tickerArithmetic : Component :=
  .arithmetic { inp := createInputs SignalCheck (.constant 0), output := some SignalCheck,
                Operator := .or }

/-- The ticker a pointer refers to in the current backing array, if it still
points into it. -/
def Builder.deref (b : Builder) (p : TickerPtr) : Option Ticker :=
  if p.gen = b.tickersGen then b.tickers[p.idx]? else none

/-- `t.isMemOp = true` through a pointer: it reaches `b.tickers` only when
the pointer still refers to the current backing array. -/
def Builder.setMemOp (b : Builder) (p : TickerPtr) : Builder :=
  if p.gen = b.tickersGen then
    { b with tickers := updAt b.tickers p.idx (fun t => { t with isMemOp := true }) }
  else b

/-- `b.tickers = append(b.tickers, new...)` for `k` zero-valued tickers. -/
def Builder.appendTickers (growslice : Nat → Nat → Nat) (b : Builder) (k : Nat) : Builder :=
  let need := b.tickers.length + k
  if need ≤ b.tickersCap then
    { b with tickers := b.tickers ++ List.replicate k {} }
  else
    { b with tickers := b.tickers ++ List.replicate k {}
             tickersCap := max need (growslice b.tickersCap need)
             tickersGen := b.tickersGen + 1 }

/-- The part of `getTickerNetwork` that follows `t := b.getTicker(...)` for
the ticker at index `idx`: its output network of the wanted colour, created
on first use. -/
def Builder.tickerNetwork (b : Builder) (idx : Nat) (isGreen : Bool) :
    Except String (Nat × Builder) :=
  let t := ((b.tickers.getD idx default).arith).getD 0
  if isGreen then
    match (b.comp t).out.outputGreen with
    | some c => .ok ((b.conn c).network, b)
    | none =>
      let (n, b1) := b.createNet true
      match b1.connectOutput n t with
      | .ok b2 => .ok ((b2.conn (((b2.comp t).out.outputGreen).getD 0)).network, b2)
      | .error msg => .error msg
  else
    match (b.comp t).out.outputRed with
    | some c => .ok ((b.conn c).network, b)
    | none =>
      let (n, b1) := b.createNet false
      match b1.connectOutput n t with
      | .ok b2 => .ok ((b2.conn (((b2.comp t).out.outputRed).getD 0)).network, b2)
      | .error msg => .error msg

/-- The body of the loop `for i := range new` of `getTicker` for `n = i + oldLen`.
The call `b.getTickerNetwork(n-1, false, false)` in it finds ticker `n-1` in
the chain, so its `getTicker` returns that ticker and changes nothing. -/
def Builder.initTicker (b : Builder) (n : Nat) : Except String Builder :=
  let (a, b1) := b.alloc tickerArithmetic
  let b2 := { b1 with tickers := updAt b1.tickers n (fun t => { t with arith := some a }) }
  if 0 < n then
    match b2.tickerNetwork (n - 1) false with
    | .ok (net, b3) => b3.connectInput net a
    | .error msg => .error msg
  else .ok b2

/-- The loop `for i := range new` of `getTicker`. -/
def Builder.initTickers (b : Builder) : List Nat → Except String Builder
  | [] => .ok b
  | n :: ns =>
    match b.initTicker n with
    | .ok b1 => b1.initTickers ns
    | .error msg => .error msg

/-- `Builder.getTicker` for a tick `≥ 0`. -/
def Builder.getTicker (growslice : Nat → Nat → Nat) (b : Builder) (tick : Nat)
    (excludeMemOp : Bool) : Except String (Option TickerPtr × Builder) :=
  if tick < b.tickers.length then
    if excludeMemOp && (b.tickers.getD tick default).isMemOp then .ok (none, b)
    else .ok (some ⟨b.tickersGen, tick⟩, b)
  else
    let oldLen := b.tickers.length
    let b1 := b.appendTickers growslice (tick - oldLen + 1)
    match b1.initTickers (List.range' oldLen (tick - oldLen + 1)) with
    | .ok b2 =>
      let t : TickerPtr := ⟨b2.tickersGen, tick⟩
      .ok (some t, if excludeMemOp then b2.setMemOp t else b2)
    | .error msg => .error msg

/-- `Builder.getTickerNetwork`; `none` is the nil network. -/
def Builder.getTickerNetwork (growslice : Nat → Nat → Nat) (b : Builder) (tick : Nat)
    (isGreen excludeMemOp : Bool) : Except String (Option Nat × Builder) :=
  match b.getTicker growslice tick excludeMemOp with
  | .ok (none, b1) => .ok (none, b1)
  | .ok (some p, b1) =>
    match b1.tickerNetwork p.idx isGreen with
    | .ok (n, b2) => .ok (some n, b2)
    | .error msg => .error msg
  | .error msg => .error msg

/-- `Builder.addControlTick`.  With an empty chain the index `len-1` is `-1`
and `getTicker` panics on `b.tickers[-1]`. -/
def Builder.addControlTick (growslice : Nat → Nat → Nat) (b : Builder) (isGreen : Bool) :
    Except String ((Nat × Option Nat × Nat) × Builder) :=
  if b.tickers.length = 0 then .error "index out of range [-1]"
  else
    match b.getTickerNetwork growslice (b.tickers.length - 1) isGreen false with
    | .ok (end_, b1) =>
      let (a, b2) := b1.alloc tickerArithmetic
      let b3 := b2.appendTickers growslice 1
      let newtick := b3.tickers.length - 1
      let f : Ticker → Ticker := fun _ => { arith := some a, isMemOp := true }
      let b4 := { b3 with tickers := updAt b3.tickers newtick f }
      let (next, b5) := b4.createNet isGreen
      match b5.connectInput next a with
      | .ok b6 => .ok ((newtick, end_, next), b6)
      | .error msg => .error msg
    | .error msg => .error msg

/-- The loop of `nextSafeMemOpTick`, with a bound on the number of ticks tried. -/
def Builder.nextSafeMemOpTickLoop (growslice : Nat → Nat → Nat) :
    Nat → Builder → Nat → Bool → Except String (Nat × Builder)
  | 0, _, _, _ => .error "out of fuel"
  | fuel + 1, b, tick, isRead =>
    match b.getTicker growslice tick true with
    | .error msg => .error msg
    | .ok (none, b1) => Builder.nextSafeMemOpTickLoop growslice fuel b1 (tick + 1) isRead
    | .ok (some t, b1) =>
      match b1.getTicker growslice (tick + 1) true with
      | .error msg => .error msg
      | .ok (none, b2) => Builder.nextSafeMemOpTickLoop growslice fuel b2 (tick + 1) isRead
      | .ok (some t2, b2) =>
        if !isRead then
          match b2.getTicker growslice (tick + 2) true with
          | .error msg => .error msg
          | .ok (none, b3) => Builder.nextSafeMemOpTickLoop growslice fuel b3 (tick + 1) isRead
          | .ok (some t3, b3) =>
            .ok (tick, ((b3.setMemOp t3).setMemOp t).setMemOp t2)
        else
          .ok (tick, (b2.setMemOp t).setMemOp t2)

/-- `Builder.nextSafeMemOpTick` for a tick `≥ 0`.  The scan is given one
iteration for every ticker of the chain and one more. -/
def Builder.nextSafeMemOpTick (growslice : Nat → Nat → Nat) (b : Builder) (tick : Nat)
    (isRead : Bool) : Except String (Nat × Builder) :=
  Builder.nextSafeMemOpTickLoop growslice (b.tickers.length + 1) b tick isRead

/-- A nil `*Network` panics as soon as one of its fields is read. -/
def derefNet (n : Option Nat) : Except String Nat :=
  match n with
  | some n => .ok n
  | none => .error "nil pointer dereference"

/-- Assignment to the fields of the `Arithmetic` at a handle. -/
def Builder.setArith (b : Builder) (ar : Nat) (f : Arithmetic → Arithmetic) : Builder :=
  let h : Component → Component := fun c =>
    match c with
    | .arithmetic a => .arithmetic (f a)
    | x => x
  { b with comps := updAt b.comps ar h }

/-- The multiplier `sig × check → sig` that `preserveUntil` allocates. -/
def preserveArithmetic (sig : Signal) : Component :=
  .arithmetic { inp := createInputs sig (.signal SignalCheck), output := some sig,
                Operator := .multiply }

/-- The loop of `preserveUntil` over the ticks still to go; `ar` is the
multiplier of the previous iteration (nil before the first). -/
def Builder.preserveLoop (growslice : Nat → Nat → Nat) (sig : Signal) (end_ : Nat) :
    List Nat → Builder → Nat → Option Nat → Except String (Option Nat × Builder)
  | [], b, _, ar => .ok (ar, b)
  | tick :: ticks, b, net, _ => do
    let (ar, b) := b.alloc (preserveArithmetic sig)
    let (tnet, b) ← b.getTickerNetwork growslice tick (!(b.net net).isGreen) false
    let tnet ← derefNet tnet
    let b ← b.connectInput tnet ar
    let b ← b.connectInput net ar
    if tick + 1 < end_ then
      let (net1, b) := b.createNet false
      let b ← b.connectOutput net1 ar
      Builder.preserveLoop growslice sig end_ ticks b net1 (some ar)
    else
      Builder.preserveLoop growslice sig end_ ticks b net (some ar)

/-- `Builder.preserveUntil` for `start ≥ 0`. -/
def Builder.preserveUntil (growslice : Nat → Nat → Nat) (b : Builder) (net into : Nat)
    (sig : Signal) (start end_ : Nat) : Except String Builder := do
  let (ar, b) ← Builder.preserveLoop growslice sig end_ (List.range' start (end_ - start)) b net none
  match ar with
  | some ar => b.connectOutput into ar
  | none => .error "nil pointer dereference"

/-- The multiplier `check × id → G` of `readCell`. -/
def readDispatch (c : Cell) : Component :=
  .arithmetic { inp := { primaryInput := some SignalCheck, secondaryInput := some (.constant c.id) }
                output := some SignalG, Operator := .multiply }

/-- The multiplier `check × V → tr` of `readCell`. -/
def readArithmetic (tr : Signal) : Component :=
  .arithmetic { inp := { primaryInput := some SignalCheck, secondaryInput := some (.signal SignalV) }
                output := some tr, Operator := .multiply }

/-- `Builder.readCell` for a tick `≥ 0`. -/
def Builder.readCell (growslice : Nat → Nat → Nat) (b : Builder) (tick : Nat) (c : Cell)
    (tr : Signal) (onet : Nat) : Except String (Nat × Builder) := do
  let (tick, b) ← b.nextSafeMemOpTick growslice tick true
  let (dnet, b) ← b.getTickerNetwork growslice tick false false
  let (rnet, b) ← b.getTickerNetwork growslice (tick + 2) (!(b.net c.net).isGreen) false
  let (disp, b) := b.alloc (readDispatch c)
  let dnet ← derefNet dnet
  let b ← b.connectInput dnet disp
  let b ← b.connectOutput c.net disp
  let (read, b) := b.alloc (readArithmetic tr)
  let b ← b.connectInput c.net read
  let rnet ← derefNet rnet
  let b ← b.connectInput rnet read
  let b ← b.connectOutput onet read
  return (tick + 3, b)

/-- The multiplier `check × id → S` of `setCell`. -/
def writeDispatch (c : Cell) : Component :=
  .arithmetic { inp := createInputs SignalCheck (.constant c.id), output := some SignalS,
                Operator := .multiply }

/-- The multiplier `check × sig → V` of `setCell`. -/
def writeArithmetic (sig : Signal) : Component :=
  .arithmetic { inp := createInputs SignalCheck (.signal sig), output := some SignalV,
                Operator := .multiply }

/-- `Builder.setCell` for a tick `≥ 0`. -/
def Builder.setCell (growslice : Nat → Nat → Nat) (b : Builder) (originTick : Nat) (net : Nat)
    (sig : Signal) (c : Cell) : Except String (Nat × Builder) := do
  let (tick, b) ← b.nextSafeMemOpTick growslice originTick false
  let (tn, b) ← b.getTickerNetwork growslice tick (!(b.net net).isGreen) false
  let (net, b) ←
    if originTick ≠ tick then do
      let (cnet, b) := b.createNet (b.net net).isGreen
      let b ← b.preserveUntil growslice net cnet sig originTick tick
      pure (cnet, b)
    else pure (net, b)
  let (disp, b) := b.alloc (writeDispatch c)
  let tn ← derefNet tn
  let b ← b.connectInput tn disp
  let b ← b.connectOutput c.net disp
  let (wr, b) := b.alloc (writeArithmetic sig)
  let b ← b.connectInput net wr
  let b ← b.connectInput tn wr
  let b ← b.connectOutput c.net wr
  return (tick + 1, b)

/-! ## The typed IR (generator package) -/

/-- The operator tokens of `lexer/token.go` that reach the lowering. -/
inductive Token where
  | ADD | SUB | MUL | DIV | MOD
  | AND | OR | XOR | LEFT_SHIFT | RIGHT_SHIFT | AND_NOT
  | BOOLEAN_AND | BOOLEAN_OR
  | EQL | LESS | GREATER | NOT | NOT_EQL | LESS_EQL | GREATER_EQL
  | TILDE
deriving DecidableEq, Repr

inductive Kind where
  | invalid | KindInt | KindInt8 | KindInt16 | KindInt32 | KindInt64
  | KindUint | KindUint8 | KindUint16 | KindUint32 | KindUint64
  | kindUntypedInt | KindFloat32 | KindFloat64
  | KindBool | KindSlice | KindString | KindStruct | KindInterface
deriving DecidableEq, Repr

/-- The dynamic value of `ConstantValue.Value()` (an `any`): the `uint64` of
an integer literal, or something else. -/
inductive ConstantPayload where
  | uint64 (n : Nat)
  | other
deriving DecidableEq, Repr

/-- The values of type `generator.Typed`.  A `*Variable` is its address. -/
inductive Typed where
  | unary (operator : Token) (operand : Typed)
  | binary (operator : Token) (left right : Typed)
  | constant (value : ConstantPayload)
  | variable (v : Nat)
  | other
deriving DecidableEq, Repr

structure Variable where
  addr : Nat
  name : String
  initialValue : Option Typed
  typ : Option Kind
deriving DecidableEq, Repr

/-- `Declare{Name, *Variable}`. -/
structure Declare where
  name : String
  var : Variable
deriving DecidableEq, Repr

/-- What a name is bound to in a scope. -/
inductive Ident where
  | variable (v : Nat)
  | function (f : Nat)
  | other
deriving DecidableEq, Repr

/-- A `*Scope` with the chain of scopes it inherits from. -/
inductive Scope where
  | mk (identifiers : List (String × Ident)) (inherits : Option Scope)
deriving Repr

/-- `Scope.Lookup`; `none` is nil. -/
def Scope.Lookup : Scope → String → Option Ident
  | .mk ids none, name => (ids.find? (fun p => p.1 == name)).map (fun p => p.2)
  | .mk ids (some parent), name =>
    match ids.find? (fun p => p.1 == name) with
    | some p => some p.2
    | none => parent.Lookup name

mutual
/-- The values of type `generator.Step`.  The frontend builds the value
`Declare`; `declarePtr` is a `*Declare`, a different dynamic type. -/
inductive Step where
  | declarePtr (d : Declare)
  | declare (d : Declare)
  | assign (target : String) (value : Typed)
  | block (b : Block)
  | ifStep (i : If)
  | call
  | ret
/-- `generator.Block`. -/
inductive Block where
  | mk (scope : Scope) (steps : List Step)
/-- `generator.If`. -/
inductive If where
  | mk (condition : Typed) (then_ : Block) (elseIf : List If) (else_ : Option Block)
end

/-- `Scope.handleBlock` on a variable declaration node: the step it appends
is the `Declare` value returned by `declareVariable`. -/
def handleBlockDeclaration (d : Declare) : Step := .declare d

/-! ## IR → graph lowering (factorio.go) -/

/-- The combinator `L op R → sig` of a binary operation. -/
def binaryArithmetic (operator : ArithmeticOperation) (sig : Signal) : Component :=
  .arithmetic { inp := createInputs SignalL (.signal SignalR), output := some sig,
                Operator := operator }

/-- The three cases `ADD`, `SUB`, `MUL` of the operator switch of a binary
operation: allocate the combinator, connect it, return `tick + 1`. -/
def Builder.emitBinary (b : Builder) (operator : ArithmeticOperation) (net sn : Nat)
    (sig : Signal) (tick : Nat) : Except String (Nat × Builder) := do
  let (ar, b) := b.alloc (binaryArithmetic operator sig)
  let b ← b.connectOutput net ar
  let b ← b.connectInput sn ar
  return (tick + 1, b)

/-- `block.extractValue` for a tick `≥ 0`. -/
def Builder.extractValue (growslice : Nat → Nat → Nat) :
    Typed → Builder → Nat → Nat → Signal → Except String (Nat × Builder)
  | .unary operator operand, b, tick, net, sig =>
    let (ar, b) := b.alloc (.arithmetic {})
    match operator with
    | .ADD => Builder.extractValue growslice operand b tick net sig
    | .SUB => do
      let (subnet, b) := b.createSubnet net
      let b ← b.connectInput subnet ar
      let b := b.setArith ar (fun a => { a with
        inp := { a.inp with primaryInput := some SignalS, secondaryInput := some (.constant (-1)) }
        output := some sig })
      let b ← b.connectOutput net ar
      let b := b.setArith ar (fun a => { a with Operator := .multiply })
      let (t, b) ← Builder.extractValue growslice operand b tick subnet SignalS
      return (t + 1, b)
    | .TILDE => do
      let (subnet, b) := b.createSubnet net
      let b ← b.connectInput subnet ar
      let b := b.setArith ar (fun a => { a with
        inp := { a.inp with primaryInput := some SignalT, secondaryInput := some (.constant (-1)) }
        Operator := .xor })
      let (t, b) ← Builder.extractValue growslice operand b tick subnet SignalT
      return (t + 1, b)
    | _ => .error "unsupported value"
  | .binary operator left right, b, tick, net, sig => do
    let (snl, b) := b.createSubnet net
    let (snr, b) := b.createSubnet net
    let (l, b) ← Builder.extractValue growslice left b tick snl SignalL
    let (r, b) ← Builder.extractValue growslice right b tick snr SignalR
    let (tick, sn, b) ←
      if l < r then do
        let b ← b.preserveUntil growslice snl snr SignalL l r
        pure (r, snr, b)
      else if r < l then do
        let b ← b.preserveUntil growslice snr snl SignalR r l
        pure (l, snl, b)
      else pure (r, snr, b.merge snr snl)
    match operator with
    | .ADD => b.emitBinary .add net sn sig tick
    | .SUB => b.emitBinary .subtract net sn sig tick
    | .MUL => b.emitBinary .multiply net sn sig tick
    | _ => .error "unsupported value"
  | .constant value, b, tick, net, sig =>
    let (e, b) := b.alloc (.emitter {})
    match value with
    | .uint64 n =>
      let h : Component → Component := fun _ =>
        .emitter { items := [{ signal := sig, count := wrap32 (n % 18446744073709551616) }] }
      let b := { b with comps := updAt b.comps e h }
      match b.connectOutput net e with
      | .ok b => .ok (tick, b)
      | .error msg => .error msg
    | .other => .error "interface conversion: interface {} is not uint64"
  | .variable v, b, tick, net, sig =>
    match (b.cells.find? (fun p => p.1 == v)).map (fun p => p.2) with
    | some cell => b.readCell growslice tick cell sig net
    | none => .error "nil pointer dereference"
  | .other, _, _, _, _ => .error "unsupported value"

/-- The decider `C ≠ 0 → check` of an `If` step. -/
def ifDecider (operator : Comparator) : Component :=
  .decider { inp := createInputs SignalC (.constant 0), Operator := operator,
             output := some SignalCheck }

mutual
/-- `block.execStep`; `scope` is the scope of the block `b`. -/
def Builder.execStep (growslice : Nat → Nat → Nat) :
    Step → Builder → Scope → Nat → Nat → Except String (Nat × Builder)
  | .declarePtr d, b, _, net, tick => do
    let (cell, b) ← b.createCell net
    match d.var.initialValue with
    | some iv =>
      let (subnet, b) := b.createNet true
      let (tick, b) ← b.extractValue growslice iv tick subnet SignalI
      b.setCell growslice tick net SignalI cell
    | none => return (tick, b)
  | .assign target value, b, scope, _, tick =>
    match scope.Lookup target with
    | some (.variable v) => do
      let cell := (b.cells.find? (fun p => p.1 == v)).map (fun p => p.2)
      let (subnet, b) := b.createNet true
      let (tick, b) ← b.extractValue growslice value tick subnet SignalA
      match cell with
      | some cell => b.setCell growslice tick subnet SignalA cell
      | none => .error "nil pointer dereference"
    | _ => .error "interface conversion: interface {} is not *generator.Variable"
  | .block blk, b, _, net, tick => Builder.execBlock growslice blk b net tick
  | .ifStep i, b, _, net, tick => Builder.execIf growslice i b net tick
  | .declare _, _, _, _, _ => .error "unhandled step"
  | .call, _, _, _, _ => .error "unhandled step"
  | .ret, _, _, _, _ => .error "unhandled step"
/-- The `generator.Block` case of `execStep`: a block over the scope of the
step runs the steps in order. -/
def Builder.execBlock (growslice : Nat → Nat → Nat) :
    Block → Builder → Nat → Nat → Except String (Nat × Builder)
  | .mk scope steps, b, net, tick => Builder.execSteps growslice steps b scope net tick
/-- The loop over the steps of a block. -/
def Builder.execSteps (growslice : Nat → Nat → Nat) :
    List Step → Builder → Scope → Nat → Nat → Except String (Nat × Builder)
  | [], b, _, _, tick => .ok (tick, b)
  | s :: rest, b, scope, net, tick =>
    match Builder.execStep growslice s b scope net tick with
    | .ok (tick, b) => Builder.execSteps growslice rest b scope net tick
    | .error msg => .error msg
/-- The `generator.If` case of `execStep`. -/
def Builder.execIf (growslice : Nat → Nat → Nat) :
    If → Builder → Nat → Nat → Except String (Nat × Builder)
  | .mk condition then_ _ _, b, net, tick => do
    let (condNet, b) := b.createNet true
    let (tick, b) ← b.extractValue growslice condition tick condNet SignalC
    let (tnet, b) ← b.getTickerNetwork growslice tick (!(b.net condNet).isGreen) false
    let ((tick, _, blockStart), b) ← b.addControlTick growslice (!(b.net condNet).isGreen)
    let (ev, b) := b.alloc (ifDecider .ne)
    let (evo, b) := b.alloc (ifDecider .eq)
    let b ← b.connectInput condNet ev
    let b ← b.connectInput condNet evo
    let tnet ← derefNet tnet
    let b ← b.connectInput tnet ev
    let b ← b.connectInput tnet evo
    let b ← b.connectOutput blockStart ev
    let (tick, b) ← Builder.execBlock growslice then_ b net tick
    let _ := tick
    let ((tick, _, afterBlock), b) ← b.addControlTick growslice (!(b.net condNet).isGreen)
    let b ← b.connectOutput afterBlock evo
    let (pnet, b) ← b.getTickerNetwork growslice (tick - 1) (b.net condNet).isGreen false
    let pnet ← derefNet pnet
    let b ← b.connectInput pnet (((b.tickers.getD tick default).arith).getD 0)
    return (tick, b)
end

/-! ## Geometry and the plot (blueprint.go)

Coordinates are `float64` in the source.  Every coordinate the program
computes is a multiple of one half (the literals are, and they are only
added, subtracted, negated, compared and multiplied by whole numbers), and
`float64` arithmetic is exact on such values.  A coordinate is therefore
stored as the integer number of half tiles: the Go value `v` is the `Int`
`2 * v`, so `+ .5` is `+ 1`, a tile is two units wide, and `int(v)` is
division by two truncated toward zero. -/

structure Position where
  X : Int
  Y : Int
deriving DecidableEq, Repr

instance : Inhabited Position := ⟨⟨0, 0⟩⟩

inductive RingArea where
  | Top | Bottom | Left | Right
  | TopLeft | TopRight | BottomLeft | BottomRight
deriving DecidableEq, Repr

/-- `math.Abs`. -/
def absI (x : Int) : Int := if x < 0 then -x else x

/-- `int(v)` for the coordinate `v` stored as `h` half tiles. -/
def toInt (h : Int) : Int := Int.tdiv h 2

/-- `Position.isZero`. -/
def Position.isZero (p : Position) : Bool := p.X == 0 && p.Y == 0

/-- `Position.abs`. -/
def Position.abs (p : Position) : Int × Int := (absI p.X, absI p.Y)

/-- `Position.getRingArea`. -/
def Position.getRingArea (p : Position) : RingArea × Int :=
  let x := absI p.X
  let y := absI p.Y
  if x = y ∧ p.X < 0 ∧ p.Y < 0 then (.BottomLeft, x)
  else if x = y ∧ p.X > 0 ∧ p.Y < 0 then (.BottomRight, x)
  else if x = y ∧ p.X < 0 ∧ p.Y > 0 then (.TopLeft, x)
  else if x = y ∧ p.X > 0 ∧ p.Y > 0 then (.TopRight, x)
  else if x > y then
    if p.X < 0 then (.Left, x) else (.Right, x)
  else if p.Y < 0 then (.Bottom, y)
  else (.Top, y)

/-- `Position.toRingIdx`. -/
def Position.toRingIdx (p : Position) : Int :=
  let x := absI p.X
  let y := absI p.Y
  if x ≥ y then toInt x else toInt y

/-- `Position.shift` (the offsets in half tiles). -/
def Position.shift (p : Position) (x y : Int) : Position := ⟨p.X + x, p.Y + y⟩

/-- `Position.shiftX`. -/
def Position.shiftX (p : Position) (d : Int) : Position := ⟨p.X + d, p.Y⟩

/-- `Position.shiftY`. -/
def Position.shiftY (p : Position) (d : Int) : Position := ⟨p.X, p.Y + d⟩

/-- `Position.distanceXY`. -/
def Position.distanceXY (p o : Position) : Int × Int := (absI (p.X - o.X), absI (p.Y - o.Y))

def distanceLookup10 : List Int := [10, 10, 9, 9, 9, 9, 8, 7, 6, 5, 1]

/-- `int(v)` of a distance `v` stored as `h` half tiles, as compiled for
amd64: the value truncated toward zero, and -2^63 when that does not fit an
`int` (the language leaves this case to the implementation). -/
def goInt (h : Int) : Int :=
  if -9223372036854775808 ≤ Int.tdiv h 2 ∧ Int.tdiv h 2 ≤ 9223372036854775807 then Int.tdiv h 2
  else -9223372036854775808

/-- `Position.canConnect`; the index `int(disX)` into the table panics when
it is negative. -/
def Position.canConnect (p o : Position) : Except String Bool :=
  let disX := (p.distanceXY o).1
  let disY := (p.distanceXY o).2
  if goInt disX ≥ distanceLookup10.length then .ok false
  else if goInt disX < 0 then .error "index out of range"
  else .ok (decide (goInt disY < distanceLookup10.getD (goInt disX).toNat 0))

structure Bounds where
  TR : Position
  BL : Position
deriving DecidableEq, Repr

/-- `Position.getBounds` (length and width in half tiles). -/
def Position.getBounds (p : Position) (length width : Int) : Bounds :=
  { TR := ⟨p.X + width, p.Y + length⟩, BL := ⟨p.X - width, p.Y - length⟩ }

/-- The values of a loop `for v = lo; v < hi; v++` over a coordinate. -/
def coordRange (lo hi : Int) : List Int :=
  (List.range ((hi - lo + 1) / 2).toNat).map (fun i => lo + 2 * (i : Int))

/-- The positions `Bounds.iterate` visits, one list for every value of
`pos.X`; the `break` of the source leaves the inner loop only. -/
def Bounds.columns (b : Bounds) : List (List Position) :=
  (coordRange (b.BL.X + 1) b.TR.X).map
    (fun x => (coordRange (b.BL.Y + 1) b.TR.Y).map (fun y => ⟨x, y⟩))

/-- The positions `Bounds.iterate` visits when the callback never breaks. -/
def Bounds.positions (b : Bounds) : List Position := b.columns.flatten

/-- `Bounds.contains`. -/
def Bounds.contains (b : Bounds) (p : Position) : Bool :=
  decide (b.TR.X ≥ p.X ∧ b.TR.Y ≥ p.Y ∧ b.BL.X ≤ p.X ∧ b.BL.Y ≤ p.Y)

abbrev Direction := Nat

def DirectionNorth : Direction := 0
def DirectionEast : Direction := 2
def DirectionSouth : Direction := 4
def DirectionWest : Direction := 6
def DirectionDefault : Direction := DirectionNorth

/-- `Direction.isVertical`. -/
def isVertical (d : Direction) : Bool := d == DirectionNorth || d == DirectionSouth

/-- The concrete types behind the interface `Entity`. -/
inductive EntityKind where
  | lamp | arithmetic | decider | constant | substation | roboport
deriving DecidableEq, Repr

structure Connection where
  EntityID : Nat
  CircuitID : Nat
deriving DecidableEq, Repr

/-- `EntityConnector`; the networks are handles into `Planner.networks`. -/
structure EntityConnector where
  Red : List Connection := []
  Green : List Connection := []
  redNet : Option Nat := none
  greenNet : Option Nat := none
deriving DecidableEq, Repr

/-- An entity on the heap: `BaseEntity` with the fields of the concrete types
that the placer uses. -/
structure Ent where
  kind : EntityKind
  EntityNumber : Nat := 0
  Direction : Direction := 0
  Position : Position := ⟨0, 0⟩
  Primary : EntityConnector := {}
  Secondary : EntityConnector := {}
  Neighbors : List Nat := []
deriving DecidableEq, Repr

instance : Inhabited Ent := ⟨{ kind := .lamp }⟩

/-- `getSize` of the concrete type (length, width). -/
def EntityKind.getSize (k : EntityKind) (d : Direction) : Int × Int :=
  match k with
  | .arithmetic => if isVertical d then (2, 1) else (1, 2)
  | .decider => if isVertical d then (2, 1) else (1, 2)
  | .substation => (2, 2)
  | .roboport => (4, 4)
  | .lamp => (1, 1)
  | .constant => (1, 1)

/-- `Bounds` of the concrete type.  Lamps and constant combinators use
`BaseEntity.Bounds`, whose `getSize` is the one of `BaseEntity`. -/
def Ent.Bounds (e : Ent) : Bounds :=
  match e.kind with
  | .arithmetic => e.Position.getBounds (EntityKind.getSize .arithmetic e.Direction).1
      (EntityKind.getSize .arithmetic e.Direction).2
  | .decider => e.Position.getBounds (EntityKind.getSize .decider e.Direction).1
      (EntityKind.getSize .decider e.Direction).2
  | .substation => e.Position.getBounds 2 2
  | .roboport => e.Position.getBounds 4 4
  | .lamp => e.Position.getBounds 1 1
  | .constant => e.Position.getBounds 1 1

/-- `wasPlaced` of the concrete type. -/
def Ent.wasPlaced (e : Ent) : Bool :=
  match e.kind with
  | .substation => true
  | _ => !(e.Position == ⟨0, 0⟩)

/-- `Plot`, together with the heap of entities its slots point into and the
package variable `entityNumber`. -/
structure Plot where
  rings : List (List (Option Nat)) := []
  entities : List Nat := []
  ents : List Ent := []
  entityNumber : Nat := 0
deriving DecidableEq, Repr

def Plot.ent (p : Plot) (e : Nat) : Ent := p.ents.getD e default

/-- Allocation of an entity. -/
def Plot.newEnt (p : Plot) (k : EntityKind) : Nat × Plot :=
  (p.ents.length, { p with ents := p.ents ++ [{ kind := k }] })

/-- `BaseEntity.Number`. -/
def Plot.Number (p : Plot) (e : Nat) : Nat × Plot :=
  if (p.ent e).EntityNumber = 0 then
    let n := p.entityNumber + 1
    (n, { p with entityNumber := n
                 ents := updAt p.ents e (fun x => { x with EntityNumber := n }) })
  else ((p.ent e).EntityNumber, p)

/-- `Ring.radius` (in half tiles). -/
def Ring.radius (r : List (Option Nat)) : Int := 2 * Int.tdiv ((r.length : Int) - 4) 8 + 1

/-- `Ring.sizeEven`. -/
def Ring.sizeEven (r : List (Option Nat)) : Int × Int :=
  let base := Int.tdiv ((r.length : Int) - 4) 4
  (base + 2, base)

/-- The index of `Ring.getPtr`; an index outside the ring panics. -/
def Ring.getPtr (r : List (Option Nat)) (area : RingArea) (radius : Int) (pos : Position) :
    Except String Nat :=
  let i : Int :=
    match area with
    | .BottomLeft => 0
    | .TopLeft => 1
    | .BottomRight => 2
    | .TopRight => 3
    | .Left => toInt (radius + 6 + pos.Y)
    | .Right => toInt (radius * 3 + 4 + pos.Y)
    | .Bottom => toInt (5 * radius + pos.X + 2)
    | .Top => toInt (7 * radius + pos.X)
  if 0 ≤ i ∧ i < r.length then .ok i.toNat else .error "index out of range"

/-- `Plot.getPtr`: the ring and the slot of a position; `none` is the nil pointer. -/
def Plot.getPtr (p : Plot) (pos : Position) : Except String (Option (Nat × Nat)) :=
  let pos : Position := ⟨if pos.X % 2 = 0 then pos.X + 1 else pos.X, pos.Y⟩
  let pos : Position := ⟨pos.X, if pos.Y % 2 = 0 then pos.Y + 1 else pos.Y⟩
  let area := pos.getRingArea.1
  let radius := pos.getRingArea.2
  let r := (toInt radius).toNat
  if r ≥ p.rings.length then .ok none
  else
    match Ring.getPtr (p.rings.getD r []) area radius pos with
    | .ok i => .ok (some (r, i))
    | .error msg => .error msg

/-- `Plot.get`; `none` is the nil entity. -/
def Plot.get (p : Plot) (pos : Position) : Except String (Option Nat) :=
  match p.getPtr pos with
  | .ok none => .ok none
  | .ok (some (r, i)) => .ok ((p.rings.getD r []).getD i none)
  | .error msg => .error msg

/-- The assignment `*ptr = v` for `ptr := p.getPtr(pos)`. -/
def Plot.setPtr (p : Plot) (pos : Position) (v : Option Nat) : Except String Plot :=
  match p.getPtr pos with
  | .ok none => .error "nil pointer dereference"
  | .ok (some (r, i)) => .ok { p with rings := updAt p.rings r (fun ring => ring.set i v) }
  | .error msg => .error msg

/-- The loop of `Plot.place` and `Plot.remove` over the footprint. -/
def Plot.setAll (p : Plot) (v : Option Nat) : List Position → Except String Plot
  | [] => .ok p
  | pos :: rest =>
    match p.setPtr pos v with
    | .ok p1 => p1.setAll v rest
    | .error msg => .error msg

/-- One column of the loop of `Plot.canPlace`: `some false` when an occupied
tile ends the column. -/
def Plot.canPlaceColumn (p : Plot) : List Position → Except String Bool
  | [] => .ok true
  | pos :: rest =>
    match p.get pos with
    | .ok none => p.canPlaceColumn rest
    | .ok (some _) => .ok false
    | .error msg => .error msg

/-- The columns of the loop of `Plot.canPlace`. -/
def Plot.canPlaceColumns (p : Plot) : List (List Position) → Bool → Except String Bool
  | [], acc => .ok acc
  | col :: rest, acc =>
    match p.canPlaceColumn col with
    | .ok free => p.canPlaceColumns rest (acc && free)
    | .error msg => .error msg

/-- `Plot.canPlace`. -/
def Plot.canPlace (p : Plot) (b : Bounds) : Except String Bool :=
  p.canPlaceColumns b.columns true

/-- `Plot.remove`. -/
def Plot.remove (p : Plot) (e : Nat) : Except String Plot :=
  match p.setAll none (p.ent e).Bounds.positions with
  | .ok p1 =>
    let f : Ent → Ent := fun x => { x with Position := ⟨0, 0⟩, Direction := DirectionDefault }
    .ok { p1 with ents := updAt p1.ents e f }
  | .error msg => .error msg

/-- `Plot.place`. -/
def Plot.place (p : Plot) (e : Nat) (pos : Position) (d : Direction) : Except String Plot :=
  let p1 := (p.Number e).2
  let p2 := { p1 with ents := updAt p1.ents e (fun x => { x with Position := pos, Direction := d }) }
  let bounds := (p2.ent e).Bounds
  let p3 := { p2 with entities := p2.entities ++ [e] }
  p3.setAll (some e) bounds.positions

/-- The values of a loop `for x := lo; x < hi; x += step` with `step > 0`. -/
def stepRange (lo hi step : Int) : List Int :=
  (List.range ((hi - lo + step - 1) / step).toNat).map (fun i => lo + step * (i : Int))

/-- The positions `iterateEdges` passes to its callback, in order. -/
def iterateEdges (distance step : Int) : List Position :=
  ((stepRange (-distance + step) distance step).map
    (fun x => [(⟨x, distance⟩ : Position), ⟨x, -distance⟩, ⟨distance, x⟩, ⟨-distance, x⟩])).flatten
  ++ [⟨distance, distance⟩, ⟨distance, -distance⟩, ⟨-distance, distance⟩, ⟨-distance, -distance⟩]

/-- `SubstationEntity.canConnectTo`. -/
def canConnectTo (s pos : Position) : Bool :=
  if s.X = pos.X then decide (absI (s.Y - pos.Y) ≤ 36)
  else if s.Y = pos.Y then decide (absI (s.X - pos.X) ≤ 36)
  else false

/-- The type assertion `p.get(pos).(*SubstationEntity)`: the substation and
whether the assertion held. -/
def Plot.getAsSubstation (p : Plot) (pos : Position) : Except String (Option Nat × Bool) :=
  match p.get pos with
  | .ok (some e) => if (p.ent e).kind = .substation then .ok (some e, true) else .ok (none, false)
  | .ok none => .ok (none, false)
  | .error msg => .error msg

/-- The callback of `Plot.getSubstation` on one tile: the new value of
`subst` and `shouldBreak`. -/
def Plot.getSubstationTile (p : Plot) (neighborPos from_ pos : Position) (subst : Option Nat) :
    Except String (Option Nat × Bool) :=
  match p.get pos with
  | .error msg => .error msg
  | .ok none => .ok (subst, false)
  | .ok (some v) =>
    match (p.ent v).kind with
    | .substation =>
      if !canConnectTo (p.ent v).Position from_ then .ok (subst, false)
      else .ok (some v, true)
    | .roboport =>
      let vp := (p.ent v).Position
      if neighborPos.X = from_.X ∧ from_.Y > vp.Y then
        p.getAsSubstation ⟨neighborPos.X, vp.Y + 6⟩
      else if neighborPos.X = from_.X ∧ from_.Y < vp.Y then
        p.getAsSubstation ⟨neighborPos.X, vp.Y - 6⟩
      else if neighborPos.Y = from_.Y ∧ from_.X > vp.X then
        p.getAsSubstation ⟨vp.X + 6, neighborPos.Y⟩
      else if neighborPos.Y = from_.Y ∧ from_.X < vp.X then
        p.getAsSubstation ⟨vp.X - 6, neighborPos.Y⟩
      else .ok (subst, false)
    | _ => .ok (subst, false)

/-- One column of the loop of `Plot.getSubstation`. -/
def Plot.getSubstationColumn (p : Plot) (neighborPos from_ : Position) :
    List Position → Option Nat → Except String (Option Nat)
  | [], subst => .ok subst
  | pos :: rest, subst =>
    match p.getSubstationTile neighborPos from_ pos subst with
    | .ok (s1, true) => .ok s1
    | .ok (s1, false) => p.getSubstationColumn neighborPos from_ rest s1
    | .error msg => .error msg

/-- The columns of the loop of `Plot.getSubstation`. -/
def Plot.getSubstationColumns (p : Plot) (neighborPos from_ : Position) :
    List (List Position) → Option Nat → Except String (Option Nat)
  | [], subst => .ok subst
  | col :: rest, subst =>
    match p.getSubstationColumn neighborPos from_ col subst with
    | .ok s1 => p.getSubstationColumns neighborPos from_ rest s1
    | .error msg => .error msg

/-- `Plot.getSubstation`. -/
def Plot.getSubstation (p : Plot) (neighborPos from_ : Position) : Except String (Option Nat) :=
  p.getSubstationColumns neighborPos from_ (neighborPos.getBounds 2 2).columns none

/-- `SubstationEntity.addNeighbor`. -/
def Plot.addNeighbor (p : Plot) (s o : Nat) : Plot :=
  let (oNum, p1) := p.Number o
  let p2 := { p1 with ents := updAt p1.ents s (fun x => { x with Neighbors := x.Neighbors ++ [oNum] }) }
  let (sNum, p3) := p2.Number s
  { p3 with ents := updAt p3.ents o (fun x => { x with Neighbors := x.Neighbors ++ [sNum] }) }

/-- The neighbours `Plot.getAdjacentSubstation` collects. -/
def Plot.getAdjacentSubstation (p : Plot) (pos : Position) : Except String (List Nat) := do
  let a ← p.getSubstation (pos.shiftX 36) pos
  let b ← p.getSubstation (pos.shiftX (-36)) pos
  let c ← p.getSubstation (pos.shiftY 36) pos
  let d ← p.getSubstation (pos.shiftY (-36)) pos
  return a.toList ++ b.toList ++ c.toList ++ d.toList

/-- `Plot.placeIrregularSubstation`. -/
def Plot.placeIrregularSubstation (p : Plot) (at_ original : Position)
    (wasPlacedVertical isOffsetPositive : Bool) : Except String (Nat × Plot) := do
  let (subst, p) := p.newEnt .substation
  let p ← p.place subst at_ DirectionDefault
  let probe : Position :=
    if wasPlacedVertical && isOffsetPositive then original.shiftY 36
    else if wasPlacedVertical && !isOffsetPositive then original.shiftY (-36)
    else if !wasPlacedVertical && isOffsetPositive then original.shiftX 36
    else original.shiftX (-36)
  let neighbor ← p.getSubstation probe original
  match neighbor with
  | some n => return (subst, p.addNeighbor subst n)
  | none => return (subst, p)

/-- The lengths `expand` computes: the new number of rings, the substation
distance and the roboport distance (zero when there is none). -/
def expandPlan (oldLen : Nat) : Nat × Nat × Nat :=
  let newLen := oldLen + 1
  let substationDistance := if newLen % 18 = 0 then newLen else 0
  let newLen := if newLen % 18 = 0 then newLen + 2 else newLen
  if newLen % 50 ≥ 48 ∨ newLen % 50 = 0 then
    let roboportDistance :=
      if newLen % 50 = 48 then newLen + 2
      else if newLen % 50 = 49 then newLen + 1
      else newLen
    let step : Nat × Nat → Nat × Nat := fun st =>
      let n := st.1 + 1
      if st.2 = 0 ∧ n % 18 = 0 then (n + 2, n) else (n, st.2)
    let r := step (step (step (step (step (step (newLen, substationDistance))))))
    (r.1, r.2, roboportDistance)
  else (newLen, substationDistance, 0)

/-- The callback of `expand` for one roboport position. -/
def Plot.placeRoboport (p : Plot) (pos : Position) : Except String Plot :=
  let (r, p1) := p.newEnt .roboport
  let p2 := (p1.Number r).2
  p2.place r pos DirectionDefault

/-- The loop of `expand` that places the roboports. -/
def Plot.placeRoboports (p : Plot) : List Position → Except String Plot
  | [] => .ok p
  | pos :: rest =>
    match p.placeRoboport pos with
    | .ok p3 => p3.placeRoboports rest
    | .error msg => .error msg

/-- One column of the probe for a roboport under a substation: the first
entity of the column must be a roboport and ends the column. -/
def Plot.probeColumn (p : Plot) : List Position → Option Nat → Except String (Option Nat)
  | [], roboport => .ok roboport
  | pos :: rest, roboport =>
    match p.get pos with
    | .error msg => .error msg
    | .ok none => p.probeColumn rest roboport
    | .ok (some e) =>
      if (p.ent e).kind = .roboport then .ok (some e) else .error "expected roboport"

/-- The columns of the probe for a roboport under a substation. -/
def Plot.probeColumns (p : Plot) : List (List Position) → Option Nat → Except String (Option Nat)
  | [], roboport => .ok roboport
  | col :: rest, roboport =>
    match p.probeColumn col roboport with
    | .ok r1 => p.probeColumns rest r1
    | .error msg => .error msg

/-- The neighbours added after a regular substation is placed. -/
def Plot.addNeighbors (p : Plot) (subst : Nat) : List Nat → Plot
  | [] => p
  | n :: rest => (p.addNeighbor subst n).addNeighbors subst rest

/-- The callback of `expand` for one substation position. -/
def Plot.placeSubstation (p : Plot) (pos : Position) : Except String Plot := do
  let roboport ← p.probeColumns (pos.getBounds 2 2).columns none
  match roboport with
  | some r =>
    let roboPos := (p.ent r).Position
    if absI pos.Y > absI pos.X then
      let (s1, p) ← p.placeIrregularSubstation ⟨roboPos.X + 6, pos.Y⟩ pos false true
      let (s2, p) ← p.placeIrregularSubstation ⟨roboPos.X - 6, pos.Y⟩ pos false false
      return p.addNeighbor s1 s2
    else
      let (s1, p) ← p.placeIrregularSubstation ⟨pos.X, roboPos.Y + 6⟩ pos true true
      let (s2, p) ← p.placeIrregularSubstation ⟨pos.X, roboPos.Y - 6⟩ pos true false
      return p.addNeighbor s1 s2
  | none =>
    let (subst, p) := p.newEnt .substation
    let p ← p.place subst pos DirectionDefault
    let ns ← p.getAdjacentSubstation pos
    return p.addNeighbors subst ns

/-- The loop of `expand` that places the substations. -/
def Plot.placeSubstations (p : Plot) : List Position → Except String Plot
  | [] => .ok p
  | pos :: rest =>
    match p.placeSubstation pos with
    | .ok p1 => p1.placeSubstations rest
    | .error msg => .error msg

/-- `Plot.expand`. -/
def Plot.expand (p : Plot) : Except String Plot := do
  let oldLen := p.rings.length
  let (newLen, substationDistance, roboportDistance) := expandPlan oldLen
  let rings := (List.range (newLen - oldLen)).map
    (fun i => List.replicate ((oldLen + i) * 8 + 4) (none : Option Nat))
  let p := { p with rings := p.rings ++ rings }
  let p ← if roboportDistance ≠ 0 then
      p.placeRoboports (iterateEdges (2 * roboportDistance) 100)
    else pure p
  if substationDistance ≠ 0 then
    p.placeSubstations (iterateEdges (2 * substationDistance) 36)
  else pure p

/-- `Ring.getNext`: position, direction and `isFull`. -/
def Ring.getNext (r : List (Option Nat)) (pl : Int) : Position × Direction × Bool :=
  let v := (Ring.sizeEven r).1
  let h := (Ring.sizeEven r).2
  let radius := Ring.radius r
  let res : Position × Direction × Bool :=
    if pl < v then (⟨-radius, 2 * pl - radius + 1⟩, DirectionSouth, false)
    else if pl - v < h then (⟨2 * (pl - v) - radius + 3, radius⟩, DirectionEast, false)
    else if pl - v - h < v then (⟨radius, -(2 * (pl - v - h) - radius + 1)⟩, DirectionNorth, false)
    else (⟨-(2 * (pl - v - h - v) - radius + 3), -radius⟩, DirectionWest,
          decide (pl - v - h - v + 2 = h))
  if res.1.toRingIdx % 2 = 0 then (⟨res.1.Y, res.1.X⟩, (res.2.1 + 6) % 8, res.2.2)
  else res

structure BPConnection where
  ent : Nat
  isSecondary : Bool
deriving DecidableEq, Repr

structure BPNetwork where
  placementStarted : Bool := false
  connections : List BPConnection := []
  isGreen : Bool := false
  placed : Int := 0
deriving DecidableEq, Repr

instance : Inhabited BPNetwork := ⟨{}⟩

/-- `Planner` (it embeds `Plot`). -/
structure Planner extends Plot where
  networks : List BPNetwork := []
  placed : Int := 0
  ringIdx : Nat := 0
deriving DecidableEq, Repr

/-- The scan of the slot in `getNext2x1`: `freePos` and `canPlace`. -/
def Plot.scanSlot (p : Plot) : List Position → Position → Bool → Except String (Position × Bool)
  | [], freePos, canPlace => .ok (freePos, canPlace)
  | pos :: rest, freePos, canPlace =>
    match p.get pos with
    | .ok none => p.scanSlot rest pos canPlace
    | .ok (some _) => p.scanSlot rest freePos false
    | .error msg => .error msg

/-- The loop of `Planner.getNext2x1`, with a bound on its iterations. -/
def Planner.getNext2x1Loop : Nat → Planner → Except String ((Position × Direction) × Planner)
  | 0, _ => .error "out of fuel"
  | fuel + 1, p =>
    if p.ringIdx ≥ p.rings.length then .error "index out of range" else
    let nx := Ring.getNext (p.rings.getD p.ringIdx []) p.placed
    let pos := nx.1
    let dir := nx.2.1
    let mustExpand := nx.2.2
    let p1 : Except String Planner :=
      if mustExpand then
        let q : Planner := { p with ringIdx := p.ringIdx + 1, placed := 0 }
        if q.ringIdx + 1 = q.rings.length then
          match q.toPlot.expand with
          | .ok pl => .ok { q with toPlot := pl }
          | .error msg => .error msg
        else .ok q
      else .ok { p with placed := p.placed + 2 }
    match p1 with
    | .error msg => .error msg
    | .ok p1 =>
      let bounds := if isVertical dir then pos.getBounds 2 1 else pos.getBounds 1 2
      match p1.toPlot.scanSlot bounds.positions ⟨0, 0⟩ true with
      | .error msg => .error msg
      | .ok (freePos, canPlace) =>
        if canPlace then .ok ((pos, dir), p1)
        else if freePos.isZero then Planner.getNext2x1Loop fuel p1
        else
          let alt : Option (Position × Direction) :=
            match pos.getRingArea.1 with
            | .Left => some (pos.shift (-1) (freePos.Y - pos.Y), DirectionEast)
            | .Right => some (pos.shift (-1) (freePos.Y - pos.Y), DirectionWest)
            | .Bottom => some (pos.shift (freePos.X - pos.X) 1, DirectionNorth)
            | .Top => some (pos.shift (freePos.X - pos.X) (-1), DirectionSouth)
            | _ => none
          match alt with
          | none => Planner.getNext2x1Loop fuel p1
          | some (newPos, newDir) =>
            match p1.toPlot.canPlace (newPos.getBounds 1 2) with
            | .error msg => .error msg
            | .ok true => .ok ((newPos, newDir), p1)
            | .ok false => Planner.getNext2x1Loop fuel p1

/-- `Planner.getNext2x1`; `fuel` bounds the slots it may skip. -/
def Planner.getNext2x1 (fuel : Nat) (p : Planner) :
    Except String ((Position × Direction) × Planner) :=
  Planner.getNext2x1Loop fuel
    (if p.placed % 2 = 1 then { p with placed := p.placed + 1 } else p)

/-! ## The placer (blueprint.go, stack.go) -/

/-- `stackItem`, a node of the doubly linked list of entities; the nodes are
handles into a list, node `0` being `entStackHead`.  The field `id` is only
ever copied into `placerStackItem.sids`, which is never read, and is left out. -/
structure StackNode where
  prev : Option Nat := none
  next : Option Nat := none
  ent : Option Nat := none
deriving DecidableEq, Repr

instance : Inhabited StackNode := ⟨{}⟩

/-- `stackItem.remove`. -/
def stackRemove (nodes : List StackNode) (s : Nat) : Except String (List StackNode) :=
  let n := nodes.getD s default
  match n.prev with
  | none => .error "nil pointer dereference"
  | some pr =>
    let nodes1 := updAt nodes pr (fun x => { x with next := n.next })
    match n.next with
    | some nx => .ok (updAt nodes1 nx (fun x => { x with prev := n.prev }))
    | none => .ok nodes1

/-- `stackItem.reinstate`. -/
def stackReinstate (nodes : List StackNode) (s : Nat) : Except String (List StackNode) :=
  let n := nodes.getD s default
  match n.prev with
  | none => .error "nil pointer dereference"
  | some pr =>
    let nodes1 := updAt nodes pr (fun x => { x with next := some s })
    match n.next with
    | some nx => .ok (updAt nodes1 nx (fun x => { x with prev := some s }))
    | none => .ok nodes1

/-- `stackItem.add`: the new node is the result. -/
def stackAdd (nodes : List StackNode) (s : Nat) (e : Nat) : Nat × List StackNode :=
  let n := nodes.length
  (n, updAt (nodes ++ [{ ent := some e, prev := some s }]) s (fun x => { x with next := some n }))

/-- The closures of an undo log, in the order of their appearance in the
source: the one of `planSlow` that frees the entity and reinstates its node,
the one of `planSlow` that removes the entity from the plot, and the two of
`connect`. -/
inductive Undo where
  | unplace
  | remove
  | popConnection (net : Nat)
  | undoWire (net : Nat) (newConn conn : BPConnection)
deriving DecidableEq, Repr

/-- `placerStackItem`.  The fields `idx`, `attempted` and `sids` are written
and never read, and are left out. -/
structure PlacerStackItem where
  stackItem : Nat := 0
  p : Position := ⟨0, 0⟩
  d : Direction := 0
  undoFuncs : List Undo := []
deriving DecidableEq, Repr

/-- `BPConnection.getCircuitId`. -/
def BPConnection.getCircuitId (c : BPConnection) : Nat := if c.isSecondary then 2 else 1

/-- Whether the concrete type is a `ConnectorEntity`. -/
def EntityKind.isConnector : EntityKind → Bool
  | .arithmetic => true
  | .decider => true
  | .constant => true
  | _ => false

/-- Whether the concrete type is a `DualConnectorEntity`. -/
def EntityKind.isDual : EntityKind → Bool
  | .arithmetic => true
  | .decider => true
  | _ => false

/-- The connector `BPConnection.connector` returns, read from the heap; the
type assertion to `DualConnectorEntity` panics for other entities. -/
def Plot.connector (p : Plot) (c : BPConnection) : Except String EntityConnector :=
  if c.isSecondary then
    if (p.ent c.ent).kind.isDual then .ok (p.ent c.ent).Secondary
    else .error "interface conversion: not a DualConnectorEntity"
  else .ok (p.ent c.ent).Primary

/-- An update of the connector `BPConnection.connector` returns. -/
def Plot.modifyConnector (p : Plot) (c : BPConnection) (f : EntityConnector → EntityConnector) :
    Except String Plot :=
  if c.isSecondary then
    if (p.ent c.ent).kind.isDual then
      .ok { p with ents := updAt p.ents c.ent (fun x => { x with Secondary := f x.Secondary }) }
    else .error "interface conversion: not a DualConnectorEntity"
  else .ok { p with ents := updAt p.ents c.ent (fun x => { x with Primary := f x.Primary }) }

/-- `EntityConnector.addConnection` on the connector of `on_`. -/
def Plot.addConnection (p : Plot) (on_ : BPConnection) (isGreen : Bool) (b : BPConnection) :
    Except String Plot :=
  let (n, p1) := p.Number b.ent
  let conn : Connection := { CircuitID := b.getCircuitId, EntityID := n }
  if isGreen then p1.modifyConnector on_ (fun e => { e with Green := e.Green ++ [conn] })
  else p1.modifyConnector on_ (fun e => { e with Red := e.Red ++ [conn] })

/-- `EntityConnector.undoConnection` on the connector of `on_`. -/
def Plot.undoConnection (p : Plot) (on_ : BPConnection) (isGreen : Bool) : Except String Plot :=
  match p.connector on_ with
  | .error msg => .error msg
  | .ok e =>
    if isGreen then
      if e.Green = [] then .error "slice bounds out of range"
      else p.modifyConnector on_ (fun e => { e with Green := e.Green.dropLast })
    else
      if e.Red = [] then .error "slice bounds out of range"
      else p.modifyConnector on_ (fun e => { e with Red := e.Red.dropLast })

/-- `BPNetwork.createWire`. -/
def Plot.createWire (p : Plot) (isGreen : Bool) (conn1 conn2 : BPConnection) : Except String Plot :=
  match p.addConnection conn1 isGreen conn2 with
  | .ok p1 => p1.addConnection conn2 isGreen conn1
  | .error msg => .error msg

/-- The state of `planSlow`: the planner, the list nodes, and the local
variables `placed`, `stack`, `popped` and `item`. -/
structure PlanState where
  pl : Planner := {}
  nodes : List StackNode := [{}]
  placed : List Nat := []
  stack : List PlacerStackItem := []
  popped : List PlacerStackItem := []
  item : PlacerStackItem := {}
deriving DecidableEq, Repr

/-- The entity `item.ent` (a field of the embedded `*stackItem`). -/
def PlanState.itemEnt (s : PlanState) : Option Nat := (s.nodes.getD s.item.stackItem default).ent

def PlanState.bpnet (s : PlanState) (n : Nat) : BPNetwork := s.pl.networks.getD n default

/-- One closure of the undo log, applied to the current item. -/
def PlanState.runUndo (s : PlanState) : Undo → Except String PlanState
  | .unplace =>
    match stackReinstate s.nodes s.item.stackItem with
    | .ok nodes => .ok { s with placed := s.placed.filter (fun e => some e != s.itemEnt), nodes := nodes }
    | .error msg => .error msg
  | .remove =>
    match s.itemEnt with
    | none => .error "nil pointer dereference"
    | some e =>
      match s.pl.toPlot.remove e with
      | .ok p1 => .ok { s with pl := { s.pl with toPlot := p1 } }
      | .error msg => .error msg
  | .popConnection net =>
    if (s.bpnet net).connections = [] then .error "slice bounds out of range"
    else
      let f : BPNetwork → BPNetwork := fun n => { n with connections := n.connections.dropLast }
      .ok { s with pl := { s.pl with networks := updAt s.pl.networks net f } }
  | .undoWire net newConn conn =>
    match s.pl.toPlot.undoConnection newConn (s.bpnet net).isGreen with
    | .error msg => .error msg
    | .ok p1 =>
      match p1.undoConnection conn (s.bpnet net).isGreen with
      | .error msg => .error msg
      | .ok p2 => .ok { s with pl := { s.pl with toPlot := p2 } }

/-- The loop of `placerStackItem.undo` over the closures, last one first
(the argument lists them in that order). -/
def PlanState.runUndos (s : PlanState) : List Undo → Except String PlanState
  | [] => .ok s
  | u :: rest =>
    match s.runUndo u with
    | .ok s1 => s1.runUndos rest
    | .error msg => .error msg

/-- `placerStackItem.undo` on the current item. -/
def PlanState.undo (s : PlanState) : Except String PlanState :=
  match s.runUndos s.item.undoFuncs.reverse with
  | .ok s1 => .ok { s1 with item := { s1.item with undoFuncs := [] } }
  | .error msg => .error msg

/-- `placerStackItem.addUndo` on the current item. -/
def PlanState.addUndo (s : PlanState) (u : Undo) : PlanState :=
  { s with item := { s.item with undoFuncs := s.item.undoFuncs ++ [u] } }

/-- The search of `connect` for a connection within reach. -/
def PlanState.firstInReach (s : PlanState) (e : Nat) :
    List BPConnection → Except String (Option BPConnection)
  | [] => .ok none
  | conn :: rest =>
    match (s.pl.ent e).Position.canConnect (s.pl.ent conn.ent).Position with
    | .error msg => .error msg
    | .ok true => .ok (some conn)
    | .ok false => s.firstInReach e rest

/-- `placerStackItem.connect` on the current item. -/
def PlanState.connect (s : PlanState) (e : Nat) (net : Nat) (isSecondary : Bool) :
    Except String (Bool × PlanState) :=
  let newConn : BPConnection := { ent := e, isSecondary := isSecondary }
  let old := (s.bpnet net).connections
  let f : BPNetwork → BPNetwork := fun n => { n with connections := n.connections ++ [newConn] }
  let s1 := { s with pl := { s.pl with networks := updAt s.pl.networks net f } }
  let s2 := s1.addUndo (.popConnection net)
  if (s2.bpnet net).connections.length = 1 then .ok (true, s2)
  else
    match s2.firstInReach e old with
    | .error msg => .error msg
    | .ok none => .ok (false, s2)
    | .ok (some conn) =>
      match s2.pl.toPlot.createWire (s2.bpnet net).isGreen newConn conn with
      | .error msg => .error msg
      | .ok p1 =>
        .ok (true, ({ s2 with pl := { s2.pl with toPlot := p1 } }).addUndo (.undoWire net newConn conn))

/-- The networks `makeConnections` connects, in order, each with the side
of the combinator. -/
def PlanState.connectionPlan (s : PlanState) (e : Nat) : List (Nat × Bool) :=
  let x := s.pl.ent e
  (x.Primary.redNet.toList.map (fun n => (n, false)))
  ++ (x.Primary.greenNet.toList.map (fun n => (n, false)))
  ++ (if x.kind.isDual then
        (x.Secondary.redNet.toList.map (fun n => (n, true)))
        ++ (x.Secondary.greenNet.toList.map (fun n => (n, true)))
      else [])

/-- The calls of `connect` in `makeConnections`; the first failure ends them. -/
def PlanState.connectAll (s : PlanState) (e : Nat) : List (Nat × Bool) → Except String (Bool × PlanState)
  | [] => .ok (true, s)
  | (net, isSecondary) :: rest =>
    match s.connect e net isSecondary with
    | .error msg => .error msg
    | .ok (false, s1) => .ok (false, s1)
    | .ok (true, s1) => s1.connectAll e rest

/-- `placerStackItem.makeConnections` on the current item. -/
def PlanState.makeConnections (s : PlanState) (e : Nat) : Except String (Bool × PlanState) :=
  s.connectAll e (s.connectionPlan e)

/-- The callback of `item.stackItem.iterate` in `planSlow` for the node `n`:
`shouldBreak` (which is also `didPlace`) and the new state. -/
def PlanState.tryNode (fuel : Nat) (s : PlanState) (n : Nat) : Except String (Bool × PlanState) := do
  let s ← s.undo
  if s.itemEnt.isSome ∧ s.placed.any (fun e => some e == s.itemEnt) then return (false, s)
  let s := { s with item := { s.item with stackItem := n } }
  match s.itemEnt with
  | none => .error "nil pointer dereference"
  | some e =>
    let s := { s with placed := if s.placed.contains e then s.placed else s.placed ++ [e] }
    let nodes ← stackRemove s.nodes n
    let s := { s with nodes := nodes }
    let s := s.addUndo .unplace
    let size := (s.pl.ent e).kind.getSize s.item.d
    let offY : Int := if size.1 = 1 ∧ size.2 = 1 ∧ isVertical s.item.d then 1 else 0
    let offX : Int := if size.1 = 1 ∧ size.2 = 1 ∧ !isVertical s.item.d then 1 else 0
    let p1 ← s.pl.toPlot.place e (s.item.p.shift offX offY) s.item.d
    let s := { s with pl := { s.pl with toPlot := p1 } }
    let s := s.addUndo .remove
    let (ok, s) ←
      if (s.pl.ent e).kind.isConnector then s.makeConnections e else pure (true, s)
    if !ok then return (false, s)
    let s := { s with stack := s.stack ++ [s.item] }
    match s.popped.getLast? with
    | some it =>
      return (true, { s with item := { it with stackItem := 0 }, popped := s.popped.dropLast })
    | none =>
      let ((pos, d), pl) ← s.pl.getNext2x1 fuel
      return (true, { s with pl := pl, item := { stackItem := 0, p := pos, d := d } })

/-- `stackItem.iterate` with the callback of `planSlow`, from the node `i`
(nil when `none`); the result is `didPlace`. -/
def PlanState.iterate (fuel : Nat) : Nat → PlanState → Option Nat → Except String (Bool × PlanState)
  | 0, _, _ => .error "out of fuel"
  | _ + 1, s, none => .ok (false, s)
  | k + 1, s, some i =>
    match s.tryNode fuel i with
    | .error msg => .error msg
    | .ok (true, s1) => .ok (true, s1)
    | .ok (false, s1) => PlanState.iterate fuel k s1 (s1.nodes.getD i default).next

/-- The code of `planSlow` between the label `stackHead` and the next jump:
`true` when `planSlow` returns. -/
def PlanState.round (fuel : Nat) (s : PlanState) : Except String (Bool × PlanState) := do
  let (didPlace, s) ← PlanState.iterate fuel (s.nodes.length + 1) s
    (s.nodes.getD s.item.stackItem default).next
  let headNext := (s.nodes.getD 0 default).next
  if didPlace ∧ headNext.isSome then return (false, s)
  if headNext.isSome ∨ !didPlace then
    let s ← s.undo
    let s := { s with popped := s.popped ++ [s.item] }
    match s.stack.getLast? with
    | none => .error "index out of range [-1]"
    | some it => return (false, { s with item := it, stack := s.stack.dropLast })
  else return (true, s)

/-- The jumps to `stackHead`, at most `fuel` of them. -/
def PlanState.rounds (fuel : Nat) : Nat → PlanState → Except String PlanState
  | 0, _ => .error "out of fuel"
  | k + 1, s =>
    match s.round fuel with
    | .error msg => .error msg
    | .ok (true, s1) => .ok s1
    | .ok (false, s1) => PlanState.rounds fuel k s1

/-- The loop of `planSlow` that builds the list of entities. -/
def addAll (nodes : List StackNode) (tail : Nat) : List Nat → List StackNode
  | [] => nodes
  | e :: rest => addAll (stackAdd nodes tail e).2 (stackAdd nodes tail e).1 rest

/-- `Planner.planSlow`; `fuel` bounds the jumps and the slots skipped. -/
def Planner.planSlow (fuel : Nat) (p : Planner) (entities : List Nat) : Except String PlanState := do
  let nodes := addAll [{}] 0 entities
  let ((pos, d), p) ← p.getNext2x1 fuel
  let s : PlanState := { pl := p, nodes := nodes, item := { stackItem := 0, p := pos, d := d } }
  PlanState.rounds fuel fuel s

/-- What `plan` carries through its loops: the builder (whose connectors
`Emitter.Entity` updates), the planner, the entity of every component that
has one (the fields `ent` of the components), and the local `ents`. -/
structure PlanInit where
  b : Builder
  pl : Planner
  entOf : List (Nat × Nat) := []
  ents : List Nat := []
deriving DecidableEq, Repr

/-- The constant `debugEntityId`. -/
def debugEntityId : Nat := 27

/-- `Component.Entity()`: the entity of a component, created on first use.
The arithmetic combinator that gets the number `debugEntityId` reads the
network of its red input, a nil pointer when it has none. -/
def PlanInit.Entity (st : PlanInit) (comp : Nat) : Except String (Nat × PlanInit) :=
  match (st.entOf.find? (fun q => q.1 == comp)).map (fun q => q.2) with
  | some e => .ok (e, st)
  | none =>
    match st.b.comp comp with
    | .arithmetic a =>
      if a.inp.secondaryInput = none then .error "invalid secondary input for arithmetic"
      else
        let (e, p1) := st.pl.toPlot.newEnt .arithmetic
        let p2 := (p1.Number e).2
        if (p1.Number e).1 = debugEntityId ∧ a.inp.inputRed = none then
          .error "nil pointer dereference"
        else
          .ok (e, { st with pl := { st.pl with toPlot := p2 }, entOf := (comp, e) :: st.entOf })
    | .decider d =>
      if d.inp.secondaryInput = none then .error "invalid secondary input for arithmetic"
      else
        let (e, p1) := st.pl.toPlot.newEnt .decider
        .ok (e, { st with pl := { st.pl with toPlot := p1 }, entOf := (comp, e) :: st.entOf })
    | .emitter em =>
      let (e, p1) := st.pl.toPlot.newEnt .constant
      let clear : Connector → Connector := fun c => { c with isSecondary := false }
      let conns1 := match em.out.outputRed with
        | some c => updAt st.b.conns c clear
        | none => st.b.conns
      let conns2 := match em.out.outputGreen with
        | some c => updAt conns1 c clear
        | none => conns1
      .ok (e, { st with b := { st.b with conns := conns2 }
                        pl := { st.pl with toPlot := p1 }, entOf := (comp, e) :: st.entOf })

/-- The body of the loop of `plan` over the members of network `i`. -/
def PlanInit.member (st : PlanInit) (i : Nat) (isGreen : Bool) (c : Nat) : Except String PlanInit := do
  let (ent, st) ← st.Entity (st.b.conn c).component
  let conn : BPConnection := { ent := ent, isSecondary := (st.b.conn c).isSecondary }
  let f : EntityConnector → EntityConnector := fun e =>
    if isGreen then { e with greenNet := some i } else { e with redNet := some i }
  let p1 ← st.pl.toPlot.modifyConnector conn f
  return { st with pl := { st.pl with toPlot := p1 }
                   ents := if st.ents.contains ent then st.ents else st.ents ++ [ent] }

/-- The loop of `plan` over the members of network `i`. -/
def PlanInit.members (st : PlanInit) (i : Nat) (isGreen : Bool) : List Nat → Except String PlanInit
  | [] => .ok st
  | c :: rest =>
    match st.member i isGreen c with
    | .ok st1 => st1.members i isGreen rest
    | .error msg => .error msg

/-- The loop of `plan` over the networks, from index `i`. -/
def PlanInit.nets (st : PlanInit) : Nat → List Network → Except String PlanInit
  | _, [] => .ok st
  | i, net :: rest =>
    let f : BPNetwork → BPNetwork := fun n => { n with isGreen := net.isGreen }
    let st1 := { st with pl := { st.pl with networks := updAt st.pl.networks i f } }
    match st1.members i net.isGreen net.members with
    | .ok st2 => st2.nets (i + 1) rest
    | .error msg => .error msg

/-- The start of `plan`: five empty rings, the roboport in the centre and
the two substations beside it. -/
def Planner.setup (p : Planner) : Except String Planner := do
  let plot : Plot :=
    { rings := (List.range 5).map (fun i => List.replicate (4 + i * 8) (none : Option Nat))
      entities := [], ents := p.ents, entityNumber := p.entityNumber }
  let (r, plot) := plot.newEnt .roboport
  let plot ← plot.place r ⟨0, 0⟩ DirectionDefault
  let (s1, plot) ← plot.placeIrregularSubstation ⟨0, 6⟩ ⟨0, 0⟩ true true
  let (s2, plot) ← plot.placeIrregularSubstation ⟨0, -6⟩ ⟨0, 0⟩ true false
  return { p with toPlot := plot.addNeighbor s1 s2, ringIdx := 2 }

/-- `Planner.plan` on the networks of the builder. -/
def Planner.plan (fuel : Nat) (p : Planner) (b : Builder) : Except String PlanState := do
  let p ← p.setup
  if b.networks = [] then .error "index out of range [0]"
  let p := { p with networks := List.replicate b.networks.length {} }
  let st ← ({ b := b, pl := p } : PlanInit).nets 0 b.networks
  st.pl.planSlow fuel st.ents

/-- The loop `for len(p.rings)%18 > 9 { p.expand() }` of `Save`. -/
def Plot.powerOuterRings : Nat → Plot → Except String Plot
  | 0, _ => .error "out of fuel"
  | k + 1, p =>
    if p.rings.length % 18 > 9 then
      match p.expand with
      | .ok p1 => Plot.powerOuterRings k p1
      | .error msg => .error msg
    else .ok p

/-- `Planner.Save`.  The bytes that follow the `'0'` come from the base64,
zlib and JSON encoders of the Go library; `encode` stands for their
composition on the entities of the blueprint. -/
def Planner.Save (encode : List Ent → List Nat) (p : Planner) (to_ : List Nat) :
    Except String (Planner × List Nat) :=
  let to1 := to_ ++ [48]
  match Plot.powerOuterRings 18 p.toPlot with
  | .ok plot => .ok ({ p with toPlot := plot }, to1 ++ encode (plot.entities.map plot.ent))
  | .error msg => .error msg

structure Function where
  scope : Scope
  steps : List Step

/-- `generator.Module`; `functions` holds the functions by address. -/
structure Module where
  scope : Scope
  declarations : List Declare
  functions : List (Nat × Function)

/-- `Type.Name()` of the type of a declaration, given by its kind:
`Generic.Name`, which lists the integer and floating point kinds and `bool`
and panics on every other kind (`string` among them), and "untyped int" for
the type `untypedInt`. -/
def Kind.Name : Kind → Except String String
  | .KindInt => .ok "int"
  | .KindInt8 => .ok "int8"
  | .KindInt16 => .ok "int16"
  | .KindInt32 => .ok "int32"
  | .KindInt64 => .ok "int64"
  | .KindUint => .ok "uint64"
  | .KindUint8 => .ok "uint8"
  | .KindUint16 => .ok "uint16"
  | .KindUint32 => .ok "uint32"
  | .KindUint64 => .ok "uint64"
  | .KindFloat32 => .ok "float32"
  | .KindFloat64 => .ok "float64"
  | .KindBool => .ok "bool"
  | .kindUntypedInt => .ok "untyped int"
  | _ => .error "not a Generic"

/-- The loop of `CreateBlueprint` over the declarations: the error it
returns, if any, else the cells to initialise.  The message of the error is
built with `dec.Type().Name()`. -/
def Builder.declareAll (b : Builder) (pnet : Nat) :
    List Declare → List (Cell × Typed) → Except String ((Option String × List (Cell × Typed)) × Builder)
  | [], initSteps => .ok ((none, initSteps), b)
  | dec :: rest, initSteps =>
    match dec.var.typ with
    | none => .error "nil pointer dereference"
    | some k =>
      if k ≠ .KindInt32 then
        match k.Name with
        | .ok name => .ok ((some ("invalid type: " ++ name), initSteps), b)
        | .error msg => .error msg
      else
        match b.createCell pnet with
        | .error msg => .error msg
        | .ok (cell, b1) =>
          let b2 := { b1 with cells := (dec.var.addr, cell) :: b1.cells }
          match dec.var.initialValue with
          | some iv => b2.declareAll pnet rest (initSteps ++ [(cell, iv)])
          | none => b2.declareAll pnet rest initSteps

/-- The loop of `CreateBlueprint` over `initSteps`. -/
def Builder.initAll (growslice : Nat → Nat → Nat) (b : Builder) :
    List (Cell × Typed) → Nat → Except String (Nat × Builder)
  | [], tick => .ok (tick, b)
  | (cell, val) :: rest, tick => do
    let (net, b) := b.createNet true
    let (tick, b) ← b.extractValue growslice val tick net SignalI
    let (tick, b) ← b.setCell growslice tick net SignalI cell
    Builder.initAll growslice b rest tick

/-- `CreateBlueprint` in a process whose package variable `entityNumber`
holds `entityNumber0` when the call starts: the returned error (`none` is
nil), what has been written to `out`, and the value of `entityNumber` when
the call returns. -/
def CreateBlueprintFrom (entityNumber0 : Nat) (growslice : Nat → Nat → Nat)
    (encode : List Ent → List Nat) (fuel : Nat) (m : Module) (out : List Nat) :
    Except String ((Option String × List Nat) × Nat) := do
  let b : Builder := {}
  let (_, b) ← b.getTickerNetwork growslice 1 false false
  let (pnet, b) := b.createNet false
  let ((err, initSteps), b) ← b.declareAll pnet m.declarations []
  if err.isSome then return ((err, out), entityNumber0)
  let (tick, b) ← Builder.initAll growslice b initSteps 0
  match m.scope.Lookup "main" with
  | some (.function f) =>
    match (m.functions.find? (fun q => q.1 == f)).map (fun q => q.2) with
    | none => .error "nil pointer dereference"
    | some main =>
      let (_, b) ← Builder.execSteps growslice main.steps b main.scope pnet tick
      let s ← ({ entityNumber := entityNumber0 } : Planner).plan fuel b
      let (p, out) ← s.pl.Save encode out
      return ((none, out), p.entityNumber)
  | _ => .error "interface conversion: interface {} is not *generator.Function"

/-- `CreateBlueprint` as the first call in its process (`entityNumber` is 0):
the returned error (`none` is nil) and what has been written to `out`. -/
def CreateBlueprint (growslice : Nat → Nat → Nat) (encode : List Ent → List Nat) (fuel : Nat)
    (m : Module) (out : List Nat) : Except String (Option String × List Nat) :=
  match CreateBlueprintFrom 0 growslice encode fuel m out with
  | .ok (r, _) => .ok r
  | .error msg => .error msg

/-! ## Measures and sample states used by the theorems -/

/-- The outcome of `CreateBlueprint` at a declaration that is not an `int32`:
the panic of a method call on a nil `Type`, the panic of `Generic.Name`, or
the error built with the name of the type. -/
def invalidOutcome {α : Type} (d : Declare) (ret : String → α) : Except String α :=
  match d.var.typ with
  | none => .error "nil pointer dereference"
  | some k =>
    match k.Name with
    | .ok name => .ok (ret ("invalid type: " ++ name))
    | .error msg => .error msg

/-- The size classes of the Go allocator, in bytes. -/
def goSizeClasses : List Nat :=
  [8, 16, 24, 32, 48, 64, 80, 96, 112, 128, 144, 160, 176, 192, 208, 224, 240, 256, 288, 320,
   352, 384, 416, 448, 480, 512, 576, 640, 704, 768, 896, 1024, 1152, 1280, 1408, 1536, 1792,
   2048, 2304, 2688, 3072, 3200, 3456, 4096, 4864, 5120, 5376, 6144, 6528, 6784, 6912, 8192,
   9472, 9728, 10240, 10880, 12288, 13568, 14336, 16384, 18432, 19072, 20480, 21760, 24576,
   27264, 28672, 32768]

/-- `roundupsize`: the size class that holds `size` bytes, whole pages of
8192 bytes above the largest class. -/
def goRoundupsize (size : Nat) : Nat :=
  match goSizeClasses.find? (fun c => decide (size ≤ c)) with
  | some c => c
  | none => (size + 8191) / 8192 * 8192

/-- The loop of `growslice` for an old capacity of 256 or more: the capacity
grows by a quarter of itself plus 192 until it holds the needed length. -/
def goGrowLoop : Nat → Nat → Nat → Nat
  | 0, newcap, _ => newcap
  | fuel + 1, newcap, need =>
    if newcap + (newcap + 768) / 4 ≥ need then newcap + (newcap + 768) / 4
    else goGrowLoop fuel (newcap + (newcap + 768) / 4) need

/-- The growth of a slice of 16-byte elements (a `Ticker` is a pointer and a
`bool`) in the Go runtime (gc, Go 1.20): the needed length when it exceeds
twice the old capacity, else twice the old capacity below 256 elements and
the result of the loop from 256 on; the allocator then rounds the bytes up
to a size class, which gives 18 for a needed capacity of 17. -/
def goGrowslice (oldCap need : Nat) : Nat :=
  let newcap :=
    if need > 2 * oldCap then need
    else if oldCap < 256 then 2 * oldCap
    else goGrowLoop need oldCap need
  goRoundupsize (newcap * 16) / 16

/-- The builder after the first statement of `CreateBlueprint` that touches
the tickers, `bl.getTickerNetwork(1, false, false)`. -/
def startBuilder : Except String Builder :=
  (({} : Builder).getTickerNetwork goGrowslice 1 false false).map (fun r => r.2)

/-- The memory-op flags of the ticker chain. -/
def Builder.flags (b : Builder) : List Bool := b.tickers.map (fun t => t.isMemOp)

/-- The number of non-empty tile slots of the rings. -/
def Plot.occupied (p : Plot) : Nat :=
  (p.rings.map (fun r => (r.filter (fun x => x.isSome)).length)).sum

/-- The sum of the footprint sizes of the entities of the placement vector. -/
def Plot.footprintSum (p : Plot) : Nat :=
  (p.entities.map (fun e => (p.ent e).Bounds.positions.length)).sum

/-- The plot of `plan` right after its setup. -/
def setupPlot : Except String Plot := (({} : Planner).setup).map (fun p => p.toPlot)

/-- A plot of 49 empty rings. -/
def plot49 : Plot := { rings := (List.range 49).map (fun i => List.replicate (i * 8 + 4) none) }

/-- The positions of the entities of one kind on the heap of a plot. -/
def Plot.positionsOf (p : Plot) (k : EntityKind) : List Position :=
  (p.ents.filter (fun e => e.kind == k)).map (fun e => e.Position)

/-- Whether some substation stands three tiles beside the centre of a hub,
as the two substations of an irregular pair do. -/
def Plot.hasIrregularPair (p : Plot) : Bool :=
  (p.positionsOf .substation).any (fun s => (p.positionsOf .roboport).any (fun r =>
    (s.Y == r.Y + 6 || s.Y == r.Y - 6 || s.X == r.X + 6 || s.X == r.X - 6)
      && decide (absI (s.X - r.X) ≤ 12) && decide (absI (s.Y - r.Y) ≤ 12)))

/-- The state of `planSlow` on the networks of `startBuilder` once the first
ticker has been placed and the second slot is current. -/
def undoBefore : Except String PlanState := do
  let b ← startBuilder
  let p ← ({} : Planner).setup
  let p := { p with networks := List.replicate b.networks.length {} }
  let st ← ({ b := b, pl := p } : PlanInit).nets 0 b.networks
  let nodes := addAll [{}] 0 st.ents
  let ((pos, d), p) ← st.pl.getNext2x1 100
  let s : PlanState := { pl := p, nodes := nodes, item := { stackItem := 0, p := pos, d := d } }
  let (_, s) ← s.tryNode 100 1
  return s

/-- The state `undoBefore`, the state after the attempt to place the second
ticker in the current slot, and the state after running the undo log of that
attempt. -/
def undoTrace : Except String (PlanState × PlanState × PlanState) := do
  let s ← undoBefore
  let (_, s1) ← s.tryNode 100 2
  let s2 ← ({ s1 with item := s1.stack.getLast?.getD {} }).undo
  return (s, s1, s2)

/-- The wire lists of all connectors of the heap. -/
def Plot.wires (p : Plot) : List (List Connection × List Connection × List Connection × List Connection) :=
  p.ents.map (fun e => (e.Primary.Red, e.Primary.Green, e.Secondary.Red, e.Secondary.Green))

/-- A builder with one red network and one unconnected arithmetic combinator. -/
def oneCombinator : Builder :=
  { networks := [{ isGreen := false }], comps := [.arithmetic {}] }

/-- `oneCombinator` after `connectInput` of the combinator to the network. -/
def inputAttached : Builder :=
  { networks := [{ members := [0], isGreen := false }]
    conns := [{ network := 0, component := 0, isSecondary := false }]
    comps := [.arithmetic { inp := { inputRed := some 0 } }] }

/-- `oneCombinator` after `connectOutput` of the combinator to the network. -/
def outputAttached : Builder :=
  { networks := [{ members := [0], isGreen := false }]
    conns := [{ network := 0, component := 0, isSecondary := true }]
    comps := [.arithmetic { out := { outputRed := some 0 } }] }

/-- The tile centres of ring `k`: odd coordinates (in half tiles) whose larger
absolute value is `2k+1`, that is the lattice points with max(|x|,|y|) = k + 1/2. -/
def onRing (k : Nat) (p : Position) : Prop :=
  p.X % 2 = 1 ∧ p.Y % 2 = 1 ∧ max (absI p.X) (absI p.Y) = 2 * (k : Int) + 1

/-- The index `Ring.getPtr` computes, before the bounds check. -/
def slotInt (area : RingArea) (radius : Int) (p : Position) : Int :=
  match area with
  | .BottomLeft => 0
  | .TopLeft => 1
  | .BottomRight => 2
  | .TopRight => 3
  | .Left => toInt (radius + 6 + p.Y)
  | .Right => toInt (radius * 3 + 4 + p.Y)
  | .Bottom => toInt (5 * radius + p.X + 2)
  | .Top => toInt (7 * radius + p.X)

/-- The slot index of a tile in closed form: the corners first, then the
left, right, bottom and top edges. -/
def slotFormula (p : Position) : Int :=
  if absI p.X = absI p.Y then
    (if p.X < 0 then (if p.Y < 0 then 0 else 1) else (if p.Y < 0 then 2 else 3))
  else if absI p.X > absI p.Y then
    (if p.X < 0 then (absI p.X + 6 + p.Y) / 2 else (absI p.X * 3 + 4 + p.Y) / 2)
  else (if p.Y < 0 then (5 * absI p.Y + p.X + 2) / 2 else (7 * absI p.Y + p.X) / 2)

/-- The entity numbers handed out so far are the set {1..entityNumber}: every
number on the heap is at most the counter, no number other than the unset 0 is
held by two entities, and every number from 1 to the counter is held by one. -/
def NumberInv (p : Plot) : Prop :=
  (∀ e, e < p.ents.length → (p.ent e).EntityNumber ≤ p.entityNumber) ∧
  (∀ e e2, e < p.ents.length → e2 < p.ents.length →
    (p.ent e).EntityNumber = (p.ent e2).EntityNumber → (p.ent e).EntityNumber ≠ 0 → e = e2) ∧
  (∀ n, 0 < n → n ≤ p.entityNumber → ∃ e, e < p.ents.length ∧ (p.ent e).EntityNumber = n)

/-- A heap of three entities none of which has a number yet. -/
def threeEntities : Plot :=
  { ents := [{ kind := .arithmetic }, { kind := .decider }, { kind := .constant }] }

/-- The lengths of the rings of a plot. -/
def Plot.ringLens (p : Plot) : List Nat := p.rings.map List.length

/-- The operations the placer and `Save` perform on the plot. -/
inductive PlotOp where
  | expand
  | place (e : Nat) (pos : Position) (d : Direction)
  | remove (e : Nat)
deriving DecidableEq, Repr

/-- One operation on the plot. -/
def Plot.step (p : Plot) : PlotOp → Except String Plot
  | .expand => p.expand
  | .place e pos d => p.place e pos d
  | .remove e => p.remove e

/-- A sequence of operations on the plot, stopping at the first panic. -/
def Plot.run (p : Plot) : List PlotOp → Except String Plot
  | [] => .ok p
  | op :: rest =>
    match p.step op with
    | .ok q => q.run rest
    | .error msg => .error msg

/-- The planner right after the setup of `plan` (empty when the setup panics). -/
def setupPlanner : Planner :=
  match ({} : Planner).setup with
  | .ok p => p
  | .error _ => {}

/-- The ring index `getPtr` gives every tile of the footprint of an entity
(`none` for a tile outside the rings). -/
def Plot.footprintRings (p : Plot) (e : Nat) : List (Option Nat) :=
  (p.ent e).Bounds.positions.map (fun pos =>
    match p.getPtr pos with
    | .ok (some (r, _)) => some r
    | _ => none)

/-- Whether the tiles of the footprint of an entity all lie in one ring. -/
def Plot.inOneRing (p : Plot) (e : Nat) : Bool :=
  match p.footprintRings e with
  | [] => true
  | a :: rest => rest.all (fun b => b == a)

/-- The tiles of the slot `Ring.getNext` hands out for `pl`. -/
def Ring.slotTiles (r : List (Option Nat)) (pl : Int) : List Position :=
  let nx := Ring.getNext r pl
  (if isVertical nx.2.1 then nx.1.getBounds 2 1 else nx.1.getBounds 1 2).positions

/-- What the operations of `expand` keep of an entity: its kind, position and
direction, its number once it has one, and the neighbours it lists. -/
def Ent.keeps (a b : Ent) : Prop :=
  b.kind = a.kind ∧ b.Position = a.Position ∧ b.Direction = a.Direction ∧
  (a.EntityNumber ≠ 0 → b.EntityNumber = a.EntityNumber) ∧
  (∀ n, n ∈ a.Neighbors → n ∈ b.Neighbors)

/-- The plot of `plan` after its setup, probed for a substation at (0, 2). -/
def hubPlot : Plot := setupPlanner.toPlot

/-- The result of an operation, the empty plot when it panics. -/
def Plot.orEmpty (r : Except String Plot) : Plot :=
  match r with
  | .ok q => q
  | .error _ => {}

/-- The plot of 49 empty rings with one substation at (0, 18). -/
def substationPlot : Plot := Plot.orEmpty (plot49.placeSubstation ⟨0, 36⟩)

/-- The state `bk` reached from `b0` by attaching connectors: its connectors
and components are the given lists, and its networks are those of `b0` with
their colours and cell counters. -/
def Builder.Wired (b0 bk : Builder) (conns : List Connector) (comps : List Component) : Prop :=
  bk.conns = conns ∧ bk.comps = comps ∧ bk.networks.length = b0.networks.length ∧
  (∀ m, (bk.net m).isGreen = (b0.net m).isGreen) ∧ (∀ m, (bk.net m).cellID = (b0.net m).cellID)

/-- A decider `prim op sec → out` with the given connectors on its red and
green inputs and its red and green outputs. -/
def deciderOf (prim : Signal) (sec : Int) (out : Signal) (op : Comparator)
    (inRed inGreen outRed outGreen : Option Nat) : Component :=
  .decider { inp := { primaryInput := some prim, secondaryInput := some (.constant sec),
                      inputGreen := inGreen, inputRed := inRed }
             out := { outputGreen := outGreen, outputRed := outRed }
             output := some out, Operator := op }

/-- The decider `get` of a cell before it is attached. -/
def cellGet (id : Int) : Component := deciderOf SignalG id SignalV .eq none none none none

/-- The decider `set` of a cell before it is attached. -/
def cellSet (id : Int) : Component := deciderOf SignalS id signalEverything .eq none none none none

/-- The decider `sto` of a cell before it is attached. -/
def cellSto : Component := deciderOf SignalS 0 SignalV .eq none none none none

/-- The decider `tmp` of a cell before it is attached. -/
def cellTmp : Component := deciderOf SignalS 0 SignalV .ne none none none none

/-- The part of `createCell` that follows `net.nextCellID()`: the four
deciders and their attachments. -/
def Builder.cellDeciders (b : Builder) (net setNet stoNet getNet : Nat) (id : Int) :
    Except String (Cell × Builder) := do
  let (get, b) := b.alloc (cellGet id)
  let b ← b.addInputs get [net, getNet]
  let b ← b.addOutputs get [net]
  let (set, b) := b.alloc (cellSet id)
  let b ← b.addInputs set [net]
  let b ← b.addOutputs set [setNet]
  let (sto, b) := b.alloc cellSto
  let b ← b.addInputs sto [stoNet, setNet]
  let b ← b.addOutputs sto [stoNet, getNet]
  let (tmp, b) := b.alloc cellTmp
  let b ← b.addInputs tmp [setNet]
  let b ← b.addOutputs tmp [setNet]
  return ({ id := id, get := get, set := set, sto := sto, tmp := tmp, net := net }, b)

/-- Cells created one after the other on the given networks, in creation order. -/
def Builder.createCells (b : Builder) : List Nat → Except String (List Cell × Builder)
  | [] => .ok ([], b)
  | n :: ns =>
    match b.createCell n with
    | .ok (c, b1) =>
      match b1.createCells ns with
      | .ok (cs, b2) => .ok (c :: cs, b2)
      | .error msg => .error msg
    | .error msg => .error msg

/-- The nodes `stackItem.iterate` visits from the node `s`, at most `fuel` of them. -/
def stackWalk (nodes : List StackNode) : Nat → Option Nat → List Nat
  | 0, _ => []
  | _ + 1, none => []
  | fuel + 1, some i => i :: stackWalk nodes fuel (nodes.getD i default).next

/-- `remove()` on the nodes of a list, in order. -/
def stackRemoveAll (nodes : List StackNode) : List Nat → Except String (List StackNode)
  | [] => .ok nodes
  | s :: rest =>
    match stackRemove nodes s with
    | .ok n1 => stackRemoveAll n1 rest
    | .error msg => .error msg

/-- `reinstate()` on the nodes of a list, in order. -/
def stackReinstateAll (nodes : List StackNode) : List Nat → Except String (List StackNode)
  | [] => .ok nodes
  | s :: rest =>
    match stackReinstate nodes s with
    | .ok n1 => stackReinstateAll n1 rest
    | .error msg => .error msg

/-- Node `s` is in the doubly linked list: it has a predecessor whose `next`
is `s`, and its successor, if any, has `s` as `prev`. -/
def stackLinked (nodes : List StackNode) (s : Nat) : Prop :=
  ∃ pr, (nodes.getD s default).prev = some pr ∧ pr ≠ s ∧ pr < nodes.length ∧
    (nodes.getD pr default).next = some s ∧
    ∀ nx, (nodes.getD s default).next = some nx →
      nx ≠ s ∧ nx ≠ pr ∧ nx < nodes.length ∧ (nodes.getD nx default).prev = some s

/-- Every node of the sequence is in the list when its turn to be removed comes. -/
def stackRemovable : List StackNode → List Nat → Prop
  | _, [] => True
  | nodes, s :: rest =>
    stackLinked nodes s ∧ ∀ n1, stackRemove nodes s = .ok n1 → stackRemovable n1 rest

/-- The list head → 1 → 2 → 3 (node 0 is the head). -/
def threeNodes : List StackNode :=
  [{ next := some 1 }, { prev := some 0, next := some 2, ent := some 10 },
   { prev := some 1, next := some 3, ent := some 11 }, { prev := some 2, ent := some 12 }]

/-- The tuple `Ring.getNext` holds when its body returns, before the deferred
function swaps the axes. -/
def Ring.getNextStraight (r : List (Option Nat)) (pl : Int) : Position × Direction × Bool :=
  let v := (Ring.sizeEven r).1
  let h := (Ring.sizeEven r).2
  let radius := Ring.radius r
  if pl < v then (⟨-radius, 2 * pl - radius + 1⟩, DirectionSouth, false)
  else if pl - v < h then (⟨2 * (pl - v) - radius + 3, radius⟩, DirectionEast, false)
  else if pl - v - h < v then (⟨radius, -(2 * (pl - v - h) - radius + 1)⟩, DirectionNorth, false)
  else (⟨-(2 * (pl - v - h - v) - radius + 3), -radius⟩, DirectionWest,
        decide (pl - v - h - v + 2 = h))

/-- A position with its axes exchanged. -/
def Position.swapXY (p : Position) : Position := ⟨p.Y, p.X⟩

/-- The two tiles of slot `pl` of ring `k` in the layout before the axes are
exchanged: left column upwards, top row rightwards, right column downwards,
bottom row leftwards. -/
def straightTiles (k : Nat) (pl : Int) : List Position :=
  let R : Int := 2 * (k : Int) + 1
  if pl < 2 * (k : Int) + 2 then [⟨-R, 2 * pl - R⟩, ⟨-R, 2 * pl - R + 2⟩]
  else if pl - (2 * (k : Int) + 2) < 2 * (k : Int) then
    [⟨2 * (pl - (2 * (k : Int) + 2)) - R + 2, R⟩, ⟨2 * (pl - (2 * (k : Int) + 2)) - R + 4, R⟩]
  else if pl - (2 * (k : Int) + 2) - 2 * (k : Int) < 2 * (k : Int) + 2 then
    [⟨R, R - 2 * (pl - (4 * (k : Int) + 2)) - 2⟩, ⟨R, R - 2 * (pl - (4 * (k : Int) + 2))⟩]
  else
    [⟨R - 2 * (pl - (6 * (k : Int) + 4)) - 4, -R⟩, ⟨R - 2 * (pl - (6 * (k : Int) + 4)) - 2, -R⟩]

/-- The slot of ring `k` that holds the tile `(x, y)` in the layout before the
axes are exchanged. -/
def slotOf (k : Nat) (x y : Int) : Int :=
  let R : Int := 2 * (k : Int) + 1
  if x = -R then 2 * ((y + R) / 4)
  else if x = R then 4 * (k : Int) + 2 + 2 * ((R - y) / 4)
  else if y = R then 2 * (k : Int) + 2 + 2 * ((x + R - 2) / 4)
  else 6 * (k : Int) + 4 + 2 * ((R - x - 2) / 4)

/-- The slot of ring `k` that holds the tile `t`: on an even ring the axes are
exchanged first. -/
def slotOfRing (k : Nat) (t : Position) : Int :=
  if k % 2 = 0 then slotOf k t.Y t.X else slotOf k t.X t.Y

/-- Two networks with one connector each: connector 0 in network 0 and
connector 1 in network 1. -/
def twoNetworks : Builder :=
  { networks := [{ members := [0] }, { members := [1] }]
    conns := [{ network := 0, component := 0 }, { network := 1, component := 1 }] }

/-! ## The encoded blueprint -/

/-- A JSON value as `encoding/json` produces it: the members of an object in
the order of the struct fields. -/
inductive JSON where
  | num (n : Int)
  | str (s : String)
  | arr (l : List JSON)
  | obj (members : List (String × JSON))

/-- `SignalType.MarshalJSON`. -/
def SignalType.MarshalJSON : SignalType → JSON
  | .virtual => .str "virtual"
  | .item => .str "item"
  | .fluid => .str "fluid"

/-- The encoding of `Signal`: `json:"type"`, `json:"name"`. -/
def Signal.toJSON (s : Signal) : JSON :=
  .obj [("type", s.typ.MarshalJSON), ("name", .str s.name)]

/-- The encoding of `Connection`: `json:"entity_id"` and
`json:"circuit_id,omitempty"`, which leaves the member out when the value is 0. -/
def Connection.toJSON (c : Connection) : JSON :=
  .obj (("entity_id", .num c.EntityID) ::
    (if c.CircuitID = 0 then [] else [("circuit_id", .num c.CircuitID)]))

/-- The encoding of the `Blueprint` that `Save` builds, given the encoded
entities. -/
def blueprintJSON (entities : List JSON) : JSON :=
  .obj [("blueprint", .obj [
    ("icons", .arr [.obj [("signal", signalEverything.toJSON), ("index", .num 1)]]),
    ("entities", .arr entities),
    ("item", .str "blueprint"),
    ("version", .num 281479274168320)])]

/-- A character of the alphabet of `base64.StdEncoding`. -/
def base64Char (n : Nat) : Nat :=
  if n < 26 then 65 + n
  else if n < 52 then 97 + (n - 26)
  else if n < 62 then 48 + (n - 52)
  else if n = 62 then 43
  else 47

/-- `base64.StdEncoding` of a whole input, with `=` padding. -/
def base64Std : List Nat → List Nat
  | a :: b :: c :: rest =>
    [base64Char (a / 4), base64Char ((a % 4) * 16 + b / 16),
      base64Char ((b % 16) * 4 + c / 64), base64Char (c % 64)] ++ base64Std rest
  | [a, b] => [base64Char (a / 4), base64Char ((a % 4) * 16 + b / 16), base64Char ((b % 16) * 4), 61]
  | [a] => [base64Char (a / 4), base64Char ((a % 4) * 16), 61, 61]
  | [] => []

/-- An encoding writer of the Go library on top of another writer
(`base64.NewEncoder`, `zlib.NewWriter`): `full` is the encoding of everything
written before `Close`, and `early` says how many bytes of it are passed on
before `Close` runs. -/
structure Codec where
  full : List Nat → List Nat
  early : List Nat → Nat

/-- The state of such a writer: the bytes written to it and whether `Close`
has run. -/
structure EncWriter where
  input : List Nat := []
  closed : Bool := false
deriving DecidableEq, Repr

/-- `Write`: a closed writer takes nothing. -/
def EncWriter.Write (w : EncWriter) (bs : List Nat) : EncWriter :=
  if w.closed then w else { w with input := w.input ++ bs }

/-- `Close`. -/
def EncWriter.Close (w : EncWriter) : EncWriter := { w with closed := true }

/-- What the writer has passed on to the writer under it. -/
def EncWriter.emitted (c : Codec) (w : EncWriter) : List Nat :=
  if w.closed then c.full w.input else (c.full w.input).take (c.early w.input)

/-- The writers of `Planner.Save` after the `'0'`: `enc` is the base64 encoder
on the stream, `comp` the zlib writer on `enc`, `out.Encode` writes the JSON
text and a newline to `comp` in one `Write`, and the deferred calls run in
reverse order of registration: `comp.Close()` first, `enc.Close()` second.
The result is what `enc` has written to the stream. -/
def Planner.saveEncode (zlib : List Nat → List Nat) (zearly bearly : List Nat → Nat)
    (marshal : JSON → List Nat) (entityJSON : Ent → JSON) (ents : List Ent) : List Nat :=
  let b64 : Codec := { full := base64Std, early := bearly }
  let zl : Codec := { full := zlib, early := zearly }
  let enc : EncWriter := {}
  let comp : EncWriter := {}
  let comp1 := comp.Write (marshal (blueprintJSON (ents.map entityJSON)) ++ [10])
  let enc1 := enc.Write (comp1.emitted zl)
  let comp2 := comp1.Close
  let enc2 := enc1.Write ((comp2.emitted zl).drop (comp1.emitted zl).length)
  let enc3 := enc2.Close
  enc3.emitted b64

/-- The planner after the setup of `plan`, moved on to ring 3, with a lamp on
the tile (-3.5, -3.5), the lower tile of the first slot of the left edge. -/
def leftHalfPlanner : Planner :=
  let q := setupPlanner.toPlot.newEnt .lamp
  { setupPlanner with
    toPlot := Plot.orEmpty (q.2.place q.1 ⟨-7, -7⟩ DirectionNorth), ringIdx := 3, placed := 0 }

/-- The module of a program whose only top-level item is an empty `main`. -/
def emptyMain : Module :=
  { scope := .mk [("main", .function 0)] none
    declarations := []
    functions := [(0, { scope := .mk [] none, steps := [] })] }

/-- The entity numbers of the entities handed to the encoder. -/
def entityNumbers (ents : List Ent) : List Nat := ents.map (fun e => e.EntityNumber)

/-- The planner after the setup of `plan`, moved on to the last slot of the
top edge of ring 3 (offset 12, tiles (1.5, 3.5) and (2.5, 3.5)), with a lamp
on the left tile of that slot and a lamp on the tile (2.5, 2.5) of ring 2,
the tile below the right tile of the slot. -/
def topHalfPlanner : Planner :=
  let q1 := setupPlanner.toPlot.newEnt .lamp
  let p1 := Plot.orEmpty (q1.2.place q1.1 ⟨3, 7⟩ DirectionNorth)
  let q2 := p1.newEnt .lamp
  { setupPlanner with
    toPlot := Plot.orEmpty (q2.2.place q2.1 ⟨5, 5⟩ DirectionNorth), ringIdx := 3, placed := 12 }

/-! ## Well-formed graphs -/

/-- The connector in the slot of colour `g` of an input. -/
def InputComponent.slot (i : InputComponent) (g : Bool) : Option Nat :=
  if g then i.inputGreen else i.inputRed

/-- The connector in the slot of colour `g` of an output. -/
def OutputComponent.slot (o : OutputComponent) (g : Bool) : Option Nat :=
  if g then o.outputGreen else o.outputRed

/-- The network on the input of colour `g` of a component. -/
def Builder.inNet (b : Builder) (e : Nat) (g : Bool) : Option Nat :=
  ((b.comp e).inp.slot g).map (fun c => (b.conn c).network)

/-- The network on the output of colour `g` of a component. -/
def Builder.outNet (b : Builder) (e : Nat) (g : Bool) : Option Nat :=
  ((b.comp e).out.slot g).map (fun c => (b.conn c).network)

/-- The arithmetic combinator of the ticker at an index of the chain. -/
def Builder.tickerArith (b : Builder) (i : Nat) : Option Nat :=
  (b.tickers[i]?).bind (fun t => t.arith)

/-- The output network of colour `g` of the ticker at an index of the chain. -/
def Builder.tickerOut (b : Builder) (i : Nat) (g : Bool) : Option Nat :=
  (b.tickerArith i).bind (fun a => b.outNet a g)

/-- Component `e` is the arithmetic combinator of a ticker. -/
def Builder.isTicker (b : Builder) (e : Nat) : Prop := ∃ i, b.tickerArith i = some e

/-- Well-formed graphs: every connector is on a network of the graph; the
connector in an output slot exists and is on a network of the colour of the
slot; the connector in an input slot exists; and the members of a network
exist and are on networks of its colour. -/
def Builder.GraphOk (b : Builder) : Prop :=
  (∀ c, c < b.conns.length → (b.conn c).network < b.networks.length) ∧
  (∀ e g c, (b.comp e).out.slot g = some c →
    c < b.conns.length ∧ (b.net (b.conn c).network).isGreen = g) ∧
  (∀ e g c, (b.comp e).inp.slot g = some c → c < b.conns.length) ∧
  (∀ m c, c ∈ (b.net m).members →
    c < b.conns.length ∧ (b.net (b.conn c).network).isGreen = (b.net m).isGreen)

/-- The first `k` tickers of the chain have their combinators. -/
def Builder.ChainOk (b : Builder) (k : Nat) : Prop :=
  ∀ i, i < k → ∃ a, b.tickerArith i = some a ∧ a < b.comps.length

/-- A well-formed graph all of whose tickers have their combinators. -/
def Builder.WF (b : Builder) : Prop := b.GraphOk ∧ b.ChainOk b.tickers.length

/-- The graph `b1` extends `b`: nothing is removed, networks keep their
colour, connectors stay as they are, components that are not tickers stay as
they are, outputs persist, the tickers of the chain keep their combinators
and the combinators of new tickers are new components. -/
def Builder.Ext (b b1 : Builder) : Prop :=
  (b.comps.length ≤ b1.comps.length ∧ b.conns.length ≤ b1.conns.length ∧
    b.networks.length ≤ b1.networks.length ∧ b.tickers.length ≤ b1.tickers.length) ∧
  (∀ n, n < b.networks.length → (b1.net n).isGreen = (b.net n).isGreen) ∧
  (∀ c, c < b.conns.length → b1.conn c = b.conn c) ∧
  (∀ e, e < b.comps.length → ¬ b.isTicker e → b1.comp e = b.comp e) ∧
  (∀ e g c, e < b.comps.length → (b.comp e).out.slot g = some c →
    (b1.comp e).out.slot g = some c) ∧
  (∀ i, i < b.tickers.length → b1.tickerArith i = b.tickerArith i) ∧
  (∀ i a, b.tickers.length ≤ i → b1.tickerArith i = some a → b.comps.length ≤ a)

/-- What an operation on component `e` alone leaves as it is: the sizes, the
chain, the colours, the old connectors, the other components, and the
outputs `e` has already. -/
def Builder.Touch (b b1 : Builder) (e : Nat) : Prop :=
  b1.comps.length = b.comps.length ∧ b.conns.length ≤ b1.conns.length ∧
  b1.networks.length = b.networks.length ∧ b1.tickers = b.tickers ∧
  (∀ m, (b1.net m).isGreen = (b.net m).isGreen) ∧
  (∀ c, c < b.conns.length → b1.conn c = b.conn c) ∧
  (∀ e2, e2 ≠ e → b1.comp e2 = b.comp e2) ∧
  (∀ g c, (b.comp e).out.slot g = some c → (b1.comp e).out.slot g = some c)

/-- The assignment `t.Arithmetic = a` for the ticker at index `n`. -/
def Builder.setTickerArith (b : Builder) (n a : Nat) : Builder :=
  { b with tickers := updAt b.tickers n (fun t => { t with arith := some a }) }

/-- A component without its connectors. -/
def Component.core : Component → Component
  | .arithmetic a =>
    .arithmetic { a with inp := { a.inp with inputGreen := none, inputRed := none }, out := {} }
  | .decider d =>
    .decider { d with inp := { d.inp with inputGreen := none, inputRed := none }, out := {} }
  | .emitter e => .emitter { e with out := {} }

/-- Component `e` of the graph is the combinator `x` (which is not a constant
combinator and not a ticker), with the network `ins g` on its input of
colour `g` and the network `outs g` on its output of colour `g`. -/
def Builder.HasComp (b : Builder) (e : Nat) (x : Component) (ins outs : Bool → Option Nat) :
    Prop :=
  e < b.comps.length ∧ (b.comp e).core = x ∧ (∀ em, b.comp e ≠ .emitter em) ∧
  ¬ b.isTicker e ∧ (∀ g, b.inNet e g = ins g) ∧ (∀ g, b.outNet e g = outs g)

/-- The graph that holds one red network and nothing else. -/
def redNetwork : Builder := (({} : Builder).createNet false).2

/-- A memory cell on network 0 with the identifier 1. -/
def cellOne : Cell := { id := 1, get := 0, set := 0, sto := 0, tmp := 0, net := 0 }

/-- The chain of multipliers `ms` that `preserveUntil` builds from `tick` on,
reading `net`: each multiplier is `sig × check → sig` with the network it
reads on the input of that network's colour and the output network of the
ticker of its tick, of the other colour, on the other input; each but the
last outputs onto a red network that the next one reads, and the last has
the outputs `outLast`. -/
def Builder.MultChain (b : Builder) (sig : Signal) (outLast : Bool → Option Nat) :
    Nat → Nat → List Nat → Prop
  | _, _, [] => True
  | tick, net, [m] =>
    ∃ tnet, b.tickerOut tick (!(b.net net).isGreen) = some tnet ∧
      b.HasComp m (preserveArithmetic sig)
        (fun g => if g = (b.net net).isGreen then some net else some tnet) outLast
  | tick, net, m :: m2 :: rest =>
    ∃ tnet net1, b.tickerOut tick (!(b.net net).isGreen) = some tnet ∧
      b.HasComp m (preserveArithmetic sig)
        (fun g => if g = (b.net net).isGreen then some net else some tnet)
        (fun g => if g = false then some net1 else none) ∧
      net1 < b.networks.length ∧ (b.net net1).isGreen = false ∧
      b.MultChain sig outLast (tick + 1) net1 (m2 :: rest)

/-- The graph that holds two red networks and nothing else. -/
def twoRedNetworks : Builder := (redNetwork.createNet false).2

/-- The graph `b1` has the networks of `b`, with their colours, and maybe more. -/
def Builder.Grows (b b1 : Builder) : Prop :=
  b.networks.length ≤ b1.networks.length ∧
  ∀ n, n < b.networks.length → (b1.net n).isGreen = (b.net n).isGreen

/-- Expressions built from integer constants (a `ConstantValue` whose value
is a `uint64`), unary `+` and `-`, and binary `+`, `-`, `*`. -/
def Typed.isArith : Typed → Prop
  | .constant (.uint64 _) => True
  | .unary .ADD e => e.isArith
  | .unary .SUB e => e.isArith
  | .binary .ADD l r => l.isArith ∧ r.isArith
  | .binary .SUB l r => l.isArith ∧ r.isArith
  | .binary .MUL l r => l.isArith ∧ r.isArith
  | _ => False

/-- The number of ticks an expression takes: `h(constant) = 0`,
`h(+e) = h(e)`, `h(-e) = h(e) + 1`, `h(l op r) = max(h(l), h(r)) + 1`. -/
def Typed.height : Typed → Nat
  | .unary .ADD e => e.height
  | .unary _ e => e.height + 1
  | .binary _ l r => max l.height r.height + 1
  | _ => 0

/-- The assignment `*e = f(*e)` to a component. -/
def Builder.setComp (b : Builder) (e : Nat) (f : Component → Component) : Builder :=
  { b with comps := updAt b.comps e f }

/-- The tile centre `Plot.getPtr` moves a position to before it looks up the
ring: a whole coordinate goes up by half a tile. -/
def Position.tile (pos : Position) : Position :=
  ⟨if pos.X % 2 = 0 then pos.X + 1 else pos.X, if pos.Y % 2 = 0 then pos.Y + 1 else pos.Y⟩

/-- The tiles that the loop of `Plot.place` writes for an entity of kind `k`
at `pos` with direction `d`. -/
def EntityKind.footprint (k : EntityKind) (pos : Position) (d : Direction) : List Position :=
  (Ent.Bounds { kind := k, Position := pos, Direction := d }).positions.map Position.tile

/-- The number of tiles under an entity: `2 × 1` for the combinators with an
input and an output, `1` for a constant combinator or a lamp, `2 × 2` for a
substation, `4 × 4` for a roboport. -/
def EntityKind.tileCount : EntityKind → Nat
  | .arithmetic => 2
  | .decider => 2
  | .constant => 1
  | .lamp => 1
  | .substation => 4
  | .roboport => 16

/-- One round of the loop of `expand` that makes room for the roboports, on
the number of rings and the substation distance. -/
def expandStep (st : Nat × Nat) : Nat × Nat :=
  let n := st.1 + 1
  if st.2 = 0 ∧ n % 18 = 0 then (n + 2, n) else (n, st.2)

/-- The numbers of rings that `expand` leaves when it starts from 5 rings. -/
def lenOk (n : Nat) : Prop := 4 ≤ n % 50 ∧ n % 50 ≤ 47 ∧ 2 ≤ n % 18

/-- An entity of kind `k` in the placement vector stands at `pos`. -/
def Plot.hasAt (p : Plot) (k : EntityKind) (pos : Position) : Prop :=
  ∃ e, e ∈ p.entities ∧ e < p.ents.length ∧ (p.ent e).kind = k ∧ (p.ent e).Position = pos

/-- The lattice position `pos` has its substation: a substation stands at
`pos`, or a roboport stands less than three tiles from `pos` on both axes (its
4×4 footprint meets the 2×2 footprint at `pos`) and two substations stand at
the roboport's centre ± 3 tiles along the edge, on the line of `pos`. -/
def Plot.substationAt (p : Plot) (pos : Position) : Prop :=
  p.hasAt .substation pos ∨
  ∃ r, r < p.ents.length ∧ (p.ent r).kind = .roboport ∧
    absI ((p.ent r).Position.X - pos.X) < 6 ∧ absI ((p.ent r).Position.Y - pos.Y) < 6 ∧
    if absI pos.Y > absI pos.X then
      p.hasAt .substation ⟨(p.ent r).Position.X + 6, pos.Y⟩ ∧
      p.hasAt .substation ⟨(p.ent r).Position.X - 6, pos.Y⟩
    else
      p.hasAt .substation ⟨pos.X, (p.ent r).Position.Y + 6⟩ ∧
      p.hasAt .substation ⟨pos.X, (p.ent r).Position.Y - 6⟩

/-- Every tile that holds an entity lies under the bounds of that entity. -/
def Plot.TilesOk (p : Plot) : Prop :=
  ∀ t e, p.get t = .ok (some e) →
    e < p.ents.length ∧
    t.tile ∈ (p.ent e).kind.footprint (p.ent e).Position (p.ent e).Direction

/-- The plot `q` has the entities of `p`, where they were, and its placement
vector holds that of `p`. -/
def Plot.Keeps (p q : Plot) : Prop :=
  p.ents.length ≤ q.ents.length ∧ (∀ e, e < p.ents.length → Ent.keeps (p.ent e) (q.ent e)) ∧
  (∀ e, e ∈ p.entities → e ∈ q.entities)

/-- Every memory cell of the builder is on a network of the graph. -/
def Builder.CellsOk (b : Builder) : Prop :=
  ∀ p, p ∈ b.cells → p.2.net < b.networks.length

/-- Every roboport that holds a tile of the plot stands at most 51 tiles from
the origin on both axes. -/
def Plot.HubsNear (p : Plot) : Prop :=
  ∀ t e, p.get t = .ok (some e) → (p.ent e).kind = .roboport →
    absI (p.ent e).Position.X ≤ 102 ∧ absI (p.ent e).Position.Y ≤ 102

/-- The plot `q` is `p` with one more entity, of kind `k` at `pos`, at the end
of the placement vector; the tiles that hold another entity held it in `p`. -/
def Plot.Adds (p q : Plot) (k : EntityKind) (pos : Position) : Prop :=
  q.ringLens = p.ringLens ∧ q.rings.length = p.rings.length ∧ q.TilesOk ∧ p.Keeps q ∧
  q.ents.length = p.ents.length + 1 ∧ q.entities = p.entities ++ [p.ents.length] ∧
  (q.ent p.ents.length).kind = k ∧ (q.ent p.ents.length).Position = pos ∧
  ∀ t e, q.get t = .ok (some e) → e = p.ents.length ∨ p.get t = .ok (some e)

/-- No lattice ring inside the plot is missing: every square of substations of
radius `D`, a positive multiple of 18 below the number of rings, and every
square of roboports of radius `R`, a positive multiple of 50 with `R + 1`
below the number of rings. -/
def Plot.latticeOk (p : Plot) : Prop :=
  (∀ D : Nat, 0 < D → D % 18 = 0 → D < p.rings.length →
    ∀ pos, pos ∈ iterateEdges (2 * (D : Int)) 36 → p.substationAt pos) ∧
  (∀ R : Nat, 0 < R → R % 50 = 0 → R + 1 < p.rings.length →
    ∀ pos, pos ∈ iterateEdges (2 * (R : Int)) 100 → p.hasAt .roboport pos)

/-- Whether the tile `t` is empty or lies under the bounds of the entity it holds. -/
def Plot.tileOk (p : Plot) (t : Position) : Bool :=
  match p.get t with
  | .ok (some e) =>
    decide (e < p.ents.length) &&
      decide (t.tile ∈ (p.ent e).kind.footprint (p.ent e).Position (p.ent e).Direction)
  | _ => true

/-! # Theorems -/

/-- C28 (as the code has it): the position (-10.5, 0.5) has ring index 10; the
position (10.5, -10.5) has ring index 10 and `getRingArea` classifies it as
the bottom-right corner, with radius 10.5. -/
theorem C28_ring_index_boundary :
    (⟨-21, 1⟩ : Position).toRingIdx = 10 ∧ (⟨21, -21⟩ : Position).toRingIdx = 10 ∧
    (⟨21, -21⟩ : Position).getRingArea = (RingArea.BottomRight, 21) := by
  decide

/-- C28, counterexample: `getRingArea` does not classify (10.5, -10.5) as the
top-right corner. -/
theorem C28_not_top_right : (⟨21, -21⟩ : Position).getRingArea.1 ≠ RingArea.TopRight := by
  decide

/-- C7, the failing input: on the builder `CreateBlueprint` starts with (two
unflagged tickers in a backing array of capacity two), `nextSafeMemOpTick(0,
write)` returns 0, and afterwards only ticker 2 is flagged: the flags written
through the pointers to tickers 0 and 1 went to the array that the `append`
for ticker 2 abandoned. -/
theorem C7_write_flags_lost :
    (startBuilder.bind (fun b => b.nextSafeMemOpTick goGrowslice 0 false)).toOption.map
      (fun r => (r.1, r.2.flags)) = some (0, [false, false, true]) := by
  decide

/-- C8, the failing input: on the builder `CreateBlueprint` starts with, a
write reserved from tick 0 and then a read reserved from tick 0 both get
tick 0, so the windows {0, 1, 2} and {0, 1} overlap. -/
theorem C8_tick_reserved_twice :
    (startBuilder.bind (fun b => (b.nextSafeMemOpTick goGrowslice 0 false).bind (fun r =>
      (r.2.nextSafeMemOpTick goGrowslice 0 true).map (fun r2 => (r.1, r2.1))))).toOption
      = some (0, 0) := by
  decide

/-- C13, the failing input: lowering `~5` onto a fresh red network returns
tick + 1, yet the XOR combinator (component 0) has no output signal and no
output connector, and nothing is registered on the destination network. -/
theorem C13_tilde_has_no_output :
    ((({} : Builder).createNet false).2.extractValue goGrowslice
        (.unary .TILDE (.constant (.uint64 5))) 7 0 SignalA).toOption.map
      (fun r => (r.1, r.2.comp 0, (r.2.net 0).members))
    = some (8, .arithmetic
        { inp := { primaryInput := some SignalT, secondaryInput := some (.constant (-1)),
                   inputGreen := some 0 }
          Operator := .xor }, []) := by
  decide

/-- C14, the divergence: the else-if branches and the else block of an `If`
step have no effect on what `execStep` does. -/
theorem C14_else_branches_ignored (growslice : Nat → Nat → Nat) (c : Typed) (t : Block)
    (elseIf : List If) (else_ : Option Block) (b : Builder) (scope : Scope) (net tick : Nat) :
    Builder.execStep growslice (.ifStep (.mk c t elseIf else_)) b scope net tick
      = Builder.execStep growslice (.ifStep (.mk c t [] none)) b scope net tick := by
  simp [Builder.execStep, Builder.execIf]

/-- C15, the divergence: the step the frontend builds for a variable
declaration in a block makes `execStep` panic with "unhandled step". -/
theorem C15_declare_unhandled (growslice : Nat → Nat → Nat) (d : Declare) (b : Builder)
    (scope : Scope) (net tick : Nat) :
    Builder.execStep growslice (handleBlockDeclaration d) b scope net tick
      = .error "unhandled step" := by
  simp [handleBlockDeclaration, Builder.execStep]

/-! ## Lists and arithmetic -/

theorem length_updAt {α : Type} (l : List α) (i : Nat) (f : α → α) :
    (updAt l i f).length = l.length := by
  unfold updAt; split <;> simp

theorem getElem?_updAt {α : Type} (l : List α) (i j : Nat) (f : α → α) :
    (updAt l i f)[j]? = if i = j then l[j]?.map f else l[j]? := by
  unfold updAt
  split
  · rename_i a h
    by_cases hij : i = j
    · subst hij; simp [h, List.getElem?_set]
      have := List.getElem?_eq_some.1 h
      obtain ⟨hl, _⟩ := this
      simp [hl]
    · simp [hij, List.getElem?_set]
  · rename_i h
    by_cases hij : i = j
    · subst hij; simp [h]
    · simp [hij]

theorem getD_updAt {α : Type} (l : List α) (i j : Nat) (f : α → α) (d : α) :
    (updAt l i f).getD j d = if i = j ∧ j < l.length then f (l.getD j d) else l.getD j d := by
  simp only [List.getD_eq_getElem?_getD, getElem?_updAt]
  by_cases hij : i = j
  · subst hij
    by_cases hl : i < l.length
    · simp [hl]
    · simp [hl, List.getElem?_eq_none (Nat.le_of_not_lt hl)]
  · simp [hij]

theorem absI_nonneg (x : Int) : 0 ≤ absI x := by
  unfold absI; split <;> omega

theorem toInt_of_nonneg {h : Int} (hh : 0 ≤ h) : toInt h = h / 2 := by
  unfold toInt
  exact Int.tdiv_eq_ediv hh (by decide)

/-! ## Reach predicate -/

theorem goInt_of_small {h : Int} (h0 : 0 ≤ h) (h1 : h < 18446744073709551616) :
    goInt h = h / 2 := by
  unfold goInt
  rw [Int.tdiv_eq_ediv h0 (by decide)]
  rw [if_pos (by omega)]

/-- C2 (amended): for positions on the half-tile grid less than 2^63 tiles
apart on both axes (distances below 2^64 half tiles), `p.canConnect(o)`
returns, and it returns true exactly when floor(|Δx|) ≤ 10 and floor(|Δy|) <
T[floor(|Δx|)] for the table T = [10,10,9,9,9,9,8,7,6,5,1] (coordinates in
half tiles, so floor(|Δx|) is `absI (p.X - o.X) / 2`); offsets |Δx| = 10,
|Δy| = 0 are reachable, |Δx| = 10, |Δy| = 1 are not, and |Δx| = 11 is
unreachable for every Δy. -/
theorem C2_canConnect_table :
    (∀ p o : Position, absI (p.X - o.X) < 18446744073709551616 →
      absI (p.Y - o.Y) < 18446744073709551616 →
      p.canConnect o = .ok (decide (absI (p.X - o.X) / 2 ≤ 10 ∧
        absI (p.Y - o.Y) / 2 <
          ([10, 10, 9, 9, 9, 9, 8, 7, 6, 5, 1] : List Int).getD
            (absI (p.X - o.X) / 2).toNat 0))) ∧
    (∀ p o : Position, absI (p.X - o.X) = 20 ∧ absI (p.Y - o.Y) = 0 →
      p.canConnect o = .ok true) ∧
    (∀ p o : Position, absI (p.X - o.X) = 20 ∧ absI (p.Y - o.Y) = 2 →
      p.canConnect o = .ok false) ∧
    (∀ p o : Position, absI (p.X - o.X) = 22 → p.canConnect o = .ok false) := by
  have key : ∀ p o : Position, absI (p.X - o.X) < 18446744073709551616 →
      absI (p.Y - o.Y) < 18446744073709551616 →
      p.canConnect o = .ok (decide (absI (p.X - o.X) / 2 ≤ 10 ∧
        absI (p.Y - o.Y) / 2 <
          ([10, 10, 9, 9, 9, 9, 8, 7, 6, 5, 1] : List Int).getD
            (absI (p.X - o.X) / 2).toNat 0)) := by
    intro p o hx hy
    have gx := goInt_of_small (absI_nonneg (p.X - o.X)) hx
    have gy := goInt_of_small (absI_nonneg (p.Y - o.Y)) hy
    have n0 : 0 ≤ absI (p.X - o.X) / 2 := Int.ediv_nonneg (absI_nonneg _) (by decide)
    unfold Position.canConnect Position.distanceXY
    simp only [gx, gy]
    by_cases h11 : absI (p.X - o.X) / 2 ≤ 10
    · rw [if_neg (by simp only [distanceLookup10, List.length_cons, List.length_nil]; omega),
        if_neg (by omega)]
      congr 1
      simp only [h11, true_and]
      rfl
    · rw [if_pos (by simp only [distanceLookup10, List.length_cons, List.length_nil]; omega)]
      congr 1
      simp [h11]
  refine ⟨key, ?_, ?_, ?_⟩
  · rintro p o ⟨hx, hy⟩
    rw [key p o (by rw [hx]; decide) (by rw [hy]; decide), hx, hy]; rfl
  · rintro p o ⟨hx, hy⟩
    rw [key p o (by rw [hx]; decide) (by rw [hy]; decide), hx, hy]; rfl
  · intro p o hx
    have gx := goInt_of_small (absI_nonneg (p.X - o.X)) (by rw [hx]; decide)
    unfold Position.canConnect Position.distanceXY
    simp only [gx, hx]
    rfl

/-- C2, a concrete pair: tiles ten apart on one row are within reach. -/
theorem C2_canConnect_witness :
    absI ((⟨1, 1⟩ : Position).X - (⟨21, 1⟩ : Position).X) = 20 ∧
    (⟨1, 1⟩ : Position).canConnect ⟨21, 1⟩ = .ok true :=
  ⟨by decide, (C2_canConnect_table.2.1 ⟨1, 1⟩ ⟨21, 1⟩ ⟨by decide, by decide⟩)⟩

/-- C2, counterexample: the position 2^70 tiles above the origin is far out
of reach by the table (floor(|Δy|) = 2^70 is not below T[0] = 10), but
`int(disY)` does not fit an `int` and is -2^63, so `canConnect` returns true;
for the position 2^70 tiles to the right `int(disX)` is -2^63 and the index
into the table panics. -/
theorem C2_far_apart :
    (⟨0, 0⟩ : Position).canConnect ⟨0, 2361183241434822606848⟩ = .ok true ∧
    ¬ (absI ((0 : Int) - 2361183241434822606848) / 2 <
        ([10, 10, 9, 9, 9, 9, 8, 7, 6, 5, 1] : List Int).getD
          (absI ((0 : Int) - 0) / 2).toNat 0) ∧
    (⟨0, 0⟩ : Position).canConnect ⟨2361183241434822606848, 0⟩ =
      .error "index out of range" := by
  refine ⟨by rfl, by decide, by rfl⟩

/-! ## Placement vector -/

/-- C6, the failing input: on the plot of `plan`, placing an arithmetic
combinator on a free footprint keeps the number of occupied slots equal to the
sum of the footprints of the placement vector (24 = 24, then 26 = 26), but
after removing it again the slots are back to 24 while the footprints of the
placement vector still add up to 26. -/
theorem C6_remove_keeps_vector_entry :
    (setupPlot.bind (fun p =>
      ((p.newEnt .arithmetic).2.place (p.newEnt .arithmetic).1 ⟨-4, -5⟩ DirectionEast).bind (fun p2 =>
        (p2.remove (p.newEnt .arithmetic).1).map (fun p3 =>
          ((p.occupied, p.footprintSum), (p2.occupied, p2.footprintSum),
           (p3.occupied, p3.footprintSum)))))).toOption
      = some ((24, 24), (26, 26), (24, 26)) := by
  decide

/-- C5, the failing input: in `planSlow` on the two tickers of
`startBuilder`, running the undo log of the attempt that placed the second
ticker restores the ring slots, the list of remaining entities, the placed
set, the connection lists of the networks and the wire lists of the
connectors, but the placement vector keeps the entity the attempt appended. -/
theorem C5_undo_keeps_vector_entry :
    undoTrace.toOption.map (fun t =>
      (t.2.2.pl.rings == t.1.pl.rings && t.2.2.nodes == t.1.nodes
        && t.2.2.placed == t.1.placed && t.2.2.pl.networks == t.1.pl.networks
        && t.2.2.pl.toPlot.wires == t.1.pl.toPlot.wires,
       t.1.pl.entities, t.2.2.pl.entities))
      = some (true, [0, 1, 2, 3], [0, 1, 2, 3, 4]) := by
  decide

/-! ## Attachments -/

theorem withInp_inp (x : Component) (i : InputComponent) (hk : ∀ em, x ≠ .emitter em) :
    (x.withInp i).inp = i := by
  cases x with
  | arithmetic a => rfl
  | decider d => rfl
  | emitter em => exact absurd rfl (hk em)

theorem withOut_out (x : Component) (o : OutputComponent) : (x.withOut o).out = o := by
  cases x <;> rfl

theorem withInp_out (x : Component) (i : InputComponent) : (x.withInp i).out = x.out := by
  cases x <;> rfl

theorem withOut_inp (x : Component) (o : OutputComponent) : (x.withOut o).inp = x.inp := by
  cases x <;> rfl

theorem setInput_twice (i i1 : InputComponent) (g : Bool) (c c2 : Nat)
    (h : i.setInput g c = .ok i1) :
    (∃ msg, i1.setInput g c2 = .error msg) ∧ (if g then i1.inputGreen else i1.inputRed) = some c := by
  unfold InputComponent.setInput at h ⊢
  cases g
  · simp only [Bool.false_eq_true, if_false] at h ⊢
    split at h
    · cases h
    · cases h; simp
  · simp only [if_true] at h ⊢
    split at h
    · cases h
    · cases h; simp

theorem setOutput_twice (o o1 : OutputComponent) (g : Bool) (c c2 : Nat)
    (h : o.setOutput g c = .ok o1) :
    (∃ msg, o1.setOutput g c2 = .error msg) ∧ (if g then o1.outputGreen else o1.outputRed) = some c := by
  unfold OutputComponent.setOutput at h ⊢
  cases g
  · simp only [Bool.false_eq_true, if_false] at h ⊢
    split at h
    · cases h
    · cases h; simp
  · simp only [if_true] at h ⊢
    split at h
    · cases h
    · cases h; simp

/-- C30: after a successful `connectInput` of a combinator to a network, the
attachment is recorded on the combinator, and a `connectInput` of the same
combinator to any network of that colour fails (the second `setInput`
panics); the same holds for `connectOutput` and `setOutput`.  So each side of
a component has at most one network per colour. -/
theorem C30_second_attachment_fails (b b1 b2 : Builder) (n n2 e o : Nat)
    (he : e < b.comps.length) (hk : ∀ em, b.comp e ≠ .emitter em) (ho : o < b.comps.length)
    (hb : b.connectInput n e = .ok b1) (hc : (b1.net n2).isGreen = (b.net n).isGreen)
    (hb2 : b.connectOutput n o = .ok b2) (hc2 : (b2.net n2).isGreen = (b.net n).isGreen) :
    (∃ msg, b1.connectInput n2 e = .error msg) ∧
    (if (b.net n).isGreen then (b1.comp e).inp.inputGreen else (b1.comp e).inp.inputRed)
      = some b.conns.length ∧
    (∃ msg, b2.connectOutput n2 o = .error msg) ∧
    (if (b.net n).isGreen then (b2.comp o).out.outputGreen else (b2.comp o).out.outputRed)
      = some b.conns.length := by
  simp only [Builder.connectInput, Builder.createConnector, Builder.comp] at hb hk
  simp only [Builder.connectOutput, Builder.createConnector, Builder.comp] at hb2
  cases hs : (b.comps.getD e default).inp.setInput (b.net n).isGreen b.conns.length with
  | error m => rw [hs] at hb; cases hb
  | ok i =>
    cases hs2 : (b.comps.getD o default).out.setOutput (b.net n).isGreen b.conns.length with
    | error m => rw [hs2] at hb2; cases hb2
    | ok o1 =>
      rw [hs] at hb
      rw [hs2] at hb2
      simp only [Except.ok.injEq] at hb hb2
      subst hb
      subst hb2
      simp only [Builder.connectInput, Builder.connectOutput, Builder.createConnector,
        Builder.comp, getD_updAt, he, ho, and_self, if_true, withInp_inp _ _ hk, withOut_out]
      rw [hc, hc2]
      obtain ⟨⟨msg, hm⟩, hfirst⟩ := setInput_twice _ _ _ _ (b.conns.length + 1) hs
      obtain ⟨⟨msg2, hm2⟩, hfirst2⟩ := setOutput_twice _ _ _ _ (b.conns.length + 1) hs2
      refine ⟨⟨msg, ?_⟩, hfirst, ⟨msg2, ?_⟩, hfirst2⟩
      · simp only [List.length_append, List.length_singleton]
        rw [hm]
      · simp only [List.length_append, List.length_singleton]
        rw [hm2]

/-- C30 at a concrete builder: a combinator attached to the red network
cannot be attached to it a second time, on either side. -/
theorem C30_second_attachment_witness :
    (∃ msg, inputAttached.connectInput 0 0 = .error msg) ∧
    (∃ msg, outputAttached.connectOutput 0 0 = .error msg) :=
  ⟨(C30_second_attachment_fails oneCombinator inputAttached outputAttached 0 0 0 0
      (by decide) (by intro em h; cases h) (by decide) rfl rfl rfl rfl).1,
   (C30_second_attachment_fails oneCombinator inputAttached outputAttached 0 0 0 0
      (by decide) (by intro em h; cases h) (by decide) rfl rfl rfl rfl).2.2.1⟩

/-! ## Expansion -/

theorem expand49_eval :
    plot49.expand.toOption.map
      (fun p => (p.rings.length, p.positionsOf .roboport, p.positionsOf .substation))
    = some (58, iterateEdges 100 100, iterateEdges 108 36) := by
  decide!

theorem expand49_ok : ∃ p, plot49.expand = .ok p ∧ p.rings.length = 58 ∧
    p.positionsOf .roboport = iterateEdges 100 100 ∧
    p.positionsOf .substation = iterateEdges 108 36 := by
  have h := expand49_eval
  cases hp : plot49.expand with
  | error m => rw [hp] at h; cases h
  | ok p =>
    rw [hp] at h
    simp only [Except.toOption, Option.map_some', Option.some.injEq, Prod.mk.injEq] at h
    exact ⟨p, rfl, h.1, h.2.1, h.2.2⟩

/-- C23, counterexample: `expand` on the plot of 49 empty rings returns a plot
of 58 rings whose roboports are the eight of the square of radius 50 and whose
substations are the 24 of the square of radius 54, each at its lattice
position; no substation stands three tiles beside the centre of a hub, so no
pair of irregular substations has been placed. -/
theorem C23_no_irregular_pair : ∃ p, plot49.expand = .ok p ∧ p.rings.length = 58 ∧
    p.positionsOf .roboport = iterateEdges 100 100 ∧
    p.positionsOf .substation = iterateEdges 108 36 ∧ p.hasIrregularPair = false := by
  obtain ⟨p, hp, hl, hr, hs⟩ := expand49_ok
  refine ⟨p, hp, hl, hr, hs, ?_⟩
  unfold Plot.hasIrregularPair
  rw [hr, hs]
  decide

/-! ## Ring slots -/

theorem toInt_eq (h : Int) : toInt h = if 0 ≤ h then h / 2 else -((-h) / 2) := by
  unfold toInt
  split
  · rename_i hh; exact Int.tdiv_eq_ediv hh (by decide)
  · rename_i hh
    have h1 : 0 ≤ -h := by omega
    have := Int.tdiv_eq_ediv h1 (show (0:Int) ≤ 2 by decide)
    rw [← this]
    simp [Int.neg_tdiv]

theorem absI_of_neg {x : Int} (h : x < 0) : absI x = -x := by unfold absI; simp [h]
theorem absI_of_nonneg {x : Int} (h : 0 ≤ x) : absI x = x := by
  unfold absI; simp; omega

theorem getRingArea_cases (p : Position) :
    p.getRingArea =
      if absI p.X = absI p.Y ∧ p.X < 0 ∧ p.Y < 0 then (RingArea.BottomLeft, absI p.X)
      else if absI p.X = absI p.Y ∧ p.X > 0 ∧ p.Y < 0 then (RingArea.BottomRight, absI p.X)
      else if absI p.X = absI p.Y ∧ p.X < 0 ∧ p.Y > 0 then (RingArea.TopLeft, absI p.X)
      else if absI p.X = absI p.Y ∧ p.X > 0 ∧ p.Y > 0 then (RingArea.TopRight, absI p.X)
      else if absI p.X > absI p.Y then
        if p.X < 0 then (RingArea.Left, absI p.X) else (RingArea.Right, absI p.X)
      else if p.Y < 0 then (RingArea.Bottom, absI p.Y)
      else (RingArea.Top, absI p.Y) := rfl


theorem slotInt_eq (k : Nat) (p : Position) (hp : onRing k p) :
    slotInt p.getRingArea.1 p.getRingArea.2 p = slotFormula p := by
  obtain ⟨hx, hy, hm⟩ := hp
  rw [getRingArea_cases]
  unfold slotFormula
  have hax := absI_nonneg p.X
  have hay := absI_nonneg p.Y
  by_cases hxn : p.X < 0 <;> by_cases hyn : p.Y < 0 <;> by_cases he : absI p.X = absI p.Y
    <;> by_cases hg : absI p.X > absI p.Y
    <;> simp only [hxn, hyn, he, hg, slotInt, toInt_eq, if_true, if_false, and_true, and_false,
        true_and, false_and, gt_iff_lt, lt_self_iff_false]
    <;> (try (first | rfl | omega))
    <;> split_ifs <;> (try (first | rfl | omega))
theorem slotFormula_corner (p : Position) (h : absI p.X = absI p.Y) :
    slotFormula p = if p.X < 0 then (if p.Y < 0 then 0 else 1) else (if p.Y < 0 then 2 else 3) := by
  unfold slotFormula; simp [h]

theorem slotFormula_side (p : Position) (h : absI p.Y < absI p.X) :
    slotFormula p = if p.X < 0 then (absI p.X + 6 + p.Y) / 2 else (absI p.X * 3 + 4 + p.Y) / 2 := by
  unfold slotFormula
  have h1 : absI p.X ≠ absI p.Y := by omega
  simp [h1, h]

theorem slotFormula_flat (p : Position) (h : absI p.X < absI p.Y) :
    slotFormula p = if p.Y < 0 then (5 * absI p.Y + p.X + 2) / 2 else (7 * absI p.Y + p.X) / 2 := by
  unfold slotFormula
  have h1 : absI p.X ≠ absI p.Y := by omega
  have h2 : ¬ absI p.X > absI p.Y := by omega
  simp [h1, h2]

theorem slotFormula_normal (k : Nat) (p : Position) (hp : onRing k p) :
    (p.X = -(2 * (k:Int) + 1) ∧ p.Y = -(2 * (k:Int) + 1) ∧ slotFormula p = 0) ∨
    (p.X = -(2 * (k:Int) + 1) ∧ p.Y = (2 * (k:Int) + 1) ∧ slotFormula p = 1) ∨
    (p.X = (2 * (k:Int) + 1) ∧ p.Y = -(2 * (k:Int) + 1) ∧ slotFormula p = 2) ∨
    (p.X = (2 * (k:Int) + 1) ∧ p.Y = (2 * (k:Int) + 1) ∧ slotFormula p = 3) ∨
    (p.X = -(2 * (k:Int) + 1) ∧ -(2 * (k:Int) + 1) < p.Y ∧ p.Y < 2 * (k:Int) + 1 ∧
      2 * slotFormula p = 2 * (k:Int) + 1 + 6 + p.Y) ∨
    (p.X = (2 * (k:Int) + 1) ∧ -(2 * (k:Int) + 1) < p.Y ∧ p.Y < 2 * (k:Int) + 1 ∧
      2 * slotFormula p = 3 * (2 * (k:Int) + 1) + 4 + p.Y) ∨
    (p.Y = -(2 * (k:Int) + 1) ∧ -(2 * (k:Int) + 1) < p.X ∧ p.X < 2 * (k:Int) + 1 ∧
      2 * slotFormula p = 5 * (2 * (k:Int) + 1) + p.X + 2) ∨
    (p.Y = (2 * (k:Int) + 1) ∧ -(2 * (k:Int) + 1) < p.X ∧ p.X < 2 * (k:Int) + 1 ∧
      2 * slotFormula p = 7 * (2 * (k:Int) + 1) + p.X) := by
  obtain ⟨hx, hy, hm⟩ := hp
  have hX : (p.X < 0 ∧ absI p.X = -p.X) ∨ (0 < p.X ∧ absI p.X = p.X) := by
    by_cases h : p.X < 0
    · exact Or.inl ⟨h, absI_of_neg h⟩
    · exact Or.inr ⟨by omega, absI_of_nonneg (by omega)⟩
  have hY : (p.Y < 0 ∧ absI p.Y = -p.Y) ∨ (0 < p.Y ∧ absI p.Y = p.Y) := by
    by_cases h : p.Y < 0
    · exact Or.inl ⟨h, absI_of_neg h⟩
    · exact Or.inr ⟨by omega, absI_of_nonneg (by omega)⟩
  have hmax : (absI p.X = absI p.Y ∧ absI p.X = 2 * (k:Int) + 1) ∨
      (absI p.Y < absI p.X ∧ absI p.X = 2 * (k:Int) + 1) ∨
      (absI p.X < absI p.Y ∧ absI p.Y = 2 * (k:Int) + 1) := by omega
  rcases hmax with ⟨he, hr⟩ | ⟨hlt, hr⟩ | ⟨hlt, hr⟩
  · rw [slotFormula_corner p he]
    rcases hX with ⟨hxs, hxa⟩ | ⟨hxs, hxa⟩ <;> rcases hY with ⟨hys, hya⟩ | ⟨hys, hya⟩
    · refine Or.inl ⟨by omega, by omega, by simp [hxs, hys]⟩
    · refine Or.inr (Or.inl ⟨by omega, by omega, ?_⟩)
      have : ¬ p.Y < 0 := by omega
      simp [hxs, this]
    · refine Or.inr (Or.inr (Or.inl ⟨by omega, by omega, ?_⟩))
      have : ¬ p.X < 0 := by omega
      simp [hys, this]
    · refine Or.inr (Or.inr (Or.inr (Or.inl ⟨by omega, by omega, ?_⟩)))
      have h1 : ¬ p.X < 0 := by omega
      have h2 : ¬ p.Y < 0 := by omega
      simp [h1, h2]
  · rw [slotFormula_side p hlt]
    rcases hX with ⟨hxs, hxa⟩ | ⟨hxs, hxa⟩
    · refine Or.inr (Or.inr (Or.inr (Or.inr (Or.inl ⟨by omega, by omega, by omega, ?_⟩))))
      simp only [hxs, if_true]; omega
    · refine Or.inr (Or.inr (Or.inr (Or.inr (Or.inr (Or.inl ⟨by omega, by omega, by omega, ?_⟩)))))
      have : ¬ p.X < 0 := by omega
      simp only [this, if_false]; omega
  · rw [slotFormula_flat p hlt]
    rcases hY with ⟨hys, hya⟩ | ⟨hys, hya⟩
    · refine Or.inr (Or.inr (Or.inr (Or.inr (Or.inr (Or.inr (Or.inl ⟨by omega, by omega, by omega, ?_⟩))))))
      simp only [hys, if_true]; omega
    · refine Or.inr (Or.inr (Or.inr (Or.inr (Or.inr (Or.inr (Or.inr ⟨by omega, by omega, by omega, ?_⟩))))))
      have : ¬ p.Y < 0 := by omega
      simp only [this, if_false]; omega

theorem slotFormula_range (k : Nat) (p : Position) (hp : onRing k p) :
    0 ≤ slotFormula p ∧ slotFormula p < 8 * (k : Int) + 4 := by
  have := slotFormula_normal k p hp
  omega

theorem slotFormula_inj (k : Nat) (p q : Position) (hp : onRing k p) (hq : onRing k q)
    (h : slotFormula p = slotFormula q) : p = q := by
  have h1 := slotFormula_normal k p hp
  have h2 := slotFormula_normal k q hq
  have : p.X = q.X ∧ p.Y = q.Y := by omega
  cases p; cases q; simp_all
theorem Ring_getPtr_eq (r : List (Option Nat)) (a : RingArea) (rad : Int) (p : Position) :
    Ring.getPtr r a rad p =
      if 0 ≤ slotInt a rad p ∧ slotInt a rad p < r.length then .ok (slotInt a rad p).toNat
      else .error "index out of range" := by
  cases a <;> rfl

theorem getRingArea_radius (k : Nat) (p : Position) (hp : onRing k p) :
    p.getRingArea.2 = 2 * (k : Int) + 1 := by
  obtain ⟨hx, hy, hm⟩ := hp
  rw [getRingArea_cases]
  split_ifs <;> simp only [] <;> omega

theorem Ring_getPtr_onRing (k : Nat) (r : List (Option Nat)) (hr : r.length = 8 * k + 4)
    (p : Position) (hp : onRing k p) :
    Ring.getPtr r p.getRingArea.1 p.getRingArea.2 p = .ok (slotFormula p).toNat ∧
    (slotFormula p).toNat < 8 * k + 4 := by
  have h1 := slotInt_eq k p hp
  have h2 := slotFormula_range k p hp
  rw [Ring_getPtr_eq, h1, hr]
  constructor
  · rw [if_pos]
    constructor
    · exact h2.1
    · push_cast; exact h2.2
  · omega

/-- C26: for every k and every ring holding 8k+4 slots, the index `Ring.getPtr`
computes for a tile centre of ring k (area and radius from `getRingArea`) lies
in [0, 8k+4), and two distinct tile centres of ring k never get the same
index. -/
theorem C26_slot_indices (k : Nat) (r : List (Option Nat)) (hr : r.length = 8 * k + 4)
    (p q : Position) (hp : onRing k p) (hq : onRing k q) :
    ∃ i j, Ring.getPtr r p.getRingArea.1 p.getRingArea.2 p = .ok i ∧
      Ring.getPtr r q.getRingArea.1 q.getRingArea.2 q = .ok j ∧
      i < 8 * k + 4 ∧ j < 8 * k + 4 ∧ (p ≠ q → i ≠ j) := by
  obtain ⟨h1, h2⟩ := Ring_getPtr_onRing k r hr p hp
  obtain ⟨h3, h4⟩ := Ring_getPtr_onRing k r hr q hq
  refine ⟨_, _, h1, h3, h2, h4, ?_⟩
  intro hne heq
  apply hne
  apply slotFormula_inj k p q hp hq
  have := slotFormula_range k p hp
  have := slotFormula_range k q hq
  omega

/-- C26 on ring 1: the tiles (-1.5, 0.5) and (1.5, 1.5) get different slots below 12. -/
theorem C26_slot_indices_witness :
    ∃ i j, Ring.getPtr (List.replicate 12 none) (⟨-3, 1⟩ : Position).getRingArea.1
        (⟨-3, 1⟩ : Position).getRingArea.2 ⟨-3, 1⟩ = .ok i ∧
      Ring.getPtr (List.replicate 12 none) (⟨3, 3⟩ : Position).getRingArea.1
        (⟨3, 3⟩ : Position).getRingArea.2 ⟨3, 3⟩ = .ok j ∧
      i < 8 * 1 + 4 ∧ j < 8 * 1 + 4 ∧ ((⟨-3, 1⟩ : Position) ≠ ⟨3, 3⟩ → i ≠ j) :=
  C26_slot_indices 1 (List.replicate 12 none) (by decide) ⟨-3, 1⟩ ⟨3, 3⟩
    (by unfold onRing; decide) (by unfold onRing; decide)

/-! ## Entity numbers -/

theorem ent_updAt (p q : Plot) (e e2 : Nat) (f : Ent → Ent) (hq : q.ents = updAt p.ents e f) :
    q.ent e2 = if e = e2 ∧ e2 < p.ents.length then f (p.ent e2) else p.ent e2 := by
  simp only [Plot.ent, hq, getD_updAt]

/-- C29: on a heap whose numbers are the set {1..counter}, a `Number()` call on
an entity returns a positive number that the entity then holds; the first call
on an entity gives the next unused integer (counter + 1), a later call returns
the same number and changes nothing, no other entity's number changes, and the
numbers are again the set {1..counter}, so no two entities share one. -/
theorem C29_entity_numbers (p : Plot) (e : Nat) (he : e < p.ents.length) (hinv : NumberInv p) :
    NumberInv (p.Number e).2 ∧ 0 < (p.Number e).1 ∧
    ((p.Number e).2.ent e).EntityNumber = (p.Number e).1 ∧
    ((p.ent e).EntityNumber = 0 → (p.Number e).1 = p.entityNumber + 1) ∧
    (p.Number e).2.Number e = ((p.Number e).1, (p.Number e).2) ∧
    (∀ e2, e2 ≠ e → ((p.Number e).2.ent e2).EntityNumber = (p.ent e2).EntityNumber) := by
  obtain ⟨h1, h2, h3⟩ := hinv
  by_cases h0 : (p.ent e).EntityNumber = 0
  · have hn1 : (p.Number e).1 = p.entityNumber + 1 := by simp [Plot.Number, h0]
    have hqe : (p.Number e).2.ents
        = updAt p.ents e (fun x => { x with EntityNumber := p.entityNumber + 1 }) := by
      simp [Plot.Number, h0]
    have hqn : (p.Number e).2.entityNumber = p.entityNumber + 1 := by simp [Plot.Number, h0]
    rw [hn1]
    generalize (p.Number e).2 = q at hqe hqn ⊢
    have hget : ∀ e2, (q.ent e2).EntityNumber
        = if e = e2 then p.entityNumber + 1 else (p.ent e2).EntityNumber := by
      intro e2
      rw [ent_updAt p q e e2 _ hqe]
      by_cases hee : e = e2
      · subst hee; simp [he]
      · simp [hee]
    refine ⟨⟨?_, ?_, ?_⟩, by simp, ?_, ?_, ?_, ?_⟩
    · intro e2 he2
      rw [hqe, length_updAt] at he2
      rw [hqn]
      rw [hget]
      split
      · simp
      · have := h1 e2 he2; omega
    · intro a b ha hb hab hne
      rw [hqe, length_updAt] at ha hb
      rw [hget] at hab hne
      rw [hget] at hab
      by_cases haa : e = a <;> by_cases hbb : e = b
      · omega
      · rw [if_pos haa, if_neg hbb] at hab
        have := h1 b hb
        omega
      · rw [if_neg haa, if_pos hbb] at hab
        have := h1 a ha
        omega
      · rw [if_neg haa, if_neg hbb] at hab
        rw [if_neg haa] at hne
        exact h2 a b ha hb hab hne
    · intro n hn hle
      rw [hqn] at hle
      by_cases hnn : n = p.entityNumber + 1
      · refine ⟨e, by rw [hqe, length_updAt]; exact he, ?_⟩
        rw [hget]; simp [hnn]
      · obtain ⟨x, hx, hxn⟩ := h3 n hn (by omega)
        refine ⟨x, by rw [hqe, length_updAt]; exact hx, ?_⟩
        rw [hget]
        have : e ≠ x := by
          intro hex; subst hex; omega
        simp [this, hxn]
    · rw [hget]; simp
    · intro _; rfl
    · have hq0 : (q.ent e).EntityNumber = p.entityNumber + 1 := by rw [hget]; simp
      simp [Plot.Number, hq0]
    · intro e2 hne
      rw [hget]
      have : e ≠ e2 := fun h => hne h.symm
      simp [this]
  · have hN : p.Number e = ((p.ent e).EntityNumber, p) := by
      simp [Plot.Number, h0]
    rw [hN]
    refine ⟨⟨h1, h2, h3⟩, by simp only []; omega, rfl, fun h => absurd h h0, hN, fun _ _ => rfl⟩

/-- C29 on a heap of three unnumbered entities: the first call gives 1. -/
theorem C29_entity_numbers_witness :
    0 < (threeEntities.Number 1).1 ∧ (threeEntities.Number 1).1 = threeEntities.entityNumber + 1 :=
  ⟨(C29_entity_numbers threeEntities 1 (by decide)
      ⟨by intro e he; simp [threeEntities] at he; interval_cases e <;> decide,
       by intro a b ha hb _ hne; simp [threeEntities] at ha hb; exfalso; interval_cases a <;> exact hne rfl,
       by intro n hn hle; simp [threeEntities] at hle; omega⟩).2.1,
   (C29_entity_numbers threeEntities 1 (by decide)
      ⟨by intro e he; simp [threeEntities] at he; interval_cases e <;> decide,
       by intro a b ha hb _ hne; simp [threeEntities] at ha hb; exfalso; interval_cases a <;> exact hne rfl,
       by intro n hn hle; simp [threeEntities] at hle; omega⟩).2.2.2.1 (by decide)⟩

/-! ## Ring lengths -/

theorem bind_ok {α β : Type} (x : Except String α) (f : α → Except String β) (b : β)
    (h : (x >>= f) = .ok b) : ∃ a, x = .ok a ∧ f a = .ok b := by
  cases x with
  | error e => cases h
  | ok a => exact ⟨a, rfl, h⟩

theorem Number_rings (p : Plot) (e : Nat) : (p.Number e).2.rings = p.rings := by
  unfold Plot.Number; split <;> rfl

theorem Number_entities (p : Plot) (e : Nat) : (p.Number e).2.entities = p.entities := by
  unfold Plot.Number; split <;> rfl

theorem addNeighbor_rings (p : Plot) (s o : Nat) : (p.addNeighbor s o).rings = p.rings := by
  simp [Plot.addNeighbor, Number_rings]

theorem addNeighbor_entities (p : Plot) (s o : Nat) :
    (p.addNeighbor s o).entities = p.entities := by
  simp [Plot.addNeighbor, Number_entities]

theorem addNeighbors_rings (p : Plot) (s : Nat) (ns : List Nat) :
    (p.addNeighbors s ns).rings = p.rings := by
  induction ns generalizing p with
  | nil => rfl
  | cons n rest ih => simp [Plot.addNeighbors, ih, addNeighbor_rings]

theorem addNeighbors_entities (p : Plot) (s : Nat) (ns : List Nat) :
    (p.addNeighbors s ns).entities = p.entities := by
  induction ns generalizing p with
  | nil => rfl
  | cons n rest ih => simp [Plot.addNeighbors, ih, addNeighbor_entities]

theorem setPtr_ok (p q : Plot) (pos : Position) (v : Option Nat) (h : p.setPtr pos v = .ok q) :
    ∃ r i, p.getPtr pos = .ok (some (r, i)) ∧
      q = { p with rings := updAt p.rings r (fun ring => ring.set i v) } := by
  unfold Plot.setPtr at h
  split at h
  · cases h
  · rename_i r i hg
    injection h with h
    exact ⟨r, i, hg, h.symm⟩
  · cases h

theorem map_length_updAt (l : List (List (Option Nat))) (r : Nat)
    (f : List (Option Nat) → List (Option Nat)) (hf : ∀ x, (f x).length = x.length) :
    (updAt l r f).map List.length = l.map List.length := by
  apply List.ext_getElem?
  intro j
  simp only [List.getElem?_map, getElem?_updAt]
  by_cases hrj : r = j
  · subst hrj
    cases l[r]? <;> simp [hf]
  · simp [hrj]

theorem setPtr_ringLens (p q : Plot) (pos : Position) (v : Option Nat)
    (h : p.setPtr pos v = .ok q) : q.ringLens = p.ringLens := by
  obtain ⟨r, i, _, rfl⟩ := setPtr_ok p q pos v h
  exact map_length_updAt _ _ _ (fun x => by simp)

theorem setAll_ringLens (v : Option Nat) (l : List Position) (p q : Plot)
    (h : p.setAll v l = .ok q) : q.ringLens = p.ringLens := by
  induction l generalizing p with
  | nil => cases h; rfl
  | cons pos rest ih =>
    simp only [Plot.setAll] at h
    split at h
    · rename_i p1 h1
      rw [ih p1 h, setPtr_ringLens p p1 pos v h1]
    · cases h

theorem place_ringLens (p q : Plot) (e : Nat) (pos : Position) (d : Direction)
    (h : p.place e pos d = .ok q) : q.ringLens = p.ringLens := by
  unfold Plot.place at h
  rw [setAll_ringLens _ _ _ _ h]
  simp [Plot.ringLens, Number_rings]

theorem remove_ringLens (p q : Plot) (e : Nat) (h : p.remove e = .ok q) :
    q.ringLens = p.ringLens := by
  unfold Plot.remove at h
  split at h
  · rename_i p1 h1
    cases h
    exact setAll_ringLens _ _ p p1 h1
  · cases h

theorem placeIrregularSubstation_ringLens (p q : Plot) (a o : Position) (v i : Bool) (s : Nat)
    (h : p.placeIrregularSubstation a o v i = .ok (s, q)) : q.ringLens = p.ringLens := by
  unfold Plot.placeIrregularSubstation at h
  dsimp only [Plot.newEnt] at h
  obtain ⟨p1, h1, h⟩ := bind_ok _ _ _ h
  obtain ⟨nb, _, h⟩ := bind_ok _ _ _ h
  have h2 := place_ringLens _ _ _ _ _ h1
  cases nb with
  | none => cases h; exact h2
  | some n =>
    cases h
    unfold Plot.ringLens
    rw [addNeighbor_rings]
    exact h2

theorem placeSubstation_ringLens (p q : Plot) (pos : Position)
    (h : p.placeSubstation pos = .ok q) : q.ringLens = p.ringLens := by
  unfold Plot.placeSubstation at h
  obtain ⟨rb, hrb, h⟩ := bind_ok _ _ _ h
  cases rb with
  | some r =>
    dsimp only at h
    split at h
    · obtain ⟨⟨s1, p1⟩, h1, h⟩ := bind_ok _ _ _ h
      dsimp only at h
      obtain ⟨⟨s2, p2⟩, h2, h⟩ := bind_ok _ _ _ h
      cases h
      have e1 := placeIrregularSubstation_ringLens _ _ _ _ _ _ _ h1
      have e2 := placeIrregularSubstation_ringLens _ _ _ _ _ _ _ h2
      unfold Plot.ringLens at *
      rw [addNeighbor_rings, e2, e1]
    · obtain ⟨⟨s1, p1⟩, h1, h⟩ := bind_ok _ _ _ h
      dsimp only at h
      obtain ⟨⟨s2, p2⟩, h2, h⟩ := bind_ok _ _ _ h
      cases h
      have e1 := placeIrregularSubstation_ringLens _ _ _ _ _ _ _ h1
      have e2 := placeIrregularSubstation_ringLens _ _ _ _ _ _ _ h2
      unfold Plot.ringLens at *
      rw [addNeighbor_rings, e2, e1]
  | none =>
    dsimp only [Plot.newEnt] at h
    obtain ⟨p1, h1, h⟩ := bind_ok _ _ _ h
    obtain ⟨ns, h2, h⟩ := bind_ok _ _ _ h
    cases h
    have e1 := place_ringLens _ _ _ _ _ h1
    unfold Plot.ringLens at *
    rw [addNeighbors_rings, e1]

theorem placeSubstations_ringLens (l : List Position) (p q : Plot)
    (h : p.placeSubstations l = .ok q) : q.ringLens = p.ringLens := by
  induction l generalizing p with
  | nil => cases h; rfl
  | cons pos rest ih =>
    simp only [Plot.placeSubstations] at h
    split at h
    · rename_i p1 h1
      rw [ih p1 h, placeSubstation_ringLens p p1 pos h1]
    · cases h

theorem placeRoboport_ringLens (p q : Plot) (pos : Position)
    (h : p.placeRoboport pos = .ok q) : q.ringLens = p.ringLens := by
  unfold Plot.placeRoboport at h
  dsimp only [Plot.newEnt] at h
  rw [place_ringLens _ _ _ _ _ h]
  unfold Plot.ringLens
  rw [Number_rings]

seal Plot.placeRoboport in
theorem placeRoboports_cons (p : Plot) (pos : Position) (rest : List Position) :
    p.placeRoboports (pos :: rest) =
      match p.placeRoboport pos with
      | .ok p3 => p3.placeRoboports rest
      | .error msg => .error msg := rfl

theorem placeRoboports_ringLens (l : List Position) (p q : Plot)
    (h : p.placeRoboports l = .ok q) : q.ringLens = p.ringLens := by
  induction l generalizing p with
  | nil => cases h; rfl
  | cons pos rest ih =>
    rw [placeRoboports_cons] at h
    split at h
    · rename_i p1 h1
      rw [ih p1 h, placeRoboport_ringLens p p1 pos h1]
    · cases h

theorem expand_ringLens (p q : Plot) (h : p.expand = .ok q) :
    q.ringLens = p.ringLens ++
      (List.range ((expandPlan p.rings.length).1 - p.rings.length)).map
        (fun i => (p.rings.length + i) * 8 + 4) := by
  unfold Plot.expand at h
  dsimp only at h
  rcases hplan : expandPlan p.rings.length with ⟨nl, sd, rd⟩
  rw [hplan] at h
  dsimp only at h
  have e0 : ∀ p1 : Plot, p1.rings = p.rings ++ List.map
        (fun i => List.replicate ((p.rings.length + i) * 8 + 4) none)
        (List.range (nl - p.rings.length)) →
      p1.ringLens = p.ringLens ++
        (List.range (nl - p.rings.length)).map (fun i => (p.rings.length + i) * 8 + 4) := by
    intro p1 hp1
    simp [Plot.ringLens, hp1, Function.comp_def]
  split at h
  · obtain ⟨p1, h1, h⟩ := bind_ok _ _ _ h
    have e1 := placeRoboports_ringLens _ _ _ h1
    split at h
    · rw [placeSubstations_ringLens _ _ _ h, e1]; exact e0 _ rfl
    · cases h; rw [e1]; exact e0 _ rfl
  · obtain ⟨p1, h1, h⟩ := bind_ok _ _ _ h
    cases h1
    split at h
    · rw [placeSubstations_ringLens _ _ _ h, e0 _ rfl]
    · cases h; exact e0 _ rfl

theorem expandPlan_grows (n : Nat) : n < (expandPlan n).1 := by
  unfold expandPlan
  lift_lets
  intro newLen sd newLen2 rd step r
  have hstep : ∀ st : Nat × Nat, st.1 < (step st).1 := by
    intro st
    simp only [step]
    split_ifs <;> dsimp only <;> omega
  have h1 : n < newLen2 := by
    simp only [newLen2, newLen]
    split_ifs <;> omega
  split_ifs
  · have a1 := hstep (newLen2, sd)
    have a2 := hstep (step (newLen2, sd))
    have a3 := hstep (step (step (newLen2, sd)))
    have a4 := hstep (step (step (step (newLen2, sd))))
    have a5 := hstep (step (step (step (step (newLen2, sd)))))
    have a6 := hstep (step (step (step (step (step (newLen2, sd))))))
    show n < r.1
    simp only [r]
    simp only [] at a1
    omega
  · exact h1

/-- The rings of a plot have the lengths 4, 12, 20, ... -/
theorem ringLens_run (ops : List PlotOp) (p q : Plot) (h : p.run ops = .ok q)
    (hp : p.ringLens = (List.range p.rings.length).map (fun k => 8 * k + 4)) :
    q.ringLens = (List.range q.rings.length).map (fun k => 8 * k + 4) := by
  induction ops generalizing p with
  | nil => cases h; exact hp
  | cons op rest ih =>
    simp only [Plot.run] at h
    split at h
    · rename_i p1 h1
      apply ih p1 h
      have hlen : ∀ a b : Plot, a.ringLens = b.ringLens → a.rings.length = b.rings.length := by
        intro a b hab
        have := congrArg List.length hab
        simpa [Plot.ringLens] using this
      cases op with
      | expand =>
        have e := expand_ringLens p p1 h1
        have hl : p1.rings.length = (expandPlan p.rings.length).1 := by
          have := congrArg List.length e
          simp [Plot.ringLens] at this
          have := expandPlan_grows p.rings.length
          omega
        rw [e, hp, hl]
        have hg := expandPlan_grows p.rings.length
        obtain ⟨m, hm⟩ : ∃ m, (expandPlan p.rings.length).1 = p.rings.length + m :=
          ⟨(expandPlan p.rings.length).1 - p.rings.length, by omega⟩
        rw [hm, List.range_add]
        simp [Function.comp_def]
        intro a _
        omega
      | place e pos d =>
        have e := place_ringLens p p1 e pos d h1
        rw [e, hlen p1 p e]; exact hp
      | remove e =>
        have e := remove_ringLens p p1 e h1
        rw [e, hlen p1 p e]; exact hp
    · cases h

theorem setup_ringLens (p0 p : Planner) (h : p0.setup = .ok p) :
    p.toPlot.ringLens = (List.range p.rings.length).map (fun k => 8 * k + 4) := by
  unfold Planner.setup at h
  dsimp only [Plot.newEnt] at h
  obtain ⟨p1, h1, h⟩ := bind_ok _ _ _ h
  have e1 := place_ringLens _ _ _ _ _ h1
  obtain ⟨⟨s1, p2⟩, h2, h⟩ := bind_ok _ _ _ h
  have e2 := placeIrregularSubstation_ringLens _ _ _ _ _ _ _ h2
  dsimp only at h
  obtain ⟨⟨s2, p3⟩, h3, h⟩ := bind_ok _ _ _ h
  have e3 := placeIrregularSubstation_ringLens _ _ _ _ _ _ _ h3
  cases h
  have e4 : (p3.addNeighbor s1 s2).ringLens = [4, 12, 20, 28, 36] := by
    unfold Plot.ringLens at *
    rw [addNeighbor_rings, e3, e2, e1]
    rfl
  have hl := congrArg List.length e4
  simp only [Plot.ringLens, List.length_map] at hl
  show (p3.addNeighbor s1 s2).ringLens = (List.range (p3.addNeighbor s1 s2).rings.length).map _
  rw [e4, hl]
  rfl

/-- C25: in the plot set up by `plan`, after any sequence of `expand`, `place`
and `remove` calls that does not panic, ring `k` holds exactly `8k+4` slots for
every `k < len(rings)`, and `Ring.radius()` of ring `k` is `k + 1/2` (`2k+1`
half tiles). -/
theorem C25_ring_lengths (p0 p : Planner) (ops : List PlotOp) (q : Plot)
    (hs : p0.setup = .ok p) (hr : p.toPlot.run ops = .ok q) (k : Nat) (hk : k < q.rings.length) :
    (q.rings.getD k []).length = 8 * k + 4 ∧ Ring.radius (q.rings.getD k []) = 2 * (k : Int) + 1 := by
  have h := ringLens_run ops p.toPlot q hr (setup_ringLens p0 p hs)
  have hk2 := congrArg (fun l => l[k]?) h
  simp only [Plot.ringLens, List.getElem?_map, List.getElem?_range hk, Option.map_some'] at hk2
  have hlen : (q.rings.getD k []).length = 8 * k + 4 := by
    rw [List.getD_eq_getElem?_getD]
    cases hq : q.rings[k]? with
    | none => rw [hq] at hk2; simp at hk2
    | some r => rw [hq] at hk2; simpa using hk2
  refine ⟨hlen, ?_⟩
  unfold Ring.radius
  rw [hlen]
  have : Int.tdiv (((8 * k + 4 : Nat) : Int) - 4) 8 = (k : Int) := by
    rw [Int.tdiv_eq_ediv (by omega) (by decide)]
    omega
  rw [this]

/-- C25 on the plot of `plan` after one `expand`: ring 5 holds 44 slots. -/
theorem C25_ring_lengths_witness :
    ∃ q, setupPlanner.toPlot.run [.expand] = .ok q ∧ (q.rings.getD 5 []).length = 8 * 5 + 4 ∧
      Ring.radius (q.rings.getD 5 []) = 2 * ((5 : Nat) : Int) + 1 := by
  have hs : ({} : Planner).setup = .ok setupPlanner := rfl
  have hr : setupPlanner.toPlot.run [.expand] =
      .ok (match setupPlanner.toPlot.run [.expand] with | .ok q => q | .error _ => {}) := rfl
  exact ⟨_, hr, C25_ring_lengths {} setupPlanner [.expand] _ hs hr 5 (by decide)⟩

/-! ## Footprints and rings -/

theorem positions_vertical (p : Position) :
    (p.getBounds 2 1).positions = [⟨p.X, p.Y - 1⟩, ⟨p.X, p.Y + 1⟩] := by
  have h1 : (p.X + 1 - (p.X - 1 + 1) + 1) / 2 = 1 := by omega
  have h2 : (p.Y + 2 - (p.Y - 2 + 1) + 1) / 2 = 2 := by omega
  simp [Bounds.positions, Bounds.columns, Position.getBounds, coordRange, h1, h2, List.range_succ]
  constructor <;> omega

theorem positions_horizontal (p : Position) :
    (p.getBounds 1 2).positions = [⟨p.X - 1, p.Y⟩, ⟨p.X + 1, p.Y⟩] := by
  have h1 : (p.X + 2 - (p.X - 2 + 1) + 1) / 2 = 2 := by omega
  have h2 : (p.Y + 1 - (p.Y - 1 + 1) + 1) / 2 = 1 := by omega
  simp [Bounds.positions, Bounds.columns, Position.getBounds, coordRange, h1, h2, List.range_succ]
  constructor <;> omega

theorem toRingIdx_onRing (k : Nat) (t : Position) (h : onRing k t) : t.toRingIdx = k := by
  obtain ⟨_, _, h3⟩ := h
  unfold Position.toRingIdx
  have hx := absI_nonneg t.X
  have hy := absI_nonneg t.Y
  dsimp only
  split
  · rw [toInt_of_nonneg hx]; omega
  · rw [toInt_of_nonneg hy]; omega

theorem sizeEven_eq (k : Nat) (r : List (Option Nat)) (hr : r.length = 8 * k + 4) :
    Ring.sizeEven r = (2 * (k : Int) + 2, 2 * (k : Int)) := by
  unfold Ring.sizeEven
  rw [hr]
  have : Int.tdiv (((8 * k + 4 : Nat) : Int) - 4) 4 = 2 * (k : Int) := by
    rw [Int.tdiv_eq_ediv (by omega) (by decide)]
    omega
  rw [this]

theorem radius_eq (k : Nat) (r : List (Option Nat)) (hr : r.length = 8 * k + 4) :
    Ring.radius r = 2 * (k : Int) + 1 := by
  unfold Ring.radius
  rw [hr]
  have : Int.tdiv (((8 * k + 4 : Nat) : Int) - 4) 8 = (k : Int) := by
    rw [Int.tdiv_eq_ediv (by omega) (by decide)]
    omega
  rw [this]

theorem onRing_of_x (k : Nat) (x y : Int) (hx : x = 2 * (k : Int) + 1 ∨ x = -(2 * (k : Int) + 1))
    (hy : y % 2 = 1) (h : -(2 * (k : Int) + 1) ≤ y ∧ y ≤ 2 * (k : Int) + 1) : onRing k ⟨x, y⟩ := by
  have hx2 : x % 2 = 1 := by omega
  refine ⟨hx2, hy, ?_⟩
  dsimp only
  have h1 : absI x = 2 * (k : Int) + 1 := by unfold absI; split <;> omega
  have h2 : absI y ≤ 2 * (k : Int) + 1 := by unfold absI; split <;> omega
  rw [h1]; exact max_eq_left h2

theorem onRing_of_y (k : Nat) (x y : Int) (hy : y = 2 * (k : Int) + 1 ∨ y = -(2 * (k : Int) + 1))
    (hx : x % 2 = 1) (h : -(2 * (k : Int) + 1) ≤ x ∧ x ≤ 2 * (k : Int) + 1) : onRing k ⟨x, y⟩ := by
  have hy2 : y % 2 = 1 := by omega
  refine ⟨hx, hy2, ?_⟩
  dsimp only
  have h1 : absI y = 2 * (k : Int) + 1 := by unfold absI; split <;> omega
  have h2 : absI x ≤ 2 * (k : Int) + 1 := by unfold absI; split <;> omega
  rw [h1]; exact max_eq_right h2

/-- C27 (amended): for every ring holding 8k+4 slots and every even `pl` in
`[0, 8k+4)`, the straight slot `Ring.getNext` hands out has two tiles and both
are tile centres of ring `k` (ring index `k`). -/
theorem C27_straight_slots_in_ring (k : Nat) (r : List (Option Nat)) (hr : r.length = 8 * k + 4)
    (pl : Int) (h0 : 0 ≤ pl) (h2 : pl % 2 = 0) (hlt : pl < 8 * (k : Int) + 4) :
    (Ring.slotTiles r pl).length = 2 ∧
    ∀ t, t ∈ Ring.slotTiles r pl → onRing k t ∧ t.toRingIdx = k := by
  have key : (Ring.slotTiles r pl).length = 2 ∧ ∀ t, t ∈ Ring.slotTiles r pl → onRing k t := by
    unfold Ring.slotTiles Ring.getNext
    rw [sizeEven_eq k r hr, radius_eq k r hr]
    dsimp only
    have hS : isVertical DirectionSouth = true := by decide
    have hN : isVertical DirectionNorth = true := by decide
    have hE : isVertical DirectionEast = false := by decide
    have hW : isVertical DirectionWest = false := by decide
    have hS6 : isVertical ((DirectionSouth + 6) % 8) = false := by decide
    have hN6 : isVertical ((DirectionNorth + 6) % 8) = false := by decide
    have hE6 : isVertical ((DirectionEast + 6) % 8) = true := by decide
    have hW6 : isVertical ((DirectionWest + 6) % 8) = true := by decide
    by_cases c1 : pl < 2 * (k : Int) + 2
    · rw [if_pos c1]; dsimp only
      by_cases hp :
          (⟨-(2 * (k : Int) + 1), 2 * pl - (2 * (k : Int) + 1) + 1⟩ : Position).toRingIdx % 2 = 0
      · simp only [hp, if_true, if_false, hS6, hS, hN6, hN, hE6, hE, hW6, hW, positions_horizontal,
          positions_vertical, Bool.false_eq_true, List.length_cons, List.length_nil,
          List.mem_cons, List.mem_singleton, List.not_mem_nil, or_false, true_and]
        rintro t (rfl | rfl) <;>
          first
          | (apply onRing_of_x <;> omega)
          | (apply onRing_of_y <;> omega)
      · simp only [hp, if_true, if_false, hS6, hS, hN6, hN, hE6, hE, hW6, hW, positions_horizontal,
          positions_vertical, Bool.false_eq_true, List.length_cons, List.length_nil,
          List.mem_cons, List.mem_singleton, List.not_mem_nil, or_false, true_and]
        rintro t (rfl | rfl) <;>
          first
          | (apply onRing_of_x <;> omega)
          | (apply onRing_of_y <;> omega)
    · rw [if_neg c1]
      by_cases c2 : pl - (2 * (k : Int) + 2) < 2 * (k : Int)
      · rw [if_pos c2]; dsimp only
        by_cases hp :
            (⟨2 * (pl - (2 * (k : Int) + 2)) - (2 * (k : Int) + 1) + 3, 2 * (k : Int) + 1⟩ : Position).toRingIdx % 2 = 0
        · simp only [hp, if_true, if_false, hS6, hS, hN6, hN, hE6, hE, hW6, hW, positions_horizontal,
            positions_vertical, Bool.false_eq_true, List.length_cons, List.length_nil,
            List.mem_cons, List.mem_singleton, List.not_mem_nil, or_false, true_and]
          rintro t (rfl | rfl) <;>
            first
            | (apply onRing_of_x <;> omega)
            | (apply onRing_of_y <;> omega)
        · simp only [hp, if_true, if_false, hS6, hS, hN6, hN, hE6, hE, hW6, hW, positions_horizontal,
            positions_vertical, Bool.false_eq_true, List.length_cons, List.length_nil,
            List.mem_cons, List.mem_singleton, List.not_mem_nil, or_false, true_and]
          rintro t (rfl | rfl) <;>
            first
            | (apply onRing_of_x <;> omega)
            | (apply onRing_of_y <;> omega)
      · rw [if_neg c2]
        by_cases c3 : pl - (2 * (k : Int) + 2) - 2 * (k : Int) < 2 * (k : Int) + 2
        · rw [if_pos c3]; dsimp only
          by_cases hp :
              (⟨2 * (k : Int) + 1, -(2 * (pl - (2 * (k : Int) + 2) - 2 * (k : Int)) - (2 * (k : Int) + 1) + 1)⟩ : Position).toRingIdx % 2 = 0
          · simp only [hp, if_true, if_false, hS6, hS, hN6, hN, hE6, hE, hW6, hW, positions_horizontal,
              positions_vertical, Bool.false_eq_true, List.length_cons, List.length_nil,
              List.mem_cons, List.mem_singleton, List.not_mem_nil, or_false, true_and]
            rintro t (rfl | rfl) <;>
              first
              | (apply onRing_of_x <;> omega)
              | (apply onRing_of_y <;> omega)
          · simp only [hp, if_true, if_false, hS6, hS, hN6, hN, hE6, hE, hW6, hW, positions_horizontal,
              positions_vertical, Bool.false_eq_true, List.length_cons, List.length_nil,
              List.mem_cons, List.mem_singleton, List.not_mem_nil, or_false, true_and]
            rintro t (rfl | rfl) <;>
              first
              | (apply onRing_of_x <;> omega)
              | (apply onRing_of_y <;> omega)
        · rw [if_neg c3]
          dsimp only
          by_cases hp :
              (⟨-(2 * (pl - (2 * (k : Int) + 2) - 2 * (k : Int) - (2 * (k : Int) + 2)) - (2 * (k : Int) + 1) + 3), -(2 * (k : Int) + 1)⟩ : Position).toRingIdx % 2 = 0
          · simp only [hp, if_true, if_false, hS6, hS, hN6, hN, hE6, hE, hW6, hW, positions_horizontal,
              positions_vertical, Bool.false_eq_true, List.length_cons, List.length_nil,
              List.mem_cons, List.mem_singleton, List.not_mem_nil, or_false, true_and]
            rintro t (rfl | rfl) <;>
              first
              | (apply onRing_of_x <;> omega)
              | (apply onRing_of_y <;> omega)
          · simp only [hp, if_true, if_false, hS6, hS, hN6, hN, hE6, hE, hW6, hW, positions_horizontal,
              positions_vertical, Bool.false_eq_true, List.length_cons, List.length_nil,
              List.mem_cons, List.mem_singleton, List.not_mem_nil, or_false, true_and]
            rintro t (rfl | rfl) <;>
              first
              | (apply onRing_of_x <;> omega)
              | (apply onRing_of_y <;> omega)
  exact ⟨key.1, fun t ht => ⟨key.2 t ht, toRingIdx_onRing k t (key.2 t ht)⟩⟩

/-- C27 (amended) on ring 1: the slot for `pl = 4` has two tiles, both of ring 1. -/
theorem C27_straight_slots_witness :
    (Ring.slotTiles (List.replicate 12 none) 4).length = 2 ∧
    ∀ t, t ∈ Ring.slotTiles (List.replicate 12 none) 4 → onRing 1 t ∧ t.toRingIdx = ((1 : Nat) : Int) :=
  C27_straight_slots_in_ring 1 (List.replicate 12 none) (by decide) 4 (by decide) (by decide)
    (by decide)

/-- C27 as stated fails: starting from the plot of `plan`, the thirteenth
`expand` (17 rings become 20) places substations at distance 18; the first of
them, entity 3 at (0, 18), is in the placement vector and its four tiles lie in
the rings 17 and 18.  (The heap held three entities before that call.) -/
theorem C27_substation_spans_two_rings :
    (setupPlanner.toPlot.run (List.replicate 12 .expand)).toOption.map
        (fun q => (q.rings.length, q.ents.length)) = some (17, 3) ∧
    (setupPlanner.toPlot.run (List.replicate 13 .expand)).toOption.map
        (fun q => (q.rings.length, (q.ent 3).kind, (q.ent 3).Position))
      = some (20, .substation, ⟨0, 36⟩) ∧
    (setupPlanner.toPlot.run (List.replicate 13 .expand)).toOption.map
        (fun q => (q.entities.contains 3, q.footprintRings 3, q.inOneRing 3))
      = some (true, [some 17, some 18, some 17, some 18], false) := by
  refine ⟨?_, ?_, ?_⟩ <;> decide!

/-! ## Substations of `expand` -/

theorem keeps_refl (a : Ent) : Ent.keeps a a := ⟨rfl, rfl, rfl, fun _ => rfl, fun _ h => h⟩

theorem keeps_trans {a b c : Ent} (h1 : Ent.keeps a b) (h2 : Ent.keeps b c) : Ent.keeps a c := by
  obtain ⟨a1, a2, a3, a4, a5⟩ := h1
  obtain ⟨b1, b2, b3, b4, b5⟩ := h2
  refine ⟨b1.trans a1, b2.trans a2, b3.trans a3, ?_, fun n hn => b5 n (a5 n hn)⟩
  intro h
  have := a4 h
  rw [b4 (by rw [this]; exact h), this]

theorem Number_ents_length (p : Plot) (e : Nat) : (p.Number e).2.ents.length = p.ents.length := by
  unfold Plot.Number; split
  · simp [length_updAt]
  · rfl

theorem Number_ents (p : Plot) (e : Nat) :
    (p.Number e).2.ents = if (p.ent e).EntityNumber = 0 then
      updAt p.ents e (fun x => { x with EntityNumber := p.entityNumber + 1 }) else p.ents := by
  unfold Plot.Number; split <;> rfl

theorem Number_keeps (p : Plot) (e e2 : Nat) : Ent.keeps (p.ent e2) ((p.Number e).2.ent e2) := by
  by_cases h0 : (p.ent e).EntityNumber = 0
  · rw [ent_updAt p (p.Number e).2 e e2 _ (by rw [Number_ents, if_pos h0])]
    split
    · rename_i hc
      obtain ⟨rfl, _⟩ := hc
      exact ⟨rfl, rfl, rfl, fun h => absurd h0 h, fun _ h => h⟩
    · exact keeps_refl _
  · have : (p.Number e).2 = p := by unfold Plot.Number; rw [if_neg h0]
    rw [this]
    exact keeps_refl _

theorem Number_fst (p : Plot) (e : Nat) (he : e < p.ents.length) :
    ((p.Number e).2.ent e).EntityNumber = (p.Number e).1 ∧ (p.Number e).1 ≠ 0 := by
  by_cases h0 : (p.ent e).EntityNumber = 0
  · have h1 : (p.Number e).1 = p.entityNumber + 1 := by unfold Plot.Number; rw [if_pos h0]
    rw [ent_updAt p (p.Number e).2 e e _ (by rw [Number_ents, if_pos h0]), h1]
    simp [he]
  · have : p.Number e = ((p.ent e).EntityNumber, p) := by unfold Plot.Number; rw [if_neg h0]
    rw [this]
    exact ⟨rfl, h0⟩

theorem neighbor_upd (p q : Plot) (s n : Nat)
    (hq : q.ents = updAt p.ents s (fun x => { x with Neighbors := x.Neighbors ++ [n] })) (e2 : Nat) :
    Ent.keeps (p.ent e2) (q.ent e2) ∧ (e2 = s → s < p.ents.length → n ∈ (q.ent s).Neighbors) := by
  constructor
  · rw [ent_updAt p q s e2 _ hq]
    split
    · exact ⟨rfl, rfl, rfl, fun _ => rfl, fun m hm => by simp [hm]⟩
    · exact keeps_refl _
  · intro h1 h2
    subst h1
    rw [ent_updAt p q e2 e2 _ hq]
    simp [h2]

/-- The four steps of `addNeighbor`. -/
theorem addNeighbor_steps (p : Plot) (s o : Nat) :
    ∃ p2 p4 : Plot,
      p2.ents = updAt (p.Number o).2.ents s
        (fun x => { x with Neighbors := x.Neighbors ++ [(p.Number o).1] }) ∧
      p4.ents = updAt (p2.Number s).2.ents o
        (fun x => { x with Neighbors := x.Neighbors ++ [(p2.Number s).1] }) ∧
      p.addNeighbor s o = p4 :=
  ⟨_, _, rfl, rfl, rfl⟩

theorem addNeighbor_ents_length (p : Plot) (s o : Nat) :
    (p.addNeighbor s o).ents.length = p.ents.length := by
  obtain ⟨p2, p4, h2, h4, h⟩ := addNeighbor_steps p s o
  rw [h, h4, length_updAt, Number_ents_length, h2, length_updAt, Number_ents_length]

theorem addNeighbor_keeps (p : Plot) (s o e2 : Nat) :
    Ent.keeps (p.ent e2) ((p.addNeighbor s o).ent e2) := by
  obtain ⟨p2, p4, h2, h4, h⟩ := addNeighbor_steps p s o
  rw [h]
  have k1 := Number_keeps p o e2
  have k2 := (neighbor_upd (p.Number o).2 p2 s (p.Number o).1 h2 e2).1
  have k3 := Number_keeps p2 s e2
  have k4 := (neighbor_upd (p2.Number s).2 p4 o (p2.Number s).1 h4 e2).1
  exact keeps_trans (keeps_trans (keeps_trans k1 k2) k3) k4

theorem addNeighbor_lists (p : Plot) (s o : Nat) (hs : s < p.ents.length) (ho : o < p.ents.length) :
    ((p.addNeighbor s o).ent o).EntityNumber ≠ 0 ∧ ((p.addNeighbor s o).ent s).EntityNumber ≠ 0 ∧
    ((p.addNeighbor s o).ent o).EntityNumber ∈ ((p.addNeighbor s o).ent s).Neighbors ∧
    ((p.addNeighbor s o).ent s).EntityNumber ∈ ((p.addNeighbor s o).ent o).Neighbors := by
  obtain ⟨p2, p4, hp2e, hp4e, h⟩ := addNeighbor_steps p s o
  rw [h]
  have l1 : (p.Number o).2.ents.length = p.ents.length := Number_ents_length p o
  have l2 : p2.ents.length = p.ents.length := by rw [hp2e, length_updAt, l1]
  have l3 : (p2.Number s).2.ents.length = p.ents.length := by rw [Number_ents_length, l2]
  obtain ⟨n1, n1z⟩ := Number_fst p o ho
  have k2 := fun e => (neighbor_upd (p.Number o).2 p2 s (p.Number o).1 hp2e e).1
  have k3 := fun e => Number_keeps p2 s e
  have k4 := fun e => (neighbor_upd (p2.Number s).2 p4 o (p2.Number s).1 hp4e e).1
  have k24 := fun e => keeps_trans (keeps_trans (k2 e) (k3 e)) (k4 e)
  have no4 : (p4.ent o).EntityNumber = (p.Number o).1 := by
    rw [(k24 o).2.2.2.1 (by rw [n1]; exact n1z), n1]
  obtain ⟨n3, n3z⟩ := Number_fst p2 s (by rw [l2]; exact hs)
  have ns4 : (p4.ent s).EntityNumber = (p2.Number s).1 := by
    rw [(k4 s).2.2.2.1 (by rw [n3]; exact n3z), n3]
  have m2 : (p.Number o).1 ∈ (p2.ent s).Neighbors :=
    (neighbor_upd (p.Number o).2 p2 s (p.Number o).1 hp2e s).2 rfl (by rw [l1]; exact hs)
  have m4 : (p2.Number s).1 ∈ (p4.ent o).Neighbors :=
    (neighbor_upd (p2.Number s).2 p4 o (p2.Number s).1 hp4e o).2 rfl (by rw [l3]; exact ho)
  refine ⟨by rw [no4]; exact n1z, by rw [ns4]; exact n3z, ?_, ?_⟩
  · rw [no4]
    exact (keeps_trans (k3 s) (k4 s)).2.2.2.2 _ m2
  · rw [ns4]; exact m4

theorem setPtr_ents (p q : Plot) (pos : Position) (v : Option Nat) (h : p.setPtr pos v = .ok q) :
    q.ents = p.ents ∧ q.entities = p.entities := by
  obtain ⟨r, i, _, rfl⟩ := setPtr_ok p q pos v h
  exact ⟨rfl, rfl⟩

theorem setAll_ents (v : Option Nat) (l : List Position) (p q : Plot)
    (h : p.setAll v l = .ok q) : q.ents = p.ents ∧ q.entities = p.entities := by
  induction l generalizing p with
  | nil => cases h; exact ⟨rfl, rfl⟩
  | cons pos rest ih =>
    simp only [Plot.setAll] at h
    split at h
    · rename_i p1 h1
      obtain ⟨a, b⟩ := ih p1 h
      obtain ⟨c, d⟩ := setPtr_ents p p1 pos v h1
      exact ⟨a.trans c, b.trans d⟩
    · cases h

theorem place_ents (p q : Plot) (e : Nat) (pos : Position) (d : Direction)
    (h : p.place e pos d = .ok q) :
    q.ents = updAt (p.Number e).2.ents e (fun x => { x with Position := pos, Direction := d }) ∧
    q.entities = p.entities ++ [e] := by
  unfold Plot.place at h
  obtain ⟨a, b⟩ := setAll_ents _ _ _ _ h
  refine ⟨a, ?_⟩
  rw [b]
  show (p.Number e).2.entities ++ [e] = _
  rw [Number_entities]

/-- Placing a freshly allocated entity. -/
theorem place_new (p q : Plot) (k : EntityKind) (pos : Position) (d : Direction)
    (h : (p.newEnt k).2.place p.ents.length pos d = .ok q) :
    q.ents.length = p.ents.length + 1 ∧ q.entities = p.entities ++ [p.ents.length] ∧
    (∀ e, e < p.ents.length → Ent.keeps (p.ent e) (q.ent e)) ∧
    (q.ent p.ents.length).kind = k ∧ (q.ent p.ents.length).Position = pos ∧
    (q.ent p.ents.length).EntityNumber ≠ 0 := by
  obtain ⟨he, hent⟩ := place_ents _ _ _ _ _ h
  have hl : (p.newEnt k).2.ents.length = p.ents.length + 1 := by simp [Plot.newEnt]
  have hlt : p.ents.length < (p.newEnt k).2.ents.length := by omega
  have hq : ∀ e, q.ent e = if p.ents.length = e ∧ e < ((p.newEnt k).2.Number p.ents.length).2.ents.length
      then { ((p.newEnt k).2.Number p.ents.length).2.ent e with Position := pos, Direction := d }
      else ((p.newEnt k).2.Number p.ents.length).2.ent e := fun e => ent_updAt _ q _ e _ he
  have hnew : ∀ e, e < p.ents.length → (p.newEnt k).2.ent e = p.ent e := by
    intro e hlt2
    simp [Plot.newEnt, Plot.ent, List.getD_eq_getElem?_getD, List.getElem?_append_left hlt2]
  have hnew2 : (p.newEnt k).2.ent p.ents.length = { kind := k } := by
    simp [Plot.newEnt, Plot.ent, List.getD_eq_getElem?_getD]
  refine ⟨by rw [he, length_updAt, Number_ents_length, hl], hent, ?_, ?_, ?_, ?_⟩
  · intro e hlt2
    rw [hq e, if_neg (by omega), ← hnew e hlt2]
    exact Number_keeps _ _ _
  · rw [hq, if_pos ⟨rfl, by rw [Number_ents_length]; exact hlt⟩]
    show (((p.newEnt k).2.Number p.ents.length).2.ent p.ents.length).kind = k
    rw [(Number_keeps _ _ _).1, hnew2]
  · rw [hq, if_pos ⟨rfl, by rw [Number_ents_length]; exact hlt⟩]
  · rw [hq, if_pos ⟨rfl, by rw [Number_ents_length]; exact hlt⟩]
    show (((p.newEnt k).2.Number p.ents.length).2.ent p.ents.length).EntityNumber ≠ 0
    obtain ⟨n1, n1z⟩ := Number_fst (p.newEnt k).2 p.ents.length hlt
    rw [n1]; exact n1z

theorem placeIrregularSubstation_frame (p q : Plot) (a o : Position) (v i : Bool) (s : Nat)
    (h : p.placeIrregularSubstation a o v i = .ok (s, q)) :
    s = p.ents.length ∧ q.ents.length = p.ents.length + 1 ∧ q.entities = p.entities ++ [s] ∧
    (∀ e, e < p.ents.length → Ent.keeps (p.ent e) (q.ent e)) ∧
    (q.ent s).kind = .substation ∧ (q.ent s).Position = a ∧ (q.ent s).EntityNumber ≠ 0 := by
  unfold Plot.placeIrregularSubstation at h
  dsimp only [Plot.newEnt] at h
  obtain ⟨p1, h1, h⟩ := bind_ok _ _ _ h
  obtain ⟨nb, _, h⟩ := bind_ok _ _ _ h
  obtain ⟨f1, f2, f3, f4, f5, f6⟩ := place_new p p1 .substation a DirectionDefault h1
  cases nb with
  | none => cases h; exact ⟨rfl, f1, f2, f3, f4, f5, f6⟩
  | some n =>
    cases h
    have k := fun e => addNeighbor_keeps p1 p.ents.length n e
    refine ⟨rfl, by rw [addNeighbor_ents_length, f1], by rw [addNeighbor_entities, f2],
      fun e he => keeps_trans (f3 e he) (k e), ?_, ?_, ?_⟩
    · rw [(k _).1, f4]
    · rw [(k _).2.1, f5]
    · rw [(k _).2.2.2.1 f6]; exact f6

theorem addNeighbors_frame (ns : List Nat) (p : Plot) (s : Nat) (hs : s < p.ents.length) :
    (p.addNeighbors s ns).ents.length = p.ents.length ∧
    (∀ e, Ent.keeps (p.ent e) ((p.addNeighbors s ns).ent e)) ∧
    (∀ n, n ∈ ns → n < p.ents.length →
      ((p.addNeighbors s ns).ent n).EntityNumber ≠ 0 ∧
      ((p.addNeighbors s ns).ent s).EntityNumber ≠ 0 ∧
      ((p.addNeighbors s ns).ent n).EntityNumber ∈ ((p.addNeighbors s ns).ent s).Neighbors ∧
      ((p.addNeighbors s ns).ent s).EntityNumber ∈ ((p.addNeighbors s ns).ent n).Neighbors) := by
  induction ns generalizing p with
  | nil => exact ⟨rfl, fun e => keeps_refl _, fun n hn => by cases hn⟩
  | cons m rest ih =>
    have hl := addNeighbor_ents_length p s m
    obtain ⟨i1, i2, i3⟩ := ih (p.addNeighbor s m) (by rw [hl]; exact hs)
    refine ⟨by show ((p.addNeighbor s m).addNeighbors s rest).ents.length = _; rw [i1, hl],
      fun e => keeps_trans (addNeighbor_keeps p s m e) (i2 e), ?_⟩
    intro n hn hnl
    show (((p.addNeighbor s m).addNeighbors s rest).ent n).EntityNumber ≠ 0 ∧
      (((p.addNeighbor s m).addNeighbors s rest).ent s).EntityNumber ≠ 0 ∧
      (((p.addNeighbor s m).addNeighbors s rest).ent n).EntityNumber ∈
        (((p.addNeighbor s m).addNeighbors s rest).ent s).Neighbors ∧
      (((p.addNeighbor s m).addNeighbors s rest).ent s).EntityNumber ∈
        (((p.addNeighbor s m).addNeighbors s rest).ent n).Neighbors
    by_cases hm : n = m
    · subst hm
      obtain ⟨a1, a2, a3, a4⟩ := addNeighbor_lists p s n hs hnl
      have kn := i2 n
      have ks := i2 s
      rw [kn.2.2.2.1 a1, ks.2.2.2.1 a2]
      exact ⟨a1, a2, ks.2.2.2.2 _ a3, kn.2.2.2.2 _ a4⟩
    · have hn2 : n ∈ rest := by
        cases hn with
        | head => exact absurd rfl hm
        | tail _ h => exact h
      exact i3 n hn2 (by rw [hl]; exact hnl)

/-! ## The ticker chain -/

theorem connectInput_tickers (b b1 : Builder) (n e : Nat) (h : b.connectInput n e = .ok b1) :
    b1.tickers = b.tickers ∧ b1.tickersGen = b.tickersGen ∧ b1.tickersCap = b.tickersCap := by
  simp only [Builder.connectInput, Builder.createConnector] at h
  split at h
  · cases h; exact ⟨rfl, rfl, rfl⟩
  · cases h

theorem connectOutput_tickers (b b1 : Builder) (n e : Nat) (h : b.connectOutput n e = .ok b1) :
    b1.tickers = b.tickers ∧ b1.tickersGen = b.tickersGen ∧ b1.tickersCap = b.tickersCap := by
  simp only [Builder.connectOutput, Builder.createConnector] at h
  split at h
  · cases h; exact ⟨rfl, rfl, rfl⟩
  · cases h

/-- A fresh output of the wanted colour can always be attached. -/
theorem connectOutput_ok (b : Builder) (n e : Nat)
    (h : if (b.net n).isGreen then (b.comp e).out.outputGreen = none
         else (b.comp e).out.outputRed = none) :
    ∃ b1, b.connectOutput n e = .ok b1 := by
  simp only [Builder.connectOutput, Builder.createConnector, Builder.comp,
    OutputComponent.setOutput]
  simp only [Builder.comp] at h
  cases hg : (b.net n).isGreen
  · rw [hg] at h
    simp only [Bool.false_eq_true, if_false] at h ⊢
    rw [h]
    exact ⟨_, rfl⟩
  · rw [hg] at h
    simp only [if_true] at h ⊢
    rw [h]
    exact ⟨_, rfl⟩

theorem connectInput_ok (b : Builder) (n e : Nat)
    (h : if (b.net n).isGreen then (b.comp e).inp.inputGreen = none
         else (b.comp e).inp.inputRed = none) :
    ∃ b1, b.connectInput n e = .ok b1 := by
  simp only [Builder.connectInput, Builder.createConnector, Builder.comp,
    InputComponent.setInput]
  simp only [Builder.comp] at h
  cases hg : (b.net n).isGreen
  · rw [hg] at h
    simp only [Bool.false_eq_true, if_false] at h ⊢
    rw [h]
    exact ⟨_, rfl⟩
  · rw [hg] at h
    simp only [if_true] at h ⊢
    rw [h]
    exact ⟨_, rfl⟩

theorem connectOutput_inp (b b1 : Builder) (n e : Nat) (h : b.connectOutput n e = .ok b1) (e2 : Nat) :
    (b1.comp e2).inp = (b.comp e2).inp := by
  simp only [Builder.connectOutput, Builder.createConnector] at h
  split at h
  · cases h
    simp only [Builder.comp, getD_updAt]
    split
    · exact withOut_inp _ _
    · rfl
  · cases h

/-- The output network of a ticker can always be produced, and producing it
leaves the chain and the inputs of every component as they are. -/
theorem tickerNetwork_spec (b : Builder) (idx : Nat) (g : Bool) :
    ∃ n b1, b.tickerNetwork idx g = .ok (n, b1) ∧ b1.tickers = b.tickers ∧
      b1.tickersGen = b.tickersGen ∧ b1.tickersCap = b.tickersCap ∧
      ∀ e, (b1.comp e).inp = (b.comp e).inp := by
  unfold Builder.tickerNetwork
  dsimp only
  cases g
  · simp only [Bool.false_eq_true, if_false]
    cases ho : (b.comp ((b.tickers.getD idx default).arith.getD 0)).out.outputRed with
    | some c => exact ⟨_, _, rfl, rfl, rfl, rfl, fun _ => rfl⟩
    | none =>
      dsimp only [Builder.createNet]
      obtain ⟨b2, h2⟩ := connectOutput_ok
        { b with networks := b.networks ++ [{ isGreen := false }] } b.networks.length
        ((b.tickers.getD idx default).arith.getD 0)
        (by simp [Builder.net, Builder.comp] ; simpa [Builder.comp] using ho)
      rw [h2]
      obtain ⟨t1, t2, t3⟩ := connectOutput_tickers _ _ _ _ h2
      exact ⟨_, _, rfl, t1, t2, t3, fun e => connectOutput_inp _ _ _ _ h2 e⟩
  · simp only [if_true]
    cases ho : (b.comp ((b.tickers.getD idx default).arith.getD 0)).out.outputGreen with
    | some c => exact ⟨_, _, rfl, rfl, rfl, rfl, fun _ => rfl⟩
    | none =>
      dsimp only [Builder.createNet]
      obtain ⟨b2, h2⟩ := connectOutput_ok
        { b with networks := b.networks ++ [{ isGreen := true }] } b.networks.length
        ((b.tickers.getD idx default).arith.getD 0)
        (by simp [Builder.net, Builder.comp] ; simpa [Builder.comp] using ho)
      rw [h2]
      obtain ⟨t1, t2, t3⟩ := connectOutput_tickers _ _ _ _ h2
      exact ⟨_, _, rfl, t1, t2, t3, fun e => connectOutput_inp _ _ _ _ h2 e⟩

theorem initTicker_spec (b : Builder) (n : Nat) :
    ∃ b1, b.initTicker n = .ok b1 ∧
      b1.tickers = updAt b.tickers n (fun t => { t with arith := some b.comps.length }) ∧
      b1.tickersGen = b.tickersGen ∧ b1.tickersCap = b.tickersCap := by
  unfold Builder.initTicker
  dsimp only [Builder.alloc]
  by_cases hn : 0 < n
  · rw [if_pos hn]
    obtain ⟨net, b3, h3, t1, t2, t3, t4⟩ := tickerNetwork_spec
      { b with comps := b.comps ++ [tickerArithmetic],
               tickers := updAt b.tickers n (fun t => { t with arith := some b.comps.length }) }
      (n - 1) false
    rw [h3]
    dsimp only
    have hinp : (b3.comp b.comps.length).inp = createInputs SignalCheck (.constant 0) := by
      rw [t4]
      simp [Builder.comp, List.getD_eq_getElem?_getD, tickerArithmetic, Component.inp]
    obtain ⟨b4, h4⟩ := connectInput_ok b3 net b.comps.length (by
      rw [hinp]; simp [createInputs])
    obtain ⟨u1, u2, u3⟩ := connectInput_tickers _ _ _ _ h4
    exact ⟨b4, h4, by rw [u1, t1], by rw [u2, t2], by rw [u3, t3]⟩
  · rw [if_neg hn]
    exact ⟨_, rfl, rfl, rfl, rfl⟩

theorem initTickers_spec (l : List Nat) (b : Builder) :
    ∃ b1, b.initTickers l = .ok b1 ∧ b1.tickers.length = b.tickers.length ∧
      b1.tickersGen = b.tickersGen ∧ b1.tickersCap = b.tickersCap ∧
      ∀ i, i ∉ l → b1.tickers.getD i default = b.tickers.getD i default := by
  induction l generalizing b with
  | nil => exact ⟨b, rfl, rfl, rfl, rfl, fun _ _ => rfl⟩
  | cons n ns ih =>
    obtain ⟨b1, h1, t1, t2, t3⟩ := initTicker_spec b n
    obtain ⟨b2, h2, u1, u2, u3, u4⟩ := ih b1
    refine ⟨b2, ?_, ?_, by rw [u2, t2], by rw [u3, t3], ?_⟩
    · simp only [Builder.initTickers, h1]
      exact h2
    · rw [u1, t1, length_updAt]
    · intro i hi
      rw [u4 i (fun h => hi (List.mem_cons_of_mem _ h)), t1, getD_updAt]
      have : n ≠ i := fun h => hi (by rw [h]; exact List.mem_cons_self _ _)
      simp [this]

theorem appendTickers_tickers (growslice : Nat → Nat → Nat) (b : Builder) (k : Nat) :
    (b.appendTickers growslice k).tickers = b.tickers ++ List.replicate k ({} : Ticker) := by
  unfold Builder.appendTickers
  dsimp only
  split <;> rfl

/-- C19: `getTicker(t, excludeMemOp)` always returns.  If `t` is below the
chain length, `excludeMemOp` is set and ticker `t` is flagged, it returns
nothing and changes nothing; in every other case it returns the address of
the ticker at index `t` in the current chain, the chain then has length
max(old length, t+1), and every ticker that existed before is unchanged at
its index (arithmetic and memory-op flag). -/
theorem C19_getTicker (growslice : Nat → Nat → Nat) (b : Builder) (tick : Nat) (ex : Bool) :
    ∃ r b1, b.getTicker growslice tick ex = .ok (r, b1) ∧
      if tick < b.tickers.length ∧ ex = true ∧ (b.tickers.getD tick default).isMemOp = true then
        r = none ∧ b1 = b
      else
        r = some ⟨b1.tickersGen, tick⟩ ∧ b1.deref ⟨b1.tickersGen, tick⟩ = b1.tickers[tick]? ∧
        tick < b1.tickers.length ∧
        b1.tickers.length = max b.tickers.length (tick + 1) ∧
        ∀ i, i < b.tickers.length → b1.tickers.getD i default = b.tickers.getD i default := by
  unfold Builder.getTicker
  by_cases hlt : tick < b.tickers.length
  · rw [if_pos hlt]
    by_cases hm : (ex && (b.tickers.getD tick default).isMemOp) = true
    · rw [if_pos hm]
      refine ⟨_, _, rfl, ?_⟩
      simp only [Bool.and_eq_true] at hm
      rw [if_pos ⟨hlt, hm.1, hm.2⟩]
      exact ⟨rfl, rfl⟩
    · rw [if_neg hm]
      refine ⟨_, _, rfl, ?_⟩
      simp only [Bool.and_eq_true] at hm
      rw [if_neg (fun h => hm ⟨h.2.1, h.2.2⟩)]
      refine ⟨rfl, by simp [Builder.deref], hlt, by omega, fun _ _ => rfl⟩
  · rw [if_neg hlt]
    dsimp only
    obtain ⟨b2, h2, u1, u2, u3, u4⟩ := initTickers_spec
      (List.range' b.tickers.length (tick - b.tickers.length + 1))
      (b.appendTickers growslice (tick - b.tickers.length + 1))
    rw [h2]
    dsimp only
    refine ⟨_, _, rfl, ?_⟩
    rw [if_neg (fun h => hlt h.1)]
    have hlen : b2.tickers.length = tick + 1 := by
      rw [u1, appendTickers_tickers]
      simp
      omega
    have hold : ∀ i, i < b.tickers.length → b2.tickers.getD i default = b.tickers.getD i default := by
      intro i hi
      rw [u4 i (by simp [List.mem_range']; omega), appendTickers_tickers]
      simp [List.getD_eq_getElem?_getD, List.getElem?_append_left hi]
    cases ex
    · simp only [Bool.false_eq_true, if_false]
      refine ⟨trivial, by simp [Builder.deref], by omega, by omega, hold⟩
    · simp only [if_true, Builder.setMemOp]
      refine ⟨trivial, by simp [Builder.deref], by simp [length_updAt]; omega,
        by simp [length_updAt]; omega, ?_⟩
      intro i hi
      simp only [if_true, getD_updAt]
      rw [if_neg (by omega)]
      exact hold i hi

/-! ## Memory cells -/

theorem ok_bind {α β : Type} (a : α) (f : α → Except String β) :
    ((Except.ok a : Except String α) >>= f) = f a := rfl

theorem updAt_cons_succ {α : Type} (x : α) (t : List α) (n : Nat) (f : α → α) :
    updAt (x :: t) (n + 1) f = x :: updAt t n f := by
  unfold updAt
  simp only [List.getElem?_cons_succ]
  split <;> simp

theorem updAt_append {α : Type} (l r : List α) (a : α) (i : Nat) (f : α → α) (hi : i = l.length) :
    updAt (l ++ a :: r) i f = l ++ f a :: r := by
  subst hi
  induction l with
  | nil => simp [updAt]
  | cons x t ih =>
    simp only [List.cons_append, List.length_cons, updAt_cons_succ, ih]

theorem getD_append_mid {α : Type} (l r : List α) (a d : α) (i : Nat) (hi : i = l.length) :
    (l ++ a :: r).getD i d = a := by
  subst hi
  induction l with
  | nil => rfl
  | cons x t ih => simpa using ih

theorem net_members_upd (b : Builder) (n c : Nat) (nets : List Network)
    (h : nets = updAt b.networks n (fun net => { net with members := net.members ++ [c] })) (m : Nat) :
    (nets.getD m default).isGreen = (b.net m).isGreen ∧
    (nets.getD m default).cellID = (b.net m).cellID := by
  rw [h, getD_updAt]
  unfold Builder.net
  split <;> exact ⟨rfl, rfl⟩

/-- `connectInput` on a component whose input of the colour of the network is
free: the connector is appended, the component gets it, nothing else changes. -/
theorem connectInput_spec (b : Builder) (n e : Nat)
    (h : if (b.net n).isGreen then (b.comp e).inp.inputGreen = none
         else (b.comp e).inp.inputRed = none) :
    ∃ b1, b.connectInput n e = .ok b1 ∧
      Builder.Wired b b1 (b.conns ++ [{ network := n, component := e, isSecondary := false }])
        (updAt b.comps e (fun x => x.withInp
          (if (b.net n).isGreen then { (b.comp e).inp with inputGreen := some b.conns.length }
           else { (b.comp e).inp with inputRed := some b.conns.length }))) := by
  simp only [Builder.connectInput, Builder.createConnector, Builder.comp,
    InputComponent.setInput]
  simp only [Builder.comp] at h
  cases hg : (b.net n).isGreen
  · rw [hg] at h
    simp only [Bool.false_eq_true, if_false] at h ⊢
    rw [h]
    refine ⟨_, rfl, rfl, rfl, by simp [length_updAt], ?_, ?_⟩
    · intro m; exact (net_members_upd b n _ _ rfl m).1
    · intro m; exact (net_members_upd b n _ _ rfl m).2
  · rw [hg] at h
    simp only [if_true] at h ⊢
    rw [h]
    refine ⟨_, rfl, rfl, rfl, by simp [length_updAt], ?_, ?_⟩
    · intro m; exact (net_members_upd b n _ _ rfl m).1
    · intro m; exact (net_members_upd b n _ _ rfl m).2

theorem connectOutput_spec (b : Builder) (n e : Nat)
    (h : if (b.net n).isGreen then (b.comp e).out.outputGreen = none
         else (b.comp e).out.outputRed = none) :
    ∃ b1, b.connectOutput n e = .ok b1 ∧
      Builder.Wired b b1 (b.conns ++ [{ network := n, component := e, isSecondary := true }])
        (updAt b.comps e (fun x => x.withOut
          (if (b.net n).isGreen then { (b.comp e).out with outputGreen := some b.conns.length }
           else { (b.comp e).out with outputRed := some b.conns.length }))) := by
  simp only [Builder.connectOutput, Builder.createConnector, Builder.comp,
    OutputComponent.setOutput]
  simp only [Builder.comp] at h
  cases hg : (b.net n).isGreen
  · rw [hg] at h
    simp only [Bool.false_eq_true, if_false] at h ⊢
    rw [h]
    refine ⟨_, rfl, rfl, rfl, by simp [length_updAt], ?_, ?_⟩
    · intro m; exact (net_members_upd b n _ _ rfl m).1
    · intro m; exact (net_members_upd b n _ _ rfl m).2
  · rw [hg] at h
    simp only [if_true] at h ⊢
    rw [h]
    refine ⟨_, rfl, rfl, rfl, by simp [length_updAt], ?_, ?_⟩
    · intro m; exact (net_members_upd b n _ _ rfl m).1
    · intro m; exact (net_members_upd b n _ _ rfl m).2

theorem Wired_trans {b0 b1 b2 : Builder} {c1 c2 : List Connector} {k1 k2 : List Component}
    (h1 : Builder.Wired b0 b1 c1 k1) (h2 : Builder.Wired b1 b2 c2 k2) : Builder.Wired b0 b2 c2 k2 :=
  ⟨h2.1, h2.2.1, h2.2.2.1.trans h1.2.2.1, fun m => (h2.2.2.2.1 m).trans (h1.2.2.2.1 m),
    fun m => (h2.2.2.2.2 m).trans (h1.2.2.2.2 m)⟩

/-- A red input attached to the decider at the handle `e`. -/
theorem connectInput_red (b0 bk : Builder) (conns : List Connector) (l r : List Component)
    (p : Signal) (s : Int) (o : Signal) (op : Comparator) (ig or_ og : Option Nat)
    (hS : Builder.Wired b0 bk conns (l ++ deciderOf p s o op none ig or_ og :: r)) (n e c : Nat)
    (he : e = l.length) (hc : c = conns.length) (hcol : (b0.net n).isGreen = false) :
    ∃ b1, bk.connectInput n e = .ok b1 ∧
      Builder.Wired b0 b1 (conns ++ [{ network := n, component := e, isSecondary := false }])
        (l ++ deciderOf p s o op (some c) ig or_ og :: r) := by
  have hcol2 : (bk.net n).isGreen = false := by rw [hS.2.2.2.1]; exact hcol
  have hx : bk.comp e = deciderOf p s o op none ig or_ og := by
    unfold Builder.comp; rw [hS.2.1]; exact getD_append_mid _ _ _ _ _ he
  obtain ⟨b1, h1, w⟩ := connectInput_spec bk n e (by rw [hcol2, hx]; simp [deciderOf, Component.inp, Component.out])
  refine ⟨b1, h1, ?_⟩
  have w2 := Wired_trans hS w
  rw [hcol2, hx, hS.1, hS.2.1, updAt_append _ _ _ _ _ he, ← hc] at w2
  simpa [deciderOf, Component.withInp, Component.withOut, Component.inp, Component.out] using w2

/-- A green input attached to the decider at the handle `e`. -/
theorem connectInput_green (b0 bk : Builder) (conns : List Connector) (l r : List Component)
    (p : Signal) (s : Int) (o : Signal) (op : Comparator) (ir or_ og : Option Nat)
    (hS : Builder.Wired b0 bk conns (l ++ deciderOf p s o op ir none or_ og :: r)) (n e c : Nat)
    (he : e = l.length) (hc : c = conns.length) (hcol : (b0.net n).isGreen = true) :
    ∃ b1, bk.connectInput n e = .ok b1 ∧
      Builder.Wired b0 b1 (conns ++ [{ network := n, component := e, isSecondary := false }])
        (l ++ deciderOf p s o op ir (some c) or_ og :: r) := by
  have hcol2 : (bk.net n).isGreen = true := by rw [hS.2.2.2.1]; exact hcol
  have hx : bk.comp e = deciderOf p s o op ir none or_ og := by
    unfold Builder.comp; rw [hS.2.1]; exact getD_append_mid _ _ _ _ _ he
  obtain ⟨b1, h1, w⟩ := connectInput_spec bk n e (by rw [hcol2, hx]; simp [deciderOf, Component.inp, Component.out])
  refine ⟨b1, h1, ?_⟩
  have w2 := Wired_trans hS w
  rw [hcol2, hx, hS.1, hS.2.1, updAt_append _ _ _ _ _ he, ← hc] at w2
  simpa [deciderOf, Component.withInp, Component.withOut, Component.inp, Component.out] using w2

/-- A red output attached to the decider at the handle `e`. -/
theorem connectOutput_red (b0 bk : Builder) (conns : List Connector) (l r : List Component)
    (p : Signal) (s : Int) (o : Signal) (op : Comparator) (ir ig og : Option Nat)
    (hS : Builder.Wired b0 bk conns (l ++ deciderOf p s o op ir ig none og :: r)) (n e c : Nat)
    (he : e = l.length) (hc : c = conns.length) (hcol : (b0.net n).isGreen = false) :
    ∃ b1, bk.connectOutput n e = .ok b1 ∧
      Builder.Wired b0 b1 (conns ++ [{ network := n, component := e, isSecondary := true }])
        (l ++ deciderOf p s o op ir ig (some c) og :: r) := by
  have hcol2 : (bk.net n).isGreen = false := by rw [hS.2.2.2.1]; exact hcol
  have hx : bk.comp e = deciderOf p s o op ir ig none og := by
    unfold Builder.comp; rw [hS.2.1]; exact getD_append_mid _ _ _ _ _ he
  obtain ⟨b1, h1, w⟩ := connectOutput_spec bk n e (by rw [hcol2, hx]; simp [deciderOf, Component.inp, Component.out])
  refine ⟨b1, h1, ?_⟩
  have w2 := Wired_trans hS w
  rw [hcol2, hx, hS.1, hS.2.1, updAt_append _ _ _ _ _ he, ← hc] at w2
  simpa [deciderOf, Component.withInp, Component.withOut, Component.inp, Component.out] using w2

/-- A green output attached to the decider at the handle `e`. -/
theorem connectOutput_green (b0 bk : Builder) (conns : List Connector) (l r : List Component)
    (p : Signal) (s : Int) (o : Signal) (op : Comparator) (ir ig or_ : Option Nat)
    (hS : Builder.Wired b0 bk conns (l ++ deciderOf p s o op ir ig or_ none :: r)) (n e c : Nat)
    (he : e = l.length) (hc : c = conns.length) (hcol : (b0.net n).isGreen = true) :
    ∃ b1, bk.connectOutput n e = .ok b1 ∧
      Builder.Wired b0 b1 (conns ++ [{ network := n, component := e, isSecondary := true }])
        (l ++ deciderOf p s o op ir ig or_ (some c) :: r) := by
  have hcol2 : (bk.net n).isGreen = true := by rw [hS.2.2.2.1]; exact hcol
  have hx : bk.comp e = deciderOf p s o op ir ig or_ none := by
    unfold Builder.comp; rw [hS.2.1]; exact getD_append_mid _ _ _ _ _ he
  obtain ⟨b1, h1, w⟩ := connectOutput_spec bk n e (by rw [hcol2, hx]; simp [deciderOf, Component.inp, Component.out])
  refine ⟨b1, h1, ?_⟩
  have w2 := Wired_trans hS w
  rw [hcol2, hx, hS.1, hS.2.1, updAt_append _ _ _ _ _ he, ← hc] at w2
  simpa [deciderOf, Component.withInp, Component.withOut, Component.inp, Component.out] using w2


theorem createCell_eq (b : Builder) (net : Nat) :
    b.createCell net =
      ((((b.createSubnet net).2.createNet false).2.createSubnet net).2.nextCellID net).2.cellDeciders
        net (b.createSubnet net).1 ((b.createSubnet net).2.createNet false).1
        (((b.createSubnet net).2.createNet false).2.createSubnet net).1
        ((((b.createSubnet net).2.createNet false).2.createSubnet net).2.nextCellID net).1 := rfl

theorem addInputs_one (b b1 : Builder) (d n : Nat) (h : b.connectInput n d = .ok b1) :
    b.addInputs d [n] = .ok b1 := by
  show (match b.connectInput n d with
    | .ok b1 => b1.addInputs d []
    | .error msg => .error msg) = _
  rw [h]; rfl

theorem addInputs_two (b b1 b2 : Builder) (d n m : Nat) (h : b.connectInput n d = .ok b1)
    (h2 : b1.connectInput m d = .ok b2) : b.addInputs d [n, m] = .ok b2 := by
  show (match b.connectInput n d with
    | .ok b1 => b1.addInputs d [m]
    | .error msg => .error msg) = _
  rw [h]; exact addInputs_one b1 b2 d m h2

theorem addOutputs_one (b b1 : Builder) (d n : Nat) (h : b.connectOutput n d = .ok b1) :
    b.addOutputs d [n] = .ok b1 := by
  show (match b.connectOutput n d with
    | .ok b1 => b1.addOutputs d []
    | .error msg => .error msg) = _
  rw [h]; rfl

theorem addOutputs_two (b b1 b2 : Builder) (d n m : Nat) (h : b.connectOutput n d = .ok b1)
    (h2 : b1.connectOutput m d = .ok b2) : b.addOutputs d [n, m] = .ok b2 := by
  show (match b.connectOutput n d with
    | .ok b1 => b1.addOutputs d [m]
    | .error msg => .error msg) = _
  rw [h]; exact addOutputs_one b1 b2 d m h2

theorem Wired_alloc {b0 bk : Builder} {c : List Connector} {k : List Component}
    (h : Builder.Wired b0 bk c k) (d : Component) :
    Builder.Wired b0 { bk with comps := bk.comps ++ [d] } c (k ++ [d]) :=
  ⟨h.1, by rw [← h.2.1], h.2.2.1, h.2.2.2.1, h.2.2.2.2⟩

theorem cellDeciders_spec (b0 : Builder) (net setNet stoNet getNet : Nat) (id : Int)
    (h1 : (b0.net net).isGreen = false) (h2 : (b0.net setNet).isGreen = true)
    (h3 : (b0.net stoNet).isGreen = false) (h4 : (b0.net getNet).isGreen = true) :
    ∃ b1, b0.cellDeciders net setNet stoNet getNet id =
        .ok ({ id := id, get := b0.comps.length, set := b0.comps.length + 1,
               sto := b0.comps.length + 2, tmp := b0.comps.length + 3, net := net }, b1) ∧
      Builder.Wired b0 b1
        (b0.conns ++
          [{ network := net, component := b0.comps.length, isSecondary := false },
           { network := getNet, component := b0.comps.length, isSecondary := false },
           { network := net, component := b0.comps.length, isSecondary := true },
           { network := net, component := b0.comps.length + 1, isSecondary := false },
           { network := setNet, component := b0.comps.length + 1, isSecondary := true },
           { network := stoNet, component := b0.comps.length + 2, isSecondary := false },
           { network := setNet, component := b0.comps.length + 2, isSecondary := false },
           { network := stoNet, component := b0.comps.length + 2, isSecondary := true },
           { network := getNet, component := b0.comps.length + 2, isSecondary := true },
           { network := setNet, component := b0.comps.length + 3, isSecondary := false },
           { network := setNet, component := b0.comps.length + 3, isSecondary := true }])
        (b0.comps ++
          [deciderOf SignalG id SignalV .eq (some b0.conns.length) (some (b0.conns.length + 1))
             (some (b0.conns.length + 2)) none,
           deciderOf SignalS id signalEverything .eq (some (b0.conns.length + 3)) none
             none (some (b0.conns.length + 4)),
           deciderOf SignalS 0 SignalV .eq (some (b0.conns.length + 5)) (some (b0.conns.length + 6))
             (some (b0.conns.length + 7)) (some (b0.conns.length + 8)),
           deciderOf SignalS 0 SignalV .ne none (some (b0.conns.length + 9))
             none (some (b0.conns.length + 10))]) := by
  unfold Builder.cellDeciders
  dsimp only [Builder.alloc]
  -- decider 0
  have w0 : Builder.Wired b0 { b0 with comps := b0.comps ++ [cellGet id] } b0.conns (b0.comps ++ [cellGet id]) :=
    ⟨rfl, rfl, rfl, fun _ => rfl, fun _ => rfl⟩
  obtain ⟨s0, e0, v0⟩ := connectInput_red b0 _ _ _ [] _ _ _ _ _ _ _ w0 net b0.comps.length b0.conns.length
    (by simp [cellGet]) (by simp) h1
  obtain ⟨s1, e1, v1⟩ := connectInput_green b0 _ _ _ [] _ _ _ _ _ _ _ v0 getNet b0.comps.length (b0.conns.length + 1)
    (by simp [cellGet]) (by simp) h4
  rw [addInputs_two _ _ _ _ _ _ e0 e1, ok_bind]
  obtain ⟨s2, e2, v2⟩ := connectOutput_red b0 _ _ _ [] _ _ _ _ _ _ _ v1 net b0.comps.length (b0.conns.length + 2)
    (by simp [cellGet]) (by simp) h1
  rw [addOutputs_one _ _ _ _ e2, ok_bind]
  -- decider 1
  have hL1 : s2.comps.length = b0.comps.length + 1 := by rw [v2.2.1]; simp
  rw [hL1]
  have w10 := Wired_alloc v2 (cellSet id)
  obtain ⟨s3, e3, v3⟩ := connectInput_red b0 _ _ _ [] _ _ _ _ _ _ _ w10 net (b0.comps.length + 1) (b0.conns.length + 3)
    (by simp [cellSet]) (by simp) h1
  rw [addInputs_one _ _ _ _ e3, ok_bind]
  obtain ⟨s4, e4, v4⟩ := connectOutput_green b0 _ _ _ [] _ _ _ _ _ _ _ v3 setNet (b0.comps.length + 1) (b0.conns.length + 4)
    (by simp [cellSet]) (by simp) h2
  rw [addOutputs_one _ _ _ _ e4, ok_bind]
  -- decider 2
  have hL2 : s4.comps.length = b0.comps.length + 2 := by rw [v4.2.1]; simp
  rw [hL2]
  have w20 := Wired_alloc v4 (cellSto)
  obtain ⟨s5, e5, v5⟩ := connectInput_red b0 _ _ _ [] _ _ _ _ _ _ _ w20 stoNet (b0.comps.length + 2) (b0.conns.length + 5)
    (by simp [cellSto]) (by simp) h3
  obtain ⟨s6, e6, v6⟩ := connectInput_green b0 _ _ _ [] _ _ _ _ _ _ _ v5 setNet (b0.comps.length + 2) (b0.conns.length + 6)
    (by simp [cellSto]) (by simp) h2
  rw [addInputs_two _ _ _ _ _ _ e5 e6, ok_bind]
  obtain ⟨s7, e7, v7⟩ := connectOutput_red b0 _ _ _ [] _ _ _ _ _ _ _ v6 stoNet (b0.comps.length + 2) (b0.conns.length + 7)
    (by simp [cellSto]) (by simp) h3
  obtain ⟨s8, e8, v8⟩ := connectOutput_green b0 _ _ _ [] _ _ _ _ _ _ _ v7 getNet (b0.comps.length + 2) (b0.conns.length + 8)
    (by simp [cellSto]) (by simp) h4
  rw [addOutputs_two _ _ _ _ _ _ e7 e8, ok_bind]
  -- decider 3
  have hL3 : s8.comps.length = b0.comps.length + 3 := by rw [v8.2.1]; simp
  rw [hL3]
  have w30 := Wired_alloc v8 (cellTmp)
  obtain ⟨s9, e9, v9⟩ := connectInput_green b0 _ _ _ [] _ _ _ _ _ _ _ w30 setNet (b0.comps.length + 3) (b0.conns.length + 9)
    (by simp [cellTmp]) (by simp) h2
  rw [addInputs_one _ _ _ _ e9, ok_bind]
  obtain ⟨s10, e10, v10⟩ := connectOutput_green b0 _ _ _ [] _ _ _ _ _ _ _ v9 setNet (b0.comps.length + 3) (b0.conns.length + 10)
    (by simp [cellTmp]) (by simp) h2
  rw [addOutputs_one _ _ _ _ e10, ok_bind]
  refine ⟨s10, rfl, ?_⟩
  simpa [List.append_assoc] using v10

theorem getD_append_left' {α : Type} (l r : List α) (d : α) (i : Nat) (hi : i < l.length) :
    (l ++ r).getD i d = l.getD i d := by
  simp [List.getD_eq_getElem?_getD, List.getElem?_append_left hi]

/-- What `createCell` does on a red network: the three networks it creates,
the identifier it draws, the four deciders and their eleven connectors. -/
theorem createCell_spec (b : Builder) (net : Nat) (hn : net < b.networks.length)
    (hr : (b.net net).isGreen = false) :
    ∃ b1, b.createCell net =
        .ok ({ id := wrap32 ((b.net net).cellID + 1), get := b.comps.length,
               set := b.comps.length + 1, sto := b.comps.length + 2, tmp := b.comps.length + 3,
               net := net }, b1) ∧
      b1.conns = b.conns ++
          [{ network := net, component := b.comps.length, isSecondary := false },
           { network := b.networks.length + 2, component := b.comps.length, isSecondary := false },
           { network := net, component := b.comps.length, isSecondary := true },
           { network := net, component := b.comps.length + 1, isSecondary := false },
           { network := b.networks.length, component := b.comps.length + 1, isSecondary := true },
           { network := b.networks.length + 1, component := b.comps.length + 2, isSecondary := false },
           { network := b.networks.length, component := b.comps.length + 2, isSecondary := false },
           { network := b.networks.length + 1, component := b.comps.length + 2, isSecondary := true },
           { network := b.networks.length + 2, component := b.comps.length + 2, isSecondary := true },
           { network := b.networks.length, component := b.comps.length + 3, isSecondary := false },
           { network := b.networks.length, component := b.comps.length + 3, isSecondary := true }] ∧
      b1.comps = b.comps ++
          [deciderOf SignalG (wrap32 ((b.net net).cellID + 1)) SignalV .eq
             (some b.conns.length) (some (b.conns.length + 1)) (some (b.conns.length + 2)) none,
           deciderOf SignalS (wrap32 ((b.net net).cellID + 1)) signalEverything .eq
             (some (b.conns.length + 3)) none none (some (b.conns.length + 4)),
           deciderOf SignalS 0 SignalV .eq (some (b.conns.length + 5)) (some (b.conns.length + 6))
             (some (b.conns.length + 7)) (some (b.conns.length + 8)),
           deciderOf SignalS 0 SignalV .ne none (some (b.conns.length + 9))
             none (some (b.conns.length + 10))] ∧
      b1.networks.length = b.networks.length + 3 ∧
      (b1.net b.networks.length).isGreen = true ∧
      (b1.net (b.networks.length + 1)).isGreen = false ∧
      (b1.net (b.networks.length + 2)).isGreen = true ∧
      (∀ m, m < b.networks.length → (b1.net m).isGreen = (b.net m).isGreen) ∧
      (∀ m, m < b.networks.length → (b1.net m).cellID =
        if m = net then wrap32 ((b.net net).cellID + 1) else (b.net m).cellID) := by
  rw [createCell_eq]
  have hA : (b.networks.getD net default).isGreen = false := hr
  have hG : ∀ r : List Network, (b.networks ++ r).getD net default
      = b.networks.getD net default := fun r => getD_append_left' _ _ _ _ hn
  have e1 : (b.createSubnet net).1 = b.networks.length := rfl
  have e2 : ((b.createSubnet net).2.createNet false).1 = b.networks.length + 1 := by
    simp [Builder.createSubnet, Builder.createNet]
  have e3 : (((b.createSubnet net).2.createNet false).2.createSubnet net).1
      = b.networks.length + 2 := by
    simp [Builder.createSubnet, Builder.createNet]
  have e4 : ((((b.createSubnet net).2.createNet false).2.createSubnet net).2.nextCellID net).1
      = wrap32 ((b.net net).cellID + 1) := by
    simp only [Builder.createSubnet, Builder.createNet, Builder.nextCellID, Builder.net,
      List.append_assoc, hG]
  have e5 : ((((b.createSubnet net).2.createNet false).2.createSubnet net).2.nextCellID net).2.networks
      = updAt (b.networks ++ [{ isGreen := true }, { isGreen := false }, { isGreen := true }]) net
          (fun n => { n with cellID := wrap32 ((b.net net).cellID + 1) }) := by
    simp only [Builder.createSubnet, Builder.createNet, Builder.nextCellID, Builder.net,
      List.append_assoc, List.cons_append, List.nil_append, hG, hA, Bool.not_false]
  generalize hb0 :
    ((((b.createSubnet net).2.createNet false).2.createSubnet net).2.nextCellID net).2 = b0 at e5
  have c0 : b0.conns = b.conns := by rw [← hb0]; rfl
  have k0 : b0.comps = b.comps := by rw [← hb0]; rfl
  rw [e1, e2, e3, e4]
  have hcol : ∀ m, (b0.net m).isGreen =
      ((b.networks ++ [({ isGreen := true } : Network), { isGreen := false }, { isGreen := true }]).getD
        m default).isGreen := by
    intro m
    unfold Builder.net
    rw [e5, getD_updAt]
    split <;> rfl
  have hcell : ∀ m, m < b.networks.length → (b0.net m).cellID =
      if m = net then wrap32 ((b.net net).cellID + 1) else (b.net m).cellID := by
    intro m hm
    unfold Builder.net
    rw [e5, getD_updAt]
    by_cases hmn : m = net
    · subst hmn
      rw [if_pos ⟨rfl, by simp; omega⟩, if_pos rfl]
      rfl
    · rw [if_neg (fun h => hmn h.1.symm), if_neg hmn, getD_append_left' _ _ _ _ hm]
  have h1 : (b0.net net).isGreen = false := by
    rw [hcol, getD_append_left' _ _ _ _ hn]; exact hr
  have h2 : (b0.net b.networks.length).isGreen = true := by
    rw [hcol, getD_append_mid _ _ _ _ _ rfl]
  have h3 : (b0.net (b.networks.length + 1)).isGreen = false := by
    have : ∀ x y z : Network, b.networks ++ [x, y, z] = (b.networks ++ [x]) ++ y :: [z] := by
      intro x y z; simp
    rw [hcol, this, getD_append_mid _ _ _ _ _ (by simp)]
  have h4 : (b0.net (b.networks.length + 2)).isGreen = true := by
    have : ∀ x y z : Network, b.networks ++ [x, y, z] = (b.networks ++ [x, y]) ++ z :: [] := by
      intro x y z; simp
    rw [hcol, this, getD_append_mid _ _ _ _ _ (by simp)]
  obtain ⟨b1, hb1, w⟩ := cellDeciders_spec b0 net b.networks.length (b.networks.length + 1)
    (b.networks.length + 2) (wrap32 ((b.net net).cellID + 1)) h1 h2 h3 h4
  rw [k0] at hb1
  rw [c0, k0] at w
  obtain ⟨w1, w2, w3, w4, w5⟩ := w
  refine ⟨b1, hb1, w1, w2, ?_, ?_, ?_, ?_, ?_, ?_⟩
  · rw [w3, e5, length_updAt]; simp
  · rw [w4]; exact h2
  · rw [w4]; exact h3
  · rw [w4]; exact h4
  · intro m hm
    rw [w4, hcol, getD_append_left' _ _ _ _ hm]; rfl
  · intro m hm
    rw [w5]; exact hcell m hm

/-- C17: `createCell` on a red network returns a cell and creates exactly four
deciders.  With `N`, `N+1`, `N+2` the set, storage and read subnets it creates
(green, red, green): `get` tests G = id, outputs V, has its inputs on the
network and the read subnet and its output on the network; `set` tests S = id,
outputs signal-everything, has its input on the network and its output on the
set subnet; `sto` tests S = 0, outputs V, has its inputs on the storage and
set subnets and its outputs on the storage and read subnets; `tmp` tests S ≠ 0,
outputs V, and has the set subnet as input and output.  The connectors
`C .. C+10` are the ones appended to `b.conns`. -/
theorem C17_createCell (b : Builder) (net : Nat) (hn : net < b.networks.length)
    (hr : (b.net net).isGreen = false) :
    ∃ c b1, b.createCell net = .ok (c, b1) ∧
      c.net = net ∧ c.get = b.comps.length ∧ c.set = b.comps.length + 1 ∧
      c.sto = b.comps.length + 2 ∧ c.tmp = b.comps.length + 3 ∧
      b1.comps = b.comps ++
          [deciderOf SignalG c.id SignalV .eq
             (some b.conns.length) (some (b.conns.length + 1)) (some (b.conns.length + 2)) none,
           deciderOf SignalS c.id signalEverything .eq
             (some (b.conns.length + 3)) none none (some (b.conns.length + 4)),
           deciderOf SignalS 0 SignalV .eq (some (b.conns.length + 5)) (some (b.conns.length + 6))
             (some (b.conns.length + 7)) (some (b.conns.length + 8)),
           deciderOf SignalS 0 SignalV .ne none (some (b.conns.length + 9))
             none (some (b.conns.length + 10))] ∧
      b1.conns = b.conns ++
          [{ network := net, component := c.get, isSecondary := false },
           { network := b.networks.length + 2, component := c.get, isSecondary := false },
           { network := net, component := c.get, isSecondary := true },
           { network := net, component := c.set, isSecondary := false },
           { network := b.networks.length, component := c.set, isSecondary := true },
           { network := b.networks.length + 1, component := c.sto, isSecondary := false },
           { network := b.networks.length, component := c.sto, isSecondary := false },
           { network := b.networks.length + 1, component := c.sto, isSecondary := true },
           { network := b.networks.length + 2, component := c.sto, isSecondary := true },
           { network := b.networks.length, component := c.tmp, isSecondary := false },
           { network := b.networks.length, component := c.tmp, isSecondary := true }] ∧
      b1.networks.length = b.networks.length + 3 ∧
      (b1.net net).isGreen = false ∧ (b1.net b.networks.length).isGreen = true ∧
      (b1.net (b.networks.length + 1)).isGreen = false ∧
      (b1.net (b.networks.length + 2)).isGreen = true := by
  obtain ⟨b1, h, hc, hk, hl, g1, g2, g3, g4, _⟩ := createCell_spec b net hn hr
  exact ⟨_, b1, h, rfl, rfl, rfl, rfl, rfl, hk, hc, hl, by rw [g4 net hn]; exact hr, g1, g2, g3⟩

/-- C17 on a builder that holds one red network and nothing else. -/
theorem C17_createCell_witness :
    ∃ c b1, ({ networks := [{}] } : Builder).createCell 0 = .ok (c, b1) ∧
      b1.comps.length = 4 ∧ b1.conns.length = 11 ∧ b1.networks.length = 4 := by
  obtain ⟨c, b1, h, _, _, _, _, _, hk, hc, hl, _⟩ :=
    C17_createCell { networks := [{}] } 0 (by decide) (by decide)
  exact ⟨c, b1, h, by rw [hk]; rfl, by rw [hc]; rfl, by rw [hl]; rfl⟩

seal Builder.createCell in
theorem createCells_cons (b : Builder) (n : Nat) (ns : List Nat) :
    b.createCells (n :: ns) =
      match b.createCell n with
      | .ok (c, b1) =>
        match b1.createCells ns with
        | .ok (cs, b2) => .ok (c :: cs, b2)
        | .error msg => .error msg
      | .error msg => .error msg := rfl

theorem wrap32_small (x : Int) (h0 : -2147483648 ≤ x) (h1 : x < 2147483648) : wrap32 x = x := by
  unfold wrap32; omega

/-- The identifiers of cells created in a row, from any counters. -/
theorem createCells_ids (nets : List Nat) (b : Builder)
    (h : ∀ n, n ∈ nets → n < b.networks.length ∧ (b.net n).isGreen = false ∧
      0 ≤ (b.net n).cellID ∧ (b.net n).cellID + (nets.count n : Int) < 2147483648) :
    ∃ cs b1, b.createCells nets = .ok (cs, b1) ∧ cs.length = nets.length ∧
      ∀ (j : Nat) (c : Cell), cs[j]? = some c → ∃ n, nets[j]? = some n ∧ c.net = n ∧
        c.id = (b.net n).cellID + (((nets.take (j + 1)).count n : Nat) : Int) := by
  induction nets generalizing b with
  | nil => exact ⟨[], b, rfl, rfl, fun j c hc => by simp at hc⟩
  | cons n ns ih =>
    obtain ⟨hn, hr, h0, hb⟩ := h n (List.mem_cons_self _ _)
    obtain ⟨b1, hc, _, _, hl, _, _, _, g4, g5⟩ := createCell_spec b n hn hr
    have hcnt : (1 : Int) ≤ ((n :: ns).count n : Int) := by
      have : 0 < (n :: ns).count n := List.count_pos_iff.2 (List.mem_cons_self _ _)
      omega
    have hid : wrap32 ((b.net n).cellID + 1) = (b.net n).cellID + 1 :=
      wrap32_small _ (by omega) (by omega)
    obtain ⟨cs, b2, h2, hlen, hids⟩ := ih b1 (by
      intro m hm
      have hm' := h m (List.mem_cons_of_mem _ hm)
      obtain ⟨m1, m2, m3, m4⟩ := hm'
      refine ⟨by omega, by rw [g4 m m1]; exact m2, ?_, ?_⟩
      · rw [g5 m m1]; split <;> omega
      · rw [g5 m m1]
        by_cases hmn : m = n
        · subst hmn
          rw [if_pos rfl, hid]
          simp only [List.count_cons_self] at m4
          push_cast at m4
          omega
        · rw [if_neg hmn]
          rw [List.count_cons_of_ne hmn] at m4
          exact m4)
    refine ⟨_ :: cs, b2, by rw [createCells_cons, hc]; dsimp only; rw [h2], by simp [hlen], ?_⟩
    intro j c hjc
    cases j with
    | zero =>
      simp only [List.getElem?_cons_zero, Option.some.injEq] at hjc
      subst hjc
      refine ⟨n, by simp, rfl, ?_⟩
      simp [hid]
    | succ j =>
      simp only [List.getElem?_cons_succ] at hjc
      obtain ⟨m, hm, hcn, hci⟩ := hids j c hjc
      have hmem : m ∈ ns := List.mem_iff_getElem?.2 ⟨_, hm⟩
      obtain ⟨m1, _, _, _⟩ := h m (List.mem_cons_of_mem _ hmem)
      refine ⟨m, by simpa using hm, hcn, ?_⟩
      rw [hci, g5 m m1]
      by_cases hmn : m = n
      · subst hmn
        rw [if_pos rfl, hid]
        simp only [List.take_succ_cons, List.count_cons_self]
        push_cast
        omega
      · rw [if_neg hmn]
        simp only [List.take_succ_cons]
        rw [List.count_cons_of_ne hmn]

theorem count_take_le (l : List Nat) (n i : Nat) : (l.take i).count n ≤ l.count n :=
  List.Sublist.count_le (List.take_sublist i l) n

/-- C18: cells created one after the other on red networks whose counters are
0 (fewer than 2^31 of them, the identifiers being `int32`): the cell created
j-th is on the j-th network of the list and its identifier is the number of
cells created on that network so far, itself included (1, 2, 3, ... in
creation order on every network); so no identifier is 0 and two cells of one
network never share an identifier. -/
theorem C18_cell_ids (b : Builder) (nets : List Nat)
    (h : ∀ n, n ∈ nets → n < b.networks.length ∧ (b.net n).isGreen = false ∧ (b.net n).cellID = 0)
    (hlen : nets.length < 2147483648) :
    ∃ cs b1, b.createCells nets = .ok (cs, b1) ∧ cs.length = nets.length ∧
      (∀ (j : Nat) (c : Cell), cs[j]? = some c → ∃ n, nets[j]? = some n ∧ c.net = n ∧
        c.id = (((nets.take (j + 1)).count n : Nat) : Int)) ∧
      (∀ (j : Nat) (c : Cell), cs[j]? = some c → c.id ≠ 0) ∧
      (∀ (i j : Nat) (ci cj : Cell), i < j → cs[i]? = some ci → cs[j]? = some cj →
        ci.net = cj.net →
        ci.id ≠ cj.id) := by
  obtain ⟨cs, b1, h1, h2, h3⟩ := createCells_ids nets b (by
    intro n hn
    obtain ⟨a, b', c⟩ := h n hn
    have := List.count_le_length (a := n) (l := nets)
    refine ⟨a, b', by rw [c], ?_⟩
    rw [c]; omega)
  have h3' : ∀ (j : Nat) (c : Cell), cs[j]? = some c → ∃ n, nets[j]? = some n ∧ c.net = n ∧
      c.id = (((nets.take (j + 1)).count n : Nat) : Int) := by
    intro j c hjc
    obtain ⟨n, hn, hcn, hci⟩ := h3 j c hjc
    refine ⟨n, hn, hcn, ?_⟩
    rw [hci, (h n (List.mem_iff_getElem?.2 ⟨_, hn⟩)).2.2]
    simp
  have hpos : ∀ j n, nets[j]? = some n → 0 < (nets.take (j + 1)).count n := by
    intro j n hn
    apply List.count_pos_iff.2
    have hj : j < nets.length := (List.getElem?_eq_some.1 hn).1
    have : (nets.take (j + 1))[j]? = some n := by
      rw [List.getElem?_take]; simp [hn]
    exact List.mem_iff_getElem?.2 ⟨_, this⟩
  refine ⟨cs, b1, h1, h2, h3', ?_, ?_⟩
  · intro j c hjc
    obtain ⟨n, hn, _, hci⟩ := h3' j c hjc
    have := hpos j n hn
    rw [hci]; omega
  · intro i j ci cj hij hi hj hnet
    obtain ⟨n, hn, hcn, hci⟩ := h3' i ci hi
    obtain ⟨m, hm, hcm, hcj⟩ := h3' j cj hj
    have hnm : n = m := by rw [← hcn, ← hcm]; exact hnet
    subst hnm
    rw [hci, hcj]
    have hjl : j < nets.length := (List.getElem?_eq_some.1 hm).1
    have e1 : nets.take (j + 1) = nets.take j ++ [n] := by
      rw [List.take_succ, hm]; rfl
    have e2 : (nets.take (i + 1)).count n ≤ (nets.take j).count n := by
      have : nets.take (i + 1) = (nets.take j).take (i + 1) := by
        rw [List.take_take]; congr 1; omega
      rw [this]
      exact count_take_le _ _ _
    rw [e1, List.count_append]
    simp only [List.count_singleton_self]
    intro habs
    have := Int.ofNat_inj.1 habs
    omega

/-- C18 on three cells, two on network 0 and one on network 1. -/
theorem C18_cell_ids_witness :
    ∃ cs b1, ({ networks := [{}, {}] } : Builder).createCells [0, 1, 0] = .ok (cs, b1) ∧
      cs.length = 3 ∧ (∀ (j : Nat) (c : Cell), cs[j]? = some c → c.id ≠ 0) := by
  obtain ⟨cs, b1, h1, h2, _, h4, _⟩ := C18_cell_ids { networks := [{}, {}] } [0, 1, 0]
    (by decide) (by decide)
  exact ⟨cs, b1, h1, h2, h4⟩

/-! ## `CreateBlueprint` and the declarations -/

theorem getTicker_ok (growslice : Nat → Nat → Nat) (b : Builder) (tick : Nat) (ex : Bool) :
    ∃ r b1, b.getTicker growslice tick ex = .ok (r, b1) := by
  unfold Builder.getTicker
  split
  · split <;> exact ⟨_, _, rfl⟩
  · dsimp only
    obtain ⟨b2, h2, _⟩ := initTickers_spec
      (List.range' b.tickers.length (tick - b.tickers.length + 1))
      (b.appendTickers growslice (tick - b.tickers.length + 1))
    rw [h2]
    exact ⟨_, _, rfl⟩

theorem getTickerNetwork_ok (growslice : Nat → Nat → Nat) (b : Builder) (tick : Nat)
    (g ex : Bool) : ∃ r b1, b.getTickerNetwork growslice tick g ex = .ok (r, b1) := by
  unfold Builder.getTickerNetwork
  obtain ⟨r, b1, h⟩ := getTicker_ok growslice b tick ex
  rw [h]
  cases r with
  | none => exact ⟨_, _, rfl⟩
  | some p =>
    dsimp only
    obtain ⟨n, b2, h2, _⟩ := tickerNetwork_spec b1 p.idx g
    rw [h2]
    exact ⟨_, _, rfl⟩

seal Builder.createCell in
theorem declareAll_cons (b : Builder) (pnet : Nat) (dec : Declare) (rest : List Declare)
    (initSteps : List (Cell × Typed)) :
    b.declareAll pnet (dec :: rest) initSteps =
      match dec.var.typ with
      | none => .error "nil pointer dereference"
      | some k =>
        if k ≠ .KindInt32 then
          match k.Name with
          | .ok name => .ok ((some ("invalid type: " ++ name), initSteps), b)
          | .error msg => .error msg
        else
          match b.createCell pnet with
          | .error msg => .error msg
          | .ok (cell, b1) =>
            match dec.var.initialValue with
            | some iv => Builder.declareAll { b1 with cells := (dec.var.addr, cell) :: b1.cells }
                pnet rest (initSteps ++ [(cell, iv)])
            | none => Builder.declareAll { b1 with cells := (dec.var.addr, cell) :: b1.cells }
                pnet rest initSteps := rfl

/-- The loop over the declarations stops at the first declaration that is
not an `int32`. -/
theorem declareAll_invalid (decls : List Declare) (b : Builder) (pnet : Nat)
    (initSteps : List (Cell × Typed)) (hp : pnet < b.networks.length)
    (hred : (b.net pnet).isGreen = false) (d : Declare)
    (hd : decls.find? (fun x => decide (x.var.typ ≠ some .KindInt32)) = some d) :
    ∃ steps b1, b.declareAll pnet decls initSteps =
      invalidOutcome d (fun msg => ((some msg, steps), b1)) := by
  induction decls generalizing b initSteps with
  | nil => cases hd
  | cons dec rest ih =>
    rw [declareAll_cons]
    by_cases hk : dec.var.typ = some .KindInt32
    · rw [List.find?_cons_of_neg _ (by simpa using hk)] at hd
      rw [hk]
      dsimp only
      rw [if_neg (by simp)]
      obtain ⟨b1, hc, _, _, hl, _, _, _, g4, _⟩ := createCell_spec b pnet hp hred
      rw [hc]
      dsimp only
      have hp1 : pnet < b1.networks.length := by omega
      have hred1 : (b1.net pnet).isGreen = false := by rw [g4 pnet hp]; exact hred
      cases dec.var.initialValue with
      | none => exact ih { b1 with cells := (dec.var.addr, _) :: b1.cells } _ hp1 hred1 hd
      | some iv => exact ih { b1 with cells := (dec.var.addr, _) :: b1.cells } _ hp1 hred1 hd
    · rw [List.find?_cons_of_pos _ (by simpa using hk)] at hd
      cases hd
      unfold invalidOutcome
      cases ht : d.var.typ with
      | none => exact ⟨initSteps, b, rfl⟩
      | some k =>
        dsimp only
        rw [if_pos (by intro h; rw [ht, h] at hk; exact hk rfl)]
        cases k.Name with
        | error msg => exact ⟨initSteps, b, rfl⟩
        | ok name => exact ⟨initSteps, b, rfl⟩

/-- C16: on a module with a top-level declaration whose type is not `int32`,
`CreateBlueprint` stops at the first such declaration `d` and writes nothing:
when the type of `d` is one that `Name()` lists (every integer and floating
point kind and `bool`) it returns the error "invalid type: " followed by that
name and the output stream is as it was; when the type is `string`, or any
other kind `Generic.Name` does not list, the call of `Name()` that builds the
message panics with "not a Generic" and no error is returned; when `d` has no
type the call panics on the nil `Type`. -/
theorem C16_invalid_type (growslice : Nat → Nat → Nat) (encode : List Ent → List Nat)
    (fuel : Nat) (m : Module) (out : List Nat) (d : Declare)
    (hd : m.declarations.find? (fun x => decide (x.var.typ ≠ some .KindInt32)) = some d) :
    CreateBlueprint growslice encode fuel m out =
      invalidOutcome d (fun msg => (some msg, out)) := by
  unfold CreateBlueprint CreateBlueprintFrom
  dsimp only
  obtain ⟨r, b1, h1⟩ := getTickerNetwork_ok growslice {} 1 false false
  rw [h1, ok_bind]
  dsimp only [Builder.createNet]
  obtain ⟨steps, b2, h2⟩ := declareAll_invalid m.declarations
    { b1 with networks := b1.networks ++ [{ isGreen := false }] } b1.networks.length []
    (by simp) (by simp [Builder.net]) d hd
  rw [h2]
  unfold invalidOutcome
  cases d.var.typ with
  | none => rfl
  | some k =>
    dsimp only
    cases k.Name with
    | error msg => rfl
    | ok name => rfl

/-- C16 on the module of the program `var s string`: the declaration is
found, and `CreateBlueprint` panics instead of returning an error. -/
theorem C16_invalid_type_witness :
    CreateBlueprint goGrowslice (fun _ => []) 0
      { scope := .mk [] none,
        declarations := [{ name := "s", var := { addr := 0, name := "s", initialValue := none,
                                                 typ := some .KindString } }],
        functions := [] } [1, 2, 3] = .error "not a Generic" :=
  C16_invalid_type goGrowslice (fun _ => []) 0 _ [1, 2, 3]
    { name := "s", var := { addr := 0, name := "s", initialValue := none,
                            typ := some .KindString } } rfl

/-! ## The entity stack -/

theorem updAt_comm_get {α : Type} (l : List α) (i j k : Nat) (f g : α → α) :
    (updAt (updAt l i f) j g)[k]? =
      if j = k then ((updAt l i f)[k]?).map g else (updAt l i f)[k]? :=
  getElem?_updAt _ _ _ _

/-- Putting back the node that was removed last restores the nodes. -/
theorem reinstate_remove (nodes : List StackNode) (s : Nat) (h : stackLinked nodes s) :
    ∃ n1, stackRemove nodes s = .ok n1 ∧ stackReinstate n1 s = .ok nodes := by
  obtain ⟨pr, hp, hps, hpl, hpn, hnx⟩ := h
  cases hn : (nodes.getD s default).next with
  | none =>
    refine ⟨updAt nodes pr (fun x => { x with next := none }), ?_, ?_⟩
    · simp only [stackRemove, hp, hn]
    · have hs : (updAt nodes pr (fun x => { x with next := none })).getD s default
          = nodes.getD s default := by
        rw [getD_updAt, if_neg (fun h => hps h.1)]
      simp only [stackReinstate, hs, hp, hn]
      congr 1
      apply List.ext_getElem?
      intro k
      rw [getElem?_updAt, getElem?_updAt]
      by_cases hk : pr = k
      · subst hk
        simp only [if_true, Option.map_map]
        have hg : nodes[pr]? = some (nodes.getD pr default) := by
          rw [List.getD_eq_getElem?_getD, List.getElem?_eq_getElem hpl]; rfl
        rw [hg]
        simp only [Option.map_some', Function.comp]
        congr 1
        have := hpn
        cases hx : nodes.getD pr default
        rw [hx] at this
        simp only at this
        simp [this]
      · simp [hk]
  | some nx =>
    obtain ⟨h1, h2, h3, h4⟩ := hnx nx hn
    refine ⟨updAt (updAt nodes pr (fun x => { x with next := some nx })) nx
      (fun x => { x with prev := some pr }), ?_, ?_⟩
    · simp only [stackRemove, hp, hn]
    · have hs : (updAt (updAt nodes pr (fun x => { x with next := some nx })) nx
          (fun x => { x with prev := some pr })).getD s default = nodes.getD s default := by
        rw [getD_updAt, if_neg (fun h => h1 h.1), getD_updAt, if_neg (fun h => hps h.1)]
      simp only [stackReinstate, hs, hp, hn]
      congr 1
      apply List.ext_getElem?
      intro k
      simp only [getElem?_updAt]
      by_cases hk : pr = k
      · subst hk
        have hne : ¬ nx = pr := h2
        simp only [if_true, hne, if_false, Option.map_map]
        have hg : nodes[pr]? = some (nodes.getD pr default) := by
          rw [List.getD_eq_getElem?_getD, List.getElem?_eq_getElem hpl]; rfl
        rw [hg]
        simp only [Option.map_some', Function.comp]
        congr 1
        have := hpn
        cases hx : nodes.getD pr default
        rw [hx] at this
        simp only at this
        simp [this]
      · by_cases hk2 : nx = k
        · subst hk2
          simp only [hk, if_false, if_true, Option.map_map]
          have hg : nodes[nx]? = some (nodes.getD nx default) := by
            rw [List.getD_eq_getElem?_getD, List.getElem?_eq_getElem h3]; rfl
          rw [hg]
          simp only [Option.map_some', Function.comp]
          congr 1
          have := h4
          cases hx : nodes.getD nx default
          rw [hx] at this
          simp only at this
          simp [this]
        · simp [hk, hk2]

theorem stackReinstateAll_append (l1 l2 : List Nat) (nodes n1 : List StackNode)
    (h : stackReinstateAll nodes l1 = .ok n1) :
    stackReinstateAll nodes (l1 ++ l2) = stackReinstateAll n1 l2 := by
  induction l1 generalizing nodes with
  | nil => cases h; rfl
  | cons s rest ih =>
    simp only [stackReinstateAll, List.cons_append] at h ⊢
    split at h
    · rename_i n2 h2
      exact ih n2 h
    · cases h

/-- C40: if nodes of a doubly linked list are taken out with `remove()` in some
order, each being in the list when its turn comes, and then put back with
`reinstate()` in exactly the reverse order, the nodes (every `prev` and `next`)
are as before the removals; so `iterate` visits the same sequence of nodes
from every node. -/
theorem C40_reinstate_reverse (order : List Nat) (nodes : List StackNode)
    (h : stackRemovable nodes order) :
    ∃ n1, stackRemoveAll nodes order = .ok n1 ∧
      stackReinstateAll n1 order.reverse = .ok nodes ∧
      ∀ n2, stackReinstateAll n1 order.reverse = .ok n2 →
        ∀ fuel s, stackWalk n2 fuel (n2.getD s default).next
          = stackWalk nodes fuel (nodes.getD s default).next := by
  have key : ∃ n1, stackRemoveAll nodes order = .ok n1 ∧
      stackReinstateAll n1 order.reverse = .ok nodes := by
    induction order generalizing nodes with
    | nil => exact ⟨nodes, rfl, rfl⟩
    | cons s rest ih =>
      obtain ⟨hl, hr⟩ := h
      obtain ⟨n1, h1, h2⟩ := reinstate_remove nodes s hl
      obtain ⟨n3, h3, h4⟩ := ih n1 (hr n1 h1)
      refine ⟨n3, ?_, ?_⟩
      · simp only [stackRemoveAll, h1]; exact h3
      · rw [List.reverse_cons, stackReinstateAll_append _ _ _ _ h4]
        simp only [stackReinstateAll, h2]
  obtain ⟨n1, h1, h2⟩ := key
  refine ⟨n1, h1, h2, ?_⟩
  intro n2 hn2 fuel s
  rw [h2] at hn2
  cases hn2
  rfl

/-- C40 on the list head → 1 → 2 → 3: remove 2, then 1, then 3, and put them
back in the order 3, 1, 2. -/
theorem C40_reinstate_reverse_witness :
    ∃ n1, stackRemoveAll threeNodes [2, 1, 3] = .ok n1 ∧
      stackReinstateAll n1 [3, 1, 2] = .ok threeNodes ∧
      stackWalk n1 4 (n1.getD 0 default).next = [] := by
  have hrem : stackRemovable threeNodes [2, 1, 3] := by
    refine ⟨⟨1, rfl, by decide, by decide, rfl, ?_⟩, ?_⟩
    · intro nx hnx; cases hnx; exact ⟨by decide, by decide, by decide, rfl⟩
    · intro n1 h1; cases h1
      refine ⟨⟨0, rfl, by decide, by decide, rfl, ?_⟩, ?_⟩
      · intro nx hnx; cases hnx; exact ⟨by decide, by decide, by decide, rfl⟩
      · intro n2 h2; cases h2
        refine ⟨⟨0, rfl, by decide, by decide, rfl, ?_⟩, fun _ _ => trivial⟩
        intro nx hnx; cases hnx
  obtain ⟨n1, h1, h2, _⟩ := C40_reinstate_reverse [2, 1, 3] threeNodes hrem
  refine ⟨n1, h1, h2, ?_⟩
  cases h1
  rfl

theorem getNext_straight (r : List (Option Nat)) (pl : Int) :
    Ring.getNext r pl =
      if (Ring.getNextStraight r pl).1.toRingIdx % 2 = 0 then
        ((Ring.getNextStraight r pl).1.swapXY, ((Ring.getNextStraight r pl).2.1 + 6) % 8,
          (Ring.getNextStraight r pl).2.2)
      else Ring.getNextStraight r pl := rfl

theorem toRingIdx_eq (k : Nat) (x y : Int)
    (h : (absI x = 2 * (k : Int) + 1 ∧ absI y ≤ 2 * (k : Int) + 1) ∨
         (absI y = 2 * (k : Int) + 1 ∧ absI x ≤ 2 * (k : Int) + 1)) :
    (⟨x, y⟩ : Position).toRingIdx = k := by
  unfold Position.toRingIdx
  have hx := absI_nonneg x
  have hy := absI_nonneg y
  dsimp only
  split
  · rw [toInt_of_nonneg hx]; omega
  · rw [toInt_of_nonneg hy]; omega

theorem getNextStraight_eq (k : Nat) (r : List (Option Nat)) (hr : r.length = 8 * k + 4)
    (pl : Int) :
    Ring.getNextStraight r pl =
      if pl < 2 * (k : Int) + 2 then
        (⟨-(2 * (k : Int) + 1), 2 * pl - (2 * (k : Int) + 1) + 1⟩, DirectionSouth, false)
      else if pl - (2 * (k : Int) + 2) < 2 * (k : Int) then
        (⟨2 * (pl - (2 * (k : Int) + 2)) - (2 * (k : Int) + 1) + 3, 2 * (k : Int) + 1⟩,
          DirectionEast, false)
      else if pl - (2 * (k : Int) + 2) - 2 * (k : Int) < 2 * (k : Int) + 2 then
        (⟨2 * (k : Int) + 1,
            -(2 * (pl - (2 * (k : Int) + 2) - 2 * (k : Int)) - (2 * (k : Int) + 1) + 1)⟩,
          DirectionNorth, false)
      else
        (⟨-(2 * (pl - (2 * (k : Int) + 2) - 2 * (k : Int) - (2 * (k : Int) + 2))
              - (2 * (k : Int) + 1) + 3), -(2 * (k : Int) + 1)⟩,
          DirectionWest,
          decide (pl - (2 * (k : Int) + 2) - 2 * (k : Int) - (2 * (k : Int) + 2) + 2
            = 2 * (k : Int))) := by
  unfold Ring.getNextStraight
  rw [sizeEven_eq k r hr, radius_eq k r hr]

theorem getNextStraight_ring (k : Nat) (r : List (Option Nat)) (hr : r.length = 8 * k + 4)
    (pl : Int) (h0 : 0 ≤ pl) (h2 : pl % 2 = 0) (hlt : pl < 8 * (k : Int) + 4) :
    (Ring.getNextStraight r pl).1.toRingIdx = k := by
  rw [getNextStraight_eq k r hr pl]
  split_ifs with c1 c2 c3
  · apply toRingIdx_eq; left; unfold absI; constructor <;> split <;> omega
  · apply toRingIdx_eq; right; unfold absI; constructor <;> split <;> omega
  · apply toRingIdx_eq; left; unfold absI; constructor <;> split <;> omega
  · apply toRingIdx_eq; right; unfold absI; constructor <;> split <;> omega

theorem slotTiles_eq (k : Nat) (r : List (Option Nat)) (hr : r.length = 8 * k + 4)
    (pl : Int) (h0 : 0 ≤ pl) (h2 : pl % 2 = 0) (hlt : pl < 8 * (k : Int) + 4) :
    Ring.slotTiles r pl =
      if k % 2 = 0 then (straightTiles k pl).map Position.swapXY else straightTiles k pl := by
  have hk := getNextStraight_ring k r hr pl h0 h2 hlt
  unfold Ring.slotTiles
  rw [getNext_straight, hk]
  have hS : isVertical DirectionSouth = true := by decide
  have hN : isVertical DirectionNorth = true := by decide
  have hE : isVertical DirectionEast = false := by decide
  have hW : isVertical DirectionWest = false := by decide
  have hS6 : isVertical ((DirectionSouth + 6) % 8) = false := by decide
  have hN6 : isVertical ((DirectionNorth + 6) % 8) = false := by decide
  have hE6 : isVertical ((DirectionEast + 6) % 8) = true := by decide
  have hW6 : isVertical ((DirectionWest + 6) % 8) = true := by decide
  rw [getNextStraight_eq k r hr pl]
  unfold straightTiles
  have hkk : ((k : Int) % 2 = 0) ↔ (k % 2 = 0) := by omega
  by_cases hp : (k : Int) % 2 = 0
  · have hp2 : k % 2 = 0 := hkk.1 hp
    rw [if_pos hp, if_pos hp2]
    by_cases c1 : pl < 2 * (k : Int) + 2
    · simp only [c1, if_true, if_false, hS6, hS, hN6, hN, hE6, hE, hW6, hW,
          positions_horizontal, positions_vertical, Bool.false_eq_true, Position.swapXY,
          List.map_cons, List.map_nil, List.cons.injEq, Position.mk.injEq, and_true, true_and]
      omega
    · by_cases c2 : pl - (2 * (k : Int) + 2) < 2 * (k : Int)
      · simp only [c1, c2, if_true, if_false, hS6, hS, hN6, hN, hE6, hE, hW6, hW,
          positions_horizontal, positions_vertical, Bool.false_eq_true, Position.swapXY,
          List.map_cons, List.map_nil, List.cons.injEq, Position.mk.injEq, and_true, true_and]
        omega
      · by_cases c3 : pl - (2 * (k : Int) + 2) - 2 * (k : Int) < 2 * (k : Int) + 2
        · simp only [c1, c2, c3, if_true, if_false, hS6, hS, hN6, hN, hE6, hE, hW6, hW,
          positions_horizontal, positions_vertical, Bool.false_eq_true, Position.swapXY,
          List.map_cons, List.map_nil, List.cons.injEq, Position.mk.injEq, and_true, true_and]
          omega
        · simp only [c1, c2, c3, if_true, if_false, hS6, hS, hN6, hN, hE6, hE, hW6, hW,
          positions_horizontal, positions_vertical, Bool.false_eq_true, Position.swapXY,
          List.map_cons, List.map_nil, List.cons.injEq, Position.mk.injEq, and_true, true_and]
          omega
  · have hp2 : ¬ k % 2 = 0 := fun h => hp (hkk.2 h)
    rw [if_neg hp, if_neg hp2]
    by_cases c1 : pl < 2 * (k : Int) + 2
    · simp only [c1, if_true, if_false, hS6, hS, hN6, hN, hE6, hE, hW6, hW,
          positions_horizontal, positions_vertical, Bool.false_eq_true, Position.swapXY,
          List.map_cons, List.map_nil, List.cons.injEq, Position.mk.injEq, and_true, true_and]
      omega
    · by_cases c2 : pl - (2 * (k : Int) + 2) < 2 * (k : Int)
      · simp only [c1, c2, if_true, if_false, hS6, hS, hN6, hN, hE6, hE, hW6, hW,
          positions_horizontal, positions_vertical, Bool.false_eq_true, Position.swapXY,
          List.map_cons, List.map_nil, List.cons.injEq, Position.mk.injEq, and_true, true_and]
        omega
      · by_cases c3 : pl - (2 * (k : Int) + 2) - 2 * (k : Int) < 2 * (k : Int) + 2
        · simp only [c1, c2, c3, if_true, if_false, hS6, hS, hN6, hN, hE6, hE, hW6, hW,
          positions_horizontal, positions_vertical, Bool.false_eq_true, Position.swapXY,
          List.map_cons, List.map_nil, List.cons.injEq, Position.mk.injEq, and_true, true_and]
          omega
        · simp only [c1, c2, c3, if_true, if_false, hS6, hS, hN6, hN, hE6, hE, hW6, hW,
          positions_horizontal, positions_vertical, Bool.false_eq_true, Position.swapXY,
          List.map_cons, List.map_nil, List.cons.injEq, Position.mk.injEq, and_true, true_and]
          omega
theorem onRing_iff (k : Nat) (x y : Int) :
    onRing k ⟨x, y⟩ ↔
      x % 2 = 1 ∧ y % 2 = 1 ∧ -(2 * (k : Int) + 1) ≤ x ∧ x ≤ 2 * (k : Int) + 1 ∧
      -(2 * (k : Int) + 1) ≤ y ∧ y ≤ 2 * (k : Int) + 1 ∧
      (x = 2 * (k : Int) + 1 ∨ x = -(2 * (k : Int) + 1) ∨ y = 2 * (k : Int) + 1 ∨
        y = -(2 * (k : Int) + 1)) := by
  unfold onRing absI
  simp only [max_def]
  split_ifs <;> omega

theorem onRing_swapXY (k : Nat) (t : Position) : onRing k t.swapXY ↔ onRing k t := by
  unfold onRing Position.swapXY
  dsimp only
  rw [max_comm]
  tauto

theorem swapXY_swapXY (t : Position) : t.swapXY.swapXY = t := rfl

theorem mem_map_swapXY (t : Position) (l : List Position) :
    t ∈ l.map Position.swapXY ↔ t.swapXY ∈ l := by
  constructor
  · intro h
    obtain ⟨a, ha, rfl⟩ := List.mem_map.1 h
    exact ha
  · intro h
    exact List.mem_map.2 ⟨t.swapXY, h, rfl⟩

theorem straightTiles_slotOf (k : Nat) (pl : Int) (h0 : 0 ≤ pl) (h2 : pl % 2 = 0)
    (hlt : pl < 8 * (k : Int) + 4) (x y : Int) (h : (⟨x, y⟩ : Position) ∈ straightTiles k pl) :
    onRing k ⟨x, y⟩ ∧ slotOf k x y = pl := by
  rw [onRing_iff]
  unfold straightTiles at h
  unfold slotOf
  dsimp only at h ⊢
  split_ifs at h <;>
    simp only [List.mem_cons, List.mem_singleton, List.not_mem_nil, or_false,
      Position.mk.injEq] at h <;>
    rcases h with ⟨rfl, rfl⟩ | ⟨rfl, rfl⟩ <;>
    (split_ifs <;> omega)

theorem slotOf_straightTiles (k : Nat) (x y : Int) (h : onRing k ⟨x, y⟩) :
    0 ≤ slotOf k x y ∧ slotOf k x y % 2 = 0 ∧ slotOf k x y < 8 * (k : Int) + 4 ∧
    (⟨x, y⟩ : Position) ∈ straightTiles k (slotOf k x y) := by
  rw [onRing_iff] at h
  unfold straightTiles slotOf
  dsimp only
  split_ifs <;>
    simp only [List.mem_cons, List.mem_singleton, List.not_mem_nil, or_false,
      Position.mk.injEq] <;>
    omega

theorem straightTiles_nodup (k : Nat) (pl : Int) : (straightTiles k pl).Nodup := by
  unfold straightTiles
  dsimp only
  split_ifs <;>
    simp only [List.nodup_cons, List.mem_cons, List.mem_singleton, List.not_mem_nil, or_false,
      Position.mk.injEq, not_false_eq_true, List.nodup_nil, and_true] <;>
    omega

theorem straightTiles_length (k : Nat) (pl : Int) : (straightTiles k pl).length = 2 := by
  unfold straightTiles
  dsimp only
  split_ifs <;> rfl

theorem slotTiles_slotOfRing (k : Nat) (r : List (Option Nat)) (hr : r.length = 8 * k + 4)
    (pl : Int) (h0 : 0 ≤ pl) (h2 : pl % 2 = 0) (hlt : pl < 8 * (k : Int) + 4) (t : Position)
    (h : t ∈ Ring.slotTiles r pl) : onRing k t ∧ slotOfRing k t = pl := by
  rw [slotTiles_eq k r hr pl h0 h2 hlt] at h
  unfold slotOfRing
  by_cases hp : k % 2 = 0
  · rw [if_pos hp] at h ⊢
    rw [mem_map_swapXY] at h
    have := straightTiles_slotOf k pl h0 h2 hlt t.Y t.X h
    exact ⟨(onRing_swapXY k t).1 this.1, this.2⟩
  · rw [if_neg hp] at h ⊢
    exact straightTiles_slotOf k pl h0 h2 hlt t.X t.Y h

theorem slotOfRing_slotTiles (k : Nat) (r : List (Option Nat)) (hr : r.length = 8 * k + 4)
    (t : Position) (h : onRing k t) :
    0 ≤ slotOfRing k t ∧ slotOfRing k t % 2 = 0 ∧ slotOfRing k t < 8 * (k : Int) + 4 ∧
    t ∈ Ring.slotTiles r (slotOfRing k t) := by
  have key : 0 ≤ slotOfRing k t ∧ slotOfRing k t % 2 = 0 ∧ slotOfRing k t < 8 * (k : Int) + 4 ∧
      t ∈ (if k % 2 = 0 then (straightTiles k (slotOfRing k t)).map Position.swapXY
            else straightTiles k (slotOfRing k t)) := by
    unfold slotOfRing
    by_cases hp : k % 2 = 0
    · simp only [if_pos hp]
      rw [mem_map_swapXY]
      exact slotOf_straightTiles k t.Y t.X ((onRing_swapXY k t).2 h)
    · simp only [if_neg hp]
      exact slotOf_straightTiles k t.X t.Y h
  obtain ⟨a, b, c, d⟩ := key
  refine ⟨a, b, c, ?_⟩
  rw [slotTiles_eq k r hr _ a b c]
  exact d

theorem slotTiles_nodup (k : Nat) (r : List (Option Nat)) (hr : r.length = 8 * k + 4)
    (pl : Int) (h0 : 0 ≤ pl) (h2 : pl % 2 = 0) (hlt : pl < 8 * (k : Int) + 4) :
    (Ring.slotTiles r pl).length = 2 ∧ (Ring.slotTiles r pl).Nodup := by
  rw [slotTiles_eq k r hr pl h0 h2 hlt]
  split
  · refine ⟨by rw [List.length_map, straightTiles_length], ?_⟩
    apply List.Nodup.map _ (straightTiles_nodup k pl)
    intro a b hab
    have := congrArg Position.swapXY hab
    simpa only [swapXY_swapXY] using this
  · exact ⟨straightTiles_length k pl, straightTiles_nodup k pl⟩

theorem getNext_isFull (k : Nat) (hk : 1 ≤ k) (r : List (Option Nat)) (hr : r.length = 8 * k + 4)
    (pl : Int) (h0 : 0 ≤ pl) (h2 : pl % 2 = 0) (hlt : pl < 8 * (k : Int) + 4) :
    (Ring.getNext r pl).2.2 = true ↔ pl = 8 * (k : Int) + 2 := by
  have h1 : (Ring.getNext r pl).2.2 = (Ring.getNextStraight r pl).2.2 := by
    rw [getNext_straight]; split <;> rfl
  rw [h1, getNextStraight_eq k r hr pl]
  split_ifs <;> simp only [decide_eq_true_eq, Bool.false_eq_true, false_iff] <;> omega

/-- C37: for k ≥ 1 and a ring of 8k+4 slots, the slots `Ring.getNext` hands out
for the even offsets below 8k+4 each have two distinct tiles, all of ring k;
two different offsets share no tile; every tile of ring k lies in one of them;
and `isFull` holds exactly for the offset 8k+2. -/
theorem C37_slots_partition_ring (k : Nat) (hk : 1 ≤ k) (r : List (Option Nat))
    (hr : r.length = 8 * k + 4) :
    (∀ pl : Int, 0 ≤ pl → pl % 2 = 0 → pl < 8 * (k : Int) + 4 →
      (Ring.slotTiles r pl).length = 2 ∧ (Ring.slotTiles r pl).Nodup ∧
      (∀ t, t ∈ Ring.slotTiles r pl → onRing k t) ∧
      ((Ring.getNext r pl).2.2 = true ↔ pl = 8 * (k : Int) + 2)) ∧
    (∀ pl pl2 : Int, 0 ≤ pl → pl % 2 = 0 → pl < 8 * (k : Int) + 4 →
      0 ≤ pl2 → pl2 % 2 = 0 → pl2 < 8 * (k : Int) + 4 → pl ≠ pl2 →
      ∀ t, t ∈ Ring.slotTiles r pl → t ∉ Ring.slotTiles r pl2) ∧
    (∀ t, onRing k t →
      ∃ pl : Int, 0 ≤ pl ∧ pl % 2 = 0 ∧ pl < 8 * (k : Int) + 4 ∧ t ∈ Ring.slotTiles r pl) := by
  refine ⟨?_, ?_, ?_⟩
  · intro pl h0 h2 hlt
    obtain ⟨a, b⟩ := slotTiles_nodup k r hr pl h0 h2 hlt
    exact ⟨a, b, fun t ht => (slotTiles_slotOfRing k r hr pl h0 h2 hlt t ht).1,
      getNext_isFull k hk r hr pl h0 h2 hlt⟩
  · intro pl pl2 h0 h2 hlt h0' h2' hlt' hne t ht ht'
    have e1 := (slotTiles_slotOfRing k r hr pl h0 h2 hlt t ht).2
    have e2 := (slotTiles_slotOfRing k r hr pl2 h0' h2' hlt' t ht').2
    exact hne (e1.symm.trans e2)
  · intro t ht
    exact ⟨slotOfRing k t, slotOfRing_slotTiles k r hr t ht⟩

/-- C37 on ring 1 (12 slots). -/
theorem C37_slots_partition_ring_witness :
    (∀ pl : Int, 0 ≤ pl → pl % 2 = 0 → pl < 8 * ((1 : Nat) : Int) + 4 →
      (Ring.slotTiles (List.replicate 12 none) pl).length = 2 ∧
      (Ring.slotTiles (List.replicate 12 none) pl).Nodup ∧
      (∀ t, t ∈ Ring.slotTiles (List.replicate 12 none) pl → onRing 1 t) ∧
      ((Ring.getNext (List.replicate 12 none) pl).2.2 = true ↔ pl = 8 * ((1 : Nat) : Int) + 2)) ∧
    (∀ pl pl2 : Int, 0 ≤ pl → pl % 2 = 0 → pl < 8 * ((1 : Nat) : Int) + 4 →
      0 ≤ pl2 → pl2 % 2 = 0 → pl2 < 8 * ((1 : Nat) : Int) + 4 → pl ≠ pl2 →
      ∀ t, t ∈ Ring.slotTiles (List.replicate 12 none) pl →
        t ∉ Ring.slotTiles (List.replicate 12 none) pl2) ∧
    (∀ t, onRing 1 t →
      ∃ pl : Int, 0 ≤ pl ∧ pl % 2 = 0 ∧ pl < 8 * ((1 : Nat) : Int) + 4 ∧
        t ∈ Ring.slotTiles (List.replicate 12 none) pl) :=
  C37_slots_partition_ring 1 (by decide) (List.replicate 12 none) (by decide)

/-- C39 (amended): on a ring of 8k+4 slots the direction `Ring.getNext` returns
for the even offset `pl` is, for odd k, south, east, north, west on the four
sides in turn, and for even k east, north, west, south: each direction of the
odd layout plus 6 modulo 8, a quarter turn, with the position's axes
exchanged. -/
theorem C39_even_ring_quarter_turn (k : Nat) (r : List (Option Nat)) (hr : r.length = 8 * k + 4)
    (pl : Int) (h0 : 0 ≤ pl) (h2 : pl % 2 = 0) (hlt : pl < 8 * (k : Int) + 4) :
    (Ring.getNextStraight r pl).2.1 =
      (if pl < 2 * (k : Int) + 2 then DirectionSouth
       else if pl < 4 * (k : Int) + 2 then DirectionEast
       else if pl < 6 * (k : Int) + 4 then DirectionNorth else DirectionWest) ∧
    (k % 2 = 1 → Ring.getNext r pl = Ring.getNextStraight r pl) ∧
    (k % 2 = 0 →
      (Ring.getNext r pl).1 = (Ring.getNextStraight r pl).1.swapXY ∧
      (Ring.getNext r pl).2.1 = ((Ring.getNextStraight r pl).2.1 + 6) % 8 ∧
      (Ring.getNext r pl).2.1 =
        (if pl < 2 * (k : Int) + 2 then DirectionEast
         else if pl < 4 * (k : Int) + 2 then DirectionNorth
         else if pl < 6 * (k : Int) + 4 then DirectionWest else DirectionSouth)) := by
  have hk := getNextStraight_ring k r hr pl h0 h2 hlt
  have hd : (Ring.getNextStraight r pl).2.1 =
      (if pl < 2 * (k : Int) + 2 then DirectionSouth
       else if pl < 4 * (k : Int) + 2 then DirectionEast
       else if pl < 6 * (k : Int) + 4 then DirectionNorth else DirectionWest) := by
    rw [getNextStraight_eq k r hr pl]
    split_ifs <;> first | rfl | omega
  refine ⟨hd, ?_, ?_⟩
  · intro hodd
    rw [getNext_straight, hk, if_neg (by omega)]
  · intro hev
    have e : Ring.getNext r pl = ((Ring.getNextStraight r pl).1.swapXY,
        ((Ring.getNextStraight r pl).2.1 + 6) % 8, (Ring.getNextStraight r pl).2.2) := by
      rw [getNext_straight, hk, if_pos (by omega)]
    refine ⟨by rw [e], by rw [e], ?_⟩
    rw [e]
    dsimp only
    rw [hd]
    split_ifs <;> rfl

/-- C39 (amended) on ring 2 (20 slots), offset 0. -/
theorem C39_even_ring_quarter_turn_witness :
    (Ring.getNextStraight (List.replicate 20 none) 0).2.1 =
      (if (0 : Int) < 2 * ((2 : Nat) : Int) + 2 then DirectionSouth
       else if (0 : Int) < 4 * ((2 : Nat) : Int) + 2 then DirectionEast
       else if (0 : Int) < 6 * ((2 : Nat) : Int) + 4 then DirectionNorth else DirectionWest) ∧
    (2 % 2 = 1 →
      Ring.getNext (List.replicate 20 none) 0 = Ring.getNextStraight (List.replicate 20 none) 0) ∧
    (2 % 2 = 0 →
      (Ring.getNext (List.replicate 20 none) 0).1 =
        (Ring.getNextStraight (List.replicate 20 none) 0).1.swapXY ∧
      (Ring.getNext (List.replicate 20 none) 0).2.1 =
        ((Ring.getNextStraight (List.replicate 20 none) 0).2.1 + 6) % 8 ∧
      (Ring.getNext (List.replicate 20 none) 0).2.1 =
        (if (0 : Int) < 2 * ((2 : Nat) : Int) + 2 then DirectionEast
         else if (0 : Int) < 4 * ((2 : Nat) : Int) + 2 then DirectionNorth
         else if (0 : Int) < 6 * ((2 : Nat) : Int) + 4 then DirectionWest else DirectionSouth)) :=
  C39_even_ring_quarter_turn 2 (List.replicate 20 none) (by decide) 0 (by decide) (by decide)
    (by decide)

/-- C39 as stated fails: offset 0 of ring 1 (12 slots, odd) faces south, a half
turn of south is north, but offset 0 of ring 2 (20 slots, even) faces east. -/
theorem C39_not_half_turn :
    (Ring.getNext (List.replicate 12 none) 0).2.1 = DirectionSouth ∧
    (DirectionSouth + 4) % 8 = DirectionNorth ∧
    (Ring.getNext (List.replicate 20 none) 0).2.1 = DirectionEast ∧
    (Ring.getNext (List.replicate 20 none) 0).2.1 ≠ DirectionNorth := by
  decide

theorem merge_fold_network (om : List Nat) (n m : Nat) (cs : List Connector) :
    ((om.foldl (fun cs m => updAt cs m (fun c => { c with network := n })) cs).getD m
        default).network =
      if m ∈ om ∧ m < cs.length then n else (cs.getD m default).network := by
  induction om generalizing cs with
  | nil => simp
  | cons a t ih =>
    rw [List.foldl_cons, ih, length_updAt, getD_updAt]
    by_cases ha : a = m
    · subst ha
      by_cases hl : a < cs.length
      · simp [hl]
      · simp [hl]
    · have : ¬ m = a := fun h => ha h.symm
      simp [ha, this]

/-- C31 (what `merge` does): after `n.merge(o)` with `n` and `o` different
networks, the members of `n` are its earlier members followed by those of `o`,
every connector of `o` reports `n` as its network, and the member list of `o`
is unchanged: `o` still holds all of its connectors. -/
theorem C31_merge_keeps_source_members (b : Builder) (n o : Nat) (hn : n < b.networks.length)
    (hne : n ≠ o) :
    ((b.merge n o).net n).members = (b.net n).members ++ (b.net o).members ∧
    (∀ m, m ∈ (b.net o).members → m < b.conns.length → ((b.merge n o).conn m).network = n) ∧
    ((b.merge n o).net o).members = (b.net o).members := by
  refine ⟨?_, ?_, ?_⟩
  · unfold Builder.merge Builder.net
    dsimp only
    rw [getD_updAt, if_pos ⟨rfl, hn⟩]
  · intro m hm hl
    unfold Builder.merge Builder.conn
    dsimp only
    rw [merge_fold_network, if_pos ⟨hm, hl⟩]
  · unfold Builder.merge Builder.net
    dsimp only
    rw [getD_updAt, if_neg (fun h => hne h.1)]

/-- C31 on two networks with one connector each: after the merge connector 1 is
a member of both networks. -/
theorem C31_merge_keeps_source_members_witness :
    ((twoNetworks.merge 0 1).net 0).members = (twoNetworks.net 0).members ++ (twoNetworks.net 1).members ∧
    (∀ m, m ∈ (twoNetworks.net 1).members → m < twoNetworks.conns.length →
      ((twoNetworks.merge 0 1).conn m).network = 0) ∧
    ((twoNetworks.merge 0 1).net 1).members = (twoNetworks.net 1).members :=
  C31_merge_keeps_source_members twoNetworks 0 1 (by decide) (by decide)

/-- C33 (amended): the connection `addConnection` builds for an endpoint
`b` and entity number `n` is encoded with both members, `entity_id` and
`circuit_id`, the latter 1 for a primary and 2 for a secondary endpoint; the
member is left out only for the circuit id 0, which `getCircuitId` never
returns. -/
theorem C33_circuit_id_always_encoded (b : BPConnection) (n : Nat) :
    Connection.toJSON { CircuitID := b.getCircuitId, EntityID := n } =
      .obj [("entity_id", .num n), ("circuit_id", .num (if b.isSecondary then 2 else 1))] ∧
    b.getCircuitId ≠ 0 ∧
    Connection.toJSON { CircuitID := 0, EntityID := n } = .obj [("entity_id", .num n)] := by
  unfold Connection.toJSON BPConnection.getCircuitId
  cases b.isSecondary <;> simp

/-- C33 as stated fails: the endpoint with circuit id 1 on entity 7 is encoded
with the member `circuit_id`, not with `entity_id` alone. -/
theorem C33_circuit_id_one_is_encoded :
    ({ ent := 0, isSecondary := false } : BPConnection).getCircuitId = 1 ∧
    Connection.toJSON { EntityID := 7, CircuitID := 1 } =
      .obj [("entity_id", .num 7), ("circuit_id", .num 1)] ∧
    Connection.toJSON { EntityID := 7, CircuitID := 1 } ≠ .obj [("entity_id", .num 7)] := by
  refine ⟨rfl, rfl, ?_⟩
  intro h
  simp [Connection.toJSON] at h

theorem take_append_drop_min (k : Nat) (l : List Nat) :
    l.take k ++ l.drop (min k l.length) = l := by
  rcases Nat.le_total k l.length with h | h
  · rw [Nat.min_eq_left h, List.take_append_drop]
  · rw [Nat.min_eq_right h, List.drop_length, List.take_of_length_le h, List.append_nil]

theorem saveEncode_eq (zlib : List Nat → List Nat) (zearly bearly : List Nat → Nat)
    (marshal : JSON → List Nat) (entityJSON : Ent → JSON) (ents : List Ent) :
    Planner.saveEncode zlib zearly bearly marshal entityJSON ents =
      base64Std (zlib (marshal (blueprintJSON (ents.map entityJSON)) ++ [10])) := by
  unfold Planner.saveEncode
  simp only [EncWriter.Write, EncWriter.Close, EncWriter.emitted, Bool.false_eq_true, if_false,
    if_true, List.nil_append, List.length_take, take_append_drop_min]

/-- C34: when the loop that powers the outer rings returns the plot `q`,
`Planner.Save` appends to the stream the byte `'0'` and then the padded
standard base64 encoding of the whole zlib stream of the JSON text (followed
by the newline that `Encode` adds) of the object with the one member
`blueprint`, whose `icons` hold the single icon (virtual signal
`signal-everything`, index 1), whose `entities` are the entities of the
placement vector of `q` in order, whose `item` is `blueprint` and whose
`version` is 281479274168320.  The zlib writer is closed first, so the
encoder has received its whole stream when it is closed in turn. -/
theorem C34_save_stream (zlib : List Nat → List Nat) (zearly bearly : List Nat → Nat)
    (marshal : JSON → List Nat) (entityJSON : Ent → JSON) (p : Planner) (to_ : List Nat)
    (q : Plot) (hq : Plot.powerOuterRings 18 p.toPlot = .ok q) :
    Planner.Save (Planner.saveEncode zlib zearly bearly marshal entityJSON) p to_ =
      .ok ({ p with toPlot := q },
        to_ ++ [48] ++ base64Std (zlib (marshal (.obj [("blueprint", .obj [
          ("icons", .arr [.obj [("signal", .obj [("type", .str "virtual"),
            ("name", .str "signal-everything")]), ("index", .num 1)]]),
          ("entities", .arr ((q.entities.map q.ent).map entityJSON)),
          ("item", .str "blueprint"),
          ("version", .num 281479274168320)])]) ++ [10]))) := by
  unfold Planner.Save
  rw [hq]
  dsimp only
  rw [saveEncode_eq]
  rfl

/-- C34 on the plot of `plan` before anything is placed (5 rings, so the loop
does nothing), with a zlib that stores its input and a marshaller that emits
one byte. -/
theorem C34_save_stream_witness :
    Planner.Save (Planner.saveEncode id (fun _ => 2) (fun _ => 0) (fun _ => [123])
        (fun (e : Ent) => JSON.num e.EntityNumber)) setupPlanner [] =
      .ok ({ setupPlanner with toPlot := setupPlanner.toPlot },
        [] ++ [48] ++ base64Std (id ((fun (_ : JSON) => [123]) (JSON.obj [("blueprint", .obj [
          ("icons", .arr [.obj [("signal", .obj [("type", .str "virtual"),
            ("name", .str "signal-everything")]), ("index", .num 1)]]),
          ("entities", .arr ((setupPlanner.toPlot.entities.map setupPlanner.toPlot.ent).map
            (fun (e : Ent) => JSON.num e.EntityNumber))),
          ("item", .str "blueprint"),
          ("version", .num 281479274168320)])]) ++ [10]))) :=
  C34_save_stream id (fun _ => 2) (fun _ => 0) (fun _ => [123]) (fun (e : Ent) => JSON.num e.EntityNumber)
    setupPlanner [] setupPlanner.toPlot (by rfl)

theorem getTicker_cases (growslice : Nat → Nat → Nat) (b : Builder) (tick : Nat) (ex : Bool) :
    ∃ r b1, b.getTicker growslice tick ex = .ok (r, b1) ∧
      ((r = none ∧ b1 = b ∧ tick < b.tickers.length) ∨
       (r.isSome = true ∧ b1 = b ∧ tick < b.tickers.length) ∨
       (r.isSome = true ∧ b1.tickers.length = tick + 1 ∧ b.tickers.length ≤ tick)) := by
  unfold Builder.getTicker
  by_cases hlt : tick < b.tickers.length
  · rw [if_pos hlt]
    split
    · exact ⟨_, _, rfl, Or.inl ⟨rfl, rfl, hlt⟩⟩
    · exact ⟨_, _, rfl, Or.inr (Or.inl ⟨rfl, rfl, hlt⟩)⟩
  · rw [if_neg hlt]
    dsimp only
    obtain ⟨b2, h2, u1, _, _, _⟩ := initTickers_spec
      (List.range' b.tickers.length (tick - b.tickers.length + 1))
      (b.appendTickers growslice (tick - b.tickers.length + 1))
    rw [h2]
    dsimp only
    refine ⟨_, _, rfl, Or.inr (Or.inr ⟨rfl, ?_, by omega⟩)⟩
    have hlen : b2.tickers.length = tick + 1 := by
      rw [u1, appendTickers_tickers]
      simp
      omega
    cases ex
    · simpa using hlen
    · simp only [if_true, Builder.setMemOp, length_updAt]
      exact hlen

theorem nextSafeMemOpTickLoop_returns (growslice : Nat → Nat → Nat) (isRead : Bool) (b : Builder)
    (fuel : Nat) : ∀ tick : Nat, max tick b.tickers.length - tick + 1 ≤ fuel →
    ∃ r b1, Builder.nextSafeMemOpTickLoop growslice fuel b tick isRead = .ok (r, b1) ∧
      tick ≤ r ∧ r ≤ max tick b.tickers.length := by
  induction fuel with
  | zero => intro tick h; omega
  | succ fuel ih =>
    intro tick hf
    have next : tick < b.tickers.length →
        ∃ r b1, Builder.nextSafeMemOpTickLoop growslice fuel b (tick + 1) isRead = .ok (r, b1) ∧
          tick ≤ r ∧ r ≤ max tick b.tickers.length := by
      intro hlt
      obtain ⟨r, b1, h, h1, h2⟩ := ih (tick + 1) (by omega)
      exact ⟨r, b1, h, by omega, by omega⟩
    unfold Builder.nextSafeMemOpTickLoop
    obtain ⟨r1, b1, e1, c1⟩ := getTicker_cases growslice b tick true
    rw [e1]
    rcases c1 with ⟨rfl, rfl, hlt⟩ | c1
    · exact next hlt
    · have hs1 : r1.isSome = true := by rcases c1 with c | c <;> exact c.1
      obtain ⟨t, rfl⟩ := Option.isSome_iff_exists.1 hs1
      dsimp only
      obtain ⟨r2, b2, e2, c2⟩ := getTicker_cases growslice b1 (tick + 1) true
      rw [e2]
      rcases c2 with ⟨rfl, rfl, hlt2⟩ | c2
      · dsimp only
        rcases c1 with ⟨_, rfl, hlt⟩ | ⟨_, hl, _⟩
        · exact next hlt
        · omega
      · have hs2 : r2.isSome = true := by rcases c2 with c | c <;> exact c.1
        obtain ⟨t2, rfl⟩ := Option.isSome_iff_exists.1 hs2
        dsimp only
        cases isRead
        · simp only [Bool.not_false, if_true]
          obtain ⟨r3, b3, e3, c3⟩ := getTicker_cases growslice b2 (tick + 2) true
          rw [e3]
          rcases c3 with ⟨rfl, rfl, hlt3⟩ | c3
          · dsimp only
            rcases c2 with ⟨_, rfl, hlt2⟩ | ⟨_, hl2, _⟩
            · rcases c1 with ⟨_, rfl, hlt⟩ | ⟨_, hl, _⟩
              · exact next hlt
              · omega
            · omega
          · have hs3 : r3.isSome = true := by rcases c3 with c | c <;> exact c.1
            obtain ⟨t3, rfl⟩ := Option.isSome_iff_exists.1 hs3
            exact ⟨_, _, rfl, le_refl _, le_max_left _ _⟩
        · simp only [Bool.not_true, Bool.false_eq_true, if_false]
          exact ⟨_, _, rfl, le_refl _, le_max_left _ _⟩

/-- C35: for every builder and every tick `t`, `nextSafeMemOpTick(t, isRead)`
returns: the scan, given one iteration per ticker of the chain and one more,
finds a tick `r` with `t ≤ r ≤ max(t, len(tickers))`, the length taken
before the call. -/
theorem C35_nextSafeMemOpTick_returns (growslice : Nat → Nat → Nat) (b : Builder) (tick : Nat)
    (isRead : Bool) :
    ∃ r b1, b.nextSafeMemOpTick growslice tick isRead = .ok (r, b1) ∧
      tick ≤ r ∧ r ≤ max tick b.tickers.length := by
  unfold Builder.nextSafeMemOpTick
  exact nextSafeMemOpTickLoop_returns growslice isRead b (b.tickers.length + 1) tick (by omega)

seal Plot.expand Ring.getNext Plot.scanSlot Plot.canPlace in
theorem getNext2x1Loop_succ (fuel : Nat) (p : Planner) :
    Planner.getNext2x1Loop (fuel + 1) p = (
    if p.ringIdx ≥ p.rings.length then .error "index out of range" else
    let nx := Ring.getNext (p.rings.getD p.ringIdx []) p.placed
    let pos := nx.1
    let dir := nx.2.1
    let mustExpand := nx.2.2
    let p1 : Except String Planner :=
      if mustExpand then
        let q : Planner := { p with ringIdx := p.ringIdx + 1, placed := 0 }
        if q.ringIdx + 1 = q.rings.length then
          match q.toPlot.expand with
          | .ok pl => .ok { q with toPlot := pl }
          | .error msg => .error msg
        else .ok q
      else .ok { p with placed := p.placed + 2 }
    match p1 with
    | .error msg => .error msg
    | .ok p1 =>
      let bounds := if isVertical dir then pos.getBounds 2 1 else pos.getBounds 1 2
      match p1.toPlot.scanSlot bounds.positions ⟨0, 0⟩ true with
      | .error msg => .error msg
      | .ok (freePos, canPlace) =>
        if canPlace then .ok ((pos, dir), p1)
        else if freePos.isZero then Planner.getNext2x1Loop fuel p1
        else
          let alt : Option (Position × Direction) :=
            match pos.getRingArea.1 with
            | .Left => some (pos.shift (-1) (freePos.Y - pos.Y), DirectionEast)
            | .Right => some (pos.shift (-1) (freePos.Y - pos.Y), DirectionWest)
            | .Bottom => some (pos.shift (freePos.X - pos.X) 1, DirectionNorth)
            | .Top => some (pos.shift (freePos.X - pos.X) (-1), DirectionSouth)
            | _ => none
          match alt with
          | none => Planner.getNext2x1Loop fuel p1
          | some (newPos, newDir) =>
            match p1.toPlot.canPlace (newPos.getBounds 1 2) with
            | .error msg => .error msg
            | .ok true => .ok ((newPos, newDir), p1)
            | .ok false => Planner.getNext2x1Loop fuel p1) := rfl

/-- C38 (the left edge): when the straight slot `getNext2x1` reads lies on the
left edge, is half occupied with free tile `freePos`, and the probe
of the fallback succeeds, the slot returned is centred half a tile to the
left of the edge, faces east, and covers the tile left of the free tile and
the free tile itself: the first lies one tile farther from the origin than
the edge, in the next ring outwards, not in the ring nearer the origin. -/
theorem C38_left_fallback_outward (fuel : Nat) (p : Planner) (pos : Position) (dir : Direction)
    (freePos : Position) (hidx : p.ringIdx < p.rings.length)
    (hnx : Ring.getNext (p.rings.getD p.ringIdx []) p.placed = (pos, dir, false))
    (hleft : pos.getRingArea.1 = .Left)
    (hscan : p.toPlot.scanSlot
      (if isVertical dir then pos.getBounds 2 1 else pos.getBounds 1 2).positions ⟨0, 0⟩ true
        = .ok (freePos, false))
    (hnz : freePos.isZero = false)
    (hcan : p.toPlot.canPlace ((pos.shift (-1) (freePos.Y - pos.Y)).getBounds 1 2) = .ok true) :
    Planner.getNext2x1Loop (fuel + 1) p =
      .ok ((pos.shift (-1) (freePos.Y - pos.Y), DirectionEast),
        { p with placed := p.placed + 2 }) ∧
    ((pos.shift (-1) (freePos.Y - pos.Y)).getBounds 1 2).positions =
      [⟨pos.X - 2, freePos.Y⟩, ⟨pos.X, freePos.Y⟩] ∧
    pos.X < 0 ∧ absI (pos.X - 2) = absI pos.X + 2 := by
  have hx : pos.X < 0 := by
    unfold Position.getRingArea at hleft
    dsimp only at hleft
    split_ifs at hleft
    assumption
  refine ⟨?_, ?_, hx, ?_⟩
  · rw [getNext2x1Loop_succ, if_neg (by omega)]
    simp only [hnx, Bool.false_eq_true, if_false, hscan, hnz, hleft, hcan]
  · rw [positions_horizontal]
    unfold Position.shift
    simp only [List.cons.injEq, Position.mk.injEq, and_true]
    omega
  · unfold absI
    split_ifs <;> omega

/-- C38 on ring 3 after the setup of `plan`: the first slot of the left edge
has its lower tile (-3.5, -3.5) taken; the slot returned is centred at
(-4, -2.5) and covers (-4.5, -2.5), a tile of ring 4, and (-3.5, -2.5), the
free tile of ring 3. -/
theorem C38_left_fallback_outward_witness :
    Planner.getNext2x1Loop (0 + 1) leftHalfPlanner =
      .ok (((⟨-7, -6⟩ : Position).shift (-1) ((⟨-7, -5⟩ : Position).Y - (⟨-7, -6⟩ : Position).Y),
          DirectionEast),
        { leftHalfPlanner with placed := leftHalfPlanner.placed + 2 }) ∧
    (((⟨-7, -6⟩ : Position).shift (-1)
        ((⟨-7, -5⟩ : Position).Y - (⟨-7, -6⟩ : Position).Y)).getBounds 1 2).positions =
      [⟨(⟨-7, -6⟩ : Position).X - 2, (⟨-7, -5⟩ : Position).Y⟩,
        ⟨(⟨-7, -6⟩ : Position).X, (⟨-7, -5⟩ : Position).Y⟩] ∧
    (⟨-7, -6⟩ : Position).X < 0 ∧
    absI ((⟨-7, -6⟩ : Position).X - 2) = absI (⟨-7, -6⟩ : Position).X + 2 :=
  C38_left_fallback_outward 0 leftHalfPlanner ⟨-7, -6⟩ DirectionSouth ⟨-7, -5⟩ (by decide)
    (by rfl) (by rfl) (by rfl) (by rfl) (by rfl)

/-- C38, the rings of the example: the tiles of the slot returned on the left
edge of ring 3 lie in the rings 4 and 3; the tile nearer the origin,
(-2.5, -2.5), is not among them. -/
theorem C38_left_example_rings :
    (Planner.getNext2x1 1 leftHalfPlanner).toOption.map (fun r => r.1) =
      some (⟨-8, -5⟩, DirectionEast) ∧
    ((⟨-8, -5⟩ : Position).getBounds 1 2).positions.map (fun t => (t, t.toRingIdx)) =
      [(⟨-9, -5⟩, 4), (⟨-7, -5⟩, 3)] ∧
    leftHalfPlanner.ringIdx = 3 := by
  decide

/-- C32, the failing input: the program with an empty `main` is lowered and
placed twice in one process.  The first call starts with `entityNumber = 0`,
numbers its five entities 1 to 5 and leaves `entityNumber = 5`; the second
call, on the same module, starts from 5 and numbers the same five entities 6
to 10, so the entity numbers handed to the encoder differ. -/
theorem C32_second_run_differs :
    (CreateBlueprintFrom 0 goGrowslice entityNumbers 10 emptyMain []).toOption =
      some ((none, [48, 1, 2, 3, 4, 5]), 5) ∧
    (CreateBlueprintFrom 5 goGrowslice entityNumbers 10 emptyMain []).toOption =
      some ((none, [48, 6, 7, 8, 9, 10]), 10) ∧
    CreateBlueprint goGrowslice entityNumbers 10 emptyMain [] = .ok (none, [48, 1, 2, 3, 4, 5]) := by
  refine ⟨?_, ?_, ?_⟩
  · decide!
  · decide!
  · rfl

/-- C36 (the top edge): when the straight slot `getNext2x1` reads lies on the
top edge, is half occupied with free tile `freePos`, and the probe of the
fallback succeeds, the slot returned is centred half a tile below the edge
and faces south, so its footprint is the free tile and the tile below it.
The probe looked at the positions left and right of the centre instead, and
when the tile below holds an entity `e` the slot returned is not empty. -/
theorem C36_top_fallback_occupied (fuel : Nat) (p : Planner) (pos : Position) (dir : Direction)
    (freePos : Position) (e : Nat) (hidx : p.ringIdx < p.rings.length)
    (hnx : Ring.getNext (p.rings.getD p.ringIdx []) p.placed = (pos, dir, false))
    (htop : pos.getRingArea.1 = .Top)
    (hscan : p.toPlot.scanSlot
      (if isVertical dir then pos.getBounds 2 1 else pos.getBounds 1 2).positions ⟨0, 0⟩ true
        = .ok (freePos, false))
    (hnz : freePos.isZero = false)
    (hcan : p.toPlot.canPlace ((pos.shift (freePos.X - pos.X) (-1)).getBounds 1 2) = .ok true)
    (hocc : p.toPlot.get ⟨freePos.X, pos.Y - 2⟩ = .ok (some e)) :
    Planner.getNext2x1Loop (fuel + 1) p =
      .ok ((pos.shift (freePos.X - pos.X) (-1), DirectionSouth),
        { p with placed := p.placed + 2 }) ∧
    isVertical DirectionSouth = true ∧
    ((pos.shift (freePos.X - pos.X) (-1)).getBounds 2 1).positions =
      [⟨freePos.X, pos.Y - 2⟩, ⟨freePos.X, pos.Y⟩] ∧
    ((pos.shift (freePos.X - pos.X) (-1)).getBounds 1 2).positions =
      [⟨freePos.X - 1, pos.Y - 1⟩, ⟨freePos.X + 1, pos.Y - 1⟩] ∧
    ∃ t, t ∈ ((pos.shift (freePos.X - pos.X) (-1)).getBounds 2 1).positions ∧
      ({ p with placed := p.placed + 2 } : Planner).toPlot.get t = .ok (some e) := by
  have hv : ((pos.shift (freePos.X - pos.X) (-1)).getBounds 2 1).positions =
      [⟨freePos.X, pos.Y - 2⟩, ⟨freePos.X, pos.Y⟩] := by
    rw [positions_vertical]
    unfold Position.shift
    simp only [List.cons.injEq, Position.mk.injEq, and_true]
    omega
  refine ⟨?_, by decide, hv, ?_, ?_⟩
  · rw [getNext2x1Loop_succ, if_neg (by omega)]
    simp only [hnx, Bool.false_eq_true, if_false, hscan, hnz, htop, hcan]
  · rw [positions_horizontal]
    unfold Position.shift
    simp only [List.cons.injEq, Position.mk.injEq, and_true]
    omega
  · rw [hv]
    exact ⟨_, List.mem_cons_self _ _, hocc⟩

/-- C36 on ring 3 after the setup of `plan`: the last slot of the top edge has
its left tile (1.5, 3.5) taken and the tile (2.5, 2.5) of ring 2 holds entity
4; the slot returned is centred at (2.5, 3), faces south, and covers
(2.5, 2.5). -/
theorem C36_top_fallback_occupied_witness :
    Planner.getNext2x1Loop (0 + 1) topHalfPlanner =
      .ok (((⟨4, 7⟩ : Position).shift ((⟨5, 7⟩ : Position).X - (⟨4, 7⟩ : Position).X) (-1),
          DirectionSouth),
        { topHalfPlanner with placed := topHalfPlanner.placed + 2 }) ∧
    isVertical DirectionSouth = true ∧
    (((⟨4, 7⟩ : Position).shift ((⟨5, 7⟩ : Position).X - (⟨4, 7⟩ : Position).X)
        (-1)).getBounds 2 1).positions =
      [⟨(⟨5, 7⟩ : Position).X, (⟨4, 7⟩ : Position).Y - 2⟩,
        ⟨(⟨5, 7⟩ : Position).X, (⟨4, 7⟩ : Position).Y⟩] ∧
    (((⟨4, 7⟩ : Position).shift ((⟨5, 7⟩ : Position).X - (⟨4, 7⟩ : Position).X)
        (-1)).getBounds 1 2).positions =
      [⟨(⟨5, 7⟩ : Position).X - 1, (⟨4, 7⟩ : Position).Y - 1⟩,
        ⟨(⟨5, 7⟩ : Position).X + 1, (⟨4, 7⟩ : Position).Y - 1⟩] ∧
    ∃ t, t ∈ (((⟨4, 7⟩ : Position).shift ((⟨5, 7⟩ : Position).X - (⟨4, 7⟩ : Position).X)
        (-1)).getBounds 2 1).positions ∧
      ({ topHalfPlanner with placed := topHalfPlanner.placed + 2 } : Planner).toPlot.get t
        = .ok (some 4) :=
  C36_top_fallback_occupied 0 topHalfPlanner ⟨4, 7⟩ DirectionEast ⟨5, 7⟩ 4 (by decide)
    (by rfl) (by rfl) (by rfl) (by rfl) (by rfl) (by rfl)

/-- C36, the example evaluated: the slot `getNext2x1` returns in that state
and what its two tiles hold; the index of the ring still satisfies
`ringIdx + 1 < len(rings)`. -/
theorem C36_top_example_tiles :
    (Planner.getNext2x1 1 topHalfPlanner).toOption.map (fun r => r.1) =
      some (⟨5, 6⟩, DirectionSouth) ∧
    ((⟨5, 6⟩ : Position).getBounds 2 1).positions.map
        (fun t => (t, (topHalfPlanner.toPlot.get t).toOption)) =
      [(⟨5, 5⟩, some (some 4)), (⟨5, 7⟩, some none)] ∧
    topHalfPlanner.ringIdx + 1 < topHalfPlanner.rings.length := by
  decide

/-! ## Well-formed graphs and their extensions -/

theorem tickerArith_lt (b : Builder) (i a : Nat) (h : b.tickerArith i = some a) :
    i < b.tickers.length := by
  unfold Builder.tickerArith at h
  by_contra hc
  rw [List.getElem?_eq_none (Nat.le_of_not_lt hc)] at h
  cases h

theorem tickerArith_congr (b b1 : Builder) (h : b1.tickers = b.tickers) (i : Nat) :
    b1.tickerArith i = b.tickerArith i := by
  unfold Builder.tickerArith; rw [h]

theorem Ext_refl (b : Builder) : b.Ext b :=
  ⟨⟨le_refl _, le_refl _, le_refl _, le_refl _⟩, fun _ _ => rfl, fun _ _ => rfl,
    fun _ _ _ => rfl, fun _ _ _ _ h => h, fun _ _ => rfl,
    fun i a hi ha => absurd (tickerArith_lt b i a ha) (Nat.not_lt.2 hi)⟩

theorem Ext_notTicker {b b1 : Builder} (h : b.Ext b1) (e : Nat) (he : e < b.comps.length)
    (hn : ¬ b.isTicker e) : ¬ b1.isTicker e := by
  rintro ⟨i, hi⟩
  by_cases hlt : i < b.tickers.length
  · exact hn ⟨i, by rw [← h.2.2.2.2.2.1 i hlt]; exact hi⟩
  · have := h.2.2.2.2.2.2 i e (Nat.le_of_not_lt hlt) hi
    omega

theorem Ext_trans {b b1 b2 : Builder} (h1 : b.Ext b1) (h2 : b1.Ext b2) : b.Ext b2 := by
  obtain ⟨⟨a1, a2, a3, a4⟩, a5, a6, a7, a8, a9, a10⟩ := h1
  obtain ⟨⟨c1, c2, c3, c4⟩, c5, c6, c7, c8, c9, c10⟩ := h2
  refine ⟨⟨by omega, by omega, by omega, by omega⟩, ?_, ?_, ?_, ?_, ?_, ?_⟩
  · intro n hn; rw [c5 n (by omega), a5 n hn]
  · intro c hc; rw [c6 c (by omega), a6 c hc]
  · intro e he hnt
    rw [c7 e (by omega) (Ext_notTicker ⟨⟨a1, a2, a3, a4⟩, a5, a6, a7, a8, a9, a10⟩ e he hnt),
      a7 e he hnt]
  · intro e g c he hs
    exact c8 e g c (by omega) (a8 e g c he hs)
  · intro i hi; rw [c9 i (by omega), a9 i hi]
  · intro i a hi ha
    by_cases hlt : i < b1.tickers.length
    · rw [c9 i hlt] at ha
      exact a10 i a hi ha
    · have := c10 i a (Nat.le_of_not_lt hlt) ha
      omega

theorem ChainOk_of (b b1 : Builder) (k : Nat) (h : b.ChainOk k)
    (ht : ∀ i, i < k → b1.tickerArith i = b.tickerArith i)
    (hc : b.comps.length ≤ b1.comps.length) : b1.ChainOk k := by
  intro i hi
  obtain ⟨a, ha, hlt⟩ := h i hi
  exact ⟨a, by rw [ht i hi]; exact ha, by omega⟩

/-- The tickers of a well-formed graph are components of the graph, so a
component allocated next is not one of them. -/
theorem WF_notTicker (b : Builder) (h : b.WF) (e : Nat) (he : b.comps.length ≤ e) :
    ¬ b.isTicker e := by
  rintro ⟨i, hi⟩
  obtain ⟨a, ha, hlt⟩ := h.2 i (tickerArith_lt b i e hi)
  rw [hi] at ha
  cases ha
  omega

theorem comp_getD_append (b : Builder) (x : Component) (e : Nat) (he : e < b.comps.length) :
    (b.comps ++ [x]).getD e default = b.comp e :=
  getD_append_left' _ _ _ _ he

theorem default_out_slot (g : Bool) : (default : Component).out.slot g = none := by
  cases g <;> rfl

theorem default_inp_slot (g : Bool) : (default : Component).inp.slot g = none := by
  cases g <;> rfl

theorem alloc_comp (b : Builder) (x : Component) (e : Nat) :
    (b.alloc x).2.comp e =
      if e < b.comps.length then b.comp e else if e = b.comps.length then x else default := by
  by_cases h : e < b.comps.length
  · rw [if_pos h]; exact comp_getD_append b x e h
  · rw [if_neg h]
    by_cases h2 : e = b.comps.length
    · rw [if_pos h2]; subst h2; exact getD_append_mid _ [] _ _ _ rfl
    · rw [if_neg h2]
      simp only [Builder.alloc, Builder.comp, List.getD_eq_getElem?_getD]
      rw [List.getElem?_eq_none (by simp; omega)]
      rfl

/-- Allocation of a component without connectors. -/
theorem alloc_Ext (b : Builder) (x : Component) : b.Ext (b.alloc x).2 := by
  refine ⟨⟨by simp [Builder.alloc], le_refl _, le_refl _, le_refl _⟩, fun _ _ => rfl,
    fun _ _ => rfl, ?_, ?_, fun _ _ => rfl, ?_⟩
  · intro e he _
    exact comp_getD_append b x e he
  · intro e g c he hs
    have : (b.alloc x).2.comp e = b.comp e := comp_getD_append b x e he
    rw [this]; exact hs
  · intro i a hi ha
    exact absurd (tickerArith_lt b i a ha) (Nat.not_lt.2 hi)

theorem alloc_GraphOk (b : Builder) (x : Component) (h : b.GraphOk)
    (hx : ∀ g, x.out.slot g = none ∧ x.inp.slot g = none) : (b.alloc x).2.GraphOk := by
  obtain ⟨w1, w3, w4, w5⟩ := h
  refine ⟨w1, ?_, ?_, w5⟩
  · intro e g c hs
    rw [alloc_comp] at hs
    split at hs
    · exact w3 e g c hs
    · split at hs
      · rw [(hx g).1] at hs; cases hs
      · rw [default_out_slot] at hs; cases hs
  · intro e g c hs
    rw [alloc_comp] at hs
    split at hs
    · exact w4 e g c hs
    · split at hs
      · rw [(hx g).2] at hs; cases hs
      · rw [default_inp_slot] at hs; cases hs

theorem alloc_WF (b : Builder) (x : Component) (h : b.WF)
    (hx : ∀ g, x.out.slot g = none ∧ x.inp.slot g = none) : (b.alloc x).2.WF :=
  ⟨alloc_GraphOk b x h.1 hx,
    ChainOk_of b _ _ h.2 (fun _ _ => rfl) (by simp [Builder.alloc])⟩

theorem net_getD_append (b : Builder) (x : Network) (n : Nat) (hn : n < b.networks.length) :
    (b.networks ++ [x]).getD n default = b.net n :=
  getD_append_left' _ _ _ _ hn

theorem createNet_net (b : Builder) (g : Bool) (n : Nat) :
    (b.createNet g).2.net n =
      if n < b.networks.length then b.net n
      else if n = b.networks.length then { isGreen := g } else default := by
  by_cases h : n < b.networks.length
  · rw [if_pos h]; exact net_getD_append b _ n h
  · rw [if_neg h]
    by_cases h2 : n = b.networks.length
    · rw [if_pos h2]; subst h2; exact getD_append_mid _ [] _ _ _ rfl
    · rw [if_neg h2]
      simp only [Builder.createNet, Builder.net, List.getD_eq_getElem?_getD]
      rw [List.getElem?_eq_none (by simp; omega)]
      rfl

theorem createNet_Ext (b : Builder) (g : Bool) : b.Ext (b.createNet g).2 := by
  refine ⟨⟨le_refl _, le_refl _, by simp [Builder.createNet], le_refl _⟩, ?_,
    fun _ _ => rfl, fun _ _ _ => rfl, fun _ _ _ _ h => h, fun _ _ => rfl, ?_⟩
  · intro n hn
    rw [createNet_net, if_pos hn]
  · intro i a hi ha
    exact absurd (tickerArith_lt b i a ha) (Nat.not_lt.2 hi)

theorem createNet_new (b : Builder) (g : Bool) :
    (b.createNet g).1 = b.networks.length ∧
    (b.createNet g).2.networks.length = b.networks.length + 1 ∧
    ((b.createNet g).2.net b.networks.length).isGreen = g := by
  refine ⟨rfl, by simp [Builder.createNet], ?_⟩
  rw [createNet_net, if_neg (by omega), if_pos rfl]

theorem createNet_GraphOk (b : Builder) (g : Bool) (h : b.GraphOk) : (b.createNet g).2.GraphOk := by
  obtain ⟨w1, w3, w4, w5⟩ := h
  have hcol : ∀ c, c < b.conns.length →
      (b.createNet g).2.net (b.conn c).network = b.net (b.conn c).network := by
    intro c hc
    rw [createNet_net, if_pos (w1 c hc)]
  refine ⟨?_, ?_, w4, ?_⟩
  · intro c hc
    have := w1 c hc
    show (b.conn c).network < (b.networks ++ [_]).length
    simp; omega
  · intro e g2 c hs
    obtain ⟨a1, a2⟩ := w3 e g2 c hs
    refine ⟨a1, ?_⟩
    show ((b.createNet g).2.net (b.conn c).network).isGreen = g2
    rw [hcol c a1]; exact a2
  · intro m c hm
    have hm2 : c ∈ (b.net m).members ∧ m < b.networks.length := by
      rw [createNet_net] at hm
      split at hm
      · exact ⟨hm, by assumption⟩
      · split at hm <;> cases hm
    obtain ⟨a1, a2⟩ := w5 m c hm2.1
    refine ⟨a1, ?_⟩
    have e1 : (b.createNet g).2.net m = b.net m := by rw [createNet_net, if_pos hm2.2]
    show ((b.createNet g).2.net (b.conn c).network).isGreen = ((b.createNet g).2.net m).isGreen
    rw [hcol c a1, e1]; exact a2

theorem createNet_WF (b : Builder) (g : Bool) (h : b.WF) : (b.createNet g).2.WF :=
  ⟨createNet_GraphOk b g h.1, ChainOk_of b _ _ h.2 (fun _ _ => rfl) (le_refl _)⟩

theorem Touch_Ext {b0 b b1 : Builder} {e : Nat} (h0 : b0.Ext b) (h : b.Touch b1 e)
    (he : b0.comps.length ≤ e ∨ b0.isTicker e) : b0.Ext b1 := by
  obtain ⟨⟨a1, a2, a3, a4⟩, a5, a6, a7, a8, a9, a10⟩ := h0
  obtain ⟨t1, t2, t3, t4, t5, t6, t7, t8⟩ := h
  have hta : ∀ i, b1.tickerArith i = b.tickerArith i := tickerArith_congr b b1 t4
  refine ⟨⟨by omega, by omega, by omega, by rw [t4]; exact a4⟩, ?_, ?_, ?_, ?_, ?_, ?_⟩
  · intro n hn; rw [t5, a5 n hn]
  · intro c hc; rw [t6 c (by omega), a6 c hc]
  · intro e2 he2 hnt
    have hne : e2 ≠ e := by
      rintro rfl
      rcases he with h | h
      · omega
      · exact hnt h
    rw [t7 e2 hne, a7 e2 he2 hnt]
  · intro e2 g c he2 hs
    have hb := a8 e2 g c he2 hs
    by_cases hne : e2 = e
    · subst hne; exact t8 g c hb
    · rw [t7 e2 hne]; exact hb
  · intro i hi; rw [hta, a9 i hi]
  · intro i a hi ha; rw [hta] at ha; exact a10 i a hi ha

theorem Touch_Ext_self {b b1 : Builder} {e : Nat} (h : b.Touch b1 e)
    (he : b.comps.length ≤ e ∨ b.isTicker e) : b.Ext b1 :=
  Touch_Ext (Ext_refl b) h he
theorem setOutput_slot (o : OutputComponent) (g : Bool) (c : Nat) (h : o.slot g = none) :
    ∃ o1, o.setOutput g c = .ok o1 ∧ o1.slot g = some c ∧ o1.slot (!g) = o.slot (!g) := by
  cases g
  · simp only [OutputComponent.slot, Bool.false_eq_true, if_false] at h
    simp only [OutputComponent.setOutput, Bool.false_eq_true, if_false, h, ne_eq,
      not_true_eq_false]
    exact ⟨_, rfl, rfl, rfl⟩
  · simp only [OutputComponent.slot, if_true] at h
    simp only [OutputComponent.setOutput, if_true, h, ne_eq, not_true_eq_false, if_false]
    exact ⟨_, rfl, rfl, rfl⟩

theorem setInput_slot (i : InputComponent) (g : Bool) (c : Nat) (h : i.slot g = none) :
    ∃ i1, i.setInput g c = .ok i1 ∧ i1.slot g = some c ∧ i1.slot (!g) = i.slot (!g) ∧
      i1.primaryInput = i.primaryInput ∧ i1.secondaryInput = i.secondaryInput := by
  cases g
  · simp only [InputComponent.slot, Bool.false_eq_true, if_false] at h
    simp only [InputComponent.setInput, Bool.false_eq_true, if_false, h, ne_eq,
      not_true_eq_false]
    exact ⟨_, rfl, rfl, rfl, rfl, rfl⟩
  · simp only [InputComponent.slot, if_true] at h
    simp only [InputComponent.setInput, if_true, h, ne_eq, not_true_eq_false, if_false]
    exact ⟨_, rfl, rfl, rfl, rfl, rfl⟩

theorem slot_cases (g g2 : Bool) : g2 = g ∨ g2 = !g := by
  cases g <;> cases g2 <;> simp

/-- Attaching a new connector on network `n` to component `e`. -/
theorem connect_frame (b b1 : Builder) (n e : Nat) (sec : Bool) (f : Component → Component)
    (hn : n < b.networks.length) (hG : b.GraphOk)
    (hconns : b1.conns = b.conns ++ [{ network := n, component := e, isSecondary := sec }])
    (hnets : b1.networks = updAt b.networks n
      (fun net => { net with members := net.members ++ [b.conns.length] }))
    (hcomps : b1.comps = updAt b.comps e f) (htick : b1.tickers = b.tickers)
    (hout : ∀ g c, (f (b.comp e)).out.slot g = some c →
      (c = b.conns.length ∧ g = (b.net n).isGreen) ∨ (b.comp e).out.slot g = some c)
    (hin : ∀ g c, (f (b.comp e)).inp.slot g = some c →
      c = b.conns.length ∨ (b.comp e).inp.slot g = some c)
    (hkeep : ∀ g c, (b.comp e).out.slot g = some c → (f (b.comp e)).out.slot g = some c) :
    b1.GraphOk ∧ b.Touch b1 e ∧ b1.conns.length = b.conns.length + 1 ∧
    b1.conn b.conns.length = { network := n, component := e, isSecondary := sec } ∧
    (∀ e2, b1.comp e2 = if e = e2 ∧ e2 < b.comps.length then f (b.comp e2) else b.comp e2) ∧
    (∀ k, b.ChainOk k → b1.ChainOk k) := by
  have hcol : ∀ m, (b1.net m).isGreen = (b.net m).isGreen := by
    intro m; unfold Builder.net; rw [hnets]; exact (net_members_upd b n _ _ rfl m).1
  have hmem : ∀ m, (b1.net m).members =
      if n = m ∧ m < b.networks.length then (b.net m).members ++ [b.conns.length]
      else (b.net m).members := by
    intro m; unfold Builder.net; rw [hnets, getD_updAt]
    split <;> rfl
  have hconn : ∀ c, c < b.conns.length → b1.conn c = b.conn c := by
    intro c hc; unfold Builder.conn; rw [hconns]; exact getD_append_left' _ _ _ _ hc
  have hconnNew : b1.conn b.conns.length = { network := n, component := e, isSecondary := sec } := by
    unfold Builder.conn; rw [hconns]; exact getD_append_mid _ [] _ _ _ rfl
  have hcomp : ∀ e2, b1.comp e2 = if e = e2 ∧ e2 < b.comps.length then f (b.comp e2)
      else b.comp e2 := by
    intro e2; unfold Builder.comp; rw [hcomps, getD_updAt]
  have hother : ∀ e2, e2 ≠ e → b1.comp e2 = b.comp e2 := by
    intro e2 h2; rw [hcomp, if_neg (fun h => h2 h.1.symm)]
  have hlen : b1.conns.length = b.conns.length + 1 := by rw [hconns]; simp
  obtain ⟨w1, w3, w4, w5⟩ := hG
  have hout2 : ∀ e2 g c, (b1.comp e2).out.slot g = some c →
      (c = b.conns.length ∧ g = (b.net n).isGreen) ∨ (b.comp e2).out.slot g = some c := by
    intro e2 g c hs
    rw [hcomp] at hs
    split at hs
    · rename_i hc
      obtain ⟨rfl, _⟩ := hc
      exact hout g c hs
    · exact Or.inr hs
  have hin2 : ∀ e2 g c, (b1.comp e2).inp.slot g = some c →
      c = b.conns.length ∨ (b.comp e2).inp.slot g = some c := by
    intro e2 g c hs
    rw [hcomp] at hs
    split at hs
    · rename_i hc
      obtain ⟨rfl, _⟩ := hc
      exact hin g c hs
    · exact Or.inr hs
  refine ⟨⟨?_, ?_, ?_, ?_⟩, ⟨?_, ?_, ?_, htick, hcol, hconn, hother, ?_⟩, hlen, hconnNew, hcomp, ?_⟩
  · intro c hc
    rw [hnets, length_updAt]
    by_cases hcl : c < b.conns.length
    · rw [hconn c hcl]; exact w1 c hcl
    · have : c = b.conns.length := by omega
      subst this; rw [hconnNew]; exact hn
  · intro e2 g c hs
    rcases hout2 e2 g c hs with ⟨rfl, rfl⟩ | h
    · rw [hconnNew, hcol]; exact ⟨by omega, rfl⟩
    · obtain ⟨a1, a2⟩ := w3 e2 g c h
      rw [hconn c a1, hcol]; exact ⟨by omega, a2⟩
  · intro e2 g c hs
    rcases hin2 e2 g c hs with rfl | h
    · omega
    · have := w4 e2 g c h; omega
  · intro m c hm
    rw [hmem] at hm
    rw [hcol, hcol]
    have old : c ∈ (b.net m).members →
        c < b1.conns.length ∧ (b.net (b1.conn c).network).isGreen = (b.net m).isGreen := by
      intro h
      obtain ⟨a1, a2⟩ := w5 m c h
      rw [hconn c a1]; exact ⟨by omega, a2⟩
    split at hm
    · rename_i hc
      rcases List.mem_append.1 hm with h | h
      · exact old h
      · simp only [List.mem_singleton] at h
        subst h
        rw [hconnNew, hc.1]
        exact ⟨by omega, rfl⟩
    · exact old hm
  · rw [hcomps, length_updAt]
  · omega
  · rw [hnets, length_updAt]
  · intro g c hs
    rw [hcomp]
    split
    · exact hkeep g c hs
    · exact hs
  · intro k hk
    exact ChainOk_of b b1 k hk (fun i _ => tickerArith_congr b b1 htick i)
      (by rw [hcomps, length_updAt])

/-- `connectOutput` of a valid network to a component whose output of that
colour is free. -/
theorem connectOutput_full (b : Builder) (n e : Nat) (hn : n < b.networks.length)
    (hG : b.GraphOk) (hslot : (b.comp e).out.slot (b.net n).isGreen = none) :
    ∃ b1, b.connectOutput n e = .ok b1 ∧ b1.GraphOk ∧ b.Touch b1 e ∧
      (∀ k, b.ChainOk k → b1.ChainOk k) ∧
      b1.conns.length = b.conns.length + 1 ∧
      b1.conn b.conns.length = { network := n, component := e, isSecondary := true } ∧
      (b1.comp e).inp = (b.comp e).inp ∧
      (e < b.comps.length →
        (b1.comp e).out.slot (b.net n).isGreen = some b.conns.length ∧
        (b1.comp e).out.slot (!(b.net n).isGreen) = (b.comp e).out.slot (!(b.net n).isGreen) ∧
        ∃ o, b1.comp e = (b.comp e).withOut o) := by
  obtain ⟨o1, ho, s1, s2⟩ := setOutput_slot (b.comp e).out (b.net n).isGreen b.conns.length hslot
  have hb : ∃ b1, b.connectOutput n e = .ok b1 ∧
      b1.conns = b.conns ++ [{ network := n, component := e, isSecondary := true }] ∧
      b1.networks = updAt b.networks n
        (fun net => { net with members := net.members ++ [b.conns.length] }) ∧
      b1.comps = updAt b.comps e (fun x => x.withOut o1) ∧ b1.tickers = b.tickers := by
    simp only [Builder.connectOutput, Builder.createConnector]
    have : ∀ cs ns, ({ b with conns := cs, networks := ns } : Builder).comp e = b.comp e :=
      fun _ _ => rfl
    rw [this, ho]
    exact ⟨_, rfl, rfl, rfl, rfl, rfl⟩
  obtain ⟨b1, hb, hconns, hnets, hcomps, htick⟩ := hb
  have hfo : ∀ g c, ((b.comp e).withOut o1).out.slot g = some c →
      (c = b.conns.length ∧ g = (b.net n).isGreen) ∨ (b.comp e).out.slot g = some c := by
    intro g c hs
    rw [withOut_out] at hs
    rcases slot_cases (b.net n).isGreen g with h | h
    · subst h; rw [s1] at hs; cases hs; exact Or.inl ⟨rfl, rfl⟩
    · rw [h, s2, ← h] at hs; exact Or.inr hs
  have hfi : ∀ g c, ((b.comp e).withOut o1).inp.slot g = some c →
      c = b.conns.length ∨ (b.comp e).inp.slot g = some c := by
    intro g c hs; rw [withOut_inp] at hs; exact Or.inr hs
  have hfk : ∀ g c, (b.comp e).out.slot g = some c →
      ((b.comp e).withOut o1).out.slot g = some c := by
    intro g c hs
    rw [withOut_out]
    rcases slot_cases (b.net n).isGreen g with h | h
    · subst h; rw [hslot] at hs; cases hs
    · rw [h, s2, ← h]; exact hs
  obtain ⟨g1, g2, g3, g4, g5, g6⟩ := connect_frame b b1 n e true (fun x => x.withOut o1) hn hG
    hconns hnets hcomps htick hfo hfi hfk
  refine ⟨b1, hb, g1, g2, g6, g3, g4, ?_, ?_⟩
  · rw [g5]; split
    · exact withOut_inp _ _
    · rfl
  · intro he
    have hce : b1.comp e = (b.comp e).withOut o1 := by rw [g5, if_pos ⟨rfl, he⟩]
    refine ⟨?_, ?_, o1, hce⟩
    · rw [hce, withOut_out, s1]
    · rw [hce, withOut_out, s2]

/-- `connectInput` of a valid network to a component whose input of that
colour is free. -/
theorem connectInput_full (b : Builder) (n e : Nat) (hn : n < b.networks.length)
    (hG : b.GraphOk) (hslot : (b.comp e).inp.slot (b.net n).isGreen = none) :
    ∃ b1, b.connectInput n e = .ok b1 ∧ b1.GraphOk ∧ b.Touch b1 e ∧
      (∀ k, b.ChainOk k → b1.ChainOk k) ∧
      b1.conns.length = b.conns.length + 1 ∧
      b1.conn b.conns.length = { network := n, component := e, isSecondary := false } ∧
      (b1.comp e).out = (b.comp e).out ∧
      (e < b.comps.length → (∀ em, b.comp e ≠ .emitter em) →
        (b1.comp e).inp.slot (b.net n).isGreen = some b.conns.length ∧
        (b1.comp e).inp.slot (!(b.net n).isGreen) = (b.comp e).inp.slot (!(b.net n).isGreen) ∧
        ∃ i, b1.comp e = (b.comp e).withInp i ∧ i.primaryInput = (b.comp e).inp.primaryInput ∧
          i.secondaryInput = (b.comp e).inp.secondaryInput) := by
  obtain ⟨i1, hi, s1, s2, s3, s4⟩ :=
    setInput_slot (b.comp e).inp (b.net n).isGreen b.conns.length hslot
  have hb : ∃ b1, b.connectInput n e = .ok b1 ∧
      b1.conns = b.conns ++ [{ network := n, component := e, isSecondary := false }] ∧
      b1.networks = updAt b.networks n
        (fun net => { net with members := net.members ++ [b.conns.length] }) ∧
      b1.comps = updAt b.comps e (fun x => x.withInp i1) ∧ b1.tickers = b.tickers := by
    simp only [Builder.connectInput, Builder.createConnector]
    have : ∀ cs ns, ({ b with conns := cs, networks := ns } : Builder).comp e = b.comp e :=
      fun _ _ => rfl
    rw [this, hi]
    exact ⟨_, rfl, rfl, rfl, rfl, rfl⟩
  obtain ⟨b1, hb, hconns, hnets, hcomps, htick⟩ := hb
  have hwi : ∀ em, b.comp e = .emitter em → (b.comp e).withInp i1 = b.comp e := by
    intro em h; rw [h]; rfl
  have hfo : ∀ g c, ((b.comp e).withInp i1).out.slot g = some c →
      (c = b.conns.length ∧ g = (b.net n).isGreen) ∨ (b.comp e).out.slot g = some c := by
    intro g c hs; rw [withInp_out] at hs; exact Or.inr hs
  have hfi : ∀ g c, ((b.comp e).withInp i1).inp.slot g = some c →
      c = b.conns.length ∨ (b.comp e).inp.slot g = some c := by
    intro g c hs
    by_cases hk : ∃ em, b.comp e = .emitter em
    · obtain ⟨em, hem⟩ := hk
      rw [hwi em hem] at hs; exact Or.inr hs
    · rw [withInp_inp _ _ (fun em h => hk ⟨em, h⟩)] at hs
      rcases slot_cases (b.net n).isGreen g with h | h
      · subst h; rw [s1] at hs; cases hs; exact Or.inl rfl
      · rw [h, s2, ← h] at hs; exact Or.inr hs
  have hfk : ∀ g c, (b.comp e).out.slot g = some c →
      ((b.comp e).withInp i1).out.slot g = some c := by
    intro g c hs; rw [withInp_out]; exact hs
  obtain ⟨g1, g2, g3, g4, g5, g6⟩ := connect_frame b b1 n e false (fun x => x.withInp i1) hn hG
    hconns hnets hcomps htick hfo hfi hfk
  refine ⟨b1, hb, g1, g2, g6, g3, g4, ?_, ?_⟩
  · rw [g5]; split
    · exact withInp_out _ _
    · rfl
  · intro he hk
    have hce : b1.comp e = (b.comp e).withInp i1 := by rw [g5, if_pos ⟨rfl, he⟩]
    refine ⟨?_, ?_, i1, hce, s3, s4⟩
    · rw [hce, withInp_inp _ _ hk, s1]
    · rw [hce, withInp_inp _ _ hk, s2]
theorem tickerArith_getD (b : Builder) (i t : Nat) (h : b.tickerArith i = some t) :
    ((b.tickers.getD i default).arith).getD 0 = t := by
  unfold Builder.tickerArith at h
  rw [List.getD_eq_getElem?_getD]
  cases hx : b.tickers[i]? with
  | none => rw [hx] at h; cases h
  | some tk =>
    rw [hx] at h
    have h2 : tk.arith = some t := h
    simp [h2]

theorem out_slot_eq (o : OutputComponent) (g : Bool) :
    o.slot g = if g then o.outputGreen else o.outputRed := rfl

/-- The output network of a ticker that has its combinator: it exists or is
created, is a network of the graph and has the colour asked for. -/
theorem tickerNetwork_full (b : Builder) (idx : Nat) (g : Bool) (hG : b.GraphOk) (t : Nat)
    (ht : b.tickerArith idx = some t) (hlt : t < b.comps.length) :
    ∃ n b1, b.tickerNetwork idx g = .ok (n, b1) ∧ b1.GraphOk ∧ b.Ext b1 ∧
      b1.tickers = b.tickers ∧ b1.comps.length = b.comps.length ∧
      (∀ k, b.ChainOk k → b1.ChainOk k) ∧
      b1.outNet t g = some n ∧ n < b1.networks.length ∧ (b1.net n).isGreen = g ∧
      (∀ e, (b1.comp e).inp = (b.comp e).inp) ∧ (∀ e, e ≠ t → b1.comp e = b.comp e) := by
  have hgt := tickerArith_getD b idx t ht
  cases hs : (b.comp t).out.slot g with
  | some c =>
    obtain ⟨a1, a2⟩ := hG.2.1 t g c hs
    have hr : b.tickerNetwork idx g = .ok ((b.conn c).network, b) := by
      unfold Builder.tickerNetwork
      dsimp only
      rw [hgt]
      cases g
      · simp only [Bool.false_eq_true, if_false]
        rw [out_slot_eq] at hs
        simp only [Bool.false_eq_true, if_false] at hs
        rw [hs]
      · simp only [if_true]
        rw [out_slot_eq] at hs
        simp only [if_true] at hs
        rw [hs]
    refine ⟨_, _, hr, hG, Ext_refl b, rfl, rfl, fun _ h => h, ?_, hG.1 c a1, a2,
      fun _ => rfl, fun _ _ => rfl⟩
    unfold Builder.outNet
    rw [hs]; rfl
  | none =>
    have hG1 := createNet_GraphOk b g hG
    obtain ⟨n1, n2, n3⟩ := createNet_new b g
    have hc1 : (b.createNet g).2.comp t = b.comp t := rfl
    have hslot1 : ((b.createNet g).2.comp t).out.slot
        ((b.createNet g).2.net b.networks.length).isGreen = none := by
      rw [n3, hc1]; exact hs
    obtain ⟨b2, h2, g2, tch, ck, cl, cn, ci, co⟩ := connectOutput_full (b.createNet g).2
      b.networks.length t (by rw [n2]; omega) hG1 hslot1
    rw [n3] at co
    obtain ⟨c1, c2, o, c3⟩ := co (by exact hlt)
    have hr : b.tickerNetwork idx g = .ok (b.networks.length, b2) := by
      unfold Builder.tickerNetwork
      dsimp only
      rw [hgt]
      have hcn : (b2.conn (b.createNet g).2.conns.length).network = b.networks.length := by
        rw [cn]
      cases g
      · simp only [Bool.false_eq_true, if_false]
        rw [out_slot_eq] at hs c1
        simp only [Bool.false_eq_true, if_false] at hs c1
        rw [hs]
        dsimp only
        change (match (b.createNet false).2.connectOutput b.networks.length t with
          | .ok b2 => Except.ok ((b2.conn (((b2.comp t).out.outputRed).getD 0)).network, b2)
          | .error msg => .error msg) = _
        rw [h2]
        dsimp only
        rw [c1, Option.getD_some, hcn]
      · simp only [if_true]
        rw [out_slot_eq] at hs c1
        simp only [if_true] at hs c1
        rw [hs]
        dsimp only
        change (match (b.createNet true).2.connectOutput b.networks.length t with
          | .ok b2 => Except.ok ((b2.conn (((b2.comp t).out.outputGreen).getD 0)).network, b2)
          | .error msg => .error msg) = _
        rw [h2]
        dsimp only
        rw [c1, Option.getD_some, hcn]
    have hE : b.Ext b2 := Touch_Ext (createNet_Ext b g) tch (Or.inr ⟨idx, ht⟩)
    obtain ⟨t1, t2, t3, t4, t5, t6, t7, t8⟩ := tch
    refine ⟨_, _, hr, g2, hE, t4, t1, fun k hk => ck k (ChainOk_of b _ k hk (fun _ _ => rfl)
      (le_refl _)), ?_, ?_, ?_, ?_, ?_⟩
    · unfold Builder.outNet
      rw [c1]
      show some (b2.conn (b.createNet g).2.conns.length).network = _
      rw [cn]
    · rw [t3, n2]; omega
    · rw [t5, n3]
    · intro e
      by_cases he : e = t
      · subst he; rw [ci]; rfl
      · rw [t7 e he]; rfl
    · intro e he
      rw [t7 e he]; rfl
theorem initTicker_eq (b : Builder) (n : Nat) :
    b.initTicker n =
      if 0 < n then
        match ((b.alloc tickerArithmetic).2.setTickerArith n b.comps.length).tickerNetwork
            (n - 1) false with
        | .ok (net, b3) => b3.connectInput net b.comps.length
        | .error msg => .error msg
      else .ok ((b.alloc tickerArithmetic).2.setTickerArith n b.comps.length) := rfl

theorem setTickerArith_tickerArith (b : Builder) (n a i : Nat) :
    (b.setTickerArith n a).tickerArith i =
      if n = i ∧ i < b.tickers.length then some a else b.tickerArith i := by
  unfold Builder.tickerArith Builder.setTickerArith
  dsimp only
  rw [getElem?_updAt]
  by_cases h : n = i
  · subst h
    rw [if_pos rfl]
    by_cases hl : n < b.tickers.length
    · rw [if_pos ⟨rfl, hl⟩]
      rw [List.getElem?_eq_getElem hl]
      rfl
    · rw [if_neg (fun h => hl h.2), List.getElem?_eq_none (Nat.le_of_not_lt hl)]
      rfl
  · rw [if_neg h, if_neg (fun hh => h hh.1)]

theorem setTickerArith_Ext (b0 b : Builder) (n a : Nat) (hE : b0.Ext b)
    (h0 : b0.tickers.length ≤ n) (ha : b0.comps.length ≤ a) : b0.Ext (b.setTickerArith n a) := by
  obtain ⟨⟨a1, a2, a3, a4⟩, a5, a6, a7, a8, a9, a10⟩ := hE
  refine ⟨⟨a1, a2, a3, ?_⟩, a5, a6, a7, a8, ?_, ?_⟩
  · show b0.tickers.length ≤ (updAt b.tickers n _).length
    rw [length_updAt]; exact a4
  · intro i hi
    rw [setTickerArith_tickerArith, if_neg (by omega)]
    exact a9 i hi
  · intro i x hi hx
    rw [setTickerArith_tickerArith] at hx
    split at hx
    · cases hx; exact ha
    · exact a10 i x hi hx

theorem tickerArithmetic_slots (g : Bool) :
    tickerArithmetic.out.slot g = none ∧ tickerArithmetic.inp.slot g = none := by
  cases g <;> exact ⟨rfl, rfl⟩

/-- One step of the loop of `getTicker`, in a graph `b` reached from `b0`
whose tickers below `n` have their combinators. -/
theorem initTicker_full (b0 b : Builder) (n : Nat) (hG : b.GraphOk) (hC : b.ChainOk n)
    (hn : n < b.tickers.length) (hE : b0.Ext b) (h0 : b0.tickers.length ≤ n) :
    ∃ b1, b.initTicker n = .ok b1 ∧ b1.GraphOk ∧ b1.ChainOk (n + 1) ∧ b0.Ext b1 ∧
      b1.tickers.length = b.tickers.length ∧ b1.comps.length = b.comps.length + 1 := by
  rw [initTicker_eq]
  have hG1 : (b.alloc tickerArithmetic).2.GraphOk := alloc_GraphOk b _ hG tickerArithmetic_slots
  have hG2 : ((b.alloc tickerArithmetic).2.setTickerArith n b.comps.length).GraphOk := hG1
  have hlen2 : ((b.alloc tickerArithmetic).2.setTickerArith n b.comps.length).comps.length
      = b.comps.length + 1 := by
    simp [Builder.setTickerArith, Builder.alloc]
  have htl2 : ((b.alloc tickerArithmetic).2.setTickerArith n b.comps.length).tickers.length
      = b.tickers.length := by
    simp [Builder.setTickerArith, Builder.alloc, length_updAt]
  have hC2 : ((b.alloc tickerArithmetic).2.setTickerArith n b.comps.length).ChainOk (n + 1) := by
    intro i hi
    rw [setTickerArith_tickerArith]
    by_cases h : n = i
    · subst h
      rw [if_pos ⟨rfl, hn⟩]
      exact ⟨_, rfl, by rw [hlen2]; omega⟩
    · rw [if_neg (fun hh => h hh.1)]
      obtain ⟨a, ha, hlt⟩ := hC i (by omega)
      exact ⟨a, ha, by rw [hlen2]; omega⟩
  have hE2 : b0.Ext ((b.alloc tickerArithmetic).2.setTickerArith n b.comps.length) :=
    setTickerArith_Ext b0 _ n _ (Ext_trans hE (alloc_Ext b _)) h0 hE.1.1
  have hcomp2 : ((b.alloc tickerArithmetic).2.setTickerArith n b.comps.length).comp b.comps.length
      = tickerArithmetic := by
    show (b.alloc tickerArithmetic).2.comp b.comps.length = _
    rw [alloc_comp, if_neg (by omega), if_pos rfl]
  by_cases hpos : 0 < n
  · rw [if_pos hpos]
    obtain ⟨t, ht, hlt⟩ := hC2 (n - 1) (by omega)
    obtain ⟨net, b3, h3, g3, e3, t3, c3, k3, o3, v3, col3, i3, x3⟩ :=
      tickerNetwork_full _ (n - 1) false hG2 t ht hlt
    rw [h3]
    dsimp only
    have hslot : (b3.comp b.comps.length).inp.slot (b3.net net).isGreen = none := by
      rw [i3, hcomp2]
      exact (tickerArithmetic_slots _).2
    obtain ⟨b4, h4, g4, tch, ck, _, _, _, _⟩ := connectInput_full b3 net b.comps.length v3 g3 hslot
    refine ⟨b4, h4, g4, ck _ (k3 _ hC2), ?_, ?_, ?_⟩
    · exact Touch_Ext (Ext_trans hE2 e3) tch (Or.inl hE.1.1)
    · rw [tch.2.2.2.1, t3, htl2]
    · rw [tch.1, c3, hlen2]
  · rw [if_neg hpos]
    exact ⟨_, rfl, hG2, hC2, hE2, htl2, hlen2⟩

/-- The loop of `getTicker` over the new tickers `n, n+1, ..., n+k-1`. -/
theorem initTickers_full (b0 : Builder) (k : Nat) : ∀ (b : Builder) (n : Nat), b.GraphOk →
    b.ChainOk n → n + k ≤ b.tickers.length → b0.Ext b → b0.tickers.length ≤ n →
    ∃ b1, b.initTickers (List.range' n k) = .ok b1 ∧ b1.GraphOk ∧ b1.ChainOk (n + k) ∧
      b0.Ext b1 ∧ b1.tickers.length = b.tickers.length ∧
      b1.comps.length = b.comps.length + k := by
  induction k with
  | zero =>
    intro b n hG hC _ hE _
    exact ⟨b, rfl, hG, hC, hE, rfl, rfl⟩
  | succ k ih =>
    intro b n hG hC hl hE h0
    obtain ⟨b1, h1, g1, c1, e1, l1, m1⟩ := initTicker_full b0 b n hG hC (by omega) hE h0
    obtain ⟨b2, h2, g2, c2, e2, l2, m2⟩ := ih b1 (n + 1) g1 c1 (by omega) e1 (by omega)
    refine ⟨b2, ?_, g2, ?_, e2, by rw [l2, l1], by rw [m2, m1]; omega⟩
    · rw [List.range'_succ]
      simp only [Builder.initTickers, h1]
      exact h2
    · have : n + 1 + k = n + (k + 1) := by omega
      rw [← this]; exact c2
theorem GraphOk_of_same (b b1 : Builder) (hc : b1.comps = b.comps) (hn : b1.conns = b.conns)
    (hw : b1.networks = b.networks) (h : b.GraphOk) : b1.GraphOk := by
  unfold Builder.GraphOk Builder.conn Builder.comp Builder.net at *
  rw [hc, hn, hw]
  exact h

theorem Ext_of_same (b b1 : Builder) (hc : b1.comps = b.comps) (hn : b1.conns = b.conns)
    (hw : b1.networks = b.networks) (hl : b.tickers.length ≤ b1.tickers.length)
    (ht : ∀ i, i < b.tickers.length → b1.tickerArith i = b.tickerArith i)
    (hnew : ∀ i, b.tickers.length ≤ i → b1.tickerArith i = none) : b.Ext b1 := by
  refine ⟨⟨by rw [hc], by rw [hn], by rw [hw], hl⟩, ?_, ?_, ?_, ?_, ht, ?_⟩
  · intro n _; unfold Builder.net; rw [hw]
  · intro c _; unfold Builder.conn; rw [hn]
  · intro e _ _; unfold Builder.comp; rw [hc]
  · intro e g c _ hs
    have : b1.comp e = b.comp e := by unfold Builder.comp; rw [hc]
    rw [this]; exact hs
  · intro i a hi ha
    rw [hnew i hi] at ha
    cases ha

theorem setMemOp_same (b : Builder) (p : TickerPtr) :
    (b.setMemOp p).comps = b.comps ∧ (b.setMemOp p).conns = b.conns ∧
    (b.setMemOp p).networks = b.networks ∧ (b.setMemOp p).tickers.length = b.tickers.length ∧
    ∀ i, (b.setMemOp p).tickerArith i = b.tickerArith i := by
  unfold Builder.setMemOp
  split
  · refine ⟨rfl, rfl, rfl, length_updAt _ _ _, ?_⟩
    intro i
    unfold Builder.tickerArith
    dsimp only
    rw [getElem?_updAt]
    split
    · cases b.tickers[i]? <;> rfl
    · rfl
  · exact ⟨rfl, rfl, rfl, rfl, fun _ => rfl⟩

theorem setMemOp_WF (b : Builder) (p : TickerPtr) (h : b.WF) : (b.setMemOp p).WF := by
  obtain ⟨s1, s2, s3, s4, s5⟩ := setMemOp_same b p
  refine ⟨GraphOk_of_same b _ s1 s2 s3 h.1, ?_⟩
  rw [s4]
  exact ChainOk_of b _ _ h.2 (fun i _ => s5 i) (by rw [s1])

theorem setMemOp_Ext (b0 b : Builder) (p : TickerPtr) (h : b0.Ext b) : b0.Ext (b.setMemOp p) := by
  obtain ⟨s1, s2, s3, s4, s5⟩ := setMemOp_same b p
  refine Ext_trans h (Ext_of_same b _ s1 s2 s3 (by rw [s4]) (fun i _ => s5 i) ?_)
  intro i hi
  rw [s5]
  unfold Builder.tickerArith
  rw [List.getElem?_eq_none hi]
  rfl

theorem appendTickers_same (growslice : Nat → Nat → Nat) (b : Builder) (k : Nat) :
    (b.appendTickers growslice k).comps = b.comps ∧
    (b.appendTickers growslice k).conns = b.conns ∧
    (b.appendTickers growslice k).networks = b.networks := by
  unfold Builder.appendTickers
  dsimp only
  split <;> exact ⟨rfl, rfl, rfl⟩

theorem appendTickers_tickerArith (growslice : Nat → Nat → Nat) (b : Builder) (k i : Nat) :
    (b.appendTickers growslice k).tickerArith i =
      if i < b.tickers.length then b.tickerArith i else none := by
  unfold Builder.tickerArith
  rw [appendTickers_tickers]
  by_cases h : i < b.tickers.length
  · rw [if_pos h, List.getElem?_append_left h]
  · rw [if_neg h, List.getElem?_append_right (Nat.le_of_not_lt h)]
    cases hx : (List.replicate k ({} : Ticker))[i - b.tickers.length]? with
    | none => rfl
    | some t =>
      have := List.mem_iff_getElem?.2 ⟨_, hx⟩
      rw [List.eq_of_mem_replicate this]
      rfl

/-- `getTicker` on a well-formed graph: it returns, the graph stays well
formed and extends the old one, and either nothing changed or the chain now
ends at the ticker asked for. -/
theorem getTicker_full (growslice : Nat → Nat → Nat) (b : Builder) (tick : Nat) (ex : Bool)
    (hW : b.WF) :
    ∃ r b1, b.getTicker growslice tick ex = .ok (r, b1) ∧ b1.WF ∧ b.Ext b1 ∧
      b1.comps.length + b.tickers.length = b.comps.length + b1.tickers.length ∧
      ((r = none ∧ b1 = b ∧ tick < b.tickers.length ∧ ex = true) ∨
       (r = some ⟨b.tickersGen, tick⟩ ∧ b1 = b ∧ tick < b.tickers.length) ∨
       (r = some ⟨b1.tickersGen, tick⟩ ∧ b1.tickers.length = tick + 1 ∧
         b.tickers.length ≤ tick)) := by
  unfold Builder.getTicker
  by_cases hlt : tick < b.tickers.length
  · rw [if_pos hlt]
    split
    · rename_i hc
      simp only [Bool.and_eq_true] at hc
      exact ⟨_, _, rfl, hW, Ext_refl b, rfl, Or.inl ⟨rfl, rfl, hlt, hc.1⟩⟩
    · exact ⟨_, _, rfl, hW, Ext_refl b, rfl, Or.inr (Or.inl ⟨rfl, rfl, hlt⟩)⟩
  · rw [if_neg hlt]
    dsimp only
    obtain ⟨s1, s2, s3⟩ := appendTickers_same growslice b (tick - b.tickers.length + 1)
    have hta := appendTickers_tickerArith growslice b (tick - b.tickers.length + 1)
    have hlen : (b.appendTickers growslice (tick - b.tickers.length + 1)).tickers.length
        = tick + 1 := by
      rw [appendTickers_tickers]; simp; omega
    have hG1 := GraphOk_of_same b _ s1 s2 s3 hW.1
    have hC1 : (b.appendTickers growslice (tick - b.tickers.length + 1)).ChainOk
        b.tickers.length :=
      ChainOk_of b _ _ hW.2 (fun i hi => by rw [hta, if_pos hi]) (by rw [s1])
    have hE1 : b.Ext (b.appendTickers growslice (tick - b.tickers.length + 1)) :=
      Ext_of_same b _ s1 s2 s3 (by rw [hlen]; omega) (fun i hi => by rw [hta, if_pos hi])
        (fun i hi => by rw [hta, if_neg (by omega)])
    obtain ⟨b2, h2, g2, c2, e2, l2, m2⟩ := initTickers_full b (tick - b.tickers.length + 1)
      (b.appendTickers growslice (tick - b.tickers.length + 1)) b.tickers.length hG1 hC1
      (by rw [hlen]; omega) hE1 (le_refl _)
    rw [h2]
    dsimp only
    have hl2 : b2.tickers.length = tick + 1 := by rw [l2, hlen]
    have hm2 : b2.comps.length + b.tickers.length = b.comps.length + b2.tickers.length := by
      rw [m2, s1, hl2]; omega
    have hW2 : b2.WF := by
      refine ⟨g2, ?_⟩
      rw [hl2]
      have : b.tickers.length + (tick - b.tickers.length + 1) = tick + 1 := by omega
      rw [← this]; exact c2
    cases ex
    · simp only [Bool.false_eq_true, if_false]
      exact ⟨_, _, rfl, hW2, e2, hm2, Or.inr (Or.inr ⟨rfl, hl2, by omega⟩)⟩
    · simp only [if_true]
      refine ⟨_, _, rfl, setMemOp_WF b2 _ hW2, setMemOp_Ext b b2 _ e2, ?_,
        Or.inr (Or.inr ⟨?_, ?_, by omega⟩)⟩
      · rw [(setMemOp_same b2 _).1, (setMemOp_same b2 _).2.2.2.1]; exact hm2
      · unfold Builder.setMemOp
        rw [if_pos rfl]
      · rw [(setMemOp_same b2 _).2.2.2.1, hl2]

theorem tickerOut_of (b : Builder) (i t n : Nat) (g : Bool) (ht : b.tickerArith i = some t)
    (ho : b.outNet t g = some n) : b.tickerOut i g = some n := by
  unfold Builder.tickerOut
  rw [ht]
  exact ho

/-- `getTickerNetwork(tick, g, false)` on a well-formed graph: it returns the
output network of colour `g` of the ticker at index `tick`. -/
theorem getTickerNetwork_full (growslice : Nat → Nat → Nat) (b : Builder) (tick : Nat)
    (g : Bool) (hW : b.WF) :
    ∃ n b1, b.getTickerNetwork growslice tick g false = .ok (some n, b1) ∧ b1.WF ∧ b.Ext b1 ∧
      b1.tickerOut tick g = some n ∧ n < b1.networks.length ∧ (b1.net n).isGreen = g ∧
      b1.comps.length + b.tickers.length = b.comps.length + b1.tickers.length := by
  unfold Builder.getTickerNetwork
  obtain ⟨r, b1, h1, w1, e1, m1, hc⟩ := getTicker_full growslice b tick false hW
  rw [h1]
  have hsome : ∃ p : TickerPtr, r = some p ∧ p.idx = tick ∧ tick < b1.tickers.length := by
    rcases hc with ⟨_, _, _, hex⟩ | ⟨hr, hb, hl⟩ | ⟨hr, hl, _⟩
    · cases hex
    · exact ⟨_, hr, rfl, by rw [hb]; exact hl⟩
    · exact ⟨_, hr, rfl, by omega⟩
  obtain ⟨p, rfl, hp, hl⟩ := hsome
  dsimp only
  rw [hp]
  obtain ⟨t, ht, hlt⟩ := w1.2 tick hl
  obtain ⟨n, b2, h2, g2, e2, t2, c2, k2, o2, v2, col2, _, _⟩ :=
    tickerNetwork_full b1 tick g w1.1 t ht hlt
  rw [h2]
  dsimp only
  refine ⟨n, b2, rfl, ⟨g2, ?_⟩, Ext_trans e1 e2, ?_, v2, col2, ?_⟩
  · rw [t2]; exact k2 _ w1.2
  · exact tickerOut_of b2 tick t n g (by rw [tickerArith_congr b1 b2 t2]; exact ht) o2
  · rw [c2, t2]; exact m1

/-- The scan of `nextSafeMemOpTick` on a well-formed graph. -/
theorem nextSafeMemOpTickLoop_full (growslice : Nat → Nat → Nat) (isRead : Bool) (b : Builder)
    (hW : b.WF) (fuel : Nat) : ∀ tick : Nat, max tick b.tickers.length - tick + 1 ≤ fuel →
    ∃ r b1, Builder.nextSafeMemOpTickLoop growslice fuel b tick isRead = .ok (r, b1) ∧
      b1.WF ∧ b.Ext b1 ∧ tick ≤ r ∧ r ≤ max tick b.tickers.length ∧
      b1.comps.length + b.tickers.length = b.comps.length + b1.tickers.length := by
  induction fuel with
  | zero => intro tick h; omega
  | succ fuel ih =>
    intro tick hf
    have next : tick < b.tickers.length →
        ∃ r b1, Builder.nextSafeMemOpTickLoop growslice fuel b (tick + 1) isRead = .ok (r, b1) ∧
          b1.WF ∧ b.Ext b1 ∧ tick ≤ r ∧ r ≤ max tick b.tickers.length ∧
          b1.comps.length + b.tickers.length = b.comps.length + b1.tickers.length := by
      intro hlt
      obtain ⟨r, b1, h, w, e, h1, h2, h3⟩ := ih (tick + 1) (by omega)
      exact ⟨r, b1, h, w, e, by omega, by omega, h3⟩
    unfold Builder.nextSafeMemOpTickLoop
    obtain ⟨r1, b1, e1, w1, x1, m1, c1⟩ := getTicker_full growslice b tick true hW
    rw [e1]
    rcases c1 with ⟨rfl, rfl, hlt, _⟩ | c1
    · exact next hlt
    · have hs1 : ∃ t, r1 = some t := by
        rcases c1 with c | c <;> exact ⟨_, c.1⟩
      obtain ⟨t, rfl⟩ := hs1
      dsimp only
      obtain ⟨r2, b2, e2, w2, x2, m2, c2⟩ := getTicker_full growslice b1 (tick + 1) true w1
      rw [e2]
      rcases c2 with ⟨rfl, rfl, hlt2, _⟩ | c2
      · dsimp only
        rcases c1 with ⟨_, rfl, hlt⟩ | ⟨_, hl, _⟩
        · exact next hlt
        · omega
      · have hs2 : ∃ t2, r2 = some t2 := by
          rcases c2 with c | c <;> exact ⟨_, c.1⟩
        obtain ⟨t2, rfl⟩ := hs2
        dsimp only
        cases isRead
        · simp only [Bool.not_false, if_true]
          obtain ⟨r3, b3, e3, w3, x3, m3, c3⟩ := getTicker_full growslice b2 (tick + 2) true w2
          rw [e3]
          rcases c3 with ⟨rfl, rfl, hlt3, _⟩ | c3
          · dsimp only
            rcases c2 with ⟨_, rfl, hlt2⟩ | ⟨_, hl2, _⟩
            · rcases c1 with ⟨_, rfl, hlt⟩ | ⟨_, hl, _⟩
              · exact next hlt
              · omega
            · omega
          · have hs3 : ∃ t3, r3 = some t3 := by
              rcases c3 with c | c <;> exact ⟨_, c.1⟩
            obtain ⟨t3, rfl⟩ := hs3
            refine ⟨_, _, rfl, setMemOp_WF _ _ (setMemOp_WF _ _ (setMemOp_WF _ _ w3)),
              setMemOp_Ext _ _ _ (setMemOp_Ext _ _ _ (setMemOp_Ext _ _ _
                (Ext_trans x1 (Ext_trans x2 x3)))), le_refl _, le_max_left _ _, ?_⟩
            simp only [(setMemOp_same _ _).1, (setMemOp_same _ _).2.2.2.1]
            omega
        · simp only [Bool.not_true, Bool.false_eq_true, if_false]
          refine ⟨_, _, rfl, setMemOp_WF _ _ (setMemOp_WF _ _ w2),
            setMemOp_Ext _ _ _ (setMemOp_Ext _ _ _ (Ext_trans x1 x2)), le_refl _,
            le_max_left _ _, ?_⟩
          simp only [(setMemOp_same _ _).1, (setMemOp_same _ _).2.2.2.1]
          omega

theorem nextSafeMemOpTick_full (growslice : Nat → Nat → Nat) (b : Builder) (tick : Nat)
    (isRead : Bool) (hW : b.WF) :
    ∃ r b1, b.nextSafeMemOpTick growslice tick isRead = .ok (r, b1) ∧ b1.WF ∧ b.Ext b1 ∧
      tick ≤ r ∧ r ≤ max tick b.tickers.length ∧
      b1.comps.length + b.tickers.length = b.comps.length + b1.tickers.length := by
  unfold Builder.nextSafeMemOpTick
  exact nextSafeMemOpTickLoop_full growslice isRead b hW (b.tickers.length + 1) tick (by omega)

/-! ## Wiring of single components -/

theorem core_withOut (x : Component) (o : OutputComponent) : (x.withOut o).core = x.core := by
  cases x <;> rfl

theorem core_withInp (x : Component) (i : InputComponent)
    (h1 : i.primaryInput = x.inp.primaryInput) (h2 : i.secondaryInput = x.inp.secondaryInput) :
    (x.withInp i).core = x.core := by
  cases x with
  | arithmetic a =>
    simp only [Component.withInp, Component.core, Component.inp] at h1 h2 ⊢
    rw [h1, h2]
  | decider d =>
    simp only [Component.withInp, Component.core, Component.inp] at h1 h2 ⊢
    rw [h1, h2]
  | emitter e => rfl

theorem inNet_none (b : Builder) (e : Nat) (g : Bool) :
    b.inNet e g = none ↔ (b.comp e).inp.slot g = none := by
  unfold Builder.inNet
  cases (b.comp e).inp.slot g <;> simp

theorem outNet_none (b : Builder) (e : Nat) (g : Bool) :
    b.outNet e g = none ↔ (b.comp e).out.slot g = none := by
  unfold Builder.outNet
  cases (b.comp e).out.slot g <;> simp

/-- What an operation on component `e` leaves of another component. -/
theorem Touch_frame {b b1 : Builder} {e : Nat} (h : b.Touch b1 e) (hG : b.GraphOk) (e2 : Nat)
    (hne : e2 ≠ e) :
    b1.comp e2 = b.comp e2 ∧ (∀ g, b1.inNet e2 g = b.inNet e2 g) ∧
    (∀ g, b1.outNet e2 g = b.outNet e2 g) := by
  obtain ⟨t1, t2, t3, t4, t5, t6, t7, t8⟩ := h
  have hc := t7 e2 hne
  refine ⟨hc, ?_, ?_⟩
  · intro g
    unfold Builder.inNet
    rw [hc]
    cases hs : (b.comp e2).inp.slot g with
    | none => rfl
    | some c => simp only [Option.map_some']; rw [t6 c (hG.2.2.1 e2 g c hs)]
  · intro g
    unfold Builder.outNet
    rw [hc]
    cases hs : (b.comp e2).out.slot g with
    | none => rfl
    | some c => simp only [Option.map_some']; rw [t6 c (hG.2.1 e2 g c hs).1]

/-- What an extension leaves of a component that is not a ticker. -/
theorem Ext_frame {b b1 : Builder} (h : b.Ext b1) (hG : b.GraphOk) (e : Nat)
    (he : e < b.comps.length) (hnt : ¬ b.isTicker e) :
    b1.comp e = b.comp e ∧ (∀ g, b1.inNet e g = b.inNet e g) ∧
    (∀ g, b1.outNet e g = b.outNet e g) := by
  have hc := h.2.2.2.1 e he hnt
  refine ⟨hc, ?_, ?_⟩
  · intro g
    unfold Builder.inNet
    rw [hc]
    cases hs : (b.comp e).inp.slot g with
    | none => rfl
    | some c => simp only [Option.map_some']; rw [h.2.2.1 c (hG.2.2.1 e g c hs)]
  · intro g
    unfold Builder.outNet
    rw [hc]
    cases hs : (b.comp e).out.slot g with
    | none => rfl
    | some c => simp only [Option.map_some']; rw [h.2.2.1 c (hG.2.1 e g c hs).1]

/-- The output network of a ticker persists in every extension. -/
theorem Ext_tickerOut {b b1 : Builder} (h : b.Ext b1) (hW : b.WF) (i n : Nat) (g : Bool)
    (ho : b.tickerOut i g = some n) : b1.tickerOut i g = some n := by
  unfold Builder.tickerOut at ho ⊢
  cases ht : b.tickerArith i with
  | none => rw [ht] at ho; cases ho
  | some t =>
    rw [ht] at ho
    have hi := tickerArith_lt b i t ht
    rw [h.2.2.2.2.2.1 i hi, ht]
    change b.outNet t g = some n at ho
    change b1.outNet t g = some n
    unfold Builder.outNet at ho ⊢
    cases hs : (b.comp t).out.slot g with
    | none => rw [hs] at ho; cases ho
    | some c =>
      rw [hs] at ho
      obtain ⟨a, ha, hlt⟩ := hW.2 i hi
      rw [ht] at ha
      cases ha
      rw [h.2.2.2.2.1 t g c hlt hs]
      simp only [Option.map_some'] at ho ⊢
      rw [h.2.2.1 c (hW.1.2.1 t g c hs).1]
      exact ho

/-- A newly allocated component without connectors. -/
theorem alloc_new (b : Builder) (x : Component)
    (hx : ∀ g, x.out.slot g = none ∧ x.inp.slot g = none) :
    (b.alloc x).1 = b.comps.length ∧ (b.alloc x).2.comp b.comps.length = x ∧
    (b.alloc x).2.comps.length = b.comps.length + 1 ∧
    (∀ g, (b.alloc x).2.inNet b.comps.length g = none) ∧
    (∀ g, (b.alloc x).2.outNet b.comps.length g = none) := by
  have hc : (b.alloc x).2.comp b.comps.length = x := by
    rw [alloc_comp, if_neg (by omega), if_pos rfl]
  refine ⟨rfl, hc, by simp [Builder.alloc], ?_, ?_⟩
  · intro g; rw [inNet_none, hc]; exact (hx g).2
  · intro g; rw [outNet_none, hc]; exact (hx g).1

/-- `connectInput` in terms of the networks on the component. -/
theorem connectInput_wires (b : Builder) (n e : Nat) (hn : n < b.networks.length)
    (hG : b.GraphOk) (he : e < b.comps.length) (hk : ∀ em, b.comp e ≠ .emitter em)
    (hfree : b.inNet e (b.net n).isGreen = none) :
    ∃ b1, b.connectInput n e = .ok b1 ∧ b1.GraphOk ∧ b.Touch b1 e ∧
      (∀ k, b.ChainOk k → b1.ChainOk k) ∧
      (∀ g, b1.inNet e g = if g = (b.net n).isGreen then some n else b.inNet e g) ∧
      (∀ g, b1.outNet e g = b.outNet e g) ∧ (b1.comp e).core = (b.comp e).core ∧
      (∀ em, b1.comp e ≠ .emitter em) := by
  obtain ⟨b1, h1, g1, tch, ck, cl, cn, co, ci⟩ :=
    connectInput_full b n e hn hG ((inNet_none b e _).1 hfree)
  obtain ⟨s1, s2, i, hi, p1, p2⟩ := ci he hk
  have hconn := tch.2.2.2.2.2.1
  refine ⟨b1, h1, g1, tch, ck, ?_, ?_, ?_, ?_⟩
  · intro g
    unfold Builder.inNet
    by_cases hg : g = (b.net n).isGreen
    · rw [if_pos hg, hg, s1]
      simp only [Option.map_some']
      rw [cn]
    · rw [if_neg hg]
      have : g = !(b.net n).isGreen := by
        rcases slot_cases (b.net n).isGreen g with h | h
        · exact absurd h hg
        · exact h
      rw [this, s2]
      cases hs : (b.comp e).inp.slot (!(b.net n).isGreen) with
      | none => rfl
      | some c => simp only [Option.map_some']; rw [hconn c (hG.2.2.1 e _ c hs)]
  · intro g
    unfold Builder.outNet
    rw [co]
    cases hs : (b.comp e).out.slot g with
    | none => rfl
    | some c => simp only [Option.map_some']; rw [hconn c (hG.2.1 e _ c hs).1]
  · rw [hi]; exact core_withInp _ _ p1 p2
  · intro em hem
    rw [hi] at hem
    cases hx : b.comp e with
    | arithmetic a => rw [hx] at hem; cases hem
    | decider d => rw [hx] at hem; cases hem
    | emitter e2 => exact hk e2 hx

/-- `connectOutput` in terms of the networks on the component. -/
theorem connectOutput_wires (b : Builder) (n e : Nat) (hn : n < b.networks.length)
    (hG : b.GraphOk) (he : e < b.comps.length)
    (hfree : b.outNet e (b.net n).isGreen = none) :
    ∃ b1, b.connectOutput n e = .ok b1 ∧ b1.GraphOk ∧ b.Touch b1 e ∧
      (∀ k, b.ChainOk k → b1.ChainOk k) ∧
      (∀ g, b1.outNet e g = if g = (b.net n).isGreen then some n else b.outNet e g) ∧
      (∀ g, b1.inNet e g = b.inNet e g) ∧ (b1.comp e).core = (b.comp e).core ∧
      ((∀ em, b.comp e ≠ .emitter em) → ∀ em, b1.comp e ≠ .emitter em) := by
  obtain ⟨b1, h1, g1, tch, ck, cl, cn, ci, co⟩ :=
    connectOutput_full b n e hn hG ((outNet_none b e _).1 hfree)
  obtain ⟨s1, s2, o, ho⟩ := co he
  have hconn := tch.2.2.2.2.2.1
  refine ⟨b1, h1, g1, tch, ck, ?_, ?_, ?_, ?_⟩
  · intro g
    unfold Builder.outNet
    by_cases hg : g = (b.net n).isGreen
    · rw [if_pos hg, hg, s1]
      simp only [Option.map_some']
      rw [cn]
    · rw [if_neg hg]
      have : g = !(b.net n).isGreen := by
        rcases slot_cases (b.net n).isGreen g with h | h
        · exact absurd h hg
        · exact h
      rw [this, s2]
      cases hs : (b.comp e).out.slot (!(b.net n).isGreen) with
      | none => rfl
      | some c => simp only [Option.map_some']; rw [hconn c (hG.2.1 e _ c hs).1]
  · intro g
    unfold Builder.inNet
    rw [ci]
    cases hs : (b.comp e).inp.slot g with
    | none => rfl
    | some c => simp only [Option.map_some']; rw [hconn c (hG.2.2.1 e _ c hs)]
  · rw [ho]; exact core_withOut _ _
  · intro hk em hem
    rw [ho] at hem
    cases hx : b.comp e with
    | arithmetic a => rw [hx] at hem; cases hem
    | decider d => rw [hx] at hem; cases hem
    | emitter e2 => exact hk e2 hx
theorem Touch_WF {b b1 : Builder} {e : Nat} (h : b.Touch b1 e) (hW : b.WF) (hG : b1.GraphOk)
    (hk : ∀ k, b.ChainOk k → b1.ChainOk k) : b1.WF := by
  refine ⟨hG, ?_⟩
  rw [h.2.2.2.1]
  exact hk _ hW.2

theorem Touch_isTicker {b b1 : Builder} {e : Nat} (h : b.Touch b1 e) (e2 : Nat) :
    b1.isTicker e2 ↔ b.isTicker e2 := by
  unfold Builder.isTicker
  constructor
  · rintro ⟨i, hi⟩; exact ⟨i, by rw [← tickerArith_congr b b1 h.2.2.2.1]; exact hi⟩
  · rintro ⟨i, hi⟩; exact ⟨i, by rw [tickerArith_congr b b1 h.2.2.2.1]; exact hi⟩

theorem Touch_networks {b b1 : Builder} {e : Nat} (h : b.Touch b1 e) :
    b1.networks.length = b.networks.length ∧ ∀ m, (b1.net m).isGreen = (b.net m).isGreen :=
  ⟨h.2.2.1, h.2.2.2.2.1⟩

/-- A component allocated in a well-formed graph. -/
theorem HasComp_alloc (b : Builder) (x : Component) (hW : b.WF)
    (hx : ∀ g, x.out.slot g = none ∧ x.inp.slot g = none) (hcore : x.core = x)
    (hk : ∀ em, x ≠ .emitter em) :
    (b.alloc x).2.WF ∧ b.Ext (b.alloc x).2 ∧
    (b.alloc x).2.HasComp b.comps.length x (fun _ => none) (fun _ => none) := by
  obtain ⟨a1, a2, a3, a4, a5⟩ := alloc_new b x hx
  refine ⟨alloc_WF b x hW hx, alloc_Ext b x, by rw [a3]; omega, by rw [a2]; exact hcore,
    by rw [a2]; exact hk, ?_, a4, a5⟩
  rintro ⟨i, hi⟩
  exact WF_notTicker b hW b.comps.length (le_refl _) ⟨i, hi⟩

theorem HasComp_Touch {b b1 : Builder} {e e2 : Nat} {x : Component} {ins outs : Bool → Option Nat}
    (h : b.HasComp e2 x ins outs) (t : b.Touch b1 e) (hG : b.GraphOk) (hne : e2 ≠ e) :
    b1.HasComp e2 x ins outs := by
  obtain ⟨h1, h2, h3, h4, h5, h6⟩ := h
  obtain ⟨f1, f2, f3⟩ := Touch_frame t hG e2 hne
  refine ⟨by rw [t.1]; exact h1, by rw [f1]; exact h2, by rw [f1]; exact h3,
    fun hh => h4 ((Touch_isTicker t e2).1 hh), fun g => by rw [f2]; exact h5 g,
    fun g => by rw [f3]; exact h6 g⟩

theorem HasComp_Ext {b b1 : Builder} {e : Nat} {x : Component} {ins outs : Bool → Option Nat}
    (h : b.HasComp e x ins outs) (t : b.Ext b1) (hG : b.GraphOk) :
    b1.HasComp e x ins outs := by
  obtain ⟨h1, h2, h3, h4, h5, h6⟩ := h
  obtain ⟨f1, f2, f3⟩ := Ext_frame t hG e h1 h4
  refine ⟨by have := t.1.1; omega, by rw [f1]; exact h2, by rw [f1]; exact h3,
    Ext_notTicker t e h1 h4, fun g => by rw [f2]; exact h5 g, fun g => by rw [f3]; exact h6 g⟩

/-- `connectInput` of a network to a free input of a tracked component. -/
theorem HasComp_connectInput {b : Builder} {e : Nat} {x : Component}
    {ins outs : Bool → Option Nat} (h : b.HasComp e x ins outs) (hW : b.WF) (n : Nat)
    (hn : n < b.networks.length) (hfree : ins (b.net n).isGreen = none) :
    ∃ b1, b.connectInput n e = .ok b1 ∧ b1.WF ∧ b.Touch b1 e ∧
      b1.HasComp e x (fun g => if g = (b.net n).isGreen then some n else ins g) outs := by
  obtain ⟨h1, h2, h3, h4, h5, h6⟩ := h
  obtain ⟨b1, r, g1, tch, ck, wi, wo, wc, wk⟩ :=
    connectInput_wires b n e hn hW.1 h1 h3 (by rw [h5]; exact hfree)
  refine ⟨b1, r, Touch_WF tch hW g1 ck, tch, by rw [tch.1]; exact h1, by rw [wc]; exact h2,
    wk, fun hh => h4 ((Touch_isTicker tch e).1 hh), ?_, fun g => by rw [wo]; exact h6 g⟩
  intro g
  rw [wi, h5]

/-- `connectOutput` of a network to a free output of a tracked component. -/
theorem HasComp_connectOutput {b : Builder} {e : Nat} {x : Component}
    {ins outs : Bool → Option Nat} (h : b.HasComp e x ins outs) (hW : b.WF) (n : Nat)
    (hn : n < b.networks.length) (hfree : outs (b.net n).isGreen = none) :
    ∃ b1, b.connectOutput n e = .ok b1 ∧ b1.WF ∧ b.Touch b1 e ∧
      b1.HasComp e x ins (fun g => if g = (b.net n).isGreen then some n else outs g) := by
  obtain ⟨h1, h2, h3, h4, h5, h6⟩ := h
  obtain ⟨b1, r, g1, tch, ck, wo, wi, wc, wk⟩ :=
    connectOutput_wires b n e hn hW.1 h1 (by rw [h6]; exact hfree)
  refine ⟨b1, r, Touch_WF tch hW g1 ck, tch, by rw [tch.1]; exact h1, by rw [wc]; exact h2,
    wk h3, fun hh => h4 ((Touch_isTicker tch e).1 hh), fun g => by rw [wi]; exact h5 g, ?_⟩
  intro g
  rw [wo, h6]
theorem readDispatch_slots (c : Cell) (g : Bool) :
    (readDispatch c).out.slot g = none ∧ (readDispatch c).inp.slot g = none := by
  cases g <;> exact ⟨rfl, rfl⟩

theorem readArithmetic_slots (tr : Signal) (g : Bool) :
    (readArithmetic tr).out.slot g = none ∧ (readArithmetic tr).inp.slot g = none := by
  cases g <;> exact ⟨rfl, rfl⟩

theorem alloc_net (b : Builder) (x : Component) :
    (b.alloc x).2.networks = b.networks := rfl

/-- `readCell` on a well-formed graph. -/
theorem readCell_full (growslice : Nat → Nat → Nat) (b : Builder) (tick : Nat) (c : Cell)
    (tr : Signal) (onet : Nat) (hW : b.WF) (hc : c.net < b.networks.length)
    (ho : onet < b.networks.length) :
    ∃ r b1 bf dnet rnet disp,
      b.nextSafeMemOpTick growslice tick true = .ok (r, b1) ∧ tick ≤ r ∧
      b.readCell growslice tick c tr onet = .ok (r + 3, bf) ∧ bf.WF ∧ b.Ext bf ∧
      bf.tickerOut r false = some dnet ∧
      bf.tickerOut (r + 2) (!(b.net c.net).isGreen) = some rnet ∧
      b.comps.length ≤ disp ∧ bf.comps.length = disp + 2 ∧
      bf.comps.length + b.tickers.length = b.comps.length + bf.tickers.length + 2 ∧
      bf.HasComp disp (readDispatch c) (fun g => if g = false then some dnet else none)
        (fun g => if g = (b.net c.net).isGreen then some c.net else none) ∧
      bf.HasComp (disp + 1) (readArithmetic tr)
        (fun g => if g = (b.net c.net).isGreen then some c.net else some rnet)
        (fun g => if g = (b.net onet).isGreen then some onet else none) := by
  obtain ⟨r, b1, h1, w1, e1, hr, _, m1⟩ := nextSafeMemOpTick_full growslice b tick true hW
  obtain ⟨dnet, b2, h2, w2, e2, to2, v2, col2, m2⟩ :=
    getTickerNetwork_full growslice b1 r false w1
  have e02 : b.Ext b2 := Ext_trans e1 e2
  have hgc2 : (b2.net c.net).isGreen = (b.net c.net).isGreen := e02.2.1 _ hc
  obtain ⟨rnet, b3, h3, w3, e3, to3, v3, col3, m3⟩ :=
    getTickerNetwork_full growslice b2 (r + 2) (!(b2.net c.net).isGreen) w2
  rw [hgc2] at to3 col3
  have e03 : b.Ext b3 := Ext_trans e02 e3
  have hcol3 : ∀ m, m < b.networks.length → (b3.net m).isGreen = (b.net m).isGreen := e03.2.1
  have hdn3 : (b3.net dnet).isGreen = false := by rw [e3.2.1 _ v2]; exact col2
  have hdv3 : dnet < b3.networks.length := by have := e3.1.2.2.1; omega
  have hcv3 : c.net < b3.networks.length := by have := e03.1.2.2.1; omega
  have hov3 : onet < b3.networks.length := by have := e03.1.2.2.1; omega
  -- the dispatcher
  obtain ⟨w4, e4, hc4⟩ := HasComp_alloc b3 (readDispatch c) w3 (readDispatch_slots c) rfl
    (fun em h => by cases h)
  obtain ⟨b5, h5, w5, t5, hc5⟩ := HasComp_connectInput hc4 w4 dnet hdv3 (by rfl)
  have e35 : b3.Ext b5 := Touch_Ext e4 t5 (Or.inl (le_refl _))
  have col5 : ∀ m, (b5.net m).isGreen = (b3.net m).isGreen := t5.2.2.2.2.1
  have nl5 : b5.networks.length = b3.networks.length := t5.2.2.1
  obtain ⟨b6, h6, w6, t6, hc6⟩ := HasComp_connectOutput hc5 w5 c.net (by rw [nl5]; exact hcv3)
    (by rfl)
  have e36 : b3.Ext b6 := Touch_Ext e35 t6 (Or.inl (le_refl _))
  have col6 : ∀ m, (b6.net m).isGreen = (b3.net m).isGreen := fun m => by
    rw [t6.2.2.2.2.1, col5]
  have nl6 : b6.networks.length = b3.networks.length := by rw [t6.2.2.1, nl5]
  have cl6 : b6.comps.length = b3.comps.length + 1 := by
    rw [t6.1, t5.1]; simp [Builder.alloc]
  -- the reader
  obtain ⟨w7, e7, hc7⟩ := HasComp_alloc b6 (readArithmetic tr) w6 (readArithmetic_slots tr) rfl
    (fun em h => by cases h)
  have e37 : b3.Ext (b6.alloc (readArithmetic tr)).2 := Ext_trans e36 e7
  have hd7 := HasComp_Ext hc6 e7 w6.1
  obtain ⟨b8, h8, w8, t8, hc8⟩ := HasComp_connectInput hc7 w7 c.net (by rw [alloc_net, nl6]; exact hcv3)
    (by rfl)
  have e38 : b3.Ext b8 := Touch_Ext e37 t8 (Or.inl (by omega))
  have hd8 := HasComp_Touch hd7 t8 w7.1 (by omega)
  have col8 : ∀ m, (b8.net m).isGreen = (b3.net m).isGreen := fun m => by
    rw [t8.2.2.2.2.1]; exact col6 m
  have nl8 : b8.networks.length = b3.networks.length := by rw [t8.2.2.1]; exact nl6
  have hrv3 : rnet < b3.networks.length := v3
  obtain ⟨b9, h9, w9, t9, hc9⟩ := HasComp_connectInput hc8 w8 rnet (by rw [nl8]; exact hrv3)
    (by
      show (if (b8.net rnet).isGreen = ((b6.alloc (readArithmetic tr)).2.net c.net).isGreen
        then some c.net else none) = none
      rw [col8, col3]
      have : ((b6.alloc (readArithmetic tr)).2.net c.net).isGreen = (b.net c.net).isGreen := by
        show (b6.net c.net).isGreen = _
        rw [col6, hcol3 _ hc]
      rw [this, if_neg (by cases (b.net c.net).isGreen <;> simp)])
  have e39 : b3.Ext b9 := Touch_Ext e38 t9 (Or.inl (by omega))
  have hd9 := HasComp_Touch hd8 t9 w8.1 (by omega)
  have col9 : ∀ m, (b9.net m).isGreen = (b3.net m).isGreen := fun m => by
    rw [t9.2.2.2.2.1]; exact col8 m
  have nl9 : b9.networks.length = b3.networks.length := by rw [t9.2.2.1]; exact nl8
  obtain ⟨bf, hf, wf, tf, hcf⟩ := HasComp_connectOutput hc9 w9 onet (by rw [nl9]; exact hov3)
    (by rfl)
  have e3f : b3.Ext bf := Touch_Ext e39 tf (Or.inl (by omega))
  have hdf := HasComp_Touch hd9 tf w9.1 (by omega)
  have hres : b.readCell growslice tick c tr onet = .ok (r + 3, bf) := by
    unfold Builder.readCell
    rw [h1, ok_bind]
    dsimp only
    rw [h2, ok_bind]
    dsimp only
    rw [h3, ok_bind]
    dsimp only [derefNet]
    have h5' : (b3.alloc (readDispatch c)).2.connectInput dnet (b3.alloc (readDispatch c)).1
        = .ok b5 := h5
    have h6' : b5.connectOutput c.net (b3.alloc (readDispatch c)).1 = .ok b6 := h6
    have h8' : (b6.alloc (readArithmetic tr)).2.connectInput c.net
        (b6.alloc (readArithmetic tr)).1 = .ok b8 := h8
    have h9' : b8.connectInput rnet (b6.alloc (readArithmetic tr)).1 = .ok b9 := h9
    have hf' : b9.connectOutput onet (b6.alloc (readArithmetic tr)).1 = .ok bf := hf
    rw [ok_bind, h5', ok_bind, h6', ok_bind, h8', ok_bind, ok_bind, h9', ok_bind, hf', ok_bind]
    rfl
  have clf : bf.comps.length = b3.comps.length + 2 := by
    rw [tf.1, t9.1, t8.1]
    simp [Builder.alloc, cl6]
  have tlf : bf.tickers = b3.tickers := by
    rw [tf.2.2.2.1, t9.2.2.2.1, t8.2.2.2.1]
    show b6.tickers = _
    rw [t6.2.2.2.1, t5.2.2.2.1]
    rfl
  refine ⟨r, b1, bf, dnet, rnet, b3.comps.length, h1, hr, hres, wf, Ext_trans e03 e3f, ?_, ?_,
    e03.1.1, clf, ?_, ?_, ?_⟩
  · exact Ext_tickerOut (Ext_trans e3 e3f) w2 r dnet false to2
  · exact Ext_tickerOut e3f w3 (r + 2) rnet _ to3
  · rw [clf, tlf]; omega
  · have h := hdf
    have f1 : (fun g => if g = (b5.net c.net).isGreen then some c.net
        else (fun _ => (none : Option Nat)) g) =
        (fun g => if g = (b.net c.net).isGreen then some c.net else none) := by
      funext g; rw [col5, hcol3 _ hc]
    have f2 : (fun g => if g = ((b3.alloc (readDispatch c)).2.net dnet).isGreen then some dnet
        else (fun _ => (none : Option Nat)) g) =
        (fun g => if g = false then some dnet else none) := by
      funext g
      have : ((b3.alloc (readDispatch c)).2.net dnet).isGreen = false := hdn3
      rw [this]
    rw [f1, f2] at h
    exact h
  · have h := hcf
    have hq : b6.comps.length = b3.comps.length + 1 := cl6
    rw [hq] at h
    have f1 : (fun g => if g = (b9.net onet).isGreen then some onet
        else (fun _ => (none : Option Nat)) g) =
        (fun g => if g = (b.net onet).isGreen then some onet else none) := by
      funext g; rw [col9, hcol3 _ ho]
    have f2 : (fun g => if g = (b8.net rnet).isGreen then some rnet
        else (fun g => if g = ((b6.alloc (readArithmetic tr)).2.net c.net).isGreen
          then some c.net else (fun _ => (none : Option Nat)) g) g) =
        (fun g => if g = (b.net c.net).isGreen then some c.net else some rnet) := by
      funext g
      have e1 : ((b6.alloc (readArithmetic tr)).2.net c.net).isGreen = (b.net c.net).isGreen := by
        show (b6.net c.net).isGreen = _
        rw [col6, hcol3 _ hc]
      rw [col8, col3, e1]
      cases g <;> cases (b.net c.net).isGreen <;> simp
    rw [f1, f2] at h
    exact h

/-- C9: on a well-formed graph with the cell network and `onet` in it,
`readCell(tick, c, tr, onet)` returns `r + 3` for the tick `r ≥ tick` that
`nextSafeMemOpTick(tick, read)` returns.  Its last two components are new:
the multiplier `check × c.id → G` with the red output network of ticker `r`
on its input and the cell network on its output, and the multiplier
`check × V → tr` with the cell network and the output network of ticker
`r + 2` (of the other colour) on its inputs and `onet` on its output.  Every
other component it adds is the combinator of a new ticker. -/
theorem C9_readCell (growslice : Nat → Nat → Nat) (b : Builder) (tick : Nat) (c : Cell)
    (tr : Signal) (onet : Nat) (hW : b.WF) (hc : c.net < b.networks.length)
    (ho : onet < b.networks.length) :
    ∃ r b1 bf dnet rnet disp,
      b.nextSafeMemOpTick growslice tick true = .ok (r, b1) ∧ tick ≤ r ∧
      b.readCell growslice tick c tr onet = .ok (r + 3, bf) ∧ bf.WF ∧ b.Ext bf ∧
      bf.tickerOut r false = some dnet ∧
      bf.tickerOut (r + 2) (!(b.net c.net).isGreen) = some rnet ∧
      b.comps.length ≤ disp ∧ bf.comps.length = disp + 2 ∧
      bf.comps.length + b.tickers.length = b.comps.length + bf.tickers.length + 2 ∧
      bf.HasComp disp (readDispatch c) (fun g => if g = false then some dnet else none)
        (fun g => if g = (b.net c.net).isGreen then some c.net else none) ∧
      bf.HasComp (disp + 1) (readArithmetic tr)
        (fun g => if g = (b.net c.net).isGreen then some c.net else some rnet)
        (fun g => if g = (b.net onet).isGreen then some onet else none) :=
  readCell_full growslice b tick c tr onet hW hc ho

theorem WF_empty : ({} : Builder).WF := by
  refine ⟨⟨?_, ?_, ?_, ?_⟩, ?_⟩
  · intro c hc; exact absurd hc (Nat.not_lt_zero _)
  · intro e g c hs
    have : (({} : Builder).comp e) = default := by
      simp [Builder.comp]
    rw [this, default_out_slot] at hs
    cases hs
  · intro e g c hs
    have : (({} : Builder).comp e) = default := by
      simp [Builder.comp]
    rw [this, default_inp_slot] at hs
    cases hs
  · intro m c hm
    have : (({} : Builder).net m) = default := by
      simp [Builder.net]
    rw [this] at hm
    cases hm
  · intro i hi; exact absurd hi (Nat.not_lt_zero _)

/-- C9 on the graph that holds one red network and nothing else, for a cell on
that network read onto the same network. -/
theorem C9_readCell_witness :
    ∃ r b1 bf dnet rnet disp,
      redNetwork.nextSafeMemOpTick goGrowslice 0 true = .ok (r, b1) ∧ 0 ≤ r ∧
      redNetwork.readCell goGrowslice 0 cellOne SignalA 0 = .ok (r + 3, bf) ∧ bf.WF ∧
      redNetwork.Ext bf ∧
      bf.tickerOut r false = some dnet ∧
      bf.tickerOut (r + 2) (!(redNetwork.net cellOne.net).isGreen) = some rnet ∧
      redNetwork.comps.length ≤ disp ∧ bf.comps.length = disp + 2 ∧
      bf.comps.length + redNetwork.tickers.length =
        redNetwork.comps.length + bf.tickers.length + 2 ∧
      bf.HasComp disp (readDispatch cellOne) (fun g => if g = false then some dnet else none)
        (fun g => if g = (redNetwork.net cellOne.net).isGreen then some cellOne.net else none) ∧
      bf.HasComp (disp + 1) (readArithmetic SignalA)
        (fun g => if g = (redNetwork.net cellOne.net).isGreen then some cellOne.net
          else some rnet)
        (fun g => if g = (redNetwork.net 0).isGreen then some 0 else none) :=
  C9_readCell goGrowslice redNetwork 0 cellOne SignalA 0 (createNet_WF _ _ WF_empty)
    (by decide) (by decide)

/-! ## `preserveUntil` -/

theorem preserveArithmetic_slots (sig : Signal) (g : Bool) :
    (preserveArithmetic sig).out.slot g = none ∧ (preserveArithmetic sig).inp.slot g = none := by
  cases g <;> exact ⟨rfl, rfl⟩

/-- An operation on a component that is not a ticker leaves the output
networks of the tickers as they are. -/
theorem Touch_tickerOut {b b1 : Builder} {e : Nat} (t : b.Touch b1 e) (hG : b.GraphOk)
    (hnt : ¬ b.isTicker e) (i : Nat) (g : Bool) : b1.tickerOut i g = b.tickerOut i g := by
  unfold Builder.tickerOut
  rw [tickerArith_congr b b1 t.2.2.2.1]
  cases ht : b.tickerArith i with
  | none => rfl
  | some a =>
    have hne : a ≠ e := by
      rintro rfl
      exact hnt ⟨i, ht⟩
    exact (Touch_frame t hG a hne).2.2 g

theorem bool_ne_not (g : Bool) : ¬ g = !g := by cases g <;> simp

/-- One multiplier of `preserveUntil` up to its two inputs. -/
theorem preserveStep (growslice : Nat → Nat → Nat) (sig : Signal) (b : Builder) (net tick : Nat)
    (hW : b.WF) (hn : net < b.networks.length) :
    ∃ tnet b2 b3 b4,
      (b.alloc (preserveArithmetic sig)).2.getTickerNetwork growslice tick
        (!((b.alloc (preserveArithmetic sig)).2.net net).isGreen) false = .ok (some tnet, b2) ∧
      b2.connectInput tnet b.comps.length = .ok b3 ∧
      b3.connectInput net b.comps.length = .ok b4 ∧
      b4.WF ∧ b.Ext b4 ∧ b.comps.length < b4.comps.length ∧
      b4.tickerOut tick (!(b4.net net).isGreen) = some tnet ∧
      b4.HasComp b.comps.length (preserveArithmetic sig)
        (fun g => if g = (b4.net net).isGreen then some net else some tnet) (fun _ => none) ∧
      b4.comps.length + b.tickers.length = b.comps.length + b4.tickers.length + 1 := by
  obtain ⟨w1, e1, hc1⟩ := HasComp_alloc b (preserveArithmetic sig) hW (preserveArithmetic_slots sig)
    rfl (fun em h => by cases h)
  have hcol1 : ((b.alloc (preserveArithmetic sig)).2.net net).isGreen = (b.net net).isGreen := rfl
  obtain ⟨tnet, b2, h2, w2, e2, to2, v2, col2, m2⟩ := getTickerNetwork_full growslice
    (b.alloc (preserveArithmetic sig)).2 tick
    (!((b.alloc (preserveArithmetic sig)).2.net net).isGreen) w1
  rw [hcol1] at to2 col2
  have hc2 := HasComp_Ext hc1 e2 w1.1
  have hn2 : net < b2.networks.length := by
    have := e2.1.2.2.1
    have h : (b.alloc (preserveArithmetic sig)).2.networks.length = b.networks.length := rfl
    omega
  have hcoln2 : (b2.net net).isGreen = (b.net net).isGreen := e2.2.1 net hn
  obtain ⟨b3, h3, w3, t3, hc3⟩ := HasComp_connectInput hc2 w2 tnet v2 (by rfl)
  have col3 : ∀ m, (b3.net m).isGreen = (b2.net m).isGreen := t3.2.2.2.2.1
  obtain ⟨b4, h4, w4, t4, hc4⟩ := HasComp_connectInput hc3 w3 net (by rw [t3.2.2.1]; exact hn2)
    (by
      show (if (b3.net net).isGreen = (b2.net tnet).isGreen then some tnet else none) = none
      rw [col3, hcoln2, col2, if_neg (bool_ne_not _)])
  have col4 : ∀ m, (b4.net m).isGreen = (b2.net m).isGreen := fun m => by
    rw [t4.2.2.2.2.1, col3]
  have e02 : b.Ext b2 := Ext_trans e1 e2
  have e04 : b.Ext b4 :=
    Touch_Ext (Touch_Ext e02 t3 (Or.inl (le_refl _))) t4 (Or.inl (le_refl _))
  have hl4 : b4.comps.length = b2.comps.length := by rw [t4.1, t3.1]
  have ht4 : b4.tickers = b2.tickers := by rw [t4.2.2.2.1, t3.2.2.2.1]
  refine ⟨tnet, b2, b3, b4, h2, h3, h4, w4, e04, ?_, ?_, ?_, ?_⟩
  · rw [hl4]
    have := e2.1.1
    have h : (b.alloc (preserveArithmetic sig)).2.comps.length = b.comps.length + 1 := by
      simp [Builder.alloc]
    omega
  · rw [Touch_tickerOut t4 w3.1 hc3.2.2.2.1, Touch_tickerOut t3 w2.1 hc2.2.2.2.1, col4, hcoln2]
    exact to2
  · have f : (fun g => if g = (b3.net net).isGreen then some net
        else (fun g => if g = (b2.net tnet).isGreen then some tnet
          else (fun _ => (none : Option Nat)) g) g) =
        (fun g => if g = (b4.net net).isGreen then some net else some tnet) := by
      funext g
      rw [col3, col4, hcoln2, col2]
      cases g <;> cases (b.net net).isGreen <;> simp
    rw [f] at hc4
    exact hc4
  · rw [hl4, ht4]
    have h : (b.alloc (preserveArithmetic sig)).2.comps.length = b.comps.length + 1 := by
      simp [Builder.alloc]
    have h' : (b.alloc (preserveArithmetic sig)).2.tickers.length = b.tickers.length := rfl
    omega

theorem MultChain_Ext {b b1 : Builder} (sig : Signal) (o : Bool → Option Nat) (h : b.Ext b1)
    (hW : b.WF) : ∀ (ms : List Nat) (tick net : Nat), net < b.networks.length →
    b.MultChain sig o tick net ms → b1.MultChain sig o tick net ms := by
  intro ms
  induction ms with
  | nil => intro _ _ _ _; trivial
  | cons m rest ih =>
    intro tick net hn hc
    have hcol : (b1.net net).isGreen = (b.net net).isGreen := h.2.1 net hn
    cases rest with
    | nil =>
      obtain ⟨tnet, ht, hh⟩ := hc
      refine ⟨tnet, ?_, ?_⟩
      · rw [hcol]; exact Ext_tickerOut h hW _ _ _ ht
      · rw [hcol]; exact HasComp_Ext hh h hW.1
    | cons m2 rest2 =>
      obtain ⟨tnet, net1, ht, hh, hv, hr, hrest⟩ := hc
      refine ⟨tnet, net1, ?_, ?_, ?_, ?_, ih (tick + 1) net1 hv hrest⟩
      · rw [hcol]; exact Ext_tickerOut h hW _ _ _ ht
      · rw [hcol]; exact HasComp_Ext hh h hW.1
      · have := h.1.2.2.1; omega
      · rw [h.2.1 net1 hv]; exact hr

/-- Giving the last multiplier of a chain its output. -/
theorem MultChain_Touch_last {b b1 : Builder} (sig : Signal) (o o2 : Bool → Option Nat)
    (last : Nat) (t : b.Touch b1 last) (hW : b.WF) (hnt : ¬ b.isTicker last)
    (hl : ∀ ins, b.HasComp last (preserveArithmetic sig) ins o →
      b1.HasComp last (preserveArithmetic sig) ins o2) :
    ∀ (ms : List Nat) (tick net : Nat), ms.Nodup → ms.getLast? = some last →
    b.MultChain sig o tick net ms → b1.MultChain sig o2 tick net ms := by
  have hcol : ∀ m, (b1.net m).isGreen = (b.net m).isGreen := t.2.2.2.2.1
  intro ms
  induction ms with
  | nil => intro _ _ _ _ _; trivial
  | cons m rest ih =>
    intro tick net hnd hlast hc
    cases rest with
    | nil =>
      have hm : m = last := by simpa using hlast
      subst hm
      obtain ⟨tnet, ht, hh⟩ := hc
      refine ⟨tnet, ?_, ?_⟩
      · rw [hcol, Touch_tickerOut t hW.1 hnt]; exact ht
      · rw [hcol]; exact hl _ hh
    | cons m2 rest2 =>
      obtain ⟨tnet, net1, ht, hh, hv, hr, hrest⟩ := hc
      have hlast2 : (m2 :: rest2).getLast? = some last := by
        simpa [List.getLast?_cons_cons] using hlast
      have hmem : last ∈ m2 :: rest2 := List.mem_of_getLast?_eq_some hlast2
      have hne : m ≠ last := by
        rintro rfl
        exact (List.nodup_cons.1 hnd).1 hmem
      refine ⟨tnet, net1, ?_, ?_, ?_, ?_, ih (tick + 1) net1 (List.nodup_cons.1 hnd).2 hlast2 hrest⟩
      · rw [hcol, Touch_tickerOut t hW.1 hnt]; exact ht
      · rw [hcol]; exact HasComp_Touch hh t hW.1 hne
      · rw [t.2.2.1]; exact hv
      · rw [hcol]; exact hr

theorem preserveLoop_cons (growslice : Nat → Nat → Nat) (sig : Signal) (end_ tick : Nat)
    (ticks : List Nat) (b : Builder) (net : Nat) (ar0 : Option Nat) :
    Builder.preserveLoop growslice sig end_ (tick :: ticks) b net ar0 =
      (do
        let (tnet, b2) ← (b.alloc (preserveArithmetic sig)).2.getTickerNetwork growslice tick
          (!((b.alloc (preserveArithmetic sig)).2.net net).isGreen) false
        let tnet ← derefNet tnet
        let b3 ← b2.connectInput tnet b.comps.length
        let b4 ← b3.connectInput net b.comps.length
        if tick + 1 < end_ then
          let b5 ← (b4.createNet false).2.connectOutput b4.networks.length b.comps.length
          Builder.preserveLoop growslice sig end_ ticks b5 b4.networks.length
            (some b.comps.length)
        else
          Builder.preserveLoop growslice sig end_ ticks b4 net (some b.comps.length)) := rfl

/-- The loop of `preserveUntil` over `n ≥ 1` ticks. -/
theorem preserveLoop_full (growslice : Nat → Nat → Nat) (sig : Signal) (end_ : Nat) (n : Nat) :
    ∀ (start : Nat) (b : Builder) (net : Nat) (ar0 : Option Nat), b.WF →
    net < b.networks.length → start + (n + 1) = end_ →
    ∃ bf last ms,
      Builder.preserveLoop growslice sig end_ (List.range' start (n + 1)) b net ar0
        = .ok (some last, bf) ∧
      bf.WF ∧ b.Ext bf ∧ ms.length = n + 1 ∧ ms.getLast? = some last ∧ ms.Nodup ∧
      (∀ m, m ∈ ms → b.comps.length ≤ m ∧ ¬ bf.isTicker m) ∧
      bf.MultChain sig (fun _ => none) start net ms ∧
      bf.comps.length + b.tickers.length = b.comps.length + bf.tickers.length + (n + 1) := by
  induction n with
  | zero =>
    intro start b net ar0 hW hn hse
    obtain ⟨tnet, b2, b3, b4, h2, h3, h4, w4, e4, l4, to4, hc4, m4⟩ :=
      preserveStep growslice sig b net start hW hn
    refine ⟨b4, b.comps.length, [b.comps.length], ?_, w4, e4, rfl, rfl, List.nodup_singleton _,
      ?_, ⟨tnet, to4, hc4⟩, m4⟩
    · show Builder.preserveLoop growslice sig end_ [start] b net ar0 = _
      rw [preserveLoop_cons, h2, ok_bind]
      dsimp only [derefNet]
      rw [ok_bind, h3, ok_bind, h4, ok_bind, if_neg (by omega)]
      rfl
    · intro m hm
      simp only [List.mem_singleton] at hm
      subst hm
      exact ⟨le_refl _, hc4.2.2.2.1⟩
  | succ k ih =>
    intro start b net ar0 hW hn hse
    obtain ⟨tnet, b2, b3, b4, h2, h3, h4, w4, e4, l4, to4, hc4, m4⟩ :=
      preserveStep growslice sig b net start hW hn
    have hn4 : net < b4.networks.length := by have := e4.1.2.2.1; omega
    have w5 := createNet_WF b4 false w4
    have e5 := createNet_Ext b4 false
    obtain ⟨n1, n2, n3⟩ := createNet_new b4 false
    have hc5 := HasComp_Ext hc4 e5 w4.1
    obtain ⟨b6, h6, w6, t6, hc6⟩ := HasComp_connectOutput hc5 w5 b4.networks.length
      (by rw [n2]; omega) (by rfl)
    have e06 : b.Ext b6 := Touch_Ext (Ext_trans e4 e5) t6 (Or.inl (le_refl _))
    have nl6 : b6.networks.length = b4.networks.length + 1 := by rw [t6.2.2.1, n2]
    have col6 : ∀ m, (b6.net m).isGreen = ((b4.createNet false).2.net m).isGreen :=
      t6.2.2.2.2.1
    have col64 : ∀ m, m < b4.networks.length → (b6.net m).isGreen = (b4.net m).isGreen :=
      fun m hm => by rw [col6, e5.2.1 m hm]
    have cl6 : b6.comps.length = b4.comps.length := by rw [t6.1]; rfl
    have tl6 : b6.tickers = b4.tickers := by rw [t6.2.2.2.1]; rfl
    obtain ⟨bf, last, ms, hloop, wf, e6f, len, hlast, nd, ge, chain, cnt⟩ :=
      ih (start + 1) b6 b4.networks.length (some b.comps.length) w6 (by omega) (by omega)
    have hcf := HasComp_Ext hc6 e6f w6.1
    have hms : ∃ m2 rest, ms = m2 :: rest := by
      cases ms with
      | nil => simp at len
      | cons m2 rest => exact ⟨m2, rest, rfl⟩
    obtain ⟨m2, rest, rfl⟩ := hms
    have hnotin : b.comps.length ∉ m2 :: rest := by
      intro hm
      have := (ge _ hm).1
      omega
    have colf : (bf.net net).isGreen = (b4.net net).isGreen := by
      rw [e6f.2.1 net (by omega), col64 net hn4]
    refine ⟨bf, last, b.comps.length :: m2 :: rest, ?_, wf, Ext_trans e06 e6f, by simp [len], ?_,
      List.nodup_cons.2 ⟨hnotin, nd⟩, ?_, ?_, ?_⟩
    · rw [List.range'_succ, preserveLoop_cons, h2, ok_bind]
      dsimp only [derefNet]
      rw [ok_bind, h3, ok_bind, h4, ok_bind, if_pos (by omega)]
      have h6' : (b4.createNet false).2.connectOutput b4.networks.length b.comps.length
          = .ok b6 := h6
      rw [h6', ok_bind]
      exact hloop
    · rw [List.getLast?_cons_cons]; exact hlast
    · intro m hm
      rcases List.mem_cons.1 hm with rfl | hm
      · exact ⟨le_refl _, hcf.2.2.2.1⟩
      · have := (ge m hm).1
        exact ⟨by omega, (ge m hm).2⟩
    · refine ⟨tnet, b4.networks.length, ?_, ?_, by have := e6f.1.2.2.1; omega, ?_, chain⟩
      · rw [colf]
        apply Ext_tickerOut e6f w6
        rw [Touch_tickerOut t6 w5.1 hc5.2.2.2.1]
        exact Ext_tickerOut e5 w4 _ _ _ to4
      · rw [colf]
        have f : (fun g => if g = ((b4.createNet false).2.net b4.networks.length).isGreen
            then some b4.networks.length else (fun _ => (none : Option Nat)) g) =
            (fun g => if g = false then some b4.networks.length else none) := by
          funext g; rw [n3]
        rw [f] at hcf
        exact hcf
      · rw [e6f.2.1 _ (by omega), col6, n3]
    · rw [cl6, tl6] at cnt
      omega

/-- `preserveUntil` on a well-formed graph, for `start < end`. -/
theorem preserveUntil_full (growslice : Nat → Nat → Nat) (sig : Signal) (b : Builder)
    (net into start end_ : Nat) (hW : b.WF) (hn : net < b.networks.length)
    (hi : into < b.networks.length) (hse : start < end_) :
    ∃ bf ms, b.preserveUntil growslice net into sig start end_ = .ok bf ∧ bf.WF ∧ b.Ext bf ∧
      ms.length = end_ - start ∧ ms.Nodup ∧
      (∀ m, m ∈ ms → b.comps.length ≤ m ∧ ¬ bf.isTicker m) ∧
      bf.MultChain sig (fun g => if g = (b.net into).isGreen then some into else none)
        start net ms ∧
      bf.comps.length + b.tickers.length =
        b.comps.length + bf.tickers.length + (end_ - start) := by
  obtain ⟨n, hn1⟩ : ∃ n, end_ - start = n + 1 := ⟨end_ - start - 1, by omega⟩
  obtain ⟨b1, last, ms, hloop, w1, e1, len, hlast, nd, ge, chain, cnt⟩ :=
    preserveLoop_full growslice sig end_ n start b net none hW hn (by omega)
  have hmem : last ∈ ms := List.mem_of_getLast?_eq_some hlast
  have hlt : last < b1.comps.length := by
    have key : ∀ (l : List Nat) (tick net : Nat), b1.MultChain sig (fun _ => none) tick net l →
        ∀ m, m ∈ l → m < b1.comps.length := by
      intro l
      induction l with
      | nil => intro _ _ _ m hm; cases hm
      | cons a rest ih =>
        intro tick net hc m hm
        cases rest with
        | nil =>
          obtain ⟨_, _, hh⟩ := hc
          simp only [List.mem_singleton] at hm
          subst hm
          exact hh.1
        | cons a2 rest2 =>
          obtain ⟨_, net1, _, hh, _, _, hrest⟩ := hc
          rcases List.mem_cons.1 hm with rfl | hm
          · exact hh.1
          · exact ih (tick + 1) net1 hrest m hm
    exact key ms start net chain last hmem
  have hi1 : into < b1.networks.length := by have := e1.1.2.2.1; omega
  have hfree : b1.outNet last (b1.net into).isGreen = none := by
    have key : ∀ (l : List Nat) (tick net : Nat), b1.MultChain sig (fun _ => none) tick net l →
        l.getLast? = some last → ∀ g, b1.outNet last g = none := by
      intro l
      induction l with
      | nil => intro _ _ _ h; cases h
      | cons a rest ih =>
        intro tick net hc hl g
        cases rest with
        | nil =>
          obtain ⟨_, _, hh⟩ := hc
          have : a = last := by simpa using hl
          subst this
          exact hh.2.2.2.2.2 g
        | cons a2 rest2 =>
          obtain ⟨_, net1, _, _, _, _, hrest⟩ := hc
          exact ih (tick + 1) net1 hrest (by simpa [List.getLast?_cons_cons] using hl) g
    exact key ms start net chain hlast _
  obtain ⟨bf, hf, gf, tf, ck, wo, wi, wc, wk⟩ :=
    connectOutput_wires b1 into last hi1 w1.1 hlt hfree
  have wf : bf.WF := Touch_WF tf w1 gf ck
  have hnt : ¬ b1.isTicker last := (ge last hmem).2
  have hl : ∀ ins, b1.HasComp last (preserveArithmetic sig) ins (fun _ => none) →
      bf.HasComp last (preserveArithmetic sig) ins
        (fun g => if g = (b.net into).isGreen then some into else none) := by
    intro ins hh
    obtain ⟨h1, h2, h3, h4, h5, h6⟩ := hh
    refine ⟨by rw [tf.1]; exact h1, by rw [wc]; exact h2, wk h3,
      fun hx => h4 ((Touch_isTicker tf last).1 hx), fun g => by rw [wi]; exact h5 g, ?_⟩
    intro g
    rw [wo, h6, e1.2.1 into hi]
  refine ⟨bf, ms, ?_, wf, Touch_Ext e1 tf (Or.inl (ge last hmem).1), by rw [len, hn1], nd, ?_,
    MultChain_Touch_last sig _ _ last tf w1 hnt hl ms start net nd hlast chain, ?_⟩
  · unfold Builder.preserveUntil
    have : List.range' start (end_ - start) = List.range' start (n + 1) := by rw [hn1]
    rw [this, hloop, ok_bind]
    exact hf
  · intro m hm
    exact ⟨(ge m hm).1, fun hx => (ge m hm).2 ((Touch_isTicker tf m).1 hx)⟩
  · rw [tf.1, tf.2.2.2.1, hn1]
    exact cnt
/-- C20: on a well-formed graph with `net` and `into` in it and
`start < end`, `preserveUntil(net, into, sig, start, end)` returns and adds a
chain of `end - start` new multipliers `sig × check → sig`: the i-th has the
output network of ticker `start + i` (of the colour other than that of the
network it reads) on one input; the first reads `net`, each later one reads
the red network the one before it outputs onto, and the last outputs onto
`into`.  Every other component added is the combinator of a new ticker. -/
theorem C20_preserveUntil (growslice : Nat → Nat → Nat) (sig : Signal) (b : Builder)
    (net into start end_ : Nat) (hW : b.WF) (hn : net < b.networks.length)
    (hi : into < b.networks.length) (hse : start < end_) :
    ∃ bf ms, b.preserveUntil growslice net into sig start end_ = .ok bf ∧ bf.WF ∧ b.Ext bf ∧
      ms.length = end_ - start ∧ ms.Nodup ∧
      (∀ m, m ∈ ms → b.comps.length ≤ m ∧ ¬ bf.isTicker m) ∧
      bf.MultChain sig (fun g => if g = (b.net into).isGreen then some into else none)
        start net ms ∧
      bf.comps.length + b.tickers.length =
        b.comps.length + bf.tickers.length + (end_ - start) :=
  preserveUntil_full growslice sig b net into start end_ hW hn hi hse

/-- C20 on the graph of two red networks: `preserveUntil(0, 1, A, 0, 2)`. -/
theorem C20_preserveUntil_witness :
    ∃ bf ms, twoRedNetworks.preserveUntil goGrowslice 0 1 SignalA 0 2 = .ok bf ∧ bf.WF ∧
      twoRedNetworks.Ext bf ∧ ms.length = 2 - 0 ∧ ms.Nodup ∧
      (∀ m, m ∈ ms → twoRedNetworks.comps.length ≤ m ∧ ¬ bf.isTicker m) ∧
      bf.MultChain SignalA
        (fun g => if g = (twoRedNetworks.net 1).isGreen then some 1 else none) 0 0 ms ∧
      bf.comps.length + twoRedNetworks.tickers.length =
        twoRedNetworks.comps.length + bf.tickers.length + (2 - 0) :=
  C20_preserveUntil goGrowslice SignalA twoRedNetworks 0 1 0 2
    (createNet_WF _ _ (createNet_WF _ _ WF_empty)) (by decide) (by decide) (by decide)

/-! ## Memory operations -/

/-- A new combinator with one input and one output. -/
theorem emit_one (b : Builder) (x : Component) (n m : Nat) (hW : b.WF)
    (hx : ∀ g, x.out.slot g = none ∧ x.inp.slot g = none) (hcore : x.core = x)
    (hk : ∀ em, x ≠ .emitter em) (hn : n < b.networks.length) (hm : m < b.networks.length) :
    ∃ b1 b2, (b.alloc x).2.connectInput n (b.alloc x).1 = .ok b1 ∧
      b1.connectOutput m (b.alloc x).1 = .ok b2 ∧ b2.WF ∧ b.Ext b2 ∧
      b2.comps.length = b.comps.length + 1 ∧ b2.tickers = b.tickers ∧
      b2.networks.length = b.networks.length ∧
      (∀ k, (b2.net k).isGreen = (b.net k).isGreen) ∧
      b2.HasComp b.comps.length x (fun g => if g = (b.net n).isGreen then some n else none)
        (fun g => if g = (b.net m).isGreen then some m else none) := by
  obtain ⟨w1, e1, hc1⟩ := HasComp_alloc b x hW hx hcore hk
  obtain ⟨b2, h2, w2, t2, hc2⟩ := HasComp_connectInput hc1 w1 n hn (by rfl)
  obtain ⟨b3, h3, w3, t3, hc3⟩ := HasComp_connectOutput hc2 w2 m (by rw [t2.2.2.1]; exact hm)
    (by rfl)
  refine ⟨b2, b3, h2, h3, w3, Touch_Ext (Touch_Ext e1 t2 (Or.inl (le_refl _))) t3
    (Or.inl (le_refl _)), ?_, ?_, ?_, ?_, ?_⟩
  · rw [t3.1, t2.1]; simp [Builder.alloc]
  · rw [t3.2.2.2.1, t2.2.2.2.1]; rfl
  · rw [t3.2.2.1, t2.2.2.1]; rfl
  · intro k; rw [t3.2.2.2.2.1, t2.2.2.2.2.1]; rfl
  · have f : (fun g => if g = (b2.net m).isGreen then some m
        else (fun _ => (none : Option Nat)) g) =
        (fun g => if g = (b.net m).isGreen then some m else none) := by
      funext g; rw [t2.2.2.2.2.1]; rfl
    rw [f] at hc3
    exact hc3

/-- A new combinator with two inputs of different colours and one output. -/
theorem emit_two (b : Builder) (x : Component) (n1 n2 m : Nat) (hW : b.WF)
    (hx : ∀ g, x.out.slot g = none ∧ x.inp.slot g = none) (hcore : x.core = x)
    (hk : ∀ em, x ≠ .emitter em) (hn1 : n1 < b.networks.length) (hn2 : n2 < b.networks.length)
    (hm : m < b.networks.length) (hcol : (b.net n2).isGreen = !(b.net n1).isGreen) :
    ∃ b1 b2 b3, (b.alloc x).2.connectInput n1 (b.alloc x).1 = .ok b1 ∧
      b1.connectInput n2 (b.alloc x).1 = .ok b2 ∧
      b2.connectOutput m (b.alloc x).1 = .ok b3 ∧ b3.WF ∧ b.Ext b3 ∧
      b3.comps.length = b.comps.length + 1 ∧ b3.tickers = b.tickers ∧
      b3.networks.length = b.networks.length ∧
      (∀ k, (b3.net k).isGreen = (b.net k).isGreen) ∧
      b3.HasComp b.comps.length x
        (fun g => if g = (b.net n1).isGreen then some n1 else some n2)
        (fun g => if g = (b.net m).isGreen then some m else none) := by
  obtain ⟨w1, e1, hc1⟩ := HasComp_alloc b x hW hx hcore hk
  obtain ⟨b2, h2, w2, t2, hc2⟩ := HasComp_connectInput hc1 w1 n1 hn1 (by rfl)
  have col2 : ∀ k, (b2.net k).isGreen = (b.net k).isGreen := fun k => by
    rw [t2.2.2.2.2.1]; rfl
  obtain ⟨b3, h3, w3, t3, hc3⟩ := HasComp_connectInput hc2 w2 n2 (by rw [t2.2.2.1]; exact hn2)
    (by
      show (if (b2.net n2).isGreen = (b.net n1).isGreen then some n1 else none) = none
      rw [col2, hcol, if_neg (fun h => bool_ne_not _ h.symm)])
  have col3 : ∀ k, (b3.net k).isGreen = (b.net k).isGreen := fun k => by
    rw [t3.2.2.2.2.1, col2]
  obtain ⟨b4, h4, w4, t4, hc4⟩ := HasComp_connectOutput hc3 w3 m
    (by rw [t3.2.2.1, t2.2.2.1]; exact hm) (by rfl)
  refine ⟨b2, b3, b4, h2, h3, h4, w4, Touch_Ext (Touch_Ext (Touch_Ext e1 t2
    (Or.inl (le_refl _))) t3 (Or.inl (le_refl _))) t4 (Or.inl (le_refl _)), ?_, ?_, ?_, ?_, ?_⟩
  · rw [t4.1, t3.1, t2.1]; simp [Builder.alloc]
  · rw [t4.2.2.2.1, t3.2.2.2.1, t2.2.2.2.1]; rfl
  · rw [t4.2.2.1, t3.2.2.1, t2.2.2.1]; rfl
  · intro k; rw [t4.2.2.2.2.1, col3]
  · have f1 : (fun g => if g = (b3.net m).isGreen then some m
        else (fun _ => (none : Option Nat)) g) =
        (fun g => if g = (b.net m).isGreen then some m else none) := by
      funext g; rw [col3]
    have f2 : (fun g => if g = (b2.net n2).isGreen then some n2
        else (fun g => if g = ((b.alloc x).2.net n1).isGreen then some n1
          else (fun _ => (none : Option Nat)) g) g) =
        (fun g => if g = (b.net n1).isGreen then some n1 else some n2) := by
      funext g
      have e : ((b.alloc x).2.net n1).isGreen = (b.net n1).isGreen := rfl
      rw [col2, hcol, e]
      cases g <;> cases (b.net n1).isGreen <;> simp
    rw [f1, f2] at hc4
    exact hc4

theorem writeDispatch_slots (c : Cell) (g : Bool) :
    (writeDispatch c).out.slot g = none ∧ (writeDispatch c).inp.slot g = none := by
  cases g <;> exact ⟨rfl, rfl⟩

theorem writeArithmetic_slots (sig : Signal) (g : Bool) :
    (writeArithmetic sig).out.slot g = none ∧ (writeArithmetic sig).inp.slot g = none := by
  cases g <;> exact ⟨rfl, rfl⟩

/-- The two multipliers of `setCell`, emitted on a well-formed graph. -/
theorem setCell_tail (b : Builder) (c : Cell) (sig : Signal) (tn src : Nat) (tick : Nat)
    (hW : b.WF) (ht : tn < b.networks.length) (hs : src < b.networks.length)
    (hc : c.net < b.networks.length) (hcol : (b.net tn).isGreen = !(b.net src).isGreen) :
    ∃ bf, (do
        let b1 ← (b.alloc (writeDispatch c)).2.connectInput tn (b.alloc (writeDispatch c)).1
        let b2 ← b1.connectOutput c.net (b.alloc (writeDispatch c)).1
        let b3 ← (b2.alloc (writeArithmetic sig)).2.connectInput src
          (b2.alloc (writeArithmetic sig)).1
        let b4 ← b3.connectInput tn (b2.alloc (writeArithmetic sig)).1
        let b5 ← b4.connectOutput c.net (b2.alloc (writeArithmetic sig)).1
        pure (tick + 1, b5)) = (.ok (tick + 1, bf) : Except String (Nat × Builder)) ∧
      bf.WF ∧ b.Ext bf ∧ bf.comps.length = b.comps.length + 2 ∧ bf.tickers = b.tickers ∧
      bf.HasComp b.comps.length (writeDispatch c)
        (fun g => if g = (b.net tn).isGreen then some tn else none)
        (fun g => if g = (b.net c.net).isGreen then some c.net else none) ∧
      bf.HasComp (b.comps.length + 1) (writeArithmetic sig)
        (fun g => if g = (b.net src).isGreen then some src else some tn)
        (fun g => if g = (b.net c.net).isGreen then some c.net else none) := by
  obtain ⟨b1, b2, h1, h2, w2, e2, l2, k2, n2, col2, hc2⟩ := emit_one b (writeDispatch c) tn c.net
    hW (writeDispatch_slots c) rfl (fun em h => by cases h) ht hc
  obtain ⟨b3, b4, b5, h3, h4, h5, w5, e5, l5, k5, n5, col5, hc5⟩ := emit_two b2
    (writeArithmetic sig) src tn c.net w2 (writeArithmetic_slots sig) rfl
    (fun em h => by cases h) (by omega) (by omega) (by omega) (by rw [col2, col2]; exact hcol)
  refine ⟨b5, ?_, w5, Ext_trans e2 e5, by omega, by rw [k5, k2], HasComp_Ext hc2 e5 w2.1, ?_⟩
  · rw [h1, ok_bind, h2, ok_bind, h3, ok_bind, h4, ok_bind, h5, ok_bind]
    rfl
  · rw [l2] at hc5
    have f1 : (fun g => if g = (b2.net src).isGreen then some src else some tn) =
        (fun g => if g = (b.net src).isGreen then some src else some tn) := by
      funext g; rw [col2]
    have f2 : (fun g => if g = (b2.net c.net).isGreen then some c.net else (none : Option Nat)) =
        (fun g => if g = (b.net c.net).isGreen then some c.net else none) := by
      funext g; rw [col2]
    rw [f1, f2] at hc5
    exact hc5
/-- C10: on a well-formed graph with `net` and the cell network in it,
`setCell(originTick, net, sig, c)` returns `w + 1` for the tick
`w ≥ originTick` that `nextSafeMemOpTick(originTick, write)` returns.  Its
last two components are new: the multiplier `check × c.id → S` and the
multiplier `check × sig → V`, both with the output network of ticker `w` (of
the colour other than that of `net`) on an input and the cell network on
the output.  The second reads `src` on its other input: `net` itself when
`w = originTick`, and otherwise a new network of the colour of `net` onto
which the chain of `w - originTick` multipliers of `preserveUntil`, reading
`net` from `originTick` on, outputs. -/
theorem C10_setCell (growslice : Nat → Nat → Nat) (b : Builder) (originTick net : Nat)
    (sig : Signal) (c : Cell) (hW : b.WF) (hn : net < b.networks.length)
    (hc : c.net < b.networks.length) :
    ∃ w b1 bf tn src disp,
      b.nextSafeMemOpTick growslice originTick false = .ok (w, b1) ∧ originTick ≤ w ∧
      b.setCell growslice originTick net sig c = .ok (w + 1, bf) ∧ bf.WF ∧ b.Ext bf ∧
      bf.tickerOut w (!(b.net net).isGreen) = some tn ∧
      b.comps.length ≤ disp ∧ bf.comps.length = disp + 2 ∧
      bf.HasComp disp (writeDispatch c)
        (fun g => if g = (!(b.net net).isGreen) then some tn else none)
        (fun g => if g = (b.net c.net).isGreen then some c.net else none) ∧
      bf.HasComp (disp + 1) (writeArithmetic sig)
        (fun g => if g = (b.net net).isGreen then some src else some tn)
        (fun g => if g = (b.net c.net).isGreen then some c.net else none) ∧
      (w = originTick → src = net ∧
        bf.comps.length + b.tickers.length = b.comps.length + bf.tickers.length + 2) ∧
      (w ≠ originTick → b.networks.length ≤ src ∧
        (bf.net src).isGreen = (b.net net).isGreen ∧
        ∃ ms, ms.length = w - originTick ∧ ms.Nodup ∧
          (∀ m, m ∈ ms → b.comps.length ≤ m ∧ m < disp) ∧
          bf.MultChain sig (fun g => if g = (b.net net).isGreen then some src else none)
            originTick net ms ∧
          bf.comps.length + b.tickers.length =
            b.comps.length + bf.tickers.length + 2 + (w - originTick)) := by
  obtain ⟨w, b1, h1, w1, e1, hr, _, m1⟩ := nextSafeMemOpTick_full growslice b originTick false hW
  have hn1 : net < b1.networks.length := by have := e1.1.2.2.1; omega
  have gn1 : (b1.net net).isGreen = (b.net net).isGreen := e1.2.1 net hn
  obtain ⟨tn, b2, h2, w2, e2, to2, v2, col2, m2⟩ :=
    getTickerNetwork_full growslice b1 w (!(b1.net net).isGreen) w1
  rw [gn1] at to2 col2
  have e02 : b.Ext b2 := Ext_trans e1 e2
  have hn2 : net < b2.networks.length := by have := e2.1.2.2.1; omega
  have hc2 : c.net < b2.networks.length := by have := e02.1.2.2.1; omega
  have gn2 : (b2.net net).isGreen = (b.net net).isGreen := e02.2.1 net hn
  have gc2 : (b2.net c.net).isGreen = (b.net c.net).isGreen := e02.2.1 _ hc
  by_cases hw : w = originTick
  · -- the value is read from `net`
    obtain ⟨bf, hf, wf, ef, lf, kf, hd, hv⟩ := setCell_tail b2 c sig tn net w w2 v2 hn2 hc2
      (by rw [col2, gn2])
    rw [col2, gc2] at hd
    rw [gn2, gc2] at hv
    refine ⟨w, b1, bf, tn, net, b2.comps.length, h1, hr, ?_, wf, Ext_trans e02 ef,
      Ext_tickerOut ef w2 _ _ _ to2, e02.1.1, lf, hd, hv, fun _ => ⟨rfl, ?_⟩,
      fun h => absurd hw h⟩
    · unfold Builder.setCell
      rw [h1, ok_bind]
      dsimp only
      rw [h2, ok_bind]
      dsimp only
      rw [if_neg (by intro h; exact h hw.symm)]
      dsimp only [derefNet]
      exact hf
    · rw [lf, kf]; omega
  · -- the value is carried to tick `w` by `preserveUntil`
    have hlt : originTick < w := by omega
    have w3 := createNet_WF b2 (b2.net net).isGreen w2
    have e3 := createNet_Ext b2 (b2.net net).isGreen
    obtain ⟨n1, n2, n3⟩ := createNet_new b2 (b2.net net).isGreen
    obtain ⟨bp, ms, hp, wp, ep, len, nd, ge, chain, cntp⟩ := preserveUntil_full growslice sig
      (b2.createNet (b2.net net).isGreen).2 net b2.networks.length originTick w w3
      (by rw [n2]; omega) (by rw [n2]; omega) hlt
    rw [n3, gn2] at chain
    have e2p : b2.Ext bp := Ext_trans e3 ep
    have hsp : b2.networks.length < bp.networks.length := by have := ep.1.2.2.1; omega
    have gsp : (bp.net b2.networks.length).isGreen = (b.net net).isGreen := by
      rw [ep.2.1 _ (by rw [n2]; omega), n3, gn2]
    have gtp : (bp.net tn).isGreen = !(b.net net).isGreen := by rw [e2p.2.1 _ v2]; exact col2
    have gcp : (bp.net c.net).isGreen = (b.net c.net).isGreen := by rw [e2p.2.1 _ hc2]; exact gc2
    obtain ⟨bf, hf, wf, ef, lf, kf, hd, hv⟩ := setCell_tail bp c sig tn b2.networks.length w wp
      (by omega) hsp (by omega) (by rw [gtp, gsp])
    rw [gtp, gcp] at hd
    rw [gsp, gcp] at hv
    have hnp : net < (b2.createNet (b2.net net).isGreen).2.networks.length := by rw [n2]; omega
    have hnp2 : net < bp.networks.length := by omega
    refine ⟨w, b1, bf, tn, b2.networks.length, bp.comps.length, h1, hr, ?_, wf,
      Ext_trans e02 (Ext_trans e2p ef), Ext_tickerOut (Ext_trans e2p ef) w2 _ _ _ to2,
      by have := e02.1.1; have := e2p.1.1; omega, lf, hd, hv, fun h => absurd h hw,
      fun _ => ⟨e02.1.2.2.1, ?_, ms, len, nd, ?_, MultChain_Ext sig _ ef wp ms originTick net hnp2
        chain, ?_⟩⟩
    · unfold Builder.setCell
      rw [h1, ok_bind]
      dsimp only
      rw [h2, ok_bind]
      dsimp only
      rw [if_pos (by intro h; exact hw h.symm)]
      have hp' : (b2.createNet (b2.net net).isGreen).2.preserveUntil growslice net
          (b2.createNet (b2.net net).isGreen).1 sig originTick w = .ok bp := hp
      rw [hp']
      dsimp only [derefNet]
      exact hf
    · rw [ef.2.1 _ hsp]; exact gsp
    · intro m hm
      obtain ⟨g1, g2⟩ := ge m hm
      have hmlt : m < bp.comps.length := by
        have key : ∀ (l : List Nat) (tick nt : Nat) (o : Bool → Option Nat),
            bp.MultChain sig o tick nt l → ∀ x, x ∈ l → x < bp.comps.length := by
          intro l
          induction l with
          | nil => intro _ _ _ _ x hx; cases hx
          | cons a rest ih =>
            intro tick nt o hcn x hx
            cases rest with
            | nil =>
              obtain ⟨_, _, hh⟩ := hcn
              simp only [List.mem_singleton] at hx
              subst hx
              exact hh.1
            | cons a2 rest2 =>
              obtain ⟨_, net1, _, hh, _, _, hrest⟩ := hcn
              rcases List.mem_cons.1 hx with rfl | hx
              · exact hh.1
              · exact ih (tick + 1) net1 o hrest x hx
        exact key ms originTick net _ chain m hm
      have := e02.1.1
      have h3 : (b2.createNet (b2.net net).isGreen).2.comps.length = b2.comps.length := rfl
      exact ⟨by omega, hmlt⟩
    · rw [lf, kf]
      have h3 : (b2.createNet (b2.net net).isGreen).2.comps.length = b2.comps.length := rfl
      have h4 : (b2.createNet (b2.net net).isGreen).2.tickers.length = b2.tickers.length := rfl
      rw [h3, h4] at cntp
      omega

/-- C10 on the graph of one red network, for a cell on that network written
from the same network at tick 0. -/
theorem C10_setCell_witness :
    ∃ w b1 bf tn src disp,
      redNetwork.nextSafeMemOpTick goGrowslice 0 false = .ok (w, b1) ∧ 0 ≤ w ∧
      redNetwork.setCell goGrowslice 0 0 SignalA cellOne = .ok (w + 1, bf) ∧ bf.WF ∧
      redNetwork.Ext bf ∧
      bf.tickerOut w (!(redNetwork.net 0).isGreen) = some tn ∧
      redNetwork.comps.length ≤ disp ∧ bf.comps.length = disp + 2 ∧
      bf.HasComp disp (writeDispatch cellOne)
        (fun g => if g = (!(redNetwork.net 0).isGreen) then some tn else none)
        (fun g => if g = (redNetwork.net cellOne.net).isGreen then some cellOne.net else none) ∧
      bf.HasComp (disp + 1) (writeArithmetic SignalA)
        (fun g => if g = (redNetwork.net 0).isGreen then some src else some tn)
        (fun g => if g = (redNetwork.net cellOne.net).isGreen then some cellOne.net else none) ∧
      (w = 0 → src = 0 ∧
        bf.comps.length + redNetwork.tickers.length =
          redNetwork.comps.length + bf.tickers.length + 2) ∧
      (w ≠ 0 → redNetwork.networks.length ≤ src ∧
        (bf.net src).isGreen = (redNetwork.net 0).isGreen ∧
        ∃ ms, ms.length = w - 0 ∧ ms.Nodup ∧
          (∀ m, m ∈ ms → redNetwork.comps.length ≤ m ∧ m < disp) ∧
          bf.MultChain SignalA (fun g => if g = (redNetwork.net 0).isGreen then some src else none)
            0 0 ms ∧
          bf.comps.length + redNetwork.tickers.length =
            redNetwork.comps.length + bf.tickers.length + 2 + (w - 0)) :=
  C10_setCell goGrowslice redNetwork 0 0 SignalA cellOne (createNet_WF _ _ WF_empty)
    (by decide) (by decide)

/-! ## Expressions -/

theorem Grows_refl (b : Builder) : b.Grows b := ⟨le_refl _, fun _ _ => rfl⟩

theorem Grows_trans {b b1 b2 : Builder} (h1 : b.Grows b1) (h2 : b1.Grows b2) : b.Grows b2 :=
  ⟨le_trans h1.1 h2.1, fun n hn => by rw [h2.2 n (lt_of_lt_of_le hn h1.1), h1.2 n hn]⟩

theorem Ext_Grows {b b1 : Builder} (h : b.Ext b1) : b.Grows b1 := ⟨h.1.2.2.1, h.2.1⟩

theorem Touch_Grows {b b1 : Builder} {e : Nat} (h : b.Touch b1 e) : b.Grows b1 :=
  ⟨by rw [h.2.2.1], fun n _ => h.2.2.2.2.1 n⟩

/-- Replacing a component by one with the same connectors. -/
theorem setComp_WF (b b1 : Builder) (e : Nat) (f : Component → Component) (hW : b.WF)
    (hc : b1.comps = updAt b.comps e f) (hn : b1.conns = b.conns)
    (hw : b1.networks = b.networks) (ht : b1.tickers = b.tickers)
    (hf : ∀ g, (f (b.comp e)).out.slot g = (b.comp e).out.slot g ∧
      (f (b.comp e)).inp.slot g = (b.comp e).inp.slot g) :
    b1.WF ∧ b.Grows b1 ∧
    (∀ e2, b1.comp e2 = if e = e2 ∧ e2 < b.comps.length then f (b.comp e2) else b.comp e2) := by
  have hcomp : ∀ e2, b1.comp e2 = if e = e2 ∧ e2 < b.comps.length then f (b.comp e2)
      else b.comp e2 := by
    intro e2; unfold Builder.comp; rw [hc, getD_updAt]
  have hslots : ∀ e2 g, (b1.comp e2).out.slot g = (b.comp e2).out.slot g ∧
      (b1.comp e2).inp.slot g = (b.comp e2).inp.slot g := by
    intro e2 g
    rw [hcomp]
    split
    · rename_i h; obtain ⟨rfl, _⟩ := h; exact hf g
    · exact ⟨rfl, rfl⟩
  have hconn : ∀ c, b1.conn c = b.conn c := by intro c; unfold Builder.conn; rw [hn]
  have hnet : ∀ m, b1.net m = b.net m := by intro m; unfold Builder.net; rw [hw]
  obtain ⟨⟨w1, w3, w4, w5⟩, wc⟩ := hW
  refine ⟨⟨⟨?_, ?_, ?_, ?_⟩, ?_⟩, ⟨by rw [hw], fun n _ => by rw [hnet]⟩, hcomp⟩
  · intro c hcl; rw [hconn, hw]; exact w1 c (by rw [← hn]; exact hcl)
  · intro e2 g c hs
    rw [(hslots e2 g).1] at hs
    rw [hconn, hnet, hn]; exact w3 e2 g c hs
  · intro e2 g c hs
    rw [(hslots e2 g).2] at hs
    rw [hn]; exact w4 e2 g c hs
  · intro m c hm
    rw [hnet] at hm
    rw [hconn, hnet, hnet, hn]; exact w5 m c hm
  · rw [ht]
    exact ChainOk_of b b1 _ wc (fun i _ => tickerArith_congr b b1 ht i)
      (by rw [hc, length_updAt])

theorem merge_fold_length (om : List Nat) (n : Nat) (cs : List Connector) :
    (om.foldl (fun cs m => updAt cs m (fun c => { c with network := n })) cs).length
      = cs.length := by
  induction om generalizing cs with
  | nil => rfl
  | cons a t ih => rw [List.foldl_cons, ih, length_updAt]

/-- `merge` of two networks of the same colour keeps the graph well formed. -/
theorem merge_WF (b : Builder) (n o : Nat) (hW : b.WF) (hn : n < b.networks.length)
    (hcol : (b.net n).isGreen = (b.net o).isGreen) :
    (b.merge n o).WF ∧ b.Grows (b.merge n o) := by
  have hlen : (b.merge n o).conns.length = b.conns.length := merge_fold_length _ _ _
  have hnw : ∀ c, ((b.merge n o).conn c).network =
      if c ∈ (b.net o).members ∧ c < b.conns.length then n else (b.conn c).network :=
    fun c => merge_fold_network _ _ _ _
  have hnl : (b.merge n o).networks.length = b.networks.length := length_updAt _ _ _
  have hcolm : ∀ m, ((b.merge n o).net m).isGreen = (b.net m).isGreen := by
    intro m
    show ((updAt b.networks n _).getD m default).isGreen = _
    rw [getD_updAt]
    split <;> rfl
  have hmem : ∀ m, ((b.merge n o).net m).members =
      if n = m ∧ m < b.networks.length then (b.net m).members ++ (b.net o).members
      else (b.net m).members := by
    intro m
    show ((updAt b.networks n _).getD m default).members = _
    rw [getD_updAt]
    split <;> rfl
  have hcomp : ∀ e, (b.merge n o).comp e = b.comp e := fun _ => rfl
  obtain ⟨⟨w1, w3, w4, w5⟩, wc⟩ := hW
  have hcc : ∀ c, c < b.conns.length →
      ((b.merge n o).net ((b.merge n o).conn c).network).isGreen =
        (b.net (b.conn c).network).isGreen := by
    intro c hc
    rw [hcolm, hnw]
    split
    · rename_i h
      rw [hcol, (w5 o c h.1).2]
    · rfl
  refine ⟨⟨⟨?_, ?_, ?_, ?_⟩, ?_⟩, ⟨by rw [hnl], fun m _ => hcolm m⟩⟩
  · intro c hc
    rw [hlen] at hc
    rw [hnl, hnw]
    split
    · exact hn
    · exact w1 c hc
  · intro e g c hs
    rw [hcomp] at hs
    obtain ⟨a1, a2⟩ := w3 e g c hs
    rw [hlen, hcc c a1]
    exact ⟨a1, a2⟩
  · intro e g c hs
    rw [hcomp] at hs
    rw [hlen]; exact w4 e g c hs
  · intro m c hm
    rw [hmem] at hm
    rw [hlen, hcolm m]
    have old : ∀ x, c ∈ (b.net x).members → (b.net x).isGreen = (b.net m).isGreen →
        c < b.conns.length ∧
        ((b.merge n o).net ((b.merge n o).conn c).network).isGreen = (b.net m).isGreen := by
      intro x hx hxm
      obtain ⟨a1, a2⟩ := w5 x c hx
      exact ⟨a1, by rw [hcc c a1, a2, hxm]⟩
    split at hm
    · rename_i h
      obtain ⟨rfl, _⟩ := h
      rcases List.mem_append.1 hm with h | h
      · exact old n h rfl
      · exact old o h hcol.symm
    · exact old m hm rfl
  · show (b.merge n o).ChainOk b.tickers.length
    exact ChainOk_of b _ _ wc (fun _ _ => rfl) (le_refl _)

theorem binaryArithmetic_slots (op : ArithmeticOperation) (sig : Signal) (g : Bool) :
    (binaryArithmetic op sig).out.slot g = none ∧ (binaryArithmetic op sig).inp.slot g = none := by
  cases g <;> exact ⟨rfl, rfl⟩

/-- The combinator of a binary operation, emitted on a well-formed graph. -/
theorem emitBinary_full (b : Builder) (op : ArithmeticOperation) (net sn : Nat) (sig : Signal)
    (tick : Nat) (hW : b.WF) (hn : net < b.networks.length) (hs : sn < b.networks.length) :
    ∃ bf, b.emitBinary op net sn sig tick = .ok (tick + 1, bf) ∧ bf.WF ∧ b.Grows bf := by
  obtain ⟨w1, e1, hc1⟩ := HasComp_alloc b (binaryArithmetic op sig) hW
    (binaryArithmetic_slots op sig) rfl (fun em h => by cases h)
  obtain ⟨b2, h2, w2, t2, hc2⟩ := HasComp_connectOutput hc1 w1 net hn (by rfl)
  obtain ⟨b3, h3, w3, t3, hc3⟩ := HasComp_connectInput hc2 w2 sn (by rw [t2.2.2.1]; exact hs)
    (by rfl)
  refine ⟨b3, ?_, w3, Grows_trans (Ext_Grows e1) (Grows_trans (Touch_Grows t2) (Touch_Grows t3))⟩
  unfold Builder.emitBinary
  dsimp only
  have h2' : (b.alloc (binaryArithmetic op sig)).2.connectOutput net
      (b.alloc (binaryArithmetic op sig)).1 = .ok b2 := h2
  have h3' : b2.connectInput sn (b.alloc (binaryArithmetic op sig)).1 = .ok b3 := h3
  rw [h2', ok_bind, h3', ok_bind]
  rfl
theorem extractValue_constant (growslice : Nat → Nat → Nat) (n : Nat) (b : Builder)
    (tick net : Nat) (sig : Signal) :
    Builder.extractValue growslice (.constant (.uint64 n)) b tick net sig =
      match ((b.alloc (.emitter {})).2.setComp b.comps.length (fun _ =>
          .emitter { items := [{ signal := sig,
                                 count := wrap32 (n % 18446744073709551616) }] })).connectOutput
          net b.comps.length with
      | .ok b => .ok (tick, b)
      | .error msg => .error msg := by
  unfold Builder.extractValue
  rfl

theorem extractValue_unary_add (growslice : Nat → Nat → Nat) (e : Typed) (b : Builder)
    (tick net : Nat) (sig : Signal) :
    Builder.extractValue growslice (.unary .ADD e) b tick net sig =
      Builder.extractValue growslice e (b.alloc (.arithmetic {})).2 tick net sig := by
  conv => lhs; unfold Builder.extractValue

theorem setComp_same (b : Builder) (e : Nat) (f : Component → Component) :
    (b.setComp e f).comps = updAt b.comps e f ∧ (b.setComp e f).conns = b.conns ∧
    (b.setComp e f).networks = b.networks ∧ (b.setComp e f).tickers = b.tickers :=
  ⟨rfl, rfl, rfl, rfl⟩

theorem setArith_eq (b : Builder) (ar : Nat) (f : Arithmetic → Arithmetic) :
    b.setArith ar f = b.setComp ar (fun c =>
      match c with
      | .arithmetic a => .arithmetic (f a)
      | x => x) := rfl

/-- `setArith` with a function that keeps the connectors. -/
theorem setArith_WF (b : Builder) (ar : Nat) (f : Arithmetic → Arithmetic) (hW : b.WF)
    (hf : ∀ a, (f a).out = a.out ∧ (f a).inp.inputGreen = a.inp.inputGreen ∧
      (f a).inp.inputRed = a.inp.inputRed) :
    (b.setArith ar f).WF ∧ b.Grows (b.setArith ar f) ∧
    (b.setArith ar f).networks = b.networks ∧
    (∀ e g, ((b.setArith ar f).comp e).out.slot g = (b.comp e).out.slot g) := by
  rw [setArith_eq]
  obtain ⟨s1, s2, s3, s4⟩ := setComp_same b ar (fun c =>
      match c with
      | .arithmetic a => .arithmetic (f a)
      | x => x)
  have hslot : ∀ (c : Component) (g : Bool),
      ((match c with
        | .arithmetic a => Component.arithmetic (f a)
        | x => x) : Component).out.slot g = c.out.slot g ∧
      ((match c with
        | .arithmetic a => Component.arithmetic (f a)
        | x => x) : Component).inp.slot g = c.inp.slot g := by
    intro c g
    cases c with
    | arithmetic a =>
      obtain ⟨h1, h2, h3⟩ := hf a
      refine ⟨?_, ?_⟩
      · show (f a).out.slot g = a.out.slot g
        rw [h1]
      · show (f a).inp.slot g = a.inp.slot g
        unfold InputComponent.slot
        rw [h2, h3]
    | decider d => exact ⟨rfl, rfl⟩
    | emitter em => exact ⟨rfl, rfl⟩
  obtain ⟨w, gr, hc⟩ := setComp_WF b _ ar _ hW s1 s2 s3 s4 (fun g => hslot (b.comp ar) g)
  refine ⟨w, gr, s3, ?_⟩
  intro e g
  rw [hc]
  split
  · exact (hslot (b.comp e) g).1
  · rfl
theorem arith_slots (g : Bool) :
    (Component.arithmetic {}).out.slot g = none ∧ (Component.arithmetic {}).inp.slot g = none := by
  cases g <;> exact ⟨rfl, rfl⟩

theorem emitter_slots (em : List ConstantCombinatorItem) (g : Bool) :
    (Component.emitter { items := em }).out.slot g = none ∧
    (Component.emitter { items := em }).inp.slot g = none := by
  cases g <;> exact ⟨rfl, rfl⟩

theorem extractValue_const_full (growslice : Nat → Nat → Nat) (n : Nat) (b : Builder)
    (tick net : Nat) (sig : Signal) (hW : b.WF) (hn : net < b.networks.length) :
    ∃ bf, Builder.extractValue growslice (.constant (.uint64 n)) b tick net sig = .ok (tick, bf) ∧
      bf.WF ∧ b.Grows bf := by
  rw [extractValue_constant]
  have w1 := alloc_WF b (.emitter {}) hW (emitter_slots [])
  obtain ⟨n1, n2, n3, n4, n5⟩ := alloc_new b (.emitter {}) (emitter_slots [])
  obtain ⟨s1, s2, s3, s4⟩ := setComp_same (b.alloc (.emitter {})).2 b.comps.length (fun _ =>
          .emitter { items := [{ signal := sig,
                                 count := wrap32 (n % 18446744073709551616) }] })
  obtain ⟨w2, g2, c2⟩ := setComp_WF _ _ _ _ w1 s1 s2 s3 s4 (by
    intro g; rw [n2]; cases g <;> exact ⟨rfl, rfl⟩)
  have hnet : net < ((b.alloc (.emitter {})).2.setComp b.comps.length (fun _ =>
          .emitter { items := [{ signal := sig,
                                 count := wrap32 (n % 18446744073709551616) }] })).networks.length := by
    rw [s3]; exact hn
  obtain ⟨b3, h3, g3, t3, k3, -⟩ := connectOutput_full _ net b.comps.length hnet w2.1 (by
    rw [c2, if_pos ⟨rfl, by rw [n3]; omega⟩]
    exact (emitter_slots _ _).1)
  rw [h3]
  exact ⟨b3, rfl, Touch_WF t3 w2 g3 k3,
    Grows_trans (Ext_Grows (alloc_Ext b _)) (Grows_trans g2 (Touch_Grows t3))⟩
theorem extractValue_neg_full (growslice : Nat → Nat → Nat) (e : Typed)
    (ih : ∀ (b : Builder) (tick net : Nat) (sig : Signal), b.WF → net < b.networks.length →
      ∃ bf, Builder.extractValue growslice e b tick net sig = .ok (tick + e.height, bf) ∧
        bf.WF ∧ b.Grows bf)
    (b : Builder) (tick net : Nat) (sig : Signal) (hW : b.WF) (hn : net < b.networks.length) :
    ∃ bf, Builder.extractValue growslice (.unary .SUB e) b tick net sig =
        .ok (tick + e.height + 1, bf) ∧ bf.WF ∧ b.Grows bf := by
  have w1 := alloc_WF b (.arithmetic {}) hW arith_slots
  obtain ⟨n1, n2, n3, n4, n5⟩ := alloc_new b (.arithmetic {}) arith_slots
  have x1 := alloc_Ext b (.arithmetic {})
  have w2 := createNet_WF (b.alloc (.arithmetic {})).2
    (!((b.alloc (.arithmetic {})).2.net net).isGreen) w1
  have x2 := createNet_Ext (b.alloc (.arithmetic {})).2
    (!((b.alloc (.arithmetic {})).2.net net).isGreen)
  obtain ⟨m1, m2, m3⟩ := createNet_new (b.alloc (.arithmetic {})).2
    (!((b.alloc (.arithmetic {})).2.net net).isGreen)
  have hl1 : (b.alloc (.arithmetic {})).2.networks.length = b.networks.length := rfl
  have hc2 : ((b.alloc (.arithmetic {})).2.createNet
      (!((b.alloc (.arithmetic {})).2.net net).isGreen)).2.comp b.comps.length =
      .arithmetic {} := n2
  have hn2 : net < ((b.alloc (.arithmetic {})).2.createNet
      (!((b.alloc (.arithmetic {})).2.net net).isGreen)).2.networks.length := by
    rw [m2, hl1]; omega
  obtain ⟨b3, h3, g3, t3, k3, -, -, o3, -⟩ := connectInput_full _ b.networks.length b.comps.length
    (by rw [m2, hl1]; omega) w2.1 (by rw [hc2]; exact (arith_slots _).2)
  have w3 := Touch_WF t3 w2 g3 k3
  obtain ⟨w4, g4, nw4, s4⟩ := setArith_WF b3 b.comps.length (fun a => { a with
        inp := { a.inp with primaryInput := some SignalS, secondaryInput := some (.constant (-1)) }
        output := some sig }) w3 (fun a => ⟨rfl, rfl, rfl⟩)
  obtain ⟨b5, h5, g5, t5, k5, -⟩ := connectOutput_full _ net b.comps.length
    (by rw [nw4, t3.2.2.1]; exact hn2) w4.1 (by
      rw [s4, o3, hc2]; exact (arith_slots _).1)
  have w5 := Touch_WF t5 w4 g5 k5
  obtain ⟨w6, g6, nw6, s6⟩ := setArith_WF b5 b.comps.length
    (fun a => { a with Operator := .multiply }) w5 (fun a => ⟨rfl, rfl, rfl⟩)
  obtain ⟨bf, hf, wf, gf⟩ := ih (b5.setArith b.comps.length
    (fun a => { a with Operator := .multiply })) tick b.networks.length SignalS w6 (by
      rw [nw6, t5.2.2.1, nw4, t3.2.2.1, m2, hl1]; omega)
  refine ⟨bf, ?_, wf, Grows_trans (Ext_Grows x1) (Grows_trans (Ext_Grows x2)
    (Grows_trans (Touch_Grows t3) (Grows_trans g4 (Grows_trans (Touch_Grows t5)
      (Grows_trans g6 gf)))))⟩
  conv => lhs; unfold Builder.extractValue
  dsimp only
  unfold Builder.createSubnet
  have h3' : ((b.alloc (.arithmetic {})).2.createNet
      (!((b.alloc (.arithmetic {})).2.net net).isGreen)).2.connectInput
      ((b.alloc (.arithmetic {})).2.createNet
        (!((b.alloc (.arithmetic {})).2.net net).isGreen)).1
      (b.alloc (.arithmetic {})).1 = .ok b3 := h3
  rw [h3', ok_bind]
  have h5' : (b3.setArith (b.alloc (.arithmetic {})).1 (fun a => { a with
        inp := { a.inp with primaryInput := some SignalS, secondaryInput := some (.constant (-1)) }
        output := some sig })).connectOutput net (b.alloc (.arithmetic {})).1 = .ok b5 := h5
  rw [h5', ok_bind]
  have hf' : Builder.extractValue growslice e (b5.setArith (b.alloc (.arithmetic {})).1
      (fun a => { a with Operator := .multiply })) tick
      ((b.alloc (.arithmetic {})).2.createNet
        (!((b.alloc (.arithmetic {})).2.net net).isGreen)).1 SignalS =
      .ok (tick + e.height, bf) := hf
  rw [hf', ok_bind]
  rfl
theorem binary_tail (op : Token) (hop : op = .ADD ∨ op = .SUB ∨ op = .MUL) (b : Builder)
    (t sn net : Nat) (sig : Signal) (hW : b.WF) (hn : net < b.networks.length)
    (hs : sn < b.networks.length) :
    ∃ bf, (match op with
        | .ADD => b.emitBinary .add net sn sig t
        | .SUB => b.emitBinary .subtract net sn sig t
        | .MUL => b.emitBinary .multiply net sn sig t
        | _ => .error "unsupported value") = .ok (t + 1, bf) ∧ bf.WF ∧ b.Grows bf := by
  rcases hop with rfl | rfl | rfl
  · exact emitBinary_full b .add net sn sig t hW hn hs
  · exact emitBinary_full b .subtract net sn sig t hW hn hs
  · exact emitBinary_full b .multiply net sn sig t hW hn hs

theorem extractValue_binary_full (growslice : Nat → Nat → Nat) (op : Token) (l r : Typed)
    (hop : op = .ADD ∨ op = .SUB ∨ op = .MUL)
    (ihl : ∀ (b : Builder) (tick net : Nat) (sig : Signal), b.WF → net < b.networks.length →
      ∃ bf, Builder.extractValue growslice l b tick net sig = .ok (tick + l.height, bf) ∧
        bf.WF ∧ b.Grows bf)
    (ihr : ∀ (b : Builder) (tick net : Nat) (sig : Signal), b.WF → net < b.networks.length →
      ∃ bf, Builder.extractValue growslice r b tick net sig = .ok (tick + r.height, bf) ∧
        bf.WF ∧ b.Grows bf)
    (b : Builder) (tick net : Nat) (sig : Signal) (hW : b.WF) (hn : net < b.networks.length) :
    ∃ bf, Builder.extractValue growslice (.binary op l r) b tick net sig =
        .ok (tick + (max l.height r.height + 1), bf) ∧ bf.WF ∧ b.Grows bf := by
  have w1 := createNet_WF b (!(b.net net).isGreen) hW
  have x1 := createNet_Ext b (!(b.net net).isGreen)
  obtain ⟨m1, m2, m3⟩ := createNet_new b (!(b.net net).isGreen)
  have w2 := createNet_WF (b.createNet (!(b.net net).isGreen)).2
    (!((b.createNet (!(b.net net).isGreen)).2.net net).isGreen) w1
  have x2 := createNet_Ext (b.createNet (!(b.net net).isGreen)).2
    (!((b.createNet (!(b.net net).isGreen)).2.net net).isGreen)
  obtain ⟨p1, p2, p3⟩ := createNet_new (b.createNet (!(b.net net).isGreen)).2
    (!((b.createNet (!(b.net net).isGreen)).2.net net).isGreen)
  have hcol : ((b.createNet (!(b.net net).isGreen)).2.net net).isGreen = (b.net net).isGreen :=
    x1.2.1 net hn
  obtain ⟨b3, h3, w3, g3⟩ := ihl ((b.createNet (!(b.net net).isGreen)).2.createNet
    (!((b.createNet (!(b.net net).isGreen)).2.net net).isGreen)).2 tick b.networks.length SignalL
    w2 (by rw [p2, m2]; omega)
  obtain ⟨b4, h4, w4, g4⟩ := ihr b3 tick (b.networks.length + 1) SignalR w3 (by
    have := g3.1; rw [p2, m2] at this; omega)
  have g02 : b.Grows ((b.createNet (!(b.net net).isGreen)).2.createNet
    (!((b.createNet (!(b.net net).isGreen)).2.net net).isGreen)).2 :=
    Grows_trans (Ext_Grows x1) (Ext_Grows x2)
  have g24 := Grows_trans g3 g4
  have hlen4 : b.networks.length + 2 ≤ b4.networks.length := by
    have := g24.1; rw [p2, m2] at this; exact this
  have cl : (b4.net b.networks.length).isGreen = !(b.net net).isGreen := by
    rw [g24.2 _ (by rw [p2, m2]; omega), x2.2.1 _ (by rw [m2]; omega), m3]
  have cr : (b4.net (b.networks.length + 1)).isGreen = !(b.net net).isGreen := by
    rw [g24.2 _ (by rw [p2, m2]; omega)]
    have := p3
    rw [m2] at this
    exact this.trans (by rw [hcol])
  unfold Builder.extractValue
  dsimp only
  unfold Builder.createSubnet
  have h3' : Builder.extractValue growslice l ((b.createNet (!(b.net net).isGreen)).2.createNet
    (!((b.createNet (!(b.net net).isGreen)).2.net net).isGreen)).2 tick
    (b.createNet (!(b.net net).isGreen)).1 SignalL = .ok (tick + l.height, b3) := h3
  rw [h3', ok_bind]
  dsimp only
  have h4' : Builder.extractValue growslice r b3 tick
    ((b.createNet (!(b.net net).isGreen)).2.createNet
    (!((b.createNet (!(b.net net).isGreen)).2.net net).isGreen)).1 SignalR =
      .ok (tick + r.height, b4) := by
    rw [p1, m2]; exact h4
  rw [h4', ok_bind]
  dsimp only
  rw [p1, m1, m2]
  by_cases c1 : tick + l.height < tick + r.height
  · rw [if_pos c1]
    obtain ⟨b5, ms, h5, w5, x5, -⟩ := preserveUntil_full growslice SignalL b4 b.networks.length
      (b.networks.length + 1) (tick + l.height) (tick + r.height) w4 (by omega) (by omega) c1
    rw [h5, ok_bind]
    have g5 := Ext_Grows x5
    obtain ⟨bf, hf, wf, gf⟩ := binary_tail op hop b5 (tick + r.height) (b.networks.length + 1)
      net sig w5 (by have := g5.1; omega) (by have := g5.1; omega)
    refine ⟨bf, ?_, wf, Grows_trans g02 (Grows_trans g24 (Grows_trans g5 gf))⟩
    have e : tick + (max l.height r.height + 1) = tick + r.height + 1 := by
      rw [max_eq_right (by omega)]; rfl
    rw [e]
    exact hf
  · rw [if_neg c1]
    by_cases c2 : tick + r.height < tick + l.height
    · rw [if_pos c2]
      obtain ⟨b5, ms, h5, w5, x5, -⟩ := preserveUntil_full growslice SignalR b4
        (b.networks.length + 1) b.networks.length (tick + r.height) (tick + l.height) w4
        (by omega) (by omega) c2
      rw [h5, ok_bind]
      have g5 := Ext_Grows x5
      obtain ⟨bf, hf, wf, gf⟩ := binary_tail op hop b5 (tick + l.height) b.networks.length
        net sig w5 (by have := g5.1; omega) (by have := g5.1; omega)
      refine ⟨bf, ?_, wf, Grows_trans g02 (Grows_trans g24 (Grows_trans g5 gf))⟩
      have e : tick + (max l.height r.height + 1) = tick + l.height + 1 := by
        rw [max_eq_left (by omega)]; rfl
      rw [e]
      exact hf
    · rw [if_neg c2]
      obtain ⟨w5, g5⟩ := merge_WF b4 (b.networks.length + 1) b.networks.length w4 (by omega)
        (by rw [cl, cr])
      obtain ⟨bf, hf, wf, gf⟩ := binary_tail op hop
        (b4.merge (b.networks.length + 1) b.networks.length) (tick + r.height)
        (b.networks.length + 1) net sig w5 (by have := g5.1; omega) (by have := g5.1; omega)
      refine ⟨bf, ?_, wf, Grows_trans g02 (Grows_trans g24 (Grows_trans g5 gf))⟩
      have e : tick + (max l.height r.height + 1) = tick + r.height + 1 := by
        rw [max_eq_right (by omega)]; rfl
      rw [e]
      exact hf
/-- On a well-formed graph, `extractValue` of an expression of integer
constants, unary `+`, `-` and binary `+`, `-`, `*` returns `tick + h(e)` and
leaves a well-formed graph with the old networks. -/
theorem extractValue_arith_full (growslice : Nat → Nat → Nat) (e : Typed) :
    e.isArith → ∀ (b : Builder) (tick net : Nat) (sig : Signal), b.WF →
      net < b.networks.length →
      ∃ bf, Builder.extractValue growslice e b tick net sig = .ok (tick + e.height, bf) ∧
        bf.WF ∧ b.Grows bf := by
  induction e with
  | constant v =>
    intro he b tick net sig hW hn
    cases v with
    | uint64 n => exact extractValue_const_full growslice n b tick net sig hW hn
    | other => exact absurd he (by simp [Typed.isArith])
  | unary op e ih =>
    intro he
    by_cases h1 : op = .ADD
    · subst h1
      intro b tick net sig hW hn
      rw [extractValue_unary_add]
      obtain ⟨bf, hf, wf, gf⟩ := ih he (b.alloc (.arithmetic {})).2 tick net sig
        (alloc_WF b _ hW arith_slots) hn
      exact ⟨bf, hf, wf, Grows_trans (Ext_Grows (alloc_Ext b _)) gf⟩
    · by_cases h2 : op = .SUB
      · subst h2
        intro b tick net sig hW hn
        exact extractValue_neg_full growslice e (ih he) b tick net sig hW hn
      · exact absurd he (by cases op <;> simp_all [Typed.isArith])
  | binary op l r ihl ihr =>
    intro he
    have hop : op = .ADD ∨ op = .SUB ∨ op = .MUL := by
      cases op <;> simp_all [Typed.isArith]
    have hlr : l.isArith ∧ r.isArith := by
      rcases hop with rfl | rfl | rfl <;> exact he
    intro b tick net sig hW hn
    exact extractValue_binary_full growslice op l r hop (ihl hlr.1) (ihr hlr.2) b tick net sig
      hW hn
  | _ => intro he; exact absurd he (by simp [Typed.isArith])

/-- C11: on a well-formed graph with the network `net` in it, for every
expression `e` built only from constants (a constant carries the `uint64` of
its integer literal, the one value the frontend gives a constant), unary `+`,
unary `-` and binary `+`, `-`, `*`, and every start tick `t`, `extractValue`
returns `t + h(e)`, where `h(constant) = 0`, `h(+e) = h(e)`,
`h(-e) = h(e) + 1` and `h(l op r) = max(h(l), h(r)) + 1`, both operands being
extracted from the same start tick `t`; the graph it leaves is well formed. -/
theorem C11_extractValue_ticks (growslice : Nat → Nat → Nat) (e : Typed) (b : Builder)
    (t net : Nat) (sig : Signal) (hW : b.WF) (hn : net < b.networks.length)
    (he : e.isArith) :
    ∃ bf, Builder.extractValue growslice e b t net sig = .ok (t + e.height, bf) ∧ bf.WF := by
  obtain ⟨bf, hf, wf, -⟩ := extractValue_arith_full growslice e he b t net sig hW hn
  exact ⟨bf, hf, wf⟩

/-- C11 on the graph of one red network: `1 * 3 + -2` has `h = 2` and, from
tick 5, returns tick 7. -/
theorem C11_extractValue_ticks_witness :
    (Typed.binary .ADD (.binary .MUL (.constant (.uint64 1)) (.constant (.uint64 3)))
      (.unary .SUB (.constant (.uint64 2)))).height = 2 ∧
    ∃ bf, Builder.extractValue goGrowslice
        (.binary .ADD (.binary .MUL (.constant (.uint64 1)) (.constant (.uint64 3)))
          (.unary .SUB (.constant (.uint64 2)))) redNetwork 5 0 SignalA = .ok (7, bf) ∧ bf.WF :=
  ⟨rfl, C11_extractValue_ticks goGrowslice _ redNetwork 5 0 SignalA (createNet_WF _ _ WF_empty)
    (by decide) ⟨⟨trivial, trivial⟩, trivial⟩⟩

theorem getPtr_tile (p : Plot) (pos : Position) :
    p.getPtr pos =
      if (toInt pos.tile.getRingArea.2).toNat ≥ p.rings.length then .ok none
      else
        match Ring.getPtr (p.rings.getD (toInt pos.tile.getRingArea.2).toNat [])
            pos.tile.getRingArea.1 pos.tile.getRingArea.2 pos.tile with
        | .ok i => .ok (some ((toInt pos.tile.getRingArea.2).toNat, i))
        | .error msg => .error msg := rfl

theorem getRingArea_max (p : Position) : p.getRingArea.2 = max (absI p.X) (absI p.Y) := by
  rw [getRingArea_cases]
  simp only [max_def]
  split_ifs <;> simp only [] <;> omega

theorem toRingIdx_max (p : Position) : p.toRingIdx = toInt p.getRingArea.2 := by
  rw [getRingArea_max]
  unfold Position.toRingIdx
  simp only [max_def]
  split_ifs <;> first | rfl | (congr 1; omega)

theorem tile_onRing (pos : Position) : onRing pos.tile.toRingIdx.toNat pos.tile := by
  have hx : pos.tile.X % 2 = 1 := by
    unfold Position.tile; dsimp only; split <;> omega
  have hy : pos.tile.Y % 2 = 1 := by
    unfold Position.tile; dsimp only; split <;> omega
  refine ⟨hx, hy, ?_⟩
  rw [toRingIdx_max, getRingArea_max]
  have h1 : max (absI pos.tile.X) (absI pos.tile.Y) % 2 = 1 := by
    simp only [max_def]; unfold absI; split_ifs <;> omega
  have h0 : 0 ≤ max (absI pos.tile.X) (absI pos.tile.Y) :=
    le_trans (absI_nonneg _) (le_max_left _ _)
  rw [toInt_of_nonneg h0]
  omega
theorem ringLens_getD (p : Plot)
    (hp : p.ringLens = (List.range p.rings.length).map (fun k => 8 * k + 4)) (r : Nat)
    (hr : r < p.rings.length) : (p.rings.getD r []).length = 8 * r + 4 := by
  have h1 : p.ringLens[r]? = some (8 * r + 4) := by
    rw [hp]; simp [hr]
  unfold Plot.ringLens at h1
  rw [List.getElem?_map] at h1
  rw [List.getD_eq_getElem?_getD]
  cases h : p.rings[r]? with
  | none => rw [h] at h1; cases h1
  | some x => rw [h] at h1; simpa using h1

/-- The slot of a position on a plot whose ring `r` holds `8r + 4` slots. -/
theorem getPtr_eq (p : Plot)
    (hp : p.ringLens = (List.range p.rings.length).map (fun k => 8 * k + 4)) (pos : Position) :
    p.getPtr pos =
      if pos.tile.toRingIdx.toNat < p.rings.length then
        .ok (some (pos.tile.toRingIdx.toNat, (slotFormula pos.tile).toNat))
      else .ok none := by
  rw [getPtr_tile, ← toRingIdx_max]
  by_cases h : pos.tile.toRingIdx.toNat < p.rings.length
  · rw [if_neg (by omega), if_pos h]
    have h2 := (Ring_getPtr_onRing pos.tile.toRingIdx.toNat _ (ringLens_getD p hp _ h) pos.tile
      (tile_onRing pos)).1
    rw [h2]
  · rw [if_pos (by omega), if_neg h]

theorem tile_slot_inj (a b : Position) (hr : a.tile.toRingIdx.toNat = b.tile.toRingIdx.toNat)
    (hs : (slotFormula a.tile).toNat = (slotFormula b.tile).toNat) : a.tile = b.tile := by
  have ha := tile_onRing a
  have hb := tile_onRing b
  rw [hr] at ha
  apply slotFormula_inj _ _ _ ha hb
  have := slotFormula_range _ _ ha
  have := slotFormula_range _ _ hb
  omega

theorem get_eq (p : Plot)
    (hp : p.ringLens = (List.range p.rings.length).map (fun k => 8 * k + 4)) (pos : Position) :
    p.get pos =
      if pos.tile.toRingIdx.toNat < p.rings.length then
        .ok ((p.rings.getD pos.tile.toRingIdx.toNat []).getD (slotFormula pos.tile).toNat none)
      else .ok none := by
  unfold Plot.get
  rw [getPtr_eq p hp]
  by_cases h : pos.tile.toRingIdx.toNat < p.rings.length
  · rw [if_pos h, if_pos h]
  · rw [if_neg h, if_neg h]

/-- The assignment through `getPtr` on a tile inside the rings: `get` then
returns the value on that tile and is as before on every other tile. -/
theorem setPtr_full (p : Plot)
    (hp : p.ringLens = (List.range p.rings.length).map (fun k => 8 * k + 4)) (pos : Position)
    (v : Option Nat) (hin : pos.tile.toRingIdx.toNat < p.rings.length) :
    ∃ q, p.setPtr pos v = .ok q ∧ q.ringLens = p.ringLens ∧ q.rings.length = p.rings.length ∧
      q.ents = p.ents ∧ q.entities = p.entities ∧
      ∀ t, q.get t = if t.tile = pos.tile then .ok v else p.get t := by
  have hset : p.setPtr pos v = .ok { p with rings := (updAt p.rings pos.tile.toRingIdx.toNat
      (fun ring => ring.set (slotFormula pos.tile).toNat v)) } := by
    unfold Plot.setPtr
    rw [getPtr_eq p hp, if_pos hin]
  have hl := setPtr_ringLens _ _ _ _ hset
  have hlen : ∀ a b : Plot, a.ringLens = b.ringLens → a.rings.length = b.rings.length := by
    intro a b h
    have := congrArg List.length h
    simpa [Plot.ringLens] using this
  have hlen2 := hlen _ _ hl
  refine ⟨_, hset, hl, hlen2, rfl, rfl, ?_⟩
  intro t
  rw [get_eq _ (by rw [hl, hlen2]; exact hp), get_eq p hp, hlen2]
  have hsl := slotFormula_range _ _ (tile_onRing pos)
  have hrl := ringLens_getD p hp _ hin
  by_cases ht : t.tile = pos.tile
  · rw [if_pos ht, ht, if_pos hin]
    show Except.ok ((List.getD (updAt p.rings _ _) _ []).getD _ none) = _
    rw [getD_updAt, if_pos ⟨rfl, hin⟩]
    congr 1
    rw [List.getD_eq_getElem?_getD, List.getElem?_set_self (by rw [hrl]; omega)]
    rfl
  · rw [if_neg ht]
    by_cases hlt : t.tile.toRingIdx.toNat < p.rings.length
    · rw [if_pos hlt, if_pos hlt]
      show Except.ok ((List.getD (updAt p.rings _ _) _ []).getD _ none) = _
      rw [getD_updAt]
      by_cases hr : pos.tile.toRingIdx.toNat = t.tile.toRingIdx.toNat
      · rw [if_pos ⟨hr, hlt⟩]
        congr 1
        have hne : (slotFormula pos.tile).toNat ≠ (slotFormula t.tile).toNat := by
          intro hs
          exact ht (tile_slot_inj t pos hr.symm hs.symm)
        rw [List.getD_eq_getElem?_getD, List.getElem?_set_ne hne, ← List.getD_eq_getElem?_getD]
      · rw [if_neg (fun h => hr h.1)]
    · rw [if_neg hlt, if_neg hlt]
theorem setAll_full (v : Option Nat) (l : List Position) (p : Plot)
    (hp : p.ringLens = (List.range p.rings.length).map (fun k => 8 * k + 4))
    (hin : ∀ t, t ∈ l → t.tile.toRingIdx.toNat < p.rings.length) :
    ∃ q, p.setAll v l = .ok q ∧ q.ringLens = p.ringLens ∧ q.rings.length = p.rings.length ∧
      q.ents = p.ents ∧ q.entities = p.entities ∧
      ∀ t, q.get t = if t.tile ∈ l.map Position.tile then .ok v else p.get t := by
  induction l generalizing p with
  | nil => exact ⟨p, rfl, rfl, rfl, rfl, rfl, fun t => by simp⟩
  | cons pos rest ih =>
    obtain ⟨p1, h1, l1, n1, e1, f1, g1⟩ := setPtr_full p hp pos v (hin pos (List.mem_cons_self _ _))
    obtain ⟨q, h2, l2, n2, e2, f2, g2⟩ := ih p1 (by rw [l1, n1]; exact hp) (fun t ht => by
      rw [n1]; exact hin t (List.mem_cons_of_mem _ ht))
    refine ⟨q, ?_, l2.trans l1, n2.trans n1, e2.trans e1, f2.trans f1, ?_⟩
    · simp only [Plot.setAll, h1]
      exact h2
    · intro t
      rw [g2, g1]
      by_cases a : t.tile ∈ rest.map Position.tile
      · rw [if_pos a, if_pos (by rw [List.map_cons]; exact List.mem_cons_of_mem _ a)]
      · rw [if_neg a]
        by_cases b : t.tile = pos.tile
        · rw [if_pos b, if_pos (by rw [List.map_cons, b]; exact List.mem_cons_self _ _)]
        · rw [if_neg b, if_neg]
          rw [List.map_cons, List.mem_cons]
          rintro (h | h)
          · exact b h
          · exact a h

theorem Bounds_kind (x : Ent) :
    x.Bounds = Ent.Bounds { kind := x.kind, Position := x.Position, Direction := x.Direction } := by
  unfold Ent.Bounds
  cases x.kind <;> rfl

theorem Number_kind (p : Plot) (e : Nat) (x : Nat) :
    ((p.Number e).2.ent x).kind = (p.ent x).kind ∧
    (p.Number e).2.ents.length = p.ents.length := by
  unfold Plot.Number
  split
  · refine ⟨?_, length_updAt _ _ _⟩
    show (List.getD (updAt p.ents e _) x default).kind = _
    rw [getD_updAt]
    split <;> rfl
  · exact ⟨rfl, rfl⟩

theorem flatMap_single {α β : Type} (l : List α) (f : α → β) :
    (l.flatMap fun a => [f a]) = l.map f := by
  induction l with
  | nil => rfl
  | cons a l ih => simp [List.flatMap_cons, ih]

theorem coordRange_eq (lo hi : Int) :
    coordRange lo hi =
      (List.range ((hi - lo + 1) / 2).toNat).map (fun i : Nat => lo + 2 * (i : Int)) := by
  unfold coordRange
  simp only [List.map_flatMap, List.bind_eq_flatMap, List.pure_def, List.map_cons, List.map_nil]
  exact flatMap_single _ _

theorem coordRange_parity (lo hi v : Int) (h : v ∈ coordRange lo hi) : v % 2 = lo % 2 := by
  rw [coordRange_eq, List.mem_map] at h
  obtain ⟨i, _, rfl⟩ := h
  omega

theorem coordRange_nodup (lo hi : Int) : (coordRange lo hi).Nodup := by
  rw [coordRange_eq]
  apply List.Nodup.map _ (List.nodup_range _)
  intro a b h
  simp only at h
  omega

theorem coordRange_length (lo hi : Int) :
    (coordRange lo hi).length = ((hi - lo + 1) / 2).toNat := by
  rw [coordRange_eq, List.length_map, List.length_range]

theorem positions_product (b : Bounds) :
    b.positions = ((coordRange (b.BL.X + 1) b.TR.X) ×ˢ
      (coordRange (b.BL.Y + 1) b.TR.Y)).map (fun q => (⟨q.1, q.2⟩ : Position)) := by
  show _ = List.map _ (List.product _ _)
  unfold Bounds.positions Bounds.columns List.product
  rw [List.flatMap, List.map_flatten, List.map_map]
  congr 1
  apply List.map_congr_left
  intro x _
  simp [List.map_map, Function.comp]

theorem tile_inj (a b : Position) (hx : a.X % 2 = b.X % 2) (hy : a.Y % 2 = b.Y % 2)
    (h : a.tile = b.tile) : a = b := by
  unfold Position.tile at h
  injection h with h1 h2
  have : a.X = b.X := by split_ifs at h1 <;> omega
  have : a.Y = b.Y := by split_ifs at h2 <;> omega
  cases a; cases b; simp_all

theorem footprint_nodup (b : Bounds) : (b.positions.map Position.tile).Nodup := by
  have hn : b.positions.Nodup := by
    rw [positions_product]
    apply List.Nodup.map
    · intro x y h
      injection h with h1 h2
      exact Prod.ext h1 h2
    · exact List.Nodup.product (coordRange_nodup _ _) (coordRange_nodup _ _)
  apply List.Nodup.map_on _ hn
  intro x hx y hy h
  rw [positions_product, List.mem_map] at hx hy
  obtain ⟨⟨x1, x2⟩, hx, rfl⟩ := hx
  obtain ⟨⟨y1, y2⟩, hy, rfl⟩ := hy
  rw [List.mem_product] at hx hy
  apply tile_inj _ _ _ _ h
  · show x1 % 2 = y1 % 2
    rw [coordRange_parity _ _ _ hx.1, coordRange_parity _ _ _ hy.1]
  · show x2 % 2 = y2 % 2
    rw [coordRange_parity _ _ _ hx.2, coordRange_parity _ _ _ hy.2]

theorem footprint_length (k : EntityKind) (pos : Position) (d : Direction) :
    (k.footprint pos d).length = k.tileCount := by
  unfold EntityKind.footprint
  rw [List.length_map, positions_product, List.length_map, List.length_product,
    coordRange_length, coordRange_length]
  cases k <;> simp only [Ent.Bounds, EntityKind.getSize, Position.getBounds, EntityKind.tileCount]
  all_goals first
    | (split <;> simp only [] <;> 
        (have e1 : ∀ (x a : Int), ((x + a - (x - a + 1) + 1) / 2).toNat = a.toNat := by
          intro x a; congr 1; omega
         simp only [e1]; rfl))
    | (have e1 : ∀ (x a : Int), ((x + a - (x - a + 1) + 1) / 2).toNat = a.toNat := by
          intro x a; congr 1; omega
       simp only [e1]; rfl)
theorem place_eq (p : Plot) (e : Nat) (pos : Position) (d : Direction) (he : e < p.ents.length) :
    ∃ p3 : Plot, p.place e pos d = p3.setAll (some e) (p3.ent e).Bounds.positions ∧
      p3.rings = p.rings ∧ (p3.ent e).kind = (p.ent e).kind ∧ (p3.ent e).Position = pos ∧
      (p3.ent e).Direction = d := by
  obtain ⟨k1, k2⟩ := Number_kind p e e
  have hx : (List.getD (updAt (p.Number e).2.ents e
      (fun x => { x with Position := pos, Direction := d })) e default) =
      { (p.Number e).2.ent e with Position := pos, Direction := d } := by
    rw [getD_updAt, if_pos ⟨rfl, by rw [k2]; exact he⟩]
    rfl
  refine ⟨_, rfl, Number_rings p e, ?_, ?_, ?_⟩
  · show (List.getD (updAt (p.Number e).2.ents e _) e default).kind = _
    rw [hx]; exact k1
  · show (List.getD (updAt (p.Number e).2.ents e _) e default).Position = _
    rw [hx]
  · show (List.getD (updAt (p.Number e).2.ents e _) e default).Direction = _
    rw [hx]

theorem toRingIdx_nonneg (t : Position) : 0 ≤ t.toRingIdx := by
  rw [toRingIdx_max, getRingArea_max]
  have h0 : 0 ≤ max (absI t.X) (absI t.Y) := le_trans (absI_nonneg _) (le_max_left _ _)
  rw [toInt_of_nonneg h0]
  omega

/-- C4: on a plot whose ring `r` holds `8r + 4` slots, for an entity `e`, a
position and a direction whose footprint lies inside the existing rings,
`Plot.place(e, pos, d)` returns, and afterwards `Plot.get` returns `e` on
every tile of the footprint of `e` under `d` and what it returned before on
every other tile, so that, when no tile held `e` before, the tiles that hold
`e` are exactly those of the footprint; the footprint is the list of tiles
under the bounds of the placed entity, its tiles are distinct, and there are
2 of them for an arithmetic or decider combinator, 1 for a constant
combinator, 4 for a substation and 16 for a roboport. -/
theorem C4_place_get (p : Plot) (e : Nat) (pos : Position) (d : Direction)
    (hp : p.ringLens = (List.range p.rings.length).map (fun k => 8 * k + 4))
    (he : e < p.ents.length)
    (hin : ∀ t, t ∈ (p.ent e).kind.footprint pos d → t.toRingIdx < (p.rings.length : Int)) :
    ∃ q, p.place e pos d = .ok q ∧
      (∀ t, q.get t =
        if t.tile ∈ (p.ent e).kind.footprint pos d then .ok (some e) else p.get t) ∧
      ((∀ t, p.get t ≠ .ok (some e)) →
        ∀ t, q.get t = .ok (some e) ↔ t.tile ∈ (p.ent e).kind.footprint pos d) ∧
      (q.ent e).Bounds.positions.map Position.tile = (p.ent e).kind.footprint pos d ∧
      ((p.ent e).kind.footprint pos d).Nodup ∧
      ((p.ent e).kind.footprint pos d).length = (p.ent e).kind.tileCount := by
  obtain ⟨p3, h3, r3, k3, x3, d3⟩ := place_eq p e pos d he
  have hb : (p3.ent e).Bounds.positions.map Position.tile = (p.ent e).kind.footprint pos d := by
    rw [Bounds_kind, k3, x3, d3]
    rfl
  have hl3 : p3.ringLens = p.ringLens := by unfold Plot.ringLens; rw [r3]
  obtain ⟨q, h4, l4, n4, e4, f4, g4⟩ := setAll_full (some e) (p3.ent e).Bounds.positions p3
    (by rw [hl3, r3]; exact hp) (fun t ht => by
      have := hin t.tile (by rw [← hb]; exact List.mem_map_of_mem _ ht)
      have := toRingIdx_nonneg t.tile
      rw [r3]
      omega)
  have hg : ∀ t, p3.get t = p.get t := by
    intro t
    rw [get_eq p3 (by rw [hl3, r3]; exact hp), get_eq p hp, r3]
  have hget : ∀ t, q.get t =
      if t.tile ∈ (p.ent e).kind.footprint pos d then .ok (some e) else p.get t := by
    intro t
    rw [g4, hb, hg]
  refine ⟨q, h3.trans h4, hget, ?_, ?_, ?_, footprint_length _ _ _⟩
  · intro hnot t
    rw [hget]
    by_cases ht : t.tile ∈ (p.ent e).kind.footprint pos d
    · rw [if_pos ht]; exact ⟨fun _ => ht, fun _ => rfl⟩
    · rw [if_neg ht]; exact ⟨fun h => absurd h (hnot t), fun h => absurd h ht⟩
  · have : q.ent e = p3.ent e := by unfold Plot.ent; rw [e4]
    rw [this, hb]
  · rw [← hb]
    exact footprint_nodup _

/-- C4 on the plot of `plan` with its hub: an arithmetic combinator placed at (-2, -2.5)
facing east. -/
theorem C4_place_get_witness :
    ∃ q, (hubPlot.newEnt .arithmetic).2.place hubPlot.ents.length ⟨-4, -5⟩ DirectionEast
        = .ok q ∧
      (∀ t, q.get t =
        if t.tile ∈ ((hubPlot.newEnt .arithmetic).2.ent hubPlot.ents.length).kind.footprint
            ⟨-4, -5⟩ DirectionEast
        then .ok (some hubPlot.ents.length) else (hubPlot.newEnt .arithmetic).2.get t) ∧
      ((∀ t, (hubPlot.newEnt .arithmetic).2.get t ≠ .ok (some hubPlot.ents.length)) →
        ∀ t, q.get t = .ok (some hubPlot.ents.length) ↔
          t.tile ∈ ((hubPlot.newEnt .arithmetic).2.ent hubPlot.ents.length).kind.footprint
            ⟨-4, -5⟩ DirectionEast) ∧
      (q.ent hubPlot.ents.length).Bounds.positions.map Position.tile =
        ((hubPlot.newEnt .arithmetic).2.ent hubPlot.ents.length).kind.footprint
          ⟨-4, -5⟩ DirectionEast ∧
      (((hubPlot.newEnt .arithmetic).2.ent hubPlot.ents.length).kind.footprint
        ⟨-4, -5⟩ DirectionEast).Nodup ∧
      (((hubPlot.newEnt .arithmetic).2.ent hubPlot.ents.length).kind.footprint
        ⟨-4, -5⟩ DirectionEast).length =
        ((hubPlot.newEnt .arithmetic).2.ent hubPlot.ents.length).kind.tileCount :=
  C4_place_get (hubPlot.newEnt .arithmetic).2 hubPlot.ents.length ⟨-4, -5⟩ DirectionEast
    (by decide) (by decide) (by decide)

theorem expandPlan_eq (n : Nat) :
    expandPlan n =
      if (if (n + 1) % 18 = 0 then n + 3 else n + 1) % 50 ≥ 48 ∨
          (if (n + 1) % 18 = 0 then n + 3 else n + 1) % 50 = 0 then
        ((expandStep (expandStep (expandStep (expandStep (expandStep (expandStep
            (if (n + 1) % 18 = 0 then n + 3 else n + 1,
             if (n + 1) % 18 = 0 then n + 1 else 0))))))).1,
         (expandStep (expandStep (expandStep (expandStep (expandStep (expandStep
            (if (n + 1) % 18 = 0 then n + 3 else n + 1,
             if (n + 1) % 18 = 0 then n + 1 else 0))))))).2,
         if (if (n + 1) % 18 = 0 then n + 3 else n + 1) % 50 = 48 then
           (if (n + 1) % 18 = 0 then n + 3 else n + 1) + 2
         else if (if (n + 1) % 18 = 0 then n + 3 else n + 1) % 50 = 49 then
           (if (n + 1) % 18 = 0 then n + 3 else n + 1) + 1
         else (if (n + 1) % 18 = 0 then n + 3 else n + 1))
      else (if (n + 1) % 18 = 0 then n + 3 else n + 1,
            if (n + 1) % 18 = 0 then n + 1 else 0, 0) := rfl

theorem expandStep_inv (a k : Nat) (st : Nat × Nat)
    (h : st.1 = a + k + (if st.2 = 0 then 0 else 2))
    (h0 : st.2 = 0 → a / 18 = st.1 / 18)
    (h1 : st.2 ≠ 0 → st.2 % 18 = 0 ∧ a < st.2 ∧ a / 18 = (st.2 - 1) / 18 ∧ st.2 ≤ a + k) :
    ∃ st1, expandStep st = st1 ∧
    st1.1 = a + (k + 1) + (if st1.2 = 0 then 0 else 2) ∧
    (st1.2 = 0 → a / 18 = st1.1 / 18) ∧
    (st1.2 ≠ 0 → st1.2 % 18 = 0 ∧ a < st1.2 ∧ a / 18 = (st1.2 - 1) / 18 ∧ st1.2 ≤ a + (k + 1)) := by
  refine ⟨_, rfl, ?_⟩
  unfold expandStep
  obtain ⟨x, s⟩ := st
  simp only [] at h h0 h1 ⊢
  by_cases hs : s = 0
  · subst hs
    simp only [if_true, true_and, forall_const] at h h0 ⊢
    by_cases hm : (x + 1) % 18 = 0
    · rw [if_pos hm]
      simp only []
      refine ⟨?_, ?_, ?_⟩
      · rw [if_neg (by omega)]; omega
      · intro h; omega
      · intro _; omega
    · rw [if_neg hm]
      simp only [if_true]
      refine ⟨by omega, ?_, ?_⟩
      · intro _; omega
      · intro h; exact absurd rfl h
  · rw [if_neg (fun h => hs h.1)]
    simp only [if_neg hs] at h ⊢
    have := h1 hs
    refine ⟨by omega, fun h => absurd h hs, fun _ => by omega⟩

theorem expandStep_set (a s : Nat) (hs : s ≠ 0) : expandStep (a, s) = (a + 1, s) := by
  unfold expandStep
  simp only []
  rw [if_neg (fun h => hs h.1)]

/-- The plan of `expand` on a number of rings that `expand` leaves: the new
number of rings is again such a number; every multiple of 18 below it is below
the old number or is the substation distance, and every multiple of 50 two
below it is two below the old number or is the roboport distance. -/
theorem expandPlan_lattice (n : Nat) (hn : lenOk n) :
    lenOk (expandPlan n).1 ∧ n < (expandPlan n).1 ∧
    (∀ D, 0 < D → D % 18 = 0 → D < (expandPlan n).1 → D < n ∨ D = (expandPlan n).2.1) ∧
    (∀ R, 0 < R → R % 50 = 0 → R + 1 < (expandPlan n).1 →
      R + 1 < n ∨ R = (expandPlan n).2.2) ∧
    ((expandPlan n).2.1 ≠ 0 → n < (expandPlan n).2.1 ∧ (expandPlan n).2.1 < (expandPlan n).1) ∧
    ((expandPlan n).2.2 ≠ 0 → n + 2 ≤ (expandPlan n).2.2 ∧
      (expandPlan n).2.2 + 1 < (expandPlan n).1) := by
  obtain ⟨h1, h2, h3⟩ := hn
  rw [expandPlan_eq]
  unfold lenOk
  have hrob : ∀ R x : Nat, R % 50 = 0 → R + 1 < x → x ≤ n + 3 → R + 1 < n := by
    intro R x hm hx hle
    by_contra hc
    have : n = R + 1 ∨ n = R ∨ n + 1 = R := by omega
    rcases this with h | h | h
    · rw [h] at h1; omega
    · rw [h] at h1; omega
    · rw [← h] at hm; omega
  by_cases hA : (n + 1) % 18 = 0
  · simp only [if_pos hA]
    by_cases hT : (n + 3) % 50 ≥ 48 ∨ (n + 3) % 50 = 0
    · rw [if_pos hT]
      rw [expandStep_set (n + 3) (n + 1) (by omega), expandStep_set (n + 3 + 1) (n + 1) (by omega),
        expandStep_set (n + 3 + 1 + 1) (n + 1) (by omega),
        expandStep_set (n + 3 + 1 + 1 + 1) (n + 1) (by omega),
        expandStep_set (n + 3 + 1 + 1 + 1 + 1) (n + 1) (by omega),
        expandStep_set (n + 3 + 1 + 1 + 1 + 1 + 1) (n + 1) (by omega)]
      simp only []
      refine ⟨by omega, by omega, fun D hD hm hl => by omega, fun R hR hm hl => ?_,
        fun _ => by omega, fun _ => ?_⟩
      · split_ifs <;> omega
      · split_ifs <;> omega
    · rw [if_neg hT]
      simp only []
      refine ⟨by omega, by omega, fun D hD hm hl => by omega,
        fun R hR hm hl => Or.inl (hrob R _ hm hl (le_refl _)),
        fun _ => by omega, fun h => absurd rfl h⟩
  · simp only [if_neg hA]
    by_cases hT : (n + 1) % 50 ≥ 48 ∨ (n + 1) % 50 = 0
    · rw [if_pos hT]
      have i0 : ((n + 1, 0) : Nat × Nat).1 = (n + 1) + 0 +
          (if ((n + 1, 0) : Nat × Nat).2 = 0 then 0 else 2) := by simp
      obtain ⟨s1, e1, a1, b1, c1⟩ := expandStep_inv (n + 1) 0 (n + 1, 0) i0 (fun _ => rfl)
        (fun h => absurd rfl h)
      rw [e1]
      obtain ⟨s2, e2, a2, b2, c2⟩ := expandStep_inv (n + 1) 1 s1 a1 b1 c1
      rw [e2]
      obtain ⟨s3, e3, a3, b3, c3⟩ := expandStep_inv (n + 1) 2 s2 a2 b2 c2
      rw [e3]
      obtain ⟨s4, e4, a4, b4, c4⟩ := expandStep_inv (n + 1) 3 s3 a3 b3 c3
      rw [e4]
      obtain ⟨s5, e5, a5, b5, c5⟩ := expandStep_inv (n + 1) 4 s4 a4 b4 c4
      rw [e5]
      obtain ⟨s6, e6, a6, b6, c6⟩ := expandStep_inv (n + 1) 5 s5 a5 b5 c5
      rw [e6]
      clear e1 e2 e3 e4 e5 e6 a1 a2 a3 a4 a5 b1 b2 b3 b4 b5 c1 c2 c3 c4 c5 i0
      obtain ⟨x, s⟩ := s6
      simp only [] at a6 b6 c6 ⊢
      by_cases hs : s = 0
      · subst hs
        simp only [if_true, forall_const] at a6 b6
        refine ⟨by omega, by omega, fun D hD hm hl => by omega, fun R hR hm hl => ?_,
          fun h => absurd rfl h, fun _ => ?_⟩
        · split_ifs <;> omega
        · split_ifs <;> omega
      · have := c6 hs
        rw [if_neg hs] at a6
        refine ⟨by omega, by omega, fun D hD hm hl => by omega, fun R hR hm hl => ?_,
          fun _ => by omega, fun _ => ?_⟩
        · split_ifs <;> omega
        · split_ifs <;> omega
    · rw [if_neg hT]
      simp only []
      refine ⟨by omega, by omega, fun D hD hm hl => by omega,
        fun R hR hm hl => Or.inl (hrob R _ hm hl (by omega)),
        fun h => absurd rfl h, fun h => absurd rfl h⟩
theorem get_congr_rings (p q : Plot) (h : q.rings = p.rings) (t : Position) :
    q.get t = p.get t := by
  unfold Plot.get Plot.getPtr
  rw [h]

theorem ringLens_congr (p q : Plot) (h : q.rings = p.rings) : q.ringLens = p.ringLens := by
  unfold Plot.ringLens; rw [h]

theorem TilesOk_of_keeps (p q : Plot) (hr : q.rings = p.rings)
    (hl : p.ents.length ≤ q.ents.length)
    (hk : ∀ e, e < p.ents.length → Ent.keeps (p.ent e) (q.ent e)) (h : p.TilesOk) :
    q.TilesOk := by
  intro t e hg
  rw [get_congr_rings p q hr] at hg
  obtain ⟨a, b⟩ := h t e hg
  obtain ⟨k1, k2, k3, _⟩ := hk e a
  exact ⟨by omega, by rw [k1, k2, k3]; exact b⟩

theorem Keeps_refl (p : Plot) : p.Keeps p :=
  ⟨le_refl _, fun _ _ => keeps_refl _, fun _ h => h⟩

theorem Keeps_trans {p q r : Plot} (h1 : p.Keeps q) (h2 : q.Keeps r) : p.Keeps r :=
  ⟨le_trans h1.1 h2.1,
    fun e he => keeps_trans (h1.2.1 e he) (h2.2.1 e (lt_of_lt_of_le he h1.1)),
    fun e he => h2.2.2 e (h1.2.2 e he)⟩

theorem hasAt_keeps {p q : Plot} (h : p.Keeps q) (k : EntityKind) (pos : Position)
    (ha : p.hasAt k pos) : q.hasAt k pos := by
  obtain ⟨e, h1, h2, h3, h4⟩ := ha
  obtain ⟨k1, k2, _⟩ := h.2.1 e h2
  exact ⟨e, h.2.2 e h1, lt_of_lt_of_le h2 h.1, by rw [k1, h3], by rw [k2, h4]⟩

theorem substationAt_keeps {p q : Plot} (h : p.Keeps q) (pos : Position)
    (ha : p.substationAt pos) : q.substationAt pos := by
  rcases ha with ha | ⟨r, h1, h2, h3, h4, h5⟩
  · exact Or.inl (hasAt_keeps h _ _ ha)
  · obtain ⟨k1, k2, _⟩ := h.2.1 r h1
    refine Or.inr ⟨r, lt_of_lt_of_le h1 h.1, by rw [k1, h2], by rw [k2]; exact h3,
      by rw [k2]; exact h4, ?_⟩
    rw [k2]
    split
    · rename_i hc
      rw [if_pos hc] at h5
      exact ⟨hasAt_keeps h _ _ h5.1, hasAt_keeps h _ _ h5.2⟩
    · rename_i hc
      rw [if_neg hc] at h5
      exact ⟨hasAt_keeps h _ _ h5.1, hasAt_keeps h _ _ h5.2⟩

theorem setAll_inrings (v : Option Nat) (l : List Position) (p q : Plot)
    (hp : p.ringLens = (List.range p.rings.length).map (fun k => 8 * k + 4))
    (h : p.setAll v l = .ok q) :
    ∀ t, t ∈ l → t.tile.toRingIdx.toNat < p.rings.length := by
  induction l generalizing p with
  | nil => intro t ht; cases ht
  | cons pos rest ih =>
    simp only [Plot.setAll] at h
    split at h
    · rename_i p1 h1
      have hin : pos.tile.toRingIdx.toNat < p.rings.length := by
        by_contra hc
        unfold Plot.setPtr at h1
        rw [getPtr_eq p hp, if_neg hc] at h1
        cases h1
      obtain ⟨p1', h1', l1, n1, _⟩ := setPtr_full p hp pos v hin
      rw [h1] at h1'
      cases h1'
      intro t ht
      rcases List.mem_cons.1 ht with rfl | ht
      · exact hin
      · rw [← n1]
        exact ih p1 (by rw [l1, n1]; exact hp) h t ht
    · cases h

/-- `Plot.place` that returns: `get` afterwards. -/
theorem place_get (p q : Plot) (e : Nat) (pos : Position) (d : Direction)
    (hp : p.ringLens = (List.range p.rings.length).map (fun k => 8 * k + 4))
    (he : e < p.ents.length) (h : p.place e pos d = .ok q) :
    q.ringLens = p.ringLens ∧ q.rings.length = p.rings.length ∧
    ∀ t, q.get t =
      if t.tile ∈ (p.ent e).kind.footprint pos d then .ok (some e) else p.get t := by
  obtain ⟨p3, h3, r3, k3, x3, d3⟩ := place_eq p e pos d he
  have hb : (p3.ent e).Bounds.positions.map Position.tile = (p.ent e).kind.footprint pos d := by
    rw [Bounds_kind, k3, x3, d3]
    rfl
  have hl3 : p3.ringLens = p.ringLens := ringLens_congr p p3 r3
  rw [h3] at h
  have hin := setAll_inrings _ _ _ _ (by rw [hl3, r3]; exact hp) h
  obtain ⟨q2, h4, l4, n4, e4, f4, g4⟩ := setAll_full (some e) (p3.ent e).Bounds.positions p3
    (by rw [hl3, r3]; exact hp) hin
  rw [h] at h4
  cases h4
  refine ⟨l4.trans hl3, by rw [n4, r3], ?_⟩
  intro t
  rw [g4, hb, get_congr_rings p p3 r3]

/-- `Plot.place` of an entity that lies on no tile. -/
theorem place_inv (p q : Plot) (e : Nat) (pos : Position) (d : Direction)
    (hp : p.ringLens = (List.range p.rings.length).map (fun k => 8 * k + 4))
    (ht : p.TilesOk) (he : e < p.ents.length) (hfree : ∀ t, p.get t ≠ .ok (some e))
    (h : p.place e pos d = .ok q) :
    q.ringLens = p.ringLens ∧ q.rings.length = p.rings.length ∧ q.TilesOk ∧
    q.ents.length = p.ents.length ∧
    (∀ e2, e2 ≠ e → Ent.keeps (p.ent e2) (q.ent e2)) ∧
    (q.ent e).kind = (p.ent e).kind ∧ (q.ent e).Position = pos ∧ (q.ent e).Direction = d ∧
    q.entities = p.entities ++ [e] := by
  obtain ⟨l1, n1, g1⟩ := place_get p q e pos d hp he h
  obtain ⟨he1, hent⟩ := place_ents _ _ _ _ _ h
  have hq : ∀ e2, q.ent e2 = if e = e2 ∧ e2 < (p.Number e).2.ents.length
      then { (p.Number e).2.ent e2 with Position := pos, Direction := d }
      else (p.Number e).2.ent e2 := fun e2 => ent_updAt _ q _ e2 _ he1
  have hkeep : ∀ e2, e2 ≠ e → Ent.keeps (p.ent e2) (q.ent e2) := by
    intro e2 hne
    rw [hq e2, if_neg (fun h => hne h.1.symm)]
    exact Number_keeps p e e2
  have hk := (Number_keeps p e e).1
  have hqe : q.ent e = { (p.Number e).2.ent e with Position := pos, Direction := d } := by
    rw [hq e, if_pos ⟨rfl, by rw [Number_ents_length]; exact he⟩]
  have hkind : (q.ent e).kind = (p.ent e).kind := by rw [hqe]; exact hk
  have hpos : (q.ent e).Position = pos := by rw [hqe]
  have hdir : (q.ent e).Direction = d := by rw [hqe]
  have hlen : q.ents.length = p.ents.length := by
    rw [he1, length_updAt, Number_ents_length]
  refine ⟨l1, n1, ?_, hlen, hkeep, hkind, hpos, hdir, hent⟩
  intro t e2 hg
  rw [g1] at hg
  by_cases hm : t.tile ∈ (p.ent e).kind.footprint pos d
  · rw [if_pos hm] at hg
    injection hg with hg
    injection hg with hg
    subst hg
    exact ⟨by rw [hlen]; exact he, by rw [hkind, hpos, hdir]; exact hm⟩
  · rw [if_neg hm] at hg
    have hne : e2 ≠ e := by
      rintro rfl
      exact hfree t hg
    obtain ⟨a, b⟩ := ht t e2 hg
    obtain ⟨k1, k2, k3, _⟩ := hkeep e2 hne
    exact ⟨by rw [hlen]; exact a, by rw [k1, k2, k3]; exact b⟩

theorem newEnt_ent (p : Plot) (k : EntityKind) (e : Nat) :
    (p.newEnt k).2.ent e =
      if e < p.ents.length then p.ent e else if e = p.ents.length then { kind := k }
      else default := by
  unfold Plot.newEnt Plot.ent
  simp only [List.getD_eq_getElem?_getD]
  by_cases h : e < p.ents.length
  · rw [if_pos h, List.getElem?_append_left h]
  · rw [if_neg h]
    by_cases h2 : e = p.ents.length
    · rw [if_pos h2]; subst h2; simp
    · rw [if_neg h2, List.getElem?_eq_none (by simp; omega)]
      rfl

/-- Allocation and placement of an entity of kind `k`. -/
theorem placeNew_inv (p q : Plot) (k : EntityKind) (pos : Position) (d : Direction)
    (hp : p.ringLens = (List.range p.rings.length).map (fun k => 8 * k + 4))
    (ht : p.TilesOk) (h : (p.newEnt k).2.place p.ents.length pos d = .ok q) :
    q.ringLens = p.ringLens ∧ q.rings.length = p.rings.length ∧ q.TilesOk ∧ p.Keeps q ∧
    q.ents.length = p.ents.length + 1 ∧ (q.ent p.ents.length).kind = k ∧
    (q.ent p.ents.length).Position = pos ∧ q.hasAt k pos := by
  have hr : (p.newEnt k).2.rings = p.rings := rfl
  have hl : (p.newEnt k).2.ents.length = p.ents.length + 1 := by simp [Plot.newEnt]
  have hold : ∀ e, e < p.ents.length → (p.newEnt k).2.ent e = p.ent e := by
    intro e he; rw [newEnt_ent, if_pos he]
  have hnew : (p.newEnt k).2.ent p.ents.length = { kind := k } := by
    rw [newEnt_ent, if_neg (lt_irrefl _), if_pos rfl]
  have ht1 : (p.newEnt k).2.TilesOk :=
    TilesOk_of_keeps p _ hr (by omega) (fun e he => by rw [hold e he]; exact keeps_refl _) ht
  obtain ⟨a1, a2, a3, a4, a5, a6, a7, a8, a9⟩ := place_inv (p.newEnt k).2 q p.ents.length pos d
    (by rw [ringLens_congr p _ hr, hr]; exact hp) ht1 (by omega) (by
      intro t hg
      rw [get_congr_rings p _ hr] at hg
      exact absurd (ht t _ hg).1 (lt_irrefl _)) h
  have hkind : (q.ent p.ents.length).kind = k := by rw [a6, hnew]
  refine ⟨a1.trans (ringLens_congr p _ hr), a2, a3, ⟨by omega, ?_, ?_⟩, by omega, hkind, a7,
    ⟨p.ents.length, ?_, by omega, hkind, a7⟩⟩
  · intro e he
    have := a5 e (by omega)
    rw [hold e he] at this
    exact this
  · intro e he
    rw [a9]
    exact List.mem_append_left _ he
  · rw [a9]
    exact List.mem_append_right _ (List.mem_singleton_self _)
theorem addNeighbor_inv (p : Plot) (s o : Nat)
    (hp : p.ringLens = (List.range p.rings.length).map (fun k => 8 * k + 4)) (ht : p.TilesOk) :
    (p.addNeighbor s o).ringLens = p.ringLens ∧
    (p.addNeighbor s o).rings.length = p.rings.length ∧ (p.addNeighbor s o).TilesOk ∧
    p.Keeps (p.addNeighbor s o) := by
  have hr := addNeighbor_rings p s o
  have hl := addNeighbor_ents_length p s o
  refine ⟨ringLens_congr _ _ hr, by rw [hr],
    TilesOk_of_keeps p _ hr (by omega) (fun e _ => addNeighbor_keeps p s o e) ht,
    by omega, fun e _ => addNeighbor_keeps p s o e, fun e he => ?_⟩
  rw [addNeighbor_entities]; exact he

theorem addNeighbors_inv (ns : List Nat) (p : Plot) (s : Nat)
    (hp : p.ringLens = (List.range p.rings.length).map (fun k => 8 * k + 4)) (ht : p.TilesOk) :
    (p.addNeighbors s ns).ringLens = p.ringLens ∧
    (p.addNeighbors s ns).rings.length = p.rings.length ∧ (p.addNeighbors s ns).TilesOk ∧
    p.Keeps (p.addNeighbors s ns) := by
  induction ns generalizing p with
  | nil => exact ⟨rfl, rfl, ht, Keeps_refl p⟩
  | cons n rest ih =>
    obtain ⟨a1, a2, a3, a4⟩ := addNeighbor_inv p s n hp ht
    obtain ⟨b1, b2, b3, b4⟩ := ih (p.addNeighbor s n) (by rw [a1, a2]; exact hp) a3
    exact ⟨b1.trans a1, b2.trans a2, b3, Keeps_trans a4 b4⟩

theorem placeRoboport_inv (p q : Plot) (pos : Position)
    (hp : p.ringLens = (List.range p.rings.length).map (fun k => 8 * k + 4)) (ht : p.TilesOk)
    (h : p.placeRoboport pos = .ok q) :
    q.ringLens = p.ringLens ∧ q.rings.length = p.rings.length ∧ q.TilesOk ∧ p.Keeps q ∧
    q.hasAt .roboport pos := by
  have hr0 : (p.newEnt .roboport).2.rings = p.rings := rfl
  have hr : ((p.newEnt .roboport).2.Number p.ents.length).2.rings = p.rings := by
    rw [Number_rings, hr0]
  have hl0 : (p.newEnt .roboport).2.ents.length = p.ents.length + 1 := by simp [Plot.newEnt]
  have hl : ((p.newEnt .roboport).2.Number p.ents.length).2.ents.length = p.ents.length + 1 := by
    rw [Number_ents_length, hl0]
  have hk : ∀ e, Ent.keeps ((p.newEnt .roboport).2.ent e)
      (((p.newEnt .roboport).2.Number p.ents.length).2.ent e) :=
    fun e => Number_keeps _ _ e
  have hold : ∀ e, e < p.ents.length → (p.newEnt .roboport).2.ent e = p.ent e := by
    intro e he; rw [newEnt_ent, if_pos he]
  have hnew : (p.newEnt .roboport).2.ent p.ents.length = { kind := .roboport } := by
    rw [newEnt_ent, if_neg (lt_irrefl _), if_pos rfl]
  have ht2 : ((p.newEnt .roboport).2.Number p.ents.length).2.TilesOk :=
    TilesOk_of_keeps p _ hr (by omega) (fun e he => by
      have := hk e
      rw [hold e he] at this
      exact this) ht
  have h2 : ((p.newEnt .roboport).2.Number p.ents.length).2.place p.ents.length pos
      DirectionDefault = .ok q := h
  obtain ⟨a1, a2, a3, a4, a5, a6, a7, a8, a9⟩ := place_inv _ q p.ents.length pos DirectionDefault
    (by rw [ringLens_congr p _ hr, hr]; exact hp) ht2 (by omega) (by
      intro t hg
      rw [get_congr_rings p _ hr] at hg
      exact absurd (ht t _ hg).1 (lt_irrefl _)) h2
  have hkind : (q.ent p.ents.length).kind = .roboport := by
    rw [a6, (hk _).1, hnew]
  have hent : q.entities = p.entities ++ [p.ents.length] := by
    rw [a9, Number_entities]
    rfl
  refine ⟨a1.trans (ringLens_congr p _ hr), by rw [a2, hr], a3, ⟨by omega, ?_, ?_⟩,
    ⟨p.ents.length, ?_, by omega, hkind, a7⟩⟩
  · intro e he
    have k1 := hk e
    rw [hold e he] at k1
    exact keeps_trans k1 (a5 e (by omega))
  · intro e he
    rw [hent]
    exact List.mem_append_left _ he
  · rw [hent]
    exact List.mem_append_right _ (List.mem_singleton_self _)

theorem placeIrregularSubstation_inv (p q : Plot) (a o : Position) (v i : Bool) (s : Nat)
    (hp : p.ringLens = (List.range p.rings.length).map (fun k => 8 * k + 4)) (ht : p.TilesOk)
    (h : p.placeIrregularSubstation a o v i = .ok (s, q)) :
    q.ringLens = p.ringLens ∧ q.rings.length = p.rings.length ∧ q.TilesOk ∧ p.Keeps q ∧
    q.hasAt .substation a := by
  unfold Plot.placeIrregularSubstation at h
  dsimp only [Plot.newEnt] at h
  obtain ⟨p1, h1, h⟩ := bind_ok _ _ _ h
  obtain ⟨nb, _, h⟩ := bind_ok _ _ _ h
  obtain ⟨f1, f2, f3, f4, f5, f6, f7, f8⟩ := placeNew_inv p p1 .substation a DirectionDefault hp ht h1
  cases nb with
  | none => cases h; exact ⟨f1, f2, f3, f4, f8⟩
  | some n =>
    cases h
    obtain ⟨a1, a2, a3, a4⟩ := addNeighbor_inv p1 p.ents.length n (by rw [f1, f2]; exact hp) f3
    exact ⟨a1.trans f1, a2.trans f2, a3, Keeps_trans f4 a4, hasAt_keeps a4 _ _ f8⟩

theorem probeColumn_some (p : Plot) (col : List Position) (acc : Option Nat) (r : Nat)
    (h : p.probeColumn col acc = .ok (some r)) :
    acc = some r ∨ ∃ t, t ∈ col ∧ p.get t = .ok (some r) ∧ (p.ent r).kind = .roboport := by
  induction col with
  | nil => left; cases h; rfl
  | cons pos rest ih =>
    simp only [Plot.probeColumn] at h
    split at h
    · cases h
    · rcases ih h with h1 | ⟨t, h1, h2, h3⟩
      · exact Or.inl h1
      · exact Or.inr ⟨t, List.mem_cons_of_mem _ h1, h2, h3⟩
    · rename_i e hg
      split at h
      · rename_i hk
        cases h
        exact Or.inr ⟨pos, List.mem_cons_self _ _, hg, hk⟩
      · cases h

theorem probeColumns_some (p : Plot) (cols : List (List Position)) (acc : Option Nat) (r : Nat)
    (h : p.probeColumns cols acc = .ok (some r)) :
    acc = some r ∨ ∃ t, t ∈ cols.flatten ∧ p.get t = .ok (some r) ∧
      (p.ent r).kind = .roboport := by
  induction cols generalizing acc with
  | nil => left; cases h; rfl
  | cons col rest ih =>
    simp only [Plot.probeColumns] at h
    split at h
    · rename_i r1 h1
      rcases ih r1 h with h2 | ⟨t, h2, h3, h4⟩
      · subst h2
        rcases probeColumn_some p col acc r h1 with h5 | ⟨t, h5, h6, h7⟩
        · exact Or.inl h5
        · exact Or.inr ⟨t, by rw [List.flatten_cons]; exact List.mem_append_left _ h5, h6, h7⟩
      · exact Or.inr ⟨t, by rw [List.flatten_cons]; exact List.mem_append_right _ h2, h3, h4⟩
    · cases h

theorem coordRange_bounds (lo hi v : Int) (h : v ∈ coordRange lo hi) : lo ≤ v ∧ v < hi := by
  rw [coordRange_eq, List.mem_map] at h
  obtain ⟨i, hi2, rfl⟩ := h
  rw [List.mem_range] at hi2
  omega

theorem mem_positions (b : Bounds) (t : Position) (h : t ∈ b.positions) :
    b.BL.X + 1 ≤ t.X ∧ t.X < b.TR.X ∧ b.BL.Y + 1 ≤ t.Y ∧ t.Y < b.TR.Y := by
  rw [positions_product, List.mem_map] at h
  obtain ⟨⟨x, y⟩, hm, rfl⟩ := h
  have hm2 := List.pair_mem_product.1 hm
  obtain ⟨a1, a2⟩ := coordRange_bounds _ _ _ hm2.1
  obtain ⟨b1, b2⟩ := coordRange_bounds _ _ _ hm2.2
  exact ⟨a1, a2, b1, b2⟩

theorem tile_bounds (t : Position) :
    t.X ≤ t.tile.X ∧ t.tile.X ≤ t.X + 1 ∧ t.Y ≤ t.tile.Y ∧ t.tile.Y ≤ t.Y + 1 := by
  unfold Position.tile
  dsimp only
  refine ⟨?_, ?_, ?_, ?_⟩ <;> split <;> omega

/-- A tile of the 2×2 footprint at `pos` that lies under a roboport: the
roboport stands less than three tiles from `pos` on both axes. -/
theorem probe_near (pos rp t : Position) (d : Direction)
    (ht : t ∈ (pos.getBounds 2 2).positions)
    (hm : t.tile ∈ EntityKind.footprint .roboport rp d) :
    absI (rp.X - pos.X) < 6 ∧ absI (rp.Y - pos.Y) < 6 := by
  have h1 := mem_positions _ _ ht
  unfold EntityKind.footprint at hm
  rw [List.mem_map] at hm
  obtain ⟨u, hu, hut⟩ := hm
  have h2 := mem_positions _ _ hu
  have h3 := tile_bounds t
  have h4 := tile_bounds u
  rw [hut] at h4
  simp only [Position.getBounds, Ent.Bounds] at h1 h2
  unfold absI
  constructor <;> split <;> omega
theorem irregularPair_inv (p q : Plot) (pos a1 a2 : Position) (v : Bool)
    (hp : p.ringLens = (List.range p.rings.length).map (fun k => 8 * k + 4)) (ht : p.TilesOk)
    (h : (do
          let (s1, p) ← p.placeIrregularSubstation a1 pos v true
          let (s2, p) ← p.placeIrregularSubstation a2 pos v false
          pure (p.addNeighbor s1 s2)) = Except.ok q) :
    q.ringLens = p.ringLens ∧ q.rings.length = p.rings.length ∧ q.TilesOk ∧ p.Keeps q ∧
    q.hasAt .substation a1 ∧ q.hasAt .substation a2 := by
  obtain ⟨⟨s1, p1⟩, h1, h⟩ := bind_ok _ _ _ h
  dsimp only at h
  obtain ⟨⟨s2, p2⟩, h2, h⟩ := bind_ok _ _ _ h
  cases h
  obtain ⟨b1, b2, b3, b4, b5⟩ := placeIrregularSubstation_inv _ _ _ _ _ _ _ hp ht h1
  obtain ⟨c1, c2, c3, c4, c5⟩ := placeIrregularSubstation_inv _ _ _ _ _ _ _
    (by rw [b1, b2]; exact hp) b3 h2
  obtain ⟨d1, d2, d3, d4⟩ := addNeighbor_inv p2 s1 s2 (by rw [c1, c2, b1, b2]; exact hp) c3
  exact ⟨d1.trans (c1.trans b1), d2.trans (c2.trans b2), d3,
    Keeps_trans b4 (Keeps_trans c4 d4), hasAt_keeps (Keeps_trans c4 d4) _ _ b5,
    hasAt_keeps d4 _ _ c5⟩

/-- The callback of `expand` for one substation position. -/
theorem placeSubstation_inv (p q : Plot) (pos : Position)
    (hp : p.ringLens = (List.range p.rings.length).map (fun k => 8 * k + 4)) (ht : p.TilesOk)
    (h : p.placeSubstation pos = .ok q) :
    q.ringLens = p.ringLens ∧ q.rings.length = p.rings.length ∧ q.TilesOk ∧ p.Keeps q ∧
    q.substationAt pos := by
  unfold Plot.placeSubstation at h
  obtain ⟨rb, hrb, h⟩ := bind_ok _ _ _ h
  cases rb with
  | some r =>
    dsimp only at h
    rcases probeColumns_some p _ none r hrb with h0 | ⟨t, h1, h2, h3⟩
    · cases h0
    · obtain ⟨rlt, rfp⟩ := ht t r h2
      rw [h3] at rfp
      have near := probe_near pos (p.ent r).Position t (p.ent r).Direction h1 rfp
      split at h
      · rename_i hc
        obtain ⟨e1, e2, e3, e4, e5, e6⟩ := irregularPair_inv p q pos _ _ _ hp ht h
        obtain ⟨k1, k2, _⟩ := e4.2.1 r rlt
        refine ⟨e1, e2, e3, e4, Or.inr ⟨r, lt_of_lt_of_le rlt e4.1, by rw [k1, h3],
          by rw [k2]; exact near.1, by rw [k2]; exact near.2, ?_⟩⟩
        rw [if_pos hc, k2]
        exact ⟨e5, e6⟩
      · rename_i hc
        obtain ⟨e1, e2, e3, e4, e5, e6⟩ := irregularPair_inv p q pos _ _ _ hp ht h
        obtain ⟨k1, k2, _⟩ := e4.2.1 r rlt
        refine ⟨e1, e2, e3, e4, Or.inr ⟨r, lt_of_lt_of_le rlt e4.1, by rw [k1, h3],
          by rw [k2]; exact near.1, by rw [k2]; exact near.2, ?_⟩⟩
        rw [if_neg hc, k2]
        exact ⟨e5, e6⟩
  | none =>
    dsimp only [Plot.newEnt] at h
    obtain ⟨p1, h1, h⟩ := bind_ok _ _ _ h
    obtain ⟨ns, h2, h⟩ := bind_ok _ _ _ h
    cases h
    obtain ⟨f1, f2, f3, f4, f5, f6, f7, f8⟩ :=
      placeNew_inv p p1 .substation pos DirectionDefault hp ht h1
    obtain ⟨a1, a2, a3, a4⟩ := addNeighbors_inv ns p1 p.ents.length (by rw [f1, f2]; exact hp) f3
    exact ⟨a1.trans f1, a2.trans f2, a3, Keeps_trans f4 a4, Or.inl (hasAt_keeps a4 _ _ f8)⟩

theorem placeSubstations_inv (l : List Position) (p q : Plot)
    (hp : p.ringLens = (List.range p.rings.length).map (fun k => 8 * k + 4)) (ht : p.TilesOk)
    (h : p.placeSubstations l = .ok q) :
    q.ringLens = p.ringLens ∧ q.rings.length = p.rings.length ∧ q.TilesOk ∧ p.Keeps q ∧
    ∀ pos, pos ∈ l → q.substationAt pos := by
  induction l generalizing p with
  | nil => cases h; exact ⟨rfl, rfl, ht, Keeps_refl _, fun _ hm => by cases hm⟩
  | cons pos rest ih =>
    simp only [Plot.placeSubstations] at h
    split at h
    · rename_i p1 h1
      obtain ⟨a1, a2, a3, a4, a5⟩ := placeSubstation_inv p p1 pos hp ht h1
      obtain ⟨b1, b2, b3, b4, b5⟩ := ih p1 (by rw [a1, a2]; exact hp) a3 h
      refine ⟨b1.trans a1, b2.trans a2, b3, Keeps_trans a4 b4, ?_⟩
      intro x hx
      rcases List.mem_cons.1 hx with rfl | hx
      · exact substationAt_keeps b4 _ a5
      · exact b5 x hx
    · cases h

theorem placeRoboports_inv (l : List Position) (p q : Plot)
    (hp : p.ringLens = (List.range p.rings.length).map (fun k => 8 * k + 4)) (ht : p.TilesOk)
    (h : p.placeRoboports l = .ok q) :
    q.ringLens = p.ringLens ∧ q.rings.length = p.rings.length ∧ q.TilesOk ∧ p.Keeps q ∧
    ∀ pos, pos ∈ l → q.hasAt .roboport pos := by
  induction l generalizing p with
  | nil => cases h; exact ⟨rfl, rfl, ht, Keeps_refl _, fun _ hm => by cases hm⟩
  | cons pos rest ih =>
    rw [placeRoboports_cons] at h
    split at h
    · rename_i p1 h1
      obtain ⟨a1, a2, a3, a4, a5⟩ := placeRoboport_inv p p1 pos hp ht h1
      obtain ⟨b1, b2, b3, b4, b5⟩ := ih p1 (by rw [a1, a2]; exact hp) a3 h
      refine ⟨b1.trans a1, b2.trans a2, b3, Keeps_trans a4 b4, ?_⟩
      intro x hx
      rcases List.mem_cons.1 hx with rfl | hx
      · exact hasAt_keeps b4 _ _ a5
      · exact b5 x hx
    · cases h

theorem getD_replicate_none (n i : Nat) :
    (List.replicate n (none : Option Nat)).getD i none = none := by
  rw [List.getD_eq_getElem?_getD, List.getElem?_replicate]
  split <;> rfl

/-- New empty rings around a plot. -/
theorem extend_inv (p p1 : Plot) (k : Nat)
    (hp : p.ringLens = (List.range p.rings.length).map (fun k => 8 * k + 4)) (ht : p.TilesOk)
    (hr : p1.rings = p.rings ++ (List.range k).map
      (fun i => List.replicate ((p.rings.length + i) * 8 + 4) (none : Option Nat)))
    (he : p1.ents = p.ents) :
    p1.ringLens = (List.range p1.rings.length).map (fun k => 8 * k + 4) ∧
    p1.rings.length = p.rings.length + k ∧ p1.TilesOk := by
  have hlen : p1.rings.length = p.rings.length + k := by
    rw [hr]; simp
  have hl : p1.ringLens = (List.range p1.rings.length).map (fun k => 8 * k + 4) := by
    rw [hlen, List.range_add, List.map_append]
    unfold Plot.ringLens at hp ⊢
    rw [hr, List.map_append, hp]
    congr 1
    simp only [List.map_map]
    apply List.map_congr_left
    intro i _
    simp only [Function.comp, List.length_replicate]
    omega
  refine ⟨hl, hlen, ?_⟩
  intro t e hg
  rw [get_eq p1 hl] at hg
  by_cases hin : t.tile.toRingIdx.toNat < p.rings.length
  · rw [if_pos (by omega)] at hg
    have hsame : p1.rings.getD t.tile.toRingIdx.toNat [] = p.rings.getD t.tile.toRingIdx.toNat [] := by
      rw [hr, List.getD_eq_getElem?_getD, List.getElem?_append_left hin,
        ← List.getD_eq_getElem?_getD]
    rw [hsame] at hg
    have hg2 : p.get t = .ok (some e) := by
      rw [get_eq p hp, if_pos hin]; exact hg
    obtain ⟨a, b⟩ := ht t e hg2
    have : p1.ent e = p.ent e := by unfold Plot.ent; rw [he]
    exact ⟨by rw [he]; exact a, by rw [this]; exact b⟩
  · exfalso
    by_cases hin2 : t.tile.toRingIdx.toNat < p1.rings.length
    · rw [if_pos hin2] at hg
      have hnew : p1.rings.getD t.tile.toRingIdx.toNat [] =
          List.replicate ((p.rings.length + (t.tile.toRingIdx.toNat - p.rings.length)) * 8 + 4)
            none := by
        rw [hr, List.getD_eq_getElem?_getD, List.getElem?_append_right (by omega),
          List.getElem?_map, List.getElem?_range (by omega)]
        rfl
      rw [hnew, getD_replicate_none] at hg
      cases hg
    · rw [if_neg hin2] at hg
      cases hg
/-- One call of `expand` on a plot whose lattice is complete. -/
theorem expand_inv (p q : Plot)
    (hp : p.ringLens = (List.range p.rings.length).map (fun k => 8 * k + 4)) (ht : p.TilesOk)
    (hlen : lenOk p.rings.length) (hlat : p.latticeOk) (h : p.expand = .ok q) :
    q.ringLens = (List.range q.rings.length).map (fun k => 8 * k + 4) ∧ q.TilesOk ∧
    lenOk q.rings.length ∧ q.latticeOk ∧ p.Keeps q := by
  obtain ⟨a1, a2, a3, a4, a5, a6⟩ := expandPlan_lattice p.rings.length hlen
  unfold Plot.expand at h
  dsimp only at h
  rcases hplan : expandPlan p.rings.length with ⟨nl, sd, rd⟩
  rw [hplan] at h a1 a2 a3 a4 a5 a6
  dsimp only at h a1 a2 a3 a4 a5 a6
  have phase2 : ∀ p1 : Plot,
      p1.ringLens = (List.range p1.rings.length).map (fun k => 8 * k + 4) →
      p1.rings.length = nl → p1.TilesOk → p.Keeps p1 →
      (rd ≠ 0 → ∀ pos, pos ∈ iterateEdges (2 * (rd : Int)) 100 → p1.hasAt .roboport pos) →
      (if sd ≠ 0 then p1.placeSubstations (iterateEdges (2 * (sd : Int)) 36) else pure p1)
        = Except.ok q →
      q.ringLens = (List.range q.rings.length).map (fun k => 8 * k + 4) ∧ q.TilesOk ∧
      lenOk q.rings.length ∧ q.latticeOk ∧ p.Keeps q := by
    intro p1 x1 x2 x3 x4 x5 h2
    have fin : ∀ q1 : Plot,
        q1.ringLens = (List.range q1.rings.length).map (fun k => 8 * k + 4) →
        q1.rings.length = nl → q1.TilesOk → p1.Keeps q1 →
        (sd ≠ 0 → ∀ pos, pos ∈ iterateEdges (2 * (sd : Int)) 36 → q1.substationAt pos) →
        q1.ringLens = (List.range q1.rings.length).map (fun k => 8 * k + 4) ∧ q1.TilesOk ∧
        lenOk q1.rings.length ∧ q1.latticeOk ∧ p.Keeps q1 := by
      intro q1 y1 y2 y3 y4 y5
      have kq := Keeps_trans x4 y4
      refine ⟨y1, y3, by rw [y2]; exact a1, ⟨?_, ?_⟩, kq⟩
      · intro D hD hm hl pos hpos
        rw [y2] at hl
        rcases a3 D hD hm hl with hlt | heq
        · exact substationAt_keeps kq _ (hlat.1 D hD hm hlt pos hpos)
        · subst heq
          exact y5 (by omega) pos hpos
      · intro R hR hm hl pos hpos
        rw [y2] at hl
        rcases a4 R hR hm hl with hlt | heq
        · exact hasAt_keeps kq _ _ (hlat.2 R hR hm hlt pos hpos)
        · subst heq
          exact hasAt_keeps y4 _ _ (x5 (by omega) pos hpos)
    split at h2
    · rename_i hs
      obtain ⟨b1, b2, b3, b4, b5⟩ := placeSubstations_inv _ p1 q x1 x3 h2
      exact fin q (by rw [b1, b2]; exact x1) (b2.trans x2) b3 b4 (fun _ => b5)
    · rename_i hs
      cases h2
      exact fin _ x1 x2 x3 (Keeps_refl _) (fun h => absurd h hs)
  obtain ⟨e1, e2, e3⟩ := extend_inv p
    { p with rings := (p.rings ++ (List.range (nl - p.rings.length)).map
        (fun i => List.replicate ((p.rings.length + i) * 8 + 4) (none : Option Nat))) }
    (nl - p.rings.length) hp ht rfl rfl
  have e2' : ({ p with rings := (p.rings ++ (List.range (nl - p.rings.length)).map
        (fun i => List.replicate ((p.rings.length + i) * 8 + 4) (none : Option Nat))) }
        : Plot).rings.length = nl := by
    rw [e2]; omega
  have ek : p.Keeps { p with rings := (p.rings ++ (List.range (nl - p.rings.length)).map
        (fun i => List.replicate ((p.rings.length + i) * 8 + 4) (none : Option Nat))) } :=
    ⟨le_refl _, fun _ _ => keeps_refl _, fun _ h => h⟩
  split at h
  · rename_i hr
    obtain ⟨p1, h1, h⟩ := bind_ok _ _ _ h
    obtain ⟨r1, r2, r3, r4, r5⟩ := placeRoboports_inv _ _ p1 e1 e3 h1
    exact phase2 p1 (by rw [r1, r2]; exact e1) (r2.trans e2') r3 (Keeps_trans ek r4)
      (fun _ => r5) h
  · rename_i hr
    obtain ⟨p1, h1, h⟩ := bind_ok _ _ _ h
    cases h1
    exact phase2 _ e1 e2' e3 ek (fun h => absurd h hr) h

theorem expandRun_inv (n : Nat) (p q : Plot)
    (hp : p.ringLens = (List.range p.rings.length).map (fun k => 8 * k + 4)) (ht : p.TilesOk)
    (hlen : lenOk p.rings.length) (hlat : p.latticeOk)
    (h : p.run (List.replicate n .expand) = .ok q) :
    q.ringLens = (List.range q.rings.length).map (fun k => 8 * k + 4) ∧ q.TilesOk ∧
    lenOk q.rings.length ∧ q.latticeOk ∧ p.Keeps q := by
  induction n generalizing p with
  | zero => cases h; exact ⟨hp, ht, hlen, hlat, Keeps_refl _⟩
  | succ n ih =>
    rw [List.replicate_succ] at h
    simp only [Plot.run, Plot.step] at h
    split at h
    · rename_i p1 h1
      obtain ⟨a1, a2, a3, a4, a5⟩ := expand_inv p p1 hp ht hlen hlat h1
      obtain ⟨b1, b2, b3, b4, b5⟩ := ih p1 a1 a2 a3 a4 h
      exact ⟨b1, b2, b3, b4, Keeps_trans a5 b5⟩
    · cases h
/-- The plot `plan` sets up: its rings have the lengths 4, 12, ..., there are
five of them, and every occupied tile lies under its entity. -/
theorem setup_inv (p0 p : Planner) (h : p0.setup = .ok p) :
    p.toPlot.ringLens = (List.range p.toPlot.rings.length).map (fun k => 8 * k + 4) ∧
    p.toPlot.TilesOk ∧ p.toPlot.rings.length = 5 := by
  unfold Planner.setup at h
  dsimp only [Plot.newEnt] at h
  obtain ⟨p1, h1, h⟩ := bind_ok _ _ _ h
  obtain ⟨⟨s1, p2⟩, h2, h⟩ := bind_ok _ _ _ h
  dsimp only at h
  obtain ⟨⟨s2, p3⟩, h3, h⟩ := bind_ok _ _ _ h
  cases h
  have hp0 : ({ ents := p0.ents, entityNumber := p0.entityNumber } : Plot).ringLens =
      (List.range ({ ents := p0.ents, entityNumber := p0.entityNumber } : Plot).rings.length).map
        (fun k => 8 * k + 4) := rfl
  have ht0 : ({ ents := p0.ents, entityNumber := p0.entityNumber } : Plot).TilesOk := by
    intro t e hg
    rw [get_eq _ hp0] at hg
    split at hg
    · rename_i hc
      exact absurd hc (Nat.not_lt_zero _)
    · cases hg
  obtain ⟨e1, e2, e3⟩ := extend_inv ({ ents := p0.ents, entityNumber := p0.entityNumber } : Plot)
    { rings := (List.range 5).map (fun i => List.replicate (4 + i * 8) (none : Option Nat))
      entities := [], ents := p0.ents, entityNumber := p0.entityNumber } 5 hp0 ht0 rfl rfl
  obtain ⟨a1, a2, a3, a4, -⟩ := placeNew_inv _ p1 .roboport ⟨0, 0⟩ DirectionDefault e1 e3 h1
  obtain ⟨b1, b2, b3, b4, -⟩ := placeIrregularSubstation_inv _ _ _ _ _ _ _
    (by rw [a1, a2]; exact e1) a3 h2
  obtain ⟨c1, c2, c3, c4, -⟩ := placeIrregularSubstation_inv _ _ _ _ _ _ _
    (by rw [b1, b2, a1, a2]; exact e1) b3 h3
  obtain ⟨d1, d2, d3, -⟩ := addNeighbor_inv p3 s1 s2
    (by rw [c1, c2, b1, b2, a1, a2]; exact e1) c3
  refine ⟨?_, d3, ?_⟩
  · show (p3.addNeighbor s1 s2).ringLens =
      (List.range (p3.addNeighbor s1 s2).rings.length).map (fun k => 8 * k + 4)
    rw [d1, d2, c1, c2, b1, b2, a1, a2]; exact e1
  · show (p3.addNeighbor s1 s2).rings.length = 5
    rw [d2, c2, b2, a2, e2]
    rfl

theorem run_orEmpty (p : Plot) (ops : List PlotOp)
    (h : (p.run ops).toOption.isSome = true) : p.run ops = .ok (Plot.orEmpty (p.run ops)) := by
  cases hr : p.run ops with
  | ok q => rfl
  | error m => rw [hr] at h; cases h

/-- C22: starting from the plot `plan` sets up (5 rings), after any number
of `Plot.expand` calls that return, no lattice ring has been skipped.  For
every positive multiple `D` of 18 with `D < len(rings)` every position of the
square of radius `D` at 18-tile spacing (`iterateEdges(D, 18)`) has its
substation: a substation of the placement vector stands there, or a roboport
stands less than three tiles away on both axes and two substations stand at
the roboport's centre ± 3 tiles along the edge.  For every positive multiple
`R` of 50 with `R + 1 < len(rings)` a roboport of the placement vector stands
at every position of the square of radius `R` at 50-tile spacing. -/
theorem C22_lattice_complete (n : Nat) (q : Plot)
    (h : hubPlot.run (List.replicate n .expand) = .ok q) :
    (∀ D : Nat, 0 < D → D % 18 = 0 → D < q.rings.length →
      ∀ pos, pos ∈ iterateEdges (2 * (D : Int)) 36 → q.substationAt pos) ∧
    (∀ R : Nat, 0 < R → R % 50 = 0 → R + 1 < q.rings.length →
      ∀ pos, pos ∈ iterateEdges (2 * (R : Int)) 100 → q.hasAt .roboport pos) := by
  have hs : ({} : Planner).setup = .ok setupPlanner := rfl
  obtain ⟨a1, a2, a3⟩ := setup_inv {} setupPlanner hs
  have hl : lenOk hubPlot.rings.length := by
    show lenOk setupPlanner.toPlot.rings.length
    rw [a3]
    unfold lenOk
    omega
  have hlat : hubPlot.latticeOk := by
    constructor
    · intro D hD hm hlt
      have : hubPlot.rings.length = 5 := a3
      omega
    · intro R hR hm hlt
      have : hubPlot.rings.length = 5 := a3
      omega
  exact (expandRun_inv n hubPlot q a1 a2 hl hlat h).2.2.2.1

/-- C22 after 13 calls of `expand`: the plot has 20 rings and the square of
substations of radius 18 is there. -/
theorem C22_lattice_complete_witness :
    hubPlot.run (List.replicate 13 .expand) =
      .ok (Plot.orEmpty (hubPlot.run (List.replicate 13 .expand))) ∧
    (Plot.orEmpty (hubPlot.run (List.replicate 13 .expand))).rings.length = 20 ∧
    ((∀ D : Nat, 0 < D → D % 18 = 0 →
        D < (Plot.orEmpty (hubPlot.run (List.replicate 13 .expand))).rings.length →
      ∀ pos, pos ∈ iterateEdges (2 * (D : Int)) 36 →
        (Plot.orEmpty (hubPlot.run (List.replicate 13 .expand))).substationAt pos) ∧
    (∀ R : Nat, 0 < R → R % 50 = 0 →
        R + 1 < (Plot.orEmpty (hubPlot.run (List.replicate 13 .expand))).rings.length →
      ∀ pos, pos ∈ iterateEdges (2 * (R : Int)) 100 →
        (Plot.orEmpty (hubPlot.run (List.replicate 13 .expand))).hasAt .roboport pos)) :=
  ⟨run_orEmpty _ _ (by decide!), by decide!,
    C22_lattice_complete 13 _ (run_orEmpty _ _ (by decide!))⟩

/-! ## Substation placement -/

theorem columns22 (n : Position) :
    (n.getBounds 2 2).columns =
      [[⟨n.X - 1, n.Y - 1⟩, ⟨n.X - 1, n.Y + 1⟩], [⟨n.X + 1, n.Y - 1⟩, ⟨n.X + 1, n.Y + 1⟩]] := by
  unfold Bounds.columns Position.getBounds
  simp only [coordRange_eq]
  have e : ∀ x : Int, ((x + 2 - (x - 2 + 1) + 1) / 2).toNat = 2 := by
    intro x
    have : (x + 2 - (x - 2 + 1) + 1) / 2 = 2 := by omega
    rw [this]; rfl
  rw [e, e]
  have r2 : List.range 2 = [0, 1] := rfl
  simp only [r2, List.map_cons, List.map_nil]
  have a1 : ∀ x : Int, x - 2 + 1 + 2 * ((0 : Nat) : Int) = x - 1 := by intro x; omega
  have a2 : ∀ x : Int, x - 2 + 1 + 2 * ((1 : Nat) : Int) = x + 1 := by intro x; omega
  rw [a1, a2, a1, a2]

/-- `getSubstation` finds the substation that stands at the probed position
when it can connect to `from_`. -/
theorem getSubstation_at (p : Plot) (n from_ : Position) (s : Nat)
    (hk : (p.ent s).kind = .substation) (hc : canConnectTo (p.ent s).Position from_ = true)
    (hg : ∀ t, t ∈ (n.getBounds 2 2).positions → p.get t = .ok (some s)) :
    p.getSubstation n from_ = .ok (some s) := by
  have htile : ∀ t, t ∈ (n.getBounds 2 2).positions → ∀ sub,
      p.getSubstationTile n from_ t sub = .ok (some s, true) := by
    intro t ht sub
    unfold Plot.getSubstationTile
    rw [hg t ht]
    dsimp only
    rw [hk]
    dsimp only
    rw [hc]
    rfl
  have m1 : (⟨n.X - 1, n.Y - 1⟩ : Position) ∈ (n.getBounds 2 2).positions := by
    unfold Bounds.positions; rw [columns22]; simp
  have m2 : (⟨n.X + 1, n.Y - 1⟩ : Position) ∈ (n.getBounds 2 2).positions := by
    unfold Bounds.positions; rw [columns22]; simp
  unfold Plot.getSubstation
  rw [columns22]
  simp only [Plot.getSubstationColumns, Plot.getSubstationColumn, htile _ m1, htile _ m2]

/-- The tiles of a 2×2 footprint eight half tiles or more from `pos` on one
axis are not under a substation at `pos`. -/
theorem far_tiles (pos n t : Position) (d : Direction)
    (hfar : 8 ≤ absI (n.X - pos.X) ∨ 8 ≤ absI (n.Y - pos.Y))
    (ht : t ∈ (n.getBounds 2 2).positions) :
    t.tile ∉ EntityKind.footprint .substation pos d := by
  intro hm
  have h1 := mem_positions _ _ ht
  unfold EntityKind.footprint at hm
  rw [List.mem_map] at hm
  obtain ⟨u, hu, hut⟩ := hm
  have h2 := mem_positions _ _ hu
  have h3 := tile_bounds t
  have h4 := tile_bounds u
  rw [hut] at h4
  simp only [Position.getBounds, Ent.Bounds] at h1 h2
  unfold absI at hfar
  rcases hfar with hf | hf <;> split at hf <;> omega

theorem canConnectTo_shift (pos npos : Position)
    (hn : npos ∈ [pos.shiftX 36, pos.shiftX (-36), pos.shiftY 36, pos.shiftY (-36)]) :
    canConnectTo npos pos = true ∧ (8 ≤ absI (npos.X - pos.X) ∨ 8 ≤ absI (npos.Y - pos.Y)) := by
  simp only [List.mem_cons, List.mem_singleton, List.not_mem_nil, or_false] at hn
  unfold canConnectTo absI
  rcases hn with rfl | rfl | rfl | rfl <;>
    simp only [Position.shiftX, Position.shiftY] <;>
    refine ⟨?_, ?_⟩
  · rw [if_pos trivial, if_neg (by omega)]; simp only [decide_eq_true_eq]; split <;> omega
  · left; split <;> omega
  · rw [if_pos trivial, if_neg (by omega)]; simp only [decide_eq_true_eq]; split <;> omega
  · left; split <;> omega
  · rw [if_pos trivial]; simp only [decide_eq_true_eq]; split <;> omega
  · right; split <;> omega
  · rw [if_pos trivial]; simp only [decide_eq_true_eq]; split <;> omega
  · right; split <;> omega

/-- The list `getAdjacentSubstation` returns holds what `getSubstation` finds
at each of the four positions 18 tiles away. -/
theorem getAdjacentSubstation_mem (p : Plot) (pos npos : Position) (ns : List Nat) (s : Nat)
    (h : p.getAdjacentSubstation pos = .ok ns)
    (hn : npos ∈ [pos.shiftX 36, pos.shiftX (-36), pos.shiftY 36, pos.shiftY (-36)])
    (hs : p.getSubstation npos pos = .ok (some s)) : s ∈ ns := by
  unfold Plot.getAdjacentSubstation at h
  obtain ⟨a, ha, h⟩ := bind_ok _ _ _ h
  obtain ⟨b, hb, h⟩ := bind_ok _ _ _ h
  obtain ⟨c, hc, h⟩ := bind_ok _ _ _ h
  obtain ⟨d, hd, h⟩ := bind_ok _ _ _ h
  cases h
  simp only [List.mem_cons, List.mem_singleton, List.not_mem_nil, or_false] at hn
  rcases hn with rfl | rfl | rfl | rfl
  · rw [hs] at ha; cases ha; simp
  · rw [hs] at hb; cases hb; simp
  · rw [hs] at hc; cases hc; simp
  · rw [hs] at hd; cases hd; simp

theorem ok_of_toOption {α : Type} (x : Except String α) (a : α)
    (h : x.toOption = some a) : x = .ok a := by
  cases x with
  | ok b => cases h; rfl
  | error m => cases h

theorem orEmpty_ok (r : Except String Plot) (h : r.toOption.isSome = true) :
    r = .ok (Plot.orEmpty r) := by
  cases r with
  | ok q => rfl
  | error m => cases h

/-- C24: the callback of `expand` for a substation position `pos`.  When the
probe of the 2×2 footprint finds a roboport `r`, exactly two substations are
allocated and placed, at the hub's centre ± 3 tiles (6 half tiles) along the
edge and at the coordinate of `pos` across it, and each lists the other's
entity number; when the probe finds nothing, one substation is placed at `pos`
and it and every substation `getAdjacentSubstation` finds list each other,
and (on a plot whose ring `k` has `8k + 4` slots) every substation `s` that
stands 18 tiles (36 half tiles) from `pos` along x or y, on its four tiles,
is found and `s` and the new substation list each other. -/
theorem C24_substation_placement (p q : Plot) (pos : Position)
    (h : p.placeSubstation pos = .ok q) :
    (∀ r, p.probeColumns (pos.getBounds 2 2).columns none = .ok (some r) →
      q.ents.length = p.ents.length + 2 ∧
      q.entities = p.entities ++ [p.ents.length, p.ents.length + 1] ∧
      (q.ent p.ents.length).kind = .substation ∧ (q.ent (p.ents.length + 1)).kind = .substation ∧
      (q.ent p.ents.length).Position =
        (if absI pos.Y > absI pos.X then ⟨(p.ent r).Position.X + 6, pos.Y⟩
         else ⟨pos.X, (p.ent r).Position.Y + 6⟩) ∧
      (q.ent (p.ents.length + 1)).Position =
        (if absI pos.Y > absI pos.X then ⟨(p.ent r).Position.X - 6, pos.Y⟩
         else ⟨pos.X, (p.ent r).Position.Y - 6⟩) ∧
      (q.ent p.ents.length).EntityNumber ≠ 0 ∧ (q.ent (p.ents.length + 1)).EntityNumber ≠ 0 ∧
      (q.ent (p.ents.length + 1)).EntityNumber ∈ (q.ent p.ents.length).Neighbors ∧
      (q.ent p.ents.length).EntityNumber ∈ (q.ent (p.ents.length + 1)).Neighbors) ∧
    (p.probeColumns (pos.getBounds 2 2).columns none = .ok none →
      ∃ p1 ns, (p.newEnt .substation).2.place p.ents.length pos DirectionDefault = .ok p1 ∧
        p1.getAdjacentSubstation pos = .ok ns ∧
        q.ents.length = p.ents.length + 1 ∧ q.entities = p.entities ++ [p.ents.length] ∧
        (q.ent p.ents.length).kind = .substation ∧ (q.ent p.ents.length).Position = pos ∧
        (∀ n, n ∈ ns → n < q.ents.length →
          (q.ent n).EntityNumber ≠ 0 ∧ (q.ent p.ents.length).EntityNumber ≠ 0 ∧
          (q.ent n).EntityNumber ∈ (q.ent p.ents.length).Neighbors ∧
          (q.ent p.ents.length).EntityNumber ∈ (q.ent n).Neighbors) ∧
        (p.ringLens = (List.range p.rings.length).map (fun k => 8 * k + 4) →
          ∀ s npos,
            npos ∈ [pos.shiftX 36, pos.shiftX (-36), pos.shiftY 36, pos.shiftY (-36)] →
            s < p.ents.length → (p.ent s).kind = .substation → (p.ent s).Position = npos →
            (∀ t, t ∈ (npos.getBounds 2 2).positions → p.get t = .ok (some s)) →
            p1.getSubstation npos pos = .ok (some s) ∧ s ∈ ns ∧
            (q.ent s).EntityNumber ≠ 0 ∧ (q.ent p.ents.length).EntityNumber ≠ 0 ∧
            (q.ent s).EntityNumber ∈ (q.ent p.ents.length).Neighbors ∧
            (q.ent p.ents.length).EntityNumber ∈ (q.ent s).Neighbors)) := by
  unfold Plot.placeSubstation at h
  obtain ⟨rb, hrb, h⟩ := bind_ok _ _ _ h
  constructor
  · intro r hr
    rw [hr] at hrb
    cases hrb
    dsimp only at h
    have main : ∀ a1 a2 : Position, ∀ v : Bool,
        (do
          let (s1, p) ← p.placeIrregularSubstation a1 pos v true
          let (s2, p) ← p.placeIrregularSubstation a2 pos v false
          pure (p.addNeighbor s1 s2)) = Except.ok q →
        q.ents.length = p.ents.length + 2 ∧
        q.entities = p.entities ++ [p.ents.length, p.ents.length + 1] ∧
        (q.ent p.ents.length).kind = .substation ∧ (q.ent (p.ents.length + 1)).kind = .substation ∧
        (q.ent p.ents.length).Position = a1 ∧ (q.ent (p.ents.length + 1)).Position = a2 ∧
        (q.ent p.ents.length).EntityNumber ≠ 0 ∧ (q.ent (p.ents.length + 1)).EntityNumber ≠ 0 ∧
        (q.ent (p.ents.length + 1)).EntityNumber ∈ (q.ent p.ents.length).Neighbors ∧
        (q.ent p.ents.length).EntityNumber ∈ (q.ent (p.ents.length + 1)).Neighbors := by
      intro a1 a2 v h
      obtain ⟨⟨s1, p1⟩, h1, h⟩ := bind_ok _ _ _ h
      dsimp only at h
      obtain ⟨⟨s2, p2⟩, h2, h⟩ := bind_ok _ _ _ h
      cases h
      obtain ⟨e1, e2, e3, _, e5, e6, e7⟩ := placeIrregularSubstation_frame _ _ _ _ _ _ _ h1
      obtain ⟨g1, g2, g3, g4, g5, g6, g7⟩ := placeIrregularSubstation_frame _ _ _ _ _ _ _ h2
      subst e1
      rw [e2] at g1
      subst g1
      have hs1 : p.ents.length < p2.ents.length := by omega
      have hs2 : p.ents.length + 1 < p2.ents.length := by omega
      obtain ⟨a, b, c, d⟩ := addNeighbor_lists p2 p.ents.length (p.ents.length + 1) hs1 hs2
      have k := fun e => addNeighbor_keeps p2 p.ents.length (p.ents.length + 1) e
      have k1 := keeps_trans (g4 p.ents.length (by omega)) (k p.ents.length)
      refine ⟨by rw [addNeighbor_ents_length, g2, e2], ?_, ?_, ?_, ?_, ?_, b, a, c, d⟩
      · rw [addNeighbor_entities, g3, e3]; simp
      · rw [k1.1, e5]
      · rw [(k _).1, g5]
      · rw [k1.2.1, e6]
      · rw [(k _).2.1, g6]
    split at h
    · rename_i hc
      rw [if_pos hc, if_pos hc]
      exact main _ _ _ h
    · rename_i hc
      rw [if_neg hc, if_neg hc]
      exact main _ _ _ h
  · intro hr
    rw [hr] at hrb
    cases hrb
    dsimp only [Plot.newEnt] at h
    obtain ⟨p1, h1, h⟩ := bind_ok _ _ _ h
    obtain ⟨ns, h2, h⟩ := bind_ok _ _ _ h
    cases h
    obtain ⟨f1, f2, f3, f4, f5, _⟩ := place_new p p1 .substation pos DirectionDefault h1
    obtain ⟨i1, i2, i3⟩ := addNeighbors_frame ns p1 p.ents.length (by omega)
    refine ⟨p1, ns, h1, h2, by rw [i1, f1], by rw [addNeighbors_entities, f2], ?_, ?_, ?_, ?_⟩
    · rw [(i2 _).1, f4]
    · rw [(i2 _).2.1, f5]
    · intro n hn hnl
      exact i3 n hn (by rw [i1] at hnl; exact hnl)
    · intro hp s npos hn hs hks hps hgs
      obtain ⟨hcan, hfar⟩ := canConnectTo_shift pos npos hn
      have hnew : ({ p with ents := p.ents ++ [{ kind := .substation }] } : Plot).ent
          p.ents.length = { kind := .substation } := by
        have := newEnt_ent p .substation p.ents.length
        rw [if_neg (lt_irrefl _), if_pos rfl] at this
        exact this
      obtain ⟨_, _, g1⟩ := place_get { p with ents := p.ents ++ [{ kind := .substation }] } p1
        p.ents.length pos DirectionDefault hp (by simp) h1
      have k3 := f3 s hs
      have hget : ∀ t, t ∈ (npos.getBounds 2 2).positions → p1.get t = .ok (some s) := by
        intro t ht
        rw [g1 t, hnew, if_neg (far_tiles pos npos t DirectionDefault hfar ht)]
        exact hgs t ht
      have hfound : p1.getSubstation npos pos = .ok (some s) :=
        getSubstation_at p1 npos pos s (by rw [k3.1, hks]) (by rw [k3.2.1, hps]; exact hcan) hget
      have hmem := getAdjacentSubstation_mem p1 pos npos ns s h2 hn hfound
      exact ⟨hfound, hmem, i3 s hmem (by omega)⟩


/-- C24 on the plot of `plan` (a roboport at the origin): the callback for the
position (0, 2) places the substations 3 and 4 at (3, 2) and (-3, 2); and on
the plot of 49 rings with a substation at (0, 18): the callback for (18, 18)
places one substation, and it and the substation 18 tiles to its left list
each other. -/
theorem C24_substation_placement_witness :
    (Plot.orEmpty (hubPlot.placeSubstation ⟨0, 4⟩)).ents.length = hubPlot.ents.length + 2 ∧
    (Plot.orEmpty (hubPlot.placeSubstation ⟨0, 4⟩)).entities
      = hubPlot.entities ++ [hubPlot.ents.length, hubPlot.ents.length + 1] ∧
    ((Plot.orEmpty (hubPlot.placeSubstation ⟨0, 4⟩)).ent hubPlot.ents.length).Position = ⟨6, 4⟩ ∧
    ((Plot.orEmpty (hubPlot.placeSubstation ⟨0, 4⟩)).ent (hubPlot.ents.length + 1)).EntityNumber ∈
      ((Plot.orEmpty (hubPlot.placeSubstation ⟨0, 4⟩)).ent hubPlot.ents.length).Neighbors ∧
    (Plot.orEmpty (substationPlot.placeSubstation ⟨36, 36⟩)).ents.length =
      substationPlot.ents.length + 1 ∧
    ((Plot.orEmpty (substationPlot.placeSubstation ⟨36, 36⟩)).ent 0).EntityNumber ≠ 0 ∧
    ((Plot.orEmpty (substationPlot.placeSubstation ⟨36, 36⟩)).ent 0).EntityNumber ∈
      ((Plot.orEmpty (substationPlot.placeSubstation ⟨36, 36⟩)).ent
        substationPlot.ents.length).Neighbors ∧
    ((Plot.orEmpty (substationPlot.placeSubstation ⟨36, 36⟩)).ent
        substationPlot.ents.length).EntityNumber ∈
      ((Plot.orEmpty (substationPlot.placeSubstation ⟨36, 36⟩)).ent 0).Neighbors := by
  have h : hubPlot.placeSubstation ⟨0, 4⟩ = .ok (Plot.orEmpty (hubPlot.placeSubstation ⟨0, 4⟩)) := by
    rfl
  have hr : hubPlot.probeColumns ((⟨0, 4⟩ : Position).getBounds 2 2).columns none = .ok (some 0) := by
    rfl
  have c := (C24_substation_placement hubPlot _ ⟨0, 4⟩ h).1 0 hr
  have h2 : substationPlot.placeSubstation ⟨36, 36⟩ =
      .ok (Plot.orEmpty (substationPlot.placeSubstation ⟨36, 36⟩)) :=
    orEmpty_ok _ (by decide!)
  have hr2 : substationPlot.probeColumns ((⟨36, 36⟩ : Position).getBounds 2 2).columns none
      = .ok none :=
    ok_of_toOption _ _ (by decide!)
  obtain ⟨p1, ns, _, _, d1, _, _, _, _, d6⟩ :=
    (C24_substation_placement substationPlot _ ⟨36, 36⟩ h2).2 hr2
  have e := d6 (by decide!) 0 ⟨0, 36⟩ (by simp [Position.shiftX, Position.shiftY]) (by decide!)
    (by decide!) (by decide!) (by
      intro t ht
      rw [Bounds.positions, columns22] at ht
      simp only [List.flatten, List.append_nil, List.cons_append, List.nil_append, List.mem_cons,
        List.mem_singleton, List.not_mem_nil, or_false] at ht
      rcases ht with rfl | rfl | rfl | rfl <;> exact ok_of_toOption _ _ (by decide!))
  exact ⟨c.1, c.2.1, c.2.2.2.2.1, c.2.2.2.2.2.2.2.2.1, d1, e.2.2.1, e.2.2.2.2.1,
    e.2.2.2.2.2⟩

/-! ## Expansion of a plot of 49 rings -/

theorem placeNew_adds (p q : Plot) (k : EntityKind) (pos : Position) (d : Direction)
    (hp : p.ringLens = (List.range p.rings.length).map (fun k => 8 * k + 4))
    (ht : p.TilesOk) (h : (p.newEnt k).2.place p.ents.length pos d = .ok q) :
    p.Adds q k pos := by
  obtain ⟨f1, f2, f3, f4, f5, f6, f7, _⟩ := placeNew_inv p q k pos d hp ht h
  obtain ⟨_, e2, _⟩ := place_new p q k pos d h
  obtain ⟨_, _, g⟩ := place_get (p.newEnt k).2 q p.ents.length pos d hp
    (by simp [Plot.newEnt]) h
  refine ⟨f1, f2, f3, f4, f5, e2, f6, f7, ?_⟩
  intro t e hg
  rw [g] at hg
  split at hg
  · cases hg; exact Or.inl rfl
  · exact Or.inr hg

theorem placeRoboport_adds (p q : Plot) (pos : Position)
    (hp : p.ringLens = (List.range p.rings.length).map (fun k => 8 * k + 4)) (ht : p.TilesOk)
    (h : p.placeRoboport pos = .ok q) : p.Adds q .roboport pos := by
  obtain ⟨i1, i2, i3, i4, _⟩ := placeRoboport_inv p q pos hp ht h
  have hr0 : (p.newEnt .roboport).2.rings = p.rings := rfl
  have hr : ((p.newEnt .roboport).2.Number p.ents.length).2.rings = p.rings := by
    rw [Number_rings, hr0]
  have hl0 : (p.newEnt .roboport).2.ents.length = p.ents.length + 1 := by simp [Plot.newEnt]
  have hl : ((p.newEnt .roboport).2.Number p.ents.length).2.ents.length = p.ents.length + 1 := by
    rw [Number_ents_length, hl0]
  have hk : ∀ e, Ent.keeps ((p.newEnt .roboport).2.ent e)
      (((p.newEnt .roboport).2.Number p.ents.length).2.ent e) :=
    fun e => Number_keeps _ _ e
  have hold : ∀ e, e < p.ents.length → (p.newEnt .roboport).2.ent e = p.ent e := by
    intro e he; rw [newEnt_ent, if_pos he]
  have hnew : (p.newEnt .roboport).2.ent p.ents.length = { kind := .roboport } := by
    rw [newEnt_ent, if_neg (lt_irrefl _), if_pos rfl]
  have ht2 : ((p.newEnt .roboport).2.Number p.ents.length).2.TilesOk :=
    TilesOk_of_keeps p _ hr (by omega) (fun e he => by
      have := hk e
      rw [hold e he] at this
      exact this) ht
  have h2 : ((p.newEnt .roboport).2.Number p.ents.length).2.place p.ents.length pos
      DirectionDefault = .ok q := h
  have hp2 : ((p.newEnt .roboport).2.Number p.ents.length).2.ringLens =
      (List.range ((p.newEnt .roboport).2.Number p.ents.length).2.rings.length).map
        (fun k => 8 * k + 4) := by
    rw [ringLens_congr p _ hr, hr]; exact hp
  obtain ⟨a1, a2, a3, a4, a5, a6, a7, a8, a9⟩ := place_inv _ q p.ents.length pos DirectionDefault
    hp2 ht2 (by omega) (by
      intro t hg
      rw [get_congr_rings p _ hr] at hg
      exact absurd (ht t _ hg).1 (lt_irrefl _)) h2
  obtain ⟨_, _, g⟩ := place_get _ q p.ents.length pos DirectionDefault hp2 (by omega) h2
  have hkind : (q.ent p.ents.length).kind = .roboport := by
    rw [a6, (hk _).1, hnew]
  have hent : q.entities = p.entities ++ [p.ents.length] := by
    rw [a9, Number_entities]
    rfl
  refine ⟨i1, i2, i3, i4, by omega, hent, hkind, a7, ?_⟩
  intro t e hg
  rw [g] at hg
  split at hg
  · cases hg; exact Or.inl rfl
  · rw [get_congr_rings p _ hr] at hg
    exact Or.inr hg

theorem Adds_HubsNear {p q : Plot} {k : EntityKind} {pos : Position} (h : p.Adds q k pos)
    (ht : p.TilesOk) (hJ : p.HubsNear)
    (hpos : k = .roboport → absI pos.X ≤ 102 ∧ absI pos.Y ≤ 102) : q.HubsNear := by
  obtain ⟨_, _, _, hk, _, _, h7, h8, h9⟩ := h
  intro t e hg hr
  rcases h9 t e hg with rfl | hold
  · rw [h8]
    exact hpos (h7.symm.trans hr)
  · obtain ⟨k1, k2, _⟩ := hk.2.1 e (ht t e hold).1
    rw [k2]
    exact hJ t e hold (by rw [← k1]; exact hr)

theorem Adds_addNeighbors {p q : Plot} {k : EntityKind} {pos : Position} (h : p.Adds q k pos)
    (hp : p.ringLens = (List.range p.rings.length).map (fun k => 8 * k + 4))
    (s : Nat) (hs : s < q.ents.length) (ns : List Nat) : p.Adds (q.addNeighbors s ns) k pos := by
  obtain ⟨h1, h2, h3, h4, h5, h6, h7, h8, h9⟩ := h
  obtain ⟨a1, a2, a3, a4⟩ := addNeighbors_inv ns q s (by rw [h1, h2]; exact hp) h3
  obtain ⟨b1, b2, _⟩ := addNeighbors_frame ns q s hs
  refine ⟨a1.trans h1, a2.trans h2, a3, Keeps_trans h4 a4, by rw [b1, h5],
    by rw [addNeighbors_entities, h6], by rw [(b2 _).1, h7], by rw [(b2 _).2.1, h8], ?_⟩
  intro t e hg
  rw [get_congr_rings q _ (addNeighbors_rings q s ns)] at hg
  exact h9 t e hg

/-- The callback of `expand` for a substation position on the square of
radius 54, on a plot whose hubs stand within 51 tiles of the origin: the
probe finds nothing and one substation is placed at the position. -/
theorem placeSubstation_adds (p q : Plot) (pos : Position)
    (hp : p.ringLens = (List.range p.rings.length).map (fun k => 8 * k + 4)) (ht : p.TilesOk)
    (hJ : p.HubsNear) (hfar : absI pos.X = 108 ∨ absI pos.Y = 108)
    (h : p.placeSubstation pos = .ok q) : p.Adds q .substation pos := by
  unfold Plot.placeSubstation at h
  obtain ⟨rb, hrb, h⟩ := bind_ok _ _ _ h
  cases rb with
  | some r =>
    exfalso
    rcases probeColumns_some p _ none r hrb with h0 | ⟨t, h1, h2, h3⟩
    · cases h0
    · obtain ⟨rlt, rfp⟩ := ht t r h2
      rw [h3] at rfp
      obtain ⟨n1, n2⟩ := probe_near pos (p.ent r).Position t (p.ent r).Direction h1 rfp
      obtain ⟨j1, j2⟩ := hJ t r h2 h3
      unfold absI at n1 n2 j1 j2 hfar
      rcases hfar with hf | hf
      · split at hf <;> split at n1 <;> split at j1 <;> omega
      · split at hf <;> split at n2 <;> split at j2 <;> omega
  | none =>
    dsimp only [Plot.newEnt] at h
    obtain ⟨p1, h1, h⟩ := bind_ok _ _ _ h
    obtain ⟨ns, h2, h⟩ := bind_ok _ _ _ h
    cases h
    have ad := placeNew_adds p p1 .substation pos DirectionDefault hp ht h1
    exact Adds_addNeighbors ad hp p.ents.length (by rw [ad.2.2.2.2.1]; omega) ns

/-- A loop that adds one entity of kind `k` for every position of a list. -/
theorem adds_list (k : EntityKind) (step : Plot → Position → Except String Plot)
    (loop : Plot → List Position → Except String Plot) (P : Position → Prop)
    (hnil : ∀ p, loop p [] = .ok p)
    (hcons : ∀ p pos rest, loop p (pos :: rest) =
      match step p pos with
      | .ok p1 => loop p1 rest
      | .error msg => .error msg)
    (hstep : ∀ p q pos,
      p.ringLens = (List.range p.rings.length).map (fun k => 8 * k + 4) → p.TilesOk →
      p.HubsNear → P pos → step p pos = .ok q → p.Adds q k pos ∧ q.HubsNear)
    (l : List Position) (p q : Plot)
    (hp : p.ringLens = (List.range p.rings.length).map (fun k => 8 * k + 4)) (ht : p.TilesOk)
    (hJ : p.HubsNear) (hl : ∀ pos, pos ∈ l → P pos) (h : loop p l = .ok q) :
    q.ringLens = p.ringLens ∧ q.rings.length = p.rings.length ∧ q.TilesOk ∧ q.HubsNear ∧
    p.Keeps q ∧ q.ents.length = p.ents.length + l.length ∧
    q.entities = p.entities ++ List.range' p.ents.length l.length ∧
    ∀ i pos, l[i]? = some pos →
      (q.ent (p.ents.length + i)).kind = k ∧ (q.ent (p.ents.length + i)).Position = pos := by
  induction l generalizing p with
  | nil =>
    rw [hnil] at h
    cases h
    refine ⟨rfl, rfl, ht, hJ, Keeps_refl _, rfl, by simp, ?_⟩
    intro i pos hi
    simp at hi
  | cons x rest ih =>
    rw [hcons] at h
    split at h
    · rename_i p1 h1
      obtain ⟨ad, j1⟩ := hstep p p1 x hp ht hJ (hl x (List.mem_cons_self _ _)) h1
      obtain ⟨a1, a2, a3, a4, a5, a6, a7, a8, _⟩ := ad
      obtain ⟨b1, b2, b3, b4, b5, b6, b7, b8⟩ := ih p1 (by rw [a1, a2]; exact hp) a3 j1
        (fun pos hm => hl pos (List.mem_cons_of_mem _ hm)) h
      refine ⟨b1.trans a1, b2.trans a2, b3, b4, Keeps_trans a4 b5,
        by rw [b6, a5, List.length_cons]; omega, ?_, ?_⟩
      · rw [b7, a6, a5, List.length_cons, List.range'_succ, List.append_assoc]
        rfl
      · intro i pos hi
        cases i with
        | zero =>
          simp only [List.getElem?_cons_zero, Option.some.injEq] at hi
          subst hi
          obtain ⟨k1, k2, _⟩ := b5.2.1 p.ents.length (by omega)
          exact ⟨by rw [Nat.add_zero, k1, a7], by rw [Nat.add_zero, k2, a8]⟩
        | succ j =>
          simp only [List.getElem?_cons_succ] at hi
          have e : p.ents.length + (j + 1) = p1.ents.length + j := by omega
          rw [e]
          exact b8 j pos hi
    · cases h

theorem placeSubstations_cons (p : Plot) (pos : Position) (rest : List Position) :
    p.placeSubstations (pos :: rest) =
      match p.placeSubstation pos with
      | .ok p1 => p1.placeSubstations rest
      | .error msg => .error msg := rfl

/-- The tiles of the new rings hold nothing. -/
theorem extend_get (p p1 : Plot) (k : Nat)
    (hp : p.ringLens = (List.range p.rings.length).map (fun k => 8 * k + 4))
    (hr : p1.rings = p.rings ++ (List.range k).map
      (fun i => List.replicate ((p.rings.length + i) * 8 + 4) (none : Option Nat)))
    (t : Position) (e : Nat) (hg : p1.get t = .ok (some e)) :
    p.get t = .ok (some e) ∧ t.tile.toRingIdx.toNat < p.rings.length := by
  have hlen : p1.rings.length = p.rings.length + k := by
    rw [hr]; simp
  have hl : p1.ringLens = (List.range p1.rings.length).map (fun k => 8 * k + 4) := by
    rw [hlen, List.range_add, List.map_append]
    unfold Plot.ringLens at hp ⊢
    rw [hr, List.map_append, hp]
    congr 1
    simp only [List.map_map]
    apply List.map_congr_left
    intro i _
    simp only [Function.comp, List.length_replicate]
    omega
  rw [get_eq p1 hl] at hg
  by_cases hin : t.tile.toRingIdx.toNat < p.rings.length
  · rw [if_pos (by omega)] at hg
    have hsame : p1.rings.getD t.tile.toRingIdx.toNat [] = p.rings.getD t.tile.toRingIdx.toNat [] := by
      rw [hr, List.getD_eq_getElem?_getD, List.getElem?_append_left hin,
        ← List.getD_eq_getElem?_getD]
    rw [hsame] at hg
    refine ⟨?_, hin⟩
    rw [get_eq p hp, if_pos hin]; exact hg
  · exfalso
    by_cases hin2 : t.tile.toRingIdx.toNat < p1.rings.length
    · rw [if_pos hin2] at hg
      have hnew : p1.rings.getD t.tile.toRingIdx.toNat [] =
          List.replicate ((p.rings.length + (t.tile.toRingIdx.toNat - p.rings.length)) * 8 + 4)
            none := by
        rw [hr, List.getD_eq_getElem?_getD, List.getElem?_append_right (by omega),
          List.getElem?_map, List.getElem?_range (by omega)]
        rfl
      rw [hnew, getD_replicate_none] at hg
      cases hg
    · rw [if_neg hin2] at hg
      cases hg

/-- A roboport that holds a tile of one of the rings 0 to 48 stands at most
51 tiles from the origin on both axes. -/
theorem hub_near (rp t : Position) (d : Direction) (hr : t.tile.toRingIdx.toNat < 49)
    (hm : t.tile ∈ EntityKind.footprint .roboport rp d) :
    absI rp.X ≤ 102 ∧ absI rp.Y ≤ 102 := by
  obtain ⟨_, _, h3⟩ := tile_onRing t
  unfold EntityKind.footprint at hm
  rw [List.mem_map] at hm
  obtain ⟨u, hu, hut⟩ := hm
  have h2 := mem_positions _ _ hu
  have h4 := tile_bounds u
  rw [hut] at h4
  simp only [Position.getBounds, Ent.Bounds] at h2
  have hx : absI t.tile.X ≤ 97 := by
    have := le_max_left (absI t.tile.X) (absI t.tile.Y)
    omega
  have hy : absI t.tile.Y ≤ 97 := by
    have := le_max_right (absI t.tile.X) (absI t.tile.Y)
    omega
  unfold absI at hx hy ⊢
  constructor
  · split at hx <;> split <;> omega
  · split at hy <;> split <;> omega

theorem expandPlan_49 : expandPlan 49 = (58, 54, 50) := by decide

theorem edges50 : ∀ pos, pos ∈ iterateEdges 100 100 → absI pos.X ≤ 102 ∧ absI pos.Y ≤ 102 := by
  decide

theorem edges54 : ∀ pos, pos ∈ iterateEdges 108 36 → absI pos.X = 108 ∨ absI pos.Y = 108 := by
  decide

/-- C23 (amended): `expand` on a plot of exactly 49 rings (ring `k` of
`8k + 4` slots, every occupied tile under the bounds of its entity), when it
returns, leaves 58 rings and adds exactly 32 entities to the plot, in this
order: the eight roboports of the square of radius 50 at 50-tile spacing
(`iterateEdges(50, 50)`) and, in the same call, one substation at each of the
24 positions of the square of radius 54 at 18-tile spacing
(`iterateEdges(54, 18)`).  Every one of these probes finds no hub under its
footprint, so no pair of irregular substations is placed.  The entities the
plot had stay where they were. -/
theorem C23_expand_at_50 (p q : Plot)
    (hp : p.ringLens = (List.range p.rings.length).map (fun k => 8 * k + 4)) (ht : p.TilesOk)
    (hlen : p.rings.length = 49) (h : p.expand = .ok q) :
    q.rings.length = 58 ∧ q.ents.length = p.ents.length + 32 ∧
    q.entities = p.entities ++ List.range' p.ents.length 32 ∧
    (∀ i pos, (iterateEdges 100 100)[i]? = some pos →
      (q.ent (p.ents.length + i)).kind = .roboport ∧
      (q.ent (p.ents.length + i)).Position = pos) ∧
    (∀ j pos, (iterateEdges 108 36)[j]? = some pos →
      (q.ent (p.ents.length + 8 + j)).kind = .substation ∧
      (q.ent (p.ents.length + 8 + j)).Position = pos) ∧
    p.Keeps q := by
  unfold Plot.expand at h
  dsimp only at h
  rw [hlen, expandPlan_49] at h
  dsimp only at h
  obtain ⟨e1, e2, e3⟩ := extend_inv p
    { p with rings := (p.rings ++ (List.range (58 - 49)).map
        (fun i => List.replicate ((49 + i) * 8 + 4) (none : Option Nat))) }
    (58 - 49) hp ht (by rw [hlen]) rfl
  have ek : p.Keeps { p with rings := (p.rings ++ (List.range (58 - 49)).map
        (fun i => List.replicate ((49 + i) * 8 + 4) (none : Option Nat))) } :=
    ⟨le_refl _, fun _ _ => keeps_refl _, fun _ h => h⟩
  have eJ : ({ p with rings := (p.rings ++ (List.range (58 - 49)).map
        (fun i => List.replicate ((49 + i) * 8 + 4) (none : Option Nat))) } : Plot).HubsNear := by
    intro t e hg hk
    obtain ⟨g1, g2⟩ := extend_get p _ (58 - 49) hp (by rw [hlen]) t e hg
    obtain ⟨_, fp⟩ := ht t e g1
    have hk2 : (p.ent e).kind = .roboport := hk
    rw [hk2] at fp
    exact hub_near _ t _ (by omega) fp
  rw [if_pos (by decide)] at h
  obtain ⟨p1, h1, h⟩ := bind_ok _ _ _ h
  rw [if_pos (by decide)] at h
  have h1' : Plot.placeRoboports { p with rings := (p.rings ++ (List.range (58 - 49)).map
        (fun i => List.replicate ((49 + i) * 8 + 4) (none : Option Nat))) }
      (iterateEdges 100 100) = .ok p1 := h1
  have h' : p1.placeSubstations (iterateEdges 108 36) = .ok q := h
  obtain ⟨r1, r2, r3, r4, r5, r6, r7, r8⟩ := adds_list .roboport Plot.placeRoboport
    Plot.placeRoboports (fun pos => absI pos.X ≤ 102 ∧ absI pos.Y ≤ 102) (fun _ => rfl)
    placeRoboports_cons
    (fun a b pos x1 x2 x3 x4 x5 =>
      ⟨placeRoboport_adds a b pos x1 x2 x5,
        Adds_HubsNear (placeRoboport_adds a b pos x1 x2 x5) x2 x3 (fun _ => x4)⟩)
    _ _ p1 e1 e3 eJ edges50 h1'
  obtain ⟨s1, s2, s3, s4, s5, s6, s7, s8⟩ := adds_list .substation Plot.placeSubstation
    Plot.placeSubstations (fun pos => absI pos.X = 108 ∨ absI pos.Y = 108) (fun _ => rfl)
    placeSubstations_cons
    (fun a b pos x1 x2 x3 x4 x5 =>
      ⟨placeSubstation_adds a b pos x1 x2 x3 x4 x5,
        Adds_HubsNear (placeSubstation_adds a b pos x1 x2 x3 x4 x5) x2 x3
          (fun hk => by cases hk)⟩)
    _ p1 q (by rw [r1, r2]; exact e1) r3 r4 edges54 h'
  have l8 : (iterateEdges 100 100).length = 8 := by decide
  have l24 : (iterateEdges 108 36).length = 24 := by decide
  rw [l8] at r6 r7
  rw [l24] at s6 s7
  have n1 : p1.ents.length = p.ents.length + 8 := r6
  refine ⟨by rw [s2, r2, e2, hlen], by rw [s6, n1], ?_, ?_, ?_, Keeps_trans ek (Keeps_trans r5 s5)⟩
  · rw [s7, r7, n1, List.append_assoc]
    congr 1
  · intro i pos hi
    have hlt : i < 8 := by
      rw [← l8]
      exact (List.getElem?_eq_some_iff.1 hi).1
    obtain ⟨c1, c2⟩ := r8 i pos hi
    obtain ⟨k1, k2, _⟩ := s5.2.1 (p.ents.length + i) (by rw [n1]; omega)
    exact ⟨by rw [k1]; exact c1, by rw [k2]; exact c2⟩
  · intro j pos hj
    have := s8 j pos hj
    rw [n1] at this
    exact this

theorem TilesOk_empty : ({} : Plot).TilesOk := by
  intro t e hg
  rw [get_eq {} rfl] at hg
  split at hg
  · rename_i hlt
    exact absurd hlt (Nat.not_lt_zero _)
  · cases hg

theorem plot49_TilesOk : plot49.TilesOk :=
  (extend_inv {} plot49 49 rfl TilesOk_empty (by
    show plot49.rings = _
    unfold plot49
    simp) rfl).2.2

/-- C23 on the plot of 49 empty rings: `expand` returns, the plot has 58
rings and 32 entities, and the last 24 are the substations of the square of
radius 54. -/
theorem C23_expand_at_50_witness :
    plot49.expand = .ok (Plot.orEmpty plot49.expand) ∧
    (Plot.orEmpty plot49.expand).rings.length = 58 ∧
    (Plot.orEmpty plot49.expand).ents.length = plot49.ents.length + 32 ∧
    (∀ j pos, (iterateEdges 108 36)[j]? = some pos →
      ((Plot.orEmpty plot49.expand).ent (plot49.ents.length + 8 + j)).kind = .substation ∧
      ((Plot.orEmpty plot49.expand).ent (plot49.ents.length + 8 + j)).Position = pos) :=
  ⟨orEmpty_ok _ (by decide!),
    (C23_expand_at_50 plot49 _ (by decide!) plot49_TilesOk (by decide!)
      (orEmpty_ok _ (by decide!))).1,
    (C23_expand_at_50 plot49 _ (by decide!) plot49_TilesOk (by decide!)
      (orEmpty_ok _ (by decide!))).2.1,
    (C23_expand_at_50 plot49 _ (by decide!) plot49_TilesOk (by decide!)
      (orEmpty_ok _ (by decide!))).2.2.2.2.1⟩

/-! ## Binary operators -/

/-! ## The cells through the lowering -/

theorem connectInput_cells (b b1 : Builder) (n e : Nat) (h : b.connectInput n e = .ok b1) :
    b1.cells = b.cells := by
  simp only [Builder.connectInput, Builder.createConnector] at h
  split at h
  · cases h; rfl
  · cases h

theorem connectOutput_cells (b b1 : Builder) (n e : Nat) (h : b.connectOutput n e = .ok b1) :
    b1.cells = b.cells := by
  simp only [Builder.connectOutput, Builder.createConnector] at h
  split at h
  · cases h; rfl
  · cases h

theorem tickerNetwork_cells (b b1 : Builder) (idx n : Nat) (g : Bool)
    (h : b.tickerNetwork idx g = .ok (n, b1)) : b1.cells = b.cells := by
  unfold Builder.tickerNetwork at h
  dsimp only at h
  split at h
  · split at h
    · cases h; rfl
    · split at h
      · rename_i b2 h2
        cases h
        exact connectOutput_cells (b.createNet true).2 _ _ _ h2
      · cases h
  · split at h
    · cases h; rfl
    · split at h
      · rename_i b2 h2
        cases h
        exact connectOutput_cells (b.createNet false).2 _ _ _ h2
      · cases h

theorem initTicker_cells (b b1 : Builder) (n : Nat) (h : b.initTicker n = .ok b1) :
    b1.cells = b.cells := by
  unfold Builder.initTicker at h
  dsimp only [Builder.alloc] at h
  split at h
  · split at h
    · rename_i net b3 h3
      rw [connectInput_cells _ _ _ _ h, tickerNetwork_cells _ _ _ _ _ h3]
    · cases h
  · cases h; rfl

theorem initTickers_cells (l : List Nat) (b b1 : Builder) (h : b.initTickers l = .ok b1) :
    b1.cells = b.cells := by
  induction l generalizing b with
  | nil => cases h; rfl
  | cons n ns ih =>
    simp only [Builder.initTickers] at h
    split at h
    · rename_i b2 h2
      rw [ih b2 h, initTicker_cells _ _ _ h2]
    · cases h

theorem appendTickers_cells (growslice : Nat → Nat → Nat) (b : Builder) (k : Nat) :
    (b.appendTickers growslice k).cells = b.cells := by
  unfold Builder.appendTickers
  dsimp only
  split <;> rfl

theorem setMemOp_cells (b : Builder) (p : TickerPtr) : (b.setMemOp p).cells = b.cells := by
  unfold Builder.setMemOp
  split <;> rfl

theorem getTicker_cells (growslice : Nat → Nat → Nat) (b b1 : Builder) (tick : Nat) (ex : Bool)
    (r : Option TickerPtr) (h : b.getTicker growslice tick ex = .ok (r, b1)) :
    b1.cells = b.cells := by
  unfold Builder.getTicker at h
  split at h
  · split at h <;> (cases h; rfl)
  · dsimp only at h
    split at h
    · rename_i b2 h2
      cases h
      have := initTickers_cells _ _ _ h2
      rw [appendTickers_cells] at this
      split
      · rw [setMemOp_cells, this]
      · exact this
    · cases h

theorem getTickerNetwork_cells (growslice : Nat → Nat → Nat) (b b1 : Builder) (tick : Nat)
    (g ex : Bool) (r : Option Nat) (h : b.getTickerNetwork growslice tick g ex = .ok (r, b1)) :
    b1.cells = b.cells := by
  unfold Builder.getTickerNetwork at h
  split at h
  · rename_i b2 h2
    cases h
    exact getTicker_cells _ _ _ _ _ _ h2
  · rename_i p b2 h2
    split at h
    · rename_i n b3 h3
      cases h
      rw [tickerNetwork_cells _ _ _ _ _ h3, getTicker_cells _ _ _ _ _ _ h2]
    · cases h
  · cases h

theorem nextSafeMemOpTickLoop_cells (growslice : Nat → Nat → Nat) (isRead : Bool) (fuel : Nat) :
    ∀ (b b1 : Builder) (tick r : Nat),
      Builder.nextSafeMemOpTickLoop growslice fuel b tick isRead = .ok (r, b1) →
      b1.cells = b.cells := by
  induction fuel with
  | zero => intro b b1 tick r h; cases h
  | succ n ih =>
    intro b b1 tick r h
    simp only [Builder.nextSafeMemOpTickLoop] at h
    split at h
    · cases h
    · rename_i b2 h2
      rw [ih _ _ _ _ h, getTicker_cells _ _ _ _ _ _ h2]
    · rename_i t b2 h2
      have c2 := getTicker_cells _ _ _ _ _ _ h2
      split at h
      · cases h
      · rename_i b3 h3
        rw [ih _ _ _ _ h, getTicker_cells _ _ _ _ _ _ h3, c2]
      · rename_i t2 b3 h3
        have c3 := getTicker_cells _ _ _ _ _ _ h3
        split at h
        · split at h
          · cases h
          · rename_i b4 h4
            rw [ih _ _ _ _ h, getTicker_cells _ _ _ _ _ _ h4, c3, c2]
          · rename_i t3 b4 h4
            cases h
            rw [setMemOp_cells, setMemOp_cells, setMemOp_cells,
              getTicker_cells _ _ _ _ _ _ h4, c3, c2]
        · cases h
          rw [setMemOp_cells, setMemOp_cells, c3, c2]

theorem derefNet_ok (n : Option Nat) (m : Nat) (h : derefNet n = .ok m) : n = some m := by
  cases n with
  | none => cases h
  | some k => cases h; rfl

theorem preserveLoop_cells (growslice : Nat → Nat → Nat) (sig : Signal) (end_ : Nat)
    (l : List Nat) : ∀ (b b1 : Builder) (net : Nat) (ar r : Option Nat),
      Builder.preserveLoop growslice sig end_ l b net ar = .ok (r, b1) → b1.cells = b.cells := by
  induction l with
  | nil => intro b b1 net ar r h; cases h; rfl
  | cons tick ticks ih =>
    intro b b1 net ar r h
    unfold Builder.preserveLoop at h
    dsimp only at h
    obtain ⟨⟨tnet, b2⟩, h2, h⟩ := bind_ok _ _ _ h
    dsimp only at h
    obtain ⟨tn, _, h⟩ := bind_ok _ _ _ h
    obtain ⟨b3, h3, h⟩ := bind_ok _ _ _ h
    obtain ⟨b4, h4, h⟩ := bind_ok _ _ _ h
    have c2 : b2.cells = b.cells :=
      getTickerNetwork_cells growslice (b.alloc (preserveArithmetic sig)).2 b2 _ _ _ _ h2
    have c3 := connectInput_cells _ _ _ _ h3
    have c4 := connectInput_cells _ _ _ _ h4
    split at h
    · obtain ⟨b5, h5, h⟩ := bind_ok _ _ _ h
      have c5 : b5.cells = b4.cells := connectOutput_cells (b4.createNet false).2 _ _ _ h5
      rw [ih _ _ _ _ _ h, c5, c4, c3, c2]
    · rw [ih _ _ _ _ _ h, c4, c3, c2]

theorem preserveUntil_cells (growslice : Nat → Nat → Nat) (b b1 : Builder) (net into : Nat)
    (sig : Signal) (start end_ : Nat)
    (h : b.preserveUntil growslice net into sig start end_ = .ok b1) : b1.cells = b.cells := by
  unfold Builder.preserveUntil at h
  obtain ⟨⟨ar, b2⟩, h2, h⟩ := bind_ok _ _ _ h
  dsimp only at h
  split at h
  · rw [connectOutput_cells _ _ _ _ h, preserveLoop_cells _ _ _ _ _ _ _ _ _ h2]
  · cases h

theorem readCell_cells (growslice : Nat → Nat → Nat) (b b1 : Builder) (tick : Nat) (c : Cell)
    (tr : Signal) (onet r : Nat) (h : b.readCell growslice tick c tr onet = .ok (r, b1)) :
    b1.cells = b.cells := by
  unfold Builder.readCell at h
  obtain ⟨⟨t1, a1⟩, h1, h⟩ := bind_ok _ _ _ h
  dsimp only at h
  obtain ⟨⟨dnet, a2⟩, h2, h⟩ := bind_ok _ _ _ h
  dsimp only at h
  obtain ⟨⟨rnet, a3⟩, h3, h⟩ := bind_ok _ _ _ h
  dsimp only at h
  obtain ⟨dn, _, h⟩ := bind_ok _ _ _ h
  obtain ⟨a4, h4, h⟩ := bind_ok _ _ _ h
  obtain ⟨a5, h5, h⟩ := bind_ok _ _ _ h
  obtain ⟨a6, h6, h⟩ := bind_ok _ _ _ h
  obtain ⟨rn, _, h⟩ := bind_ok _ _ _ h
  obtain ⟨a7, h7, h⟩ := bind_ok _ _ _ h
  obtain ⟨a8, h8, h⟩ := bind_ok _ _ _ h
  cases h
  have c1 : a1.cells = b.cells := nextSafeMemOpTickLoop_cells _ _ _ _ _ _ _ h1
  have c2 : a2.cells = a1.cells := getTickerNetwork_cells _ _ _ _ _ _ _ h2
  have c3 : a3.cells = a2.cells := getTickerNetwork_cells _ _ _ _ _ _ _ h3
  have c4 : a4.cells = a3.cells := connectInput_cells (a3.alloc (readDispatch c)).2 _ _ _ h4
  have c5 : a5.cells = a4.cells := connectOutput_cells _ _ _ _ h5
  have c6 : a6.cells = a5.cells := connectInput_cells (a5.alloc (readArithmetic tr)).2 _ _ _ h6
  have c7 : a7.cells = a6.cells := connectInput_cells _ _ _ _ h7
  have c8 : b1.cells = a7.cells := connectOutput_cells _ _ _ _ h8
  rw [c8, c7, c6, c5, c4, c3, c2, c1]

theorem emitBinary_cells (b b1 : Builder) (op : ArithmeticOperation) (net sn : Nat)
    (sig : Signal) (tick r : Nat) (h : b.emitBinary op net sn sig tick = .ok (r, b1)) :
    b1.cells = b.cells ∧ r = tick + 1 := by
  unfold Builder.emitBinary at h
  dsimp only at h
  obtain ⟨b2, h2, h⟩ := bind_ok _ _ _ h
  obtain ⟨b3, h3, h⟩ := bind_ok _ _ _ h
  cases h
  have c2 : b2.cells = b.cells :=
    connectOutput_cells (b.alloc (binaryArithmetic op sig)).2 _ _ _ h2
  have c3 : b1.cells = b2.cells := connectInput_cells _ _ _ _ h3
  exact ⟨by rw [c3, c2], rfl⟩

theorem binaryTail_cells (op : Token) (b bf : Builder) (tk sn net t : Nat) (sig : Signal)
    (h : (match op with
        | .ADD => b.emitBinary .add net sn sig tk
        | .SUB => b.emitBinary .subtract net sn sig tk
        | .MUL => b.emitBinary .multiply net sn sig tk
        | _ => .error "unsupported value") = .ok (t, bf)) :
    bf.cells = b.cells ∧ t = tk + 1 ∧ (op = .ADD ∨ op = .SUB ∨ op = .MUL) := by
  split at h
  · exact ⟨(emitBinary_cells _ _ _ _ _ _ _ _ h).1, (emitBinary_cells _ _ _ _ _ _ _ _ h).2,
      Or.inl rfl⟩
  · exact ⟨(emitBinary_cells _ _ _ _ _ _ _ _ h).1, (emitBinary_cells _ _ _ _ _ _ _ _ h).2,
      Or.inr (Or.inl rfl)⟩
  · exact ⟨(emitBinary_cells _ _ _ _ _ _ _ _ h).1, (emitBinary_cells _ _ _ _ _ _ _ _ h).2,
      Or.inr (Or.inr rfl)⟩
  · cases h

/-- `extractValue` leaves the memory cells of the builder as they are. -/
theorem extractValue_cells (growslice : Nat → Nat → Nat) (e : Typed) :
    ∀ (b bf : Builder) (tick net t : Nat) (sig : Signal),
      Builder.extractValue growslice e b tick net sig = .ok (t, bf) → bf.cells = b.cells := by
  induction e with
  | unary op e ih =>
    intro b bf tick net t sig h
    unfold Builder.extractValue at h
    dsimp only at h
    split at h
    · exact ih (b.alloc (.arithmetic {})).2 _ _ _ _ _ h
    · unfold Builder.createSubnet at h
      obtain ⟨b3, h3, h⟩ := bind_ok _ _ _ h
      obtain ⟨b5, h5, h⟩ := bind_ok _ _ _ h
      obtain ⟨⟨t6, b6⟩, h6, h⟩ := bind_ok _ _ _ h
      have c3 : b3.cells = b.cells :=
        connectInput_cells ((b.alloc (.arithmetic {})).2.createNet _).2 _ _ _ h3
      have c5 : b5.cells = b3.cells := connectOutput_cells (b3.setArith _ _) _ _ _ h5
      have c6 : b6.cells = b5.cells := ih (b5.setArith _ _) _ _ _ _ _ h6
      cases h
      rw [c6, c5, c3]
    · unfold Builder.createSubnet at h
      obtain ⟨b3, h3, h⟩ := bind_ok _ _ _ h
      obtain ⟨⟨t6, b6⟩, h6, h⟩ := bind_ok _ _ _ h
      have c3 : b3.cells = b.cells :=
        connectInput_cells ((b.alloc (.arithmetic {})).2.createNet _).2 _ _ _ h3
      have c6 : b6.cells = b3.cells := ih (b3.setArith _ _) _ _ _ _ _ h6
      cases h
      rw [c6, c3]
    · cases h
  | binary op l r ihl ihr =>
    intro b bf tick net t sig h
    unfold Builder.extractValue at h
    dsimp only at h
    unfold Builder.createSubnet at h
    obtain ⟨⟨lt, b3⟩, h3, h⟩ := bind_ok _ _ _ h
    dsimp only at h
    obtain ⟨⟨rt, b4⟩, h4, h⟩ := bind_ok _ _ _ h
    dsimp only at h
    have c3 : b3.cells = b.cells := ihl ((b.createNet _).2.createNet _).2 _ _ _ _ _ h3
    have c4 : b4.cells = b3.cells := ihr _ _ _ _ _ _ h4
    split at h
    · obtain ⟨b6, h6, h⟩ := bind_ok _ _ _ h
      rw [(binaryTail_cells op b6 bf _ _ net t sig h).1,
        preserveUntil_cells _ _ _ _ _ _ _ _ h6, c4, c3]
    · split at h
      · obtain ⟨b6, h6, h⟩ := bind_ok _ _ _ h
        rw [(binaryTail_cells op b6 bf _ _ net t sig h).1,
          preserveUntil_cells _ _ _ _ _ _ _ _ h6, c4, c3]
      · rw [(binaryTail_cells op (b4.merge _ _) bf _ _ net t sig h).1]
        exact c4.trans c3
  | constant v =>
    intro b bf tick net t sig h
    unfold Builder.extractValue at h
    dsimp only at h
    split at h
    · split at h
      · rename_i b2 h2
        cases h
        have := connectOutput_cells _ _ _ _ h2
        exact this
      · cases h
    · cases h
  | _ =>
    intro b bf tick net t sig h
    unfold Builder.extractValue at h
    first
    | cases h
    | (split at h
       · exact readCell_cells _ _ _ _ _ _ _ _ h
       · cases h)

/-- The combinator of a binary operation, emitted on a well-formed graph: it
is the one new component, with the operand network on its input and the
destination network on its output. -/
theorem emitBinary_comp (b : Builder) (op : ArithmeticOperation) (net sn : Nat) (sig : Signal)
    (tick : Nat) (hW : b.WF) (hn : net < b.networks.length) (hs : sn < b.networks.length) :
    ∃ bf, b.emitBinary op net sn sig tick = .ok (tick + 1, bf) ∧ bf.WF ∧ b.Grows bf ∧
      bf.comps.length = b.comps.length + 1 ∧ bf.tickers = b.tickers ∧
      bf.HasComp b.comps.length (binaryArithmetic op sig)
        (fun g => if g = (b.net sn).isGreen then some sn else none)
        (fun g => if g = (b.net net).isGreen then some net else none) := by
  obtain ⟨w1, e1, hc1⟩ := HasComp_alloc b (binaryArithmetic op sig) hW
    (binaryArithmetic_slots op sig) rfl (fun em h => by cases h)
  obtain ⟨n1, n2, n3, n4, n5⟩ := alloc_new b (binaryArithmetic op sig)
    (binaryArithmetic_slots op sig)
  obtain ⟨b2, h2, w2, t2, hc2⟩ := HasComp_connectOutput hc1 w1 net hn (by rfl)
  obtain ⟨b3, h3, w3, t3, hc3⟩ := HasComp_connectInput hc2 w2 sn (by rw [t2.2.2.1]; exact hs)
    (by rfl)
  have col2 : (b2.net sn).isGreen = (b.net sn).isGreen := t2.2.2.2.2.1 sn
  have e1f : (fun g => if g = (b2.net sn).isGreen then some sn else (fun _ => none) g) =
      (fun g => if g = (b.net sn).isGreen then some sn else none) := by
    funext g; rw [col2]
  have e2f : (fun g => if g = ((b.alloc (binaryArithmetic op sig)).2.net net).isGreen
        then some net else (fun _ => none) g) =
      (fun g => if g = (b.net net).isGreen then some net else none) := rfl
  rw [e1f, e2f] at hc3
  refine ⟨b3, ?_, w3, Grows_trans (Ext_Grows e1) (Grows_trans (Touch_Grows t2) (Touch_Grows t3)),
    by rw [t3.1, t2.1, n3], by rw [t3.2.2.2.1, t2.2.2.2.1]; rfl, hc3⟩
  unfold Builder.emitBinary
  dsimp only
  have h2' : (b.alloc (binaryArithmetic op sig)).2.connectOutput net
      (b.alloc (binaryArithmetic op sig)).1 = .ok b2 := h2
  have h3' : b2.connectInput sn (b.alloc (binaryArithmetic op sig)).1 = .ok b3 := h3
  rw [h2', ok_bind, h3', ok_bind]
  rfl

/-- The subnets, the operands and the alignment of a binary operation: what
is left of `extractValue` is the switch on the operator, on a well-formed
graph `b5` that holds the operand network `sn`. -/
theorem binary_core (growslice : Nat → Nat → Nat) (op : Token) (l r : Typed)
    (b b3 b4 : Builder) (tick net lt rt : Nat) (sig : Signal)
    (hn : net < b.networks.length)
    (hl : Builder.extractValue growslice l ((b.createSubnet net).2.createSubnet net).2 tick
      b.networks.length SignalL = .ok (lt, b3))
    (hr : Builder.extractValue growslice r b3 tick (b.networks.length + 1) SignalR = .ok (rt, b4))
    (w4 : b4.WF) (g24 : ((b.createSubnet net).2.createSubnet net).2.Grows b4) :
    ∃ b5, b5.WF ∧ b.Grows b5 ∧ b5.cells = b4.cells ∧
      b5.comps.length + b4.tickers.length =
        b4.comps.length + b5.tickers.length + (max lt rt - min lt rt) ∧
      (if rt < lt then b.networks.length else b.networks.length + 1) < b5.networks.length ∧
      (b5.net (if rt < lt then b.networks.length else b.networks.length + 1)).isGreen =
        !(b.net net).isGreen ∧
      Builder.extractValue growslice (.binary op l r) b tick net sig =
        match op with
        | .ADD => b5.emitBinary .add net
            (if rt < lt then b.networks.length else b.networks.length + 1) sig (max lt rt)
        | .SUB => b5.emitBinary .subtract net
            (if rt < lt then b.networks.length else b.networks.length + 1) sig (max lt rt)
        | .MUL => b5.emitBinary .multiply net
            (if rt < lt then b.networks.length else b.networks.length + 1) sig (max lt rt)
        | _ => .error "unsupported value" := by
  have x1 := createNet_Ext b (!(b.net net).isGreen)
  obtain ⟨m1, m2, m3⟩ := createNet_new b (!(b.net net).isGreen)
  have x2 := createNet_Ext (b.createNet (!(b.net net).isGreen)).2
    (!((b.createNet (!(b.net net).isGreen)).2.net net).isGreen)
  obtain ⟨p1, p2, p3⟩ := createNet_new (b.createNet (!(b.net net).isGreen)).2
    (!((b.createNet (!(b.net net).isGreen)).2.net net).isGreen)
  have hcol : ((b.createNet (!(b.net net).isGreen)).2.net net).isGreen = (b.net net).isGreen :=
    x1.2.1 net hn
  have g24' : ((b.createNet (!(b.net net).isGreen)).2.createNet
    (!((b.createNet (!(b.net net).isGreen)).2.net net).isGreen)).2.Grows b4 := g24
  have g02 : b.Grows ((b.createNet (!(b.net net).isGreen)).2.createNet
    (!((b.createNet (!(b.net net).isGreen)).2.net net).isGreen)).2 :=
    Grows_trans (Ext_Grows x1) (Ext_Grows x2)
  have hlen4 : b.networks.length + 2 ≤ b4.networks.length := by
    have := g24'.1; rw [p2, m2] at this; exact this
  have cl : (b4.net b.networks.length).isGreen = !(b.net net).isGreen := by
    rw [g24'.2 _ (by rw [p2, m2]; omega), x2.2.1 _ (by rw [m2]; omega), m3]
  have cr : (b4.net (b.networks.length + 1)).isGreen = !(b.net net).isGreen := by
    rw [g24'.2 _ (by rw [p2, m2]; omega)]
    have := p3
    rw [m2] at this
    exact this.trans (by rw [hcol])
  have h3' : Builder.extractValue growslice l ((b.createNet (!(b.net net).isGreen)).2.createNet
    (!((b.createNet (!(b.net net).isGreen)).2.net net).isGreen)).2 tick
    (b.createNet (!(b.net net).isGreen)).1 SignalL = .ok (lt, b3) := hl
  have h4' : Builder.extractValue growslice r b3 tick
    ((b.createNet (!(b.net net).isGreen)).2.createNet
    (!((b.createNet (!(b.net net).isGreen)).2.net net).isGreen)).1 SignalR =
      .ok (rt, b4) := by
    rw [p1, m2]; exact hr
  unfold Builder.extractValue
  dsimp only
  unfold Builder.createSubnet
  rw [h3', ok_bind]
  dsimp only
  rw [h4', ok_bind]
  dsimp only
  rw [p1, m1, m2]
  by_cases c1 : lt < rt
  · rw [if_pos c1, if_neg (by omega : ¬ rt < lt)]
    obtain ⟨b5, ms, h5, w5, x5, _, _, _, _, cnt⟩ := preserveUntil_full growslice SignalL b4
      b.networks.length (b.networks.length + 1) lt rt w4 (by omega) (by omega) c1
    rw [h5, ok_bind]
    have g5 := Ext_Grows x5
    refine ⟨b5, w5, Grows_trans g02 (Grows_trans g24' g5), preserveUntil_cells _ _ _ _ _ _ _ _ h5,
      ?_, by have := g5.1; omega, by rw [g5.2 _ (by omega), cr], ?_⟩
    · rw [max_eq_right (by omega), min_eq_left (by omega)]; omega
    · rw [max_eq_right (by omega)]
      rfl
  · rw [if_neg c1]
    by_cases c2 : rt < lt
    · rw [if_pos c2]
      obtain ⟨b5, ms, h5, w5, x5, _, _, _, _, cnt⟩ := preserveUntil_full growslice SignalR b4
        (b.networks.length + 1) b.networks.length rt lt w4 (by omega) (by omega) c2
      rw [h5, ok_bind]
      have g5 := Ext_Grows x5
      refine ⟨b5, w5, Grows_trans g02 (Grows_trans g24' g5),
        preserveUntil_cells _ _ _ _ _ _ _ _ h5, ?_, by have := g5.1; omega,
        by rw [g5.2 _ (by omega), cl], ?_⟩
      · rw [max_eq_left (by omega), min_eq_right (by omega)]; omega
      · rw [max_eq_left (by omega), if_pos c2]
        rfl
    · rw [if_neg c2]
      obtain ⟨w5, g5⟩ := merge_WF b4 (b.networks.length + 1) b.networks.length w4 (by omega)
        (by rw [cl, cr])
      refine ⟨b4.merge (b.networks.length + 1) b.networks.length, w5,
        Grows_trans g02 (Grows_trans g24' g5), rfl, ?_, by have := g5.1; omega,
        by rw [g5.2 _ (by omega), cr], ?_⟩
      · have e : lt = rt := by omega
        subst e
        rw [max_self, min_self]
        show b4.comps.length + b4.tickers.length = b4.comps.length + b4.tickers.length + (lt - lt)
        omega
      · rw [max_eq_right (by omega), if_neg c2]
        rfl

/-- The steps of a unary `-` before its operand is lowered: they succeed on a
well-formed graph and leave a well-formed graph `b6` with the subnet in it. -/
theorem neg_steps (growslice : Nat → Nat → Nat) (e : Typed) (b : Builder) (tick net : Nat)
    (sig : Signal) (hW : b.WF) (hn : net < b.networks.length) :
    ∃ b6, b6.WF ∧ b.Grows b6 ∧ b6.cells = b.cells ∧ b.networks.length < b6.networks.length ∧
      Builder.extractValue growslice (.unary .SUB e) b tick net sig =
        match Builder.extractValue growslice e b6 tick b.networks.length SignalS with
        | .ok (t, bf) => .ok (t + 1, bf)
        | .error msg => .error msg := by
  have w1 := alloc_WF b (.arithmetic {}) hW arith_slots
  obtain ⟨n1, n2, n3, n4, n5⟩ := alloc_new b (.arithmetic {}) arith_slots
  have x1 := alloc_Ext b (.arithmetic {})
  have w2 := createNet_WF (b.alloc (.arithmetic {})).2
    (!((b.alloc (.arithmetic {})).2.net net).isGreen) w1
  have x2 := createNet_Ext (b.alloc (.arithmetic {})).2
    (!((b.alloc (.arithmetic {})).2.net net).isGreen)
  obtain ⟨m1, m2, m3⟩ := createNet_new (b.alloc (.arithmetic {})).2
    (!((b.alloc (.arithmetic {})).2.net net).isGreen)
  have hl1 : (b.alloc (.arithmetic {})).2.networks.length = b.networks.length := rfl
  have hc2 : ((b.alloc (.arithmetic {})).2.createNet
      (!((b.alloc (.arithmetic {})).2.net net).isGreen)).2.comp b.comps.length =
      .arithmetic {} := n2
  have hn2 : net < ((b.alloc (.arithmetic {})).2.createNet
      (!((b.alloc (.arithmetic {})).2.net net).isGreen)).2.networks.length := by
    rw [m2, hl1]; omega
  obtain ⟨b3, h3, g3, t3, k3, -, -, o3, -⟩ := connectInput_full _ b.networks.length b.comps.length
    (by rw [m2, hl1]; omega) w2.1 (by rw [hc2]; exact (arith_slots _).2)
  have w3 := Touch_WF t3 w2 g3 k3
  obtain ⟨w4, g4, nw4, s4⟩ := setArith_WF b3 b.comps.length (fun a => { a with
        inp := { a.inp with primaryInput := some SignalS, secondaryInput := some (.constant (-1)) }
        output := some sig }) w3 (fun a => ⟨rfl, rfl, rfl⟩)
  obtain ⟨b5, h5, g5, t5, k5, -⟩ := connectOutput_full _ net b.comps.length
    (by rw [nw4, t3.2.2.1]; exact hn2) w4.1 (by
      rw [s4, o3, hc2]; exact (arith_slots _).1)
  have w5 := Touch_WF t5 w4 g5 k5
  obtain ⟨w6, g6, nw6, s6⟩ := setArith_WF b5 b.comps.length
    (fun a => { a with Operator := .multiply }) w5 (fun a => ⟨rfl, rfl, rfl⟩)
  have c3 : b3.cells = b.cells :=
    connectInput_cells ((b.alloc (.arithmetic {})).2.createNet _).2 _ _ _ h3
  have c5 : b5.cells = b3.cells := connectOutput_cells (b3.setArith _ _) _ _ _ h5
  refine ⟨b5.setArith b.comps.length (fun a => { a with Operator := .multiply }), w6,
    Grows_trans (Ext_Grows x1) (Grows_trans (Ext_Grows x2)
      (Grows_trans (Touch_Grows t3) (Grows_trans g4 (Grows_trans (Touch_Grows t5) g6)))),
    c5.trans c3, by rw [nw6, t5.2.2.1, nw4, t3.2.2.1, m2, hl1]; omega, ?_⟩
  conv => lhs; unfold Builder.extractValue
  dsimp only
  unfold Builder.createSubnet
  have h3' : ((b.alloc (.arithmetic {})).2.createNet
      (!((b.alloc (.arithmetic {})).2.net net).isGreen)).2.connectInput
      ((b.alloc (.arithmetic {})).2.createNet
        (!((b.alloc (.arithmetic {})).2.net net).isGreen)).1
      (b.alloc (.arithmetic {})).1 = .ok b3 := h3
  rw [h3', ok_bind]
  have h5' : (b3.setArith (b.alloc (.arithmetic {})).1 (fun a => { a with
        inp := { a.inp with primaryInput := some SignalS, secondaryInput := some (.constant (-1)) }
        output := some sig })).connectOutput net (b.alloc (.arithmetic {})).1 = .ok b5 := h5
  rw [h5', ok_bind]
  show (Builder.extractValue growslice e (b5.setArith b.comps.length
      (fun a => { a with Operator := .multiply })) tick b.networks.length SignalS >>= _) = _
  cases Builder.extractValue growslice e (b5.setArith b.comps.length
      (fun a => { a with Operator := .multiply })) tick b.networks.length SignalS with
  | error m => rfl
  | ok a => rfl

/-- The steps of a unary `^` before its operand is lowered. -/
theorem tilde_steps (growslice : Nat → Nat → Nat) (e : Typed) (b : Builder) (tick net : Nat)
    (sig : Signal) (hW : b.WF) :
    ∃ b6, b6.WF ∧ b.Grows b6 ∧ b6.cells = b.cells ∧ b.networks.length < b6.networks.length ∧
      Builder.extractValue growslice (.unary .TILDE e) b tick net sig =
        match Builder.extractValue growslice e b6 tick b.networks.length SignalT with
        | .ok (t, bf) => .ok (t + 1, bf)
        | .error msg => .error msg := by
  have w1 := alloc_WF b (.arithmetic {}) hW arith_slots
  obtain ⟨n1, n2, n3, n4, n5⟩ := alloc_new b (.arithmetic {}) arith_slots
  have x1 := alloc_Ext b (.arithmetic {})
  have w2 := createNet_WF (b.alloc (.arithmetic {})).2
    (!((b.alloc (.arithmetic {})).2.net net).isGreen) w1
  have x2 := createNet_Ext (b.alloc (.arithmetic {})).2
    (!((b.alloc (.arithmetic {})).2.net net).isGreen)
  obtain ⟨m1, m2, m3⟩ := createNet_new (b.alloc (.arithmetic {})).2
    (!((b.alloc (.arithmetic {})).2.net net).isGreen)
  have hl1 : (b.alloc (.arithmetic {})).2.networks.length = b.networks.length := rfl
  have hc2 : ((b.alloc (.arithmetic {})).2.createNet
      (!((b.alloc (.arithmetic {})).2.net net).isGreen)).2.comp b.comps.length =
      .arithmetic {} := n2
  obtain ⟨b3, h3, g3, t3, k3, -, -, o3, -⟩ := connectInput_full _ b.networks.length b.comps.length
    (by rw [m2, hl1]; omega) w2.1 (by rw [hc2]; exact (arith_slots _).2)
  have w3 := Touch_WF t3 w2 g3 k3
  obtain ⟨w4, g4, nw4, s4⟩ := setArith_WF b3 b.comps.length (fun a => { a with
        inp := { a.inp with primaryInput := some SignalT, secondaryInput := some (.constant (-1)) }
        Operator := .xor }) w3 (fun a => ⟨rfl, rfl, rfl⟩)
  have c3 : b3.cells = b.cells :=
    connectInput_cells ((b.alloc (.arithmetic {})).2.createNet _).2 _ _ _ h3
  refine ⟨b3.setArith b.comps.length (fun a => { a with
        inp := { a.inp with primaryInput := some SignalT, secondaryInput := some (.constant (-1)) }
        Operator := .xor }), w4,
    Grows_trans (Ext_Grows x1) (Grows_trans (Ext_Grows x2) (Grows_trans (Touch_Grows t3) g4)),
    c3, by rw [nw4, t3.2.2.1, m2, hl1]; omega, ?_⟩
  conv => lhs; unfold Builder.extractValue
  dsimp only
  unfold Builder.createSubnet
  have h3' : ((b.alloc (.arithmetic {})).2.createNet
      (!((b.alloc (.arithmetic {})).2.net net).isGreen)).2.connectInput
      ((b.alloc (.arithmetic {})).2.createNet
        (!((b.alloc (.arithmetic {})).2.net net).isGreen)).1
      (b.alloc (.arithmetic {})).1 = .ok b3 := h3
  rw [h3', ok_bind]
  show (Builder.extractValue growslice e (b3.setArith b.comps.length (fun a => { a with
        inp := { a.inp with primaryInput := some SignalT, secondaryInput := some (.constant (-1)) }
        Operator := .xor })) tick b.networks.length SignalT >>= _) = _
  cases Builder.extractValue growslice e (b3.setArith b.comps.length (fun a => { a with
        inp := { a.inp with primaryInput := some SignalT, secondaryInput := some (.constant (-1)) }
        Operator := .xor })) tick b.networks.length SignalT with
  | error m => rfl
  | ok a => rfl

theorem CellsOk_of {b b1 : Builder} (h : b.CellsOk) (hc : b1.cells = b.cells)
    (hl : b.networks.length ≤ b1.networks.length) : b1.CellsOk := by
  intro p hp
  rw [hc] at hp
  exact lt_of_lt_of_le (h p hp) hl

/-- Whatever `extractValue` lowers on a well-formed graph whose cells are on
networks of the graph, it leaves a well-formed graph with the old networks. -/
theorem extractValue_sound (growslice : Nat → Nat → Nat) (e : Typed) :
    ∀ (b bf : Builder) (tick net t : Nat) (sig : Signal), b.WF → b.CellsOk →
      net < b.networks.length →
      Builder.extractValue growslice e b tick net sig = .ok (t, bf) → bf.WF ∧ b.Grows bf := by
  induction e with
  | constant v =>
    intro b bf tick net t sig hW hC hn h
    cases v with
    | uint64 n =>
      obtain ⟨b1, h1, w1, g1⟩ := extractValue_const_full growslice n b tick net sig hW hn
      rw [h1] at h
      cases h
      exact ⟨w1, g1⟩
    | other =>
      unfold Builder.extractValue at h
      cases h
  | unary op e ih =>
    intro b bf tick net t sig hW hC hn h
    by_cases h1 : op = .ADD
    · subst h1
      rw [extractValue_unary_add] at h
      obtain ⟨wf, gf⟩ := ih (b.alloc (.arithmetic {})).2 bf tick net t sig
        (alloc_WF b _ hW arith_slots) hC hn h
      exact ⟨wf, Grows_trans (Ext_Grows (alloc_Ext b _)) gf⟩
    · by_cases h2 : op = .SUB
      · subst h2
        obtain ⟨b6, w6, g6, c6, l6, e6⟩ := neg_steps growslice e b tick net sig hW hn
        rw [e6] at h
        split at h
        · rename_i t1 b7 h7
          cases h
          obtain ⟨wf, gf⟩ := ih b6 _ tick _ _ _ w6 (CellsOk_of hC c6 g6.1) l6 h7
          exact ⟨wf, Grows_trans g6 gf⟩
        · cases h
      · by_cases h3 : op = .TILDE
        · subst h3
          obtain ⟨b6, w6, g6, c6, l6, e6⟩ := tilde_steps growslice e b tick net sig hW
          rw [e6] at h
          split at h
          · rename_i t1 b7 h7
            cases h
            obtain ⟨wf, gf⟩ := ih b6 _ tick _ _ _ w6 (CellsOk_of hC c6 g6.1) l6 h7
            exact ⟨wf, Grows_trans g6 gf⟩
          · cases h
        · exfalso
          unfold Builder.extractValue at h
          dsimp only at h
          split at h
          · exact h1 rfl
          · exact h2 rfl
          · exact h3 rfl
          · cases h
  | binary op l r ihl ihr =>
    intro b bf tick net t sig hW hC hn h
    have h0 := h
    unfold Builder.extractValue at h
    dsimp only at h
    obtain ⟨⟨lt, b3⟩, h3, h⟩ := bind_ok _ _ _ h
    dsimp only at h
    obtain ⟨⟨rt, b4⟩, h4, _⟩ := bind_ok _ _ _ h
    have w2 : ((b.createSubnet net).2.createSubnet net).2.WF :=
      createNet_WF _ _ (createNet_WF _ _ hW)
    have l1 : (b.createSubnet net).2.networks.length = b.networks.length + 1 :=
      (createNet_new b _).2.1
    have l2 : ((b.createSubnet net).2.createSubnet net).2.networks.length =
        b.networks.length + 2 := by
      have := (createNet_new (b.createSubnet net).2 (!((b.createSubnet net).2.net net).isGreen)).2.1
      rw [l1] at this
      exact this
    have hl : Builder.extractValue growslice l ((b.createSubnet net).2.createSubnet net).2 tick
        b.networks.length SignalL = .ok (lt, b3) := h3
    have hr : Builder.extractValue growslice r b3 tick (b.networks.length + 1) SignalR =
        .ok (rt, b4) := by
      have q : ((b.createSubnet net).2.createSubnet net).1 = b.networks.length + 1 := l1
      rw [← q]; exact h4
    have hC2 : ((b.createSubnet net).2.createSubnet net).2.CellsOk :=
      CellsOk_of hC rfl (by rw [l2]; omega)
    obtain ⟨w3, g3⟩ := ihl _ _ _ _ _ _ w2 hC2 (by rw [l2]; omega) hl
    have c3 := extractValue_cells growslice l _ _ _ _ _ _ hl
    obtain ⟨w4, g4⟩ := ihr _ _ _ _ _ _ w3 (CellsOk_of hC2 c3 g3.1)
      (by have := g3.1; rw [l2] at this; omega) hr
    obtain ⟨b5, w5, g5, _, _, s5, _, e5⟩ := binary_core growslice op l r b b3 b4 tick net lt rt sig
      hn hl hr w4 (Grows_trans g3 g4)
    rw [e5] at h0
    have hn5 : net < b5.networks.length := lt_of_lt_of_le hn g5.1
    split at h0
    · obtain ⟨b6, h6, w6, g6⟩ := emitBinary_full b5 .add net _ sig (max lt rt) w5 hn5 s5
      rw [h6] at h0
      cases h0
      exact ⟨w6, Grows_trans g5 g6⟩
    · obtain ⟨b6, h6, w6, g6⟩ := emitBinary_full b5 .subtract net _ sig (max lt rt) w5 hn5 s5
      rw [h6] at h0
      cases h0
      exact ⟨w6, Grows_trans g5 g6⟩
    · obtain ⟨b6, h6, w6, g6⟩ := emitBinary_full b5 .multiply net _ sig (max lt rt) w5 hn5 s5
      rw [h6] at h0
      cases h0
      exact ⟨w6, Grows_trans g5 g6⟩
    · cases h0
  | _ =>
    intro b bf tick net t sig hW hC hn h
    unfold Builder.extractValue at h
    first
    | cases h
    | (split at h
       · rename_i cell hcell
         have hc : cell.net < b.networks.length := by
           rw [Option.map_eq_some'] at hcell
           obtain ⟨p, hp, rfl⟩ := hcell
           exact hC p (List.mem_of_find?_eq_some hp)
         obtain ⟨r, b1, b2, _, _, _, _, _, h2, w2, x2, _⟩ :=
           readCell_full growslice b tick cell sig net hW hc hn
         rw [h2] at h
         cases h
         exact ⟨w2, Ext_Grows x2⟩
       · cases h)

/-- C12 (amended): on a well-formed graph `b` whose memory cells are on
networks of the graph, for a binary expression `l op r` whose operands lower
(`l` onto the first subnet as `L`, returning `lt`, and `r` onto the second
subnet as `R`, returning `rt`, both from the tick `tick`): when `op` is `+`,
`-` or `*`, `extractValue` does not fail and returns `max(lt, rt) + 1`; the
graph it leaves is well formed and its last component is the combinator
`L op R → sig` of that operator, with the operand network (of the colour
opposite to the destination) on its input and the destination network on its
output; apart from the combinators of new tickers and the `|lt - rt|`
multipliers that delay the earlier operand, it is the one component added
after the operands.  When `op` is any other operator (`/`, `%`, the bitwise
and the comparison operators among them), `extractValue` panics with
"unsupported value". -/
theorem C12_binary_lowering (growslice : Nat → Nat → Nat) (op : Token) (l r : Typed)
    (b b3 b4 : Builder) (tick net lt rt : Nat) (sig : Signal)
    (hW : b.WF) (hC : b.CellsOk) (hn : net < b.networks.length)
    (hl : Builder.extractValue growslice l ((b.createSubnet net).2.createSubnet net).2 tick
      b.networks.length SignalL = .ok (lt, b3))
    (hr : Builder.extractValue growslice r b3 tick (b.networks.length + 1) SignalR =
      .ok (rt, b4)) :
    (∀ aop, (op, aop) ∈ [(Token.ADD, ArithmeticOperation.add), (Token.SUB, .subtract),
        (Token.MUL, .multiply)] →
      ∃ bf, Builder.extractValue growslice (.binary op l r) b tick net sig =
          .ok (max lt rt + 1, bf) ∧ bf.WF ∧
        bf.comps.length + b4.tickers.length =
          b4.comps.length + bf.tickers.length + (max lt rt - min lt rt) + 1 ∧
        bf.HasComp (bf.comps.length - 1) (binaryArithmetic aop sig)
          (fun g => if g = !(b.net net).isGreen then
            some (if rt < lt then b.networks.length else b.networks.length + 1) else none)
          (fun g => if g = (b.net net).isGreen then some net else none)) ∧
    (op ≠ .ADD → op ≠ .SUB → op ≠ .MUL →
      Builder.extractValue growslice (.binary op l r) b tick net sig =
        .error "unsupported value") := by
  have w2 : ((b.createSubnet net).2.createSubnet net).2.WF :=
    createNet_WF _ _ (createNet_WF _ _ hW)
  have l1 : (b.createSubnet net).2.networks.length = b.networks.length + 1 :=
    (createNet_new b _).2.1
  have l2 : ((b.createSubnet net).2.createSubnet net).2.networks.length =
      b.networks.length + 2 := by
    have := (createNet_new (b.createSubnet net).2 (!((b.createSubnet net).2.net net).isGreen)).2.1
    rw [l1] at this
    exact this
  have hC2 : ((b.createSubnet net).2.createSubnet net).2.CellsOk :=
    CellsOk_of hC rfl (by rw [l2]; omega)
  obtain ⟨w3, g3⟩ := extractValue_sound growslice l _ _ _ _ _ _ w2 hC2 (by rw [l2]; omega) hl
  have c3 := extractValue_cells growslice l _ _ _ _ _ _ hl
  obtain ⟨w4, g4⟩ := extractValue_sound growslice r _ _ _ _ _ _ w3 (CellsOk_of hC2 c3 g3.1)
    (by have := g3.1; rw [l2] at this; omega) hr
  obtain ⟨b5, w5, g5, _, cnt, s5, col5, e5⟩ := binary_core growslice op l r b b3 b4 tick net
    lt rt sig hn hl hr w4 (Grows_trans g3 g4)
  have hn5 : net < b5.networks.length := lt_of_lt_of_le hn g5.1
  have key : ∀ aop, ∃ bf, b5.emitBinary aop net
        (if rt < lt then b.networks.length else b.networks.length + 1) sig (max lt rt) =
          .ok (max lt rt + 1, bf) ∧ bf.WF ∧
        bf.comps.length + b4.tickers.length =
          b4.comps.length + bf.tickers.length + (max lt rt - min lt rt) + 1 ∧
        bf.HasComp (bf.comps.length - 1) (binaryArithmetic aop sig)
          (fun g => if g = !(b.net net).isGreen then
            some (if rt < lt then b.networks.length else b.networks.length + 1) else none)
          (fun g => if g = (b.net net).isGreen then some net else none) := by
    intro aop
    obtain ⟨bf, hf, wf, _, lf, tf, cf⟩ := emitBinary_comp b5 aop net _ sig (max lt rt) w5 hn5 s5
    rw [col5, g5.2 net hn] at cf
    refine ⟨bf, hf, wf, ?_, ?_⟩
    · rw [lf, tf]; omega
    · have : bf.comps.length - 1 = b5.comps.length := by rw [lf]; rfl
      rw [this]
      exact cf
  constructor
  · intro aop hop
    rw [e5]
    simp only [List.mem_cons, Prod.mk.injEq, List.mem_singleton, List.not_mem_nil, or_false]
      at hop
    rcases hop with ⟨rfl, rfl⟩ | ⟨rfl, rfl⟩ | ⟨rfl, rfl⟩
    · exact key .add
    · exact key .subtract
    · exact key .multiply
  · intro h1 h2 h3
    rw [e5]
    split
    · exact absurd rfl h1
    · exact absurd rfl h2
    · exact absurd rfl h3
    · rfl

theorem CellsOk_redNetwork : redNetwork.CellsOk := by
  intro p hp
  cases hp

/-- C12 on the graph of one red network: `1 + -2` from tick 0 with the sink
signal A returns tick 2, and the last component of the graph is the adder
`L + R → A`, reading the second subnet (network 2) and writing network 0. -/
theorem C12_binary_lowering_witness :
    ∃ bf, Builder.extractValue goGrowslice
        (.binary .ADD (.constant (.uint64 1)) (.unary .SUB (.constant (.uint64 2))))
        redNetwork 0 0 SignalA = .ok (2, bf) ∧ bf.WF ∧
      bf.HasComp (bf.comps.length - 1) (binaryArithmetic .add SignalA)
        (fun g => if g = !(redNetwork.net 0).isGreen then some 2 else none)
        (fun g => if g = (redNetwork.net 0).isGreen then some 0 else none) := by
  have hW : redNetwork.WF := createNet_WF _ _ WF_empty
  have w2 : ((redNetwork.createSubnet 0).2.createSubnet 0).2.WF :=
    createNet_WF _ _ (createNet_WF _ _ hW)
  obtain ⟨b3, hl, w3, g3⟩ := extractValue_arith_full goGrowslice (.constant (.uint64 1))
    trivial ((redNetwork.createSubnet 0).2.createSubnet 0).2 0 1 SignalL w2 (by decide)
  obtain ⟨b4, hr, _, _⟩ := extractValue_arith_full goGrowslice
    (.unary .SUB (.constant (.uint64 2))) trivial b3 0 2 SignalR w3
    (lt_of_lt_of_le (by decide) g3.1)
  obtain ⟨bf, hf, wf, _, cf⟩ := (C12_binary_lowering goGrowslice .ADD (.constant (.uint64 1))
    (.unary .SUB (.constant (.uint64 2))) redNetwork b3 b4 0 0 0 1 SignalA hW
    CellsOk_redNetwork (by decide) hl hr).1 .add (List.mem_cons_self _ _)
  exact ⟨bf, hf, wf, cf⟩

/-- C12, counterexample: `1 / 2` with the sink signal A on the graph of one
red network.  Both operands lower (the same expression with `+` returns
tick 1), the division panics with "unsupported value". -/
theorem C12_division_panics :
    redNetwork.extractValue goGrowslice
      (.binary .DIV (.constant (.uint64 1)) (.constant (.uint64 2))) 0 0 SignalA
      = .error "unsupported value" ∧
    (redNetwork.extractValue goGrowslice
      (.binary .ADD (.constant (.uint64 1)) (.constant (.uint64 2))) 0 0 SignalA).toOption.map
        (fun r => r.1) = some 1 :=
  ⟨rfl, by decide⟩

end Tbd
